import Mathlib

/-!
# Campaign manager: attribution and conversion analytics

A shallow embedding of the reporting aggregator (`routes/reports-sqlite.js`), the event
ingestion handler (`routes/events-sqlite.js`), the postback handler
(`routes/postbacks-sqlite.js`) and the `conversionRates` virtual of `models/Campaign.js`.
The SQLite routes are the ones `server-sqlite.js` mounts; the document-store routes
(`routes/reports.js`, `routes/events.js`, `routes/postbacks.js`) build their rates with
the same expression and are otherwise not embedded here.

Conventions of the embedding:

* counters are natural numbers (exact as doubles below `2^53`); a JavaScript number
  produced by `/` and `*` on counters is a non-negative double, held exactly as a
  fraction of naturals, or `Infinity`, or `NaN`;
* a JSON value that may be a number or a string (a rate, an amount) is a `JsVal`; numeric
  amounts are integers;
* the creation time of an event row is held as the calendar fields that
  `new Date(event.created_at)` returns;
* the database is a record of the `campaigns` and `events` tables, and each request
  handler is a function from the request and the database to the HTTP status and the
  new database;
* the client script of `utils/scriptGenerator.js` is embedded as the function
  `executeScript` over a record of the outcomes of the browser's operations, each of
  which may be a thrown error, and returns the list of its effects;
* the synthesis pass `obfuscateCode` works on texts as lists of characters; a
  replacement with a global regular expression is a scan from left to right with the
  match rule of the expression, and the state of the generator object (its table, the
  random strings it draws) is passed in and out of every call.
-/

namespace CampaignManager

/-! ## JavaScript values -/

/-- A JSON scalar as the handlers see it: a number (integral here) or a string. -/
inductive JsVal where
  | num (n : Int)
  | str (s : String)
  deriving DecidableEq, Repr

/-- A non-negative JavaScript number as produced by `/` and `*` on counters:
a finite double held exactly as `num / den`, or `Infinity`, or `NaN`. -/
inductive JsNum where
  | fin (num den : Nat)
  | inf
  | nan
  deriving DecidableEq, Repr

/-- Floor of the base-2 logarithm by repeated halving (`fuel` bounds the depth). -/
def log2Fuel : Nat → Nat → Nat
  | 0, _ => 0
  | fuel + 1, n => if n < 2 then 0 else log2Fuel fuel (n / 2) + 1

/-- Floor of the base-2 logarithm of a positive natural. -/
def floorLog2 (n : Nat) : Nat := log2Fuel n n

/-- Nearest integer to `n / d`, ties to the even neighbour. -/
def roundHalfEven (n d : Nat) : Nat :=
  let f := n / d
  let r := n % d
  if 2 * r < d then f
  else if d < 2 * r then f + 1
  else if f % 2 = 0 then f else f + 1

/-- IEEE 754 binary64 rounding (round to nearest, ties to even) of the positive
fraction `num / den`: the fraction is scaled by a power of two so that its quotient
lies in `[2^52, 2^53)`, rounded to an integer mantissa and scaled back.  Overflow and
subnormals are outside the range of counter arithmetic and are not modelled. -/
def roundDouble (num den : Nat) : JsNum :=
  if num = 0 then .fin 0 1
  else
    let down := floorLog2 num
    let up0 := 52 + floorLog2 den
    let up := if num * 2 ^ up0 < 2 ^ 52 * (den * 2 ^ down) then up0 + 1 else up0
    let mant := roundHalfEven (num * 2 ^ up) (den * 2 ^ down)
    .fin (mant * 2 ^ down) (2 ^ up)

/-- JavaScript `a / b` on two counters. -/
def jsDiv (a b : Nat) : JsNum :=
  if b = 0 then (if a = 0 then .nan else .inf) else roundDouble a b

/-- JavaScript `x * k` for a positive integer constant `k`. -/
def jsMul : JsNum → Nat → JsNum
  | .fin num den, k => roundDouble (num * k) den
  | .inf, _ => .inf
  | .nan, _ => .nan

/-- The digits of `Number.prototype.toFixed(2)` for the scaled integer `n`
(ECMAScript `Number.prototype.toFixed`, steps 10.b to 10.d with `f = 2`): the decimal
digits of `n`, left-padded with zeros to at least three digits, with a point before
the last two. -/
def fixed2 (n : Nat) : String :=
  let m := Nat.toDigits 10 n
  let m := List.replicate (3 - m.length) '0' ++ m
  String.mk (m.take (m.length - 2) ++ '.' :: m.drop (m.length - 2))

/-- The scaled integer chosen by `toFixed(2)`: the `n` for which `n / 100 - x` is
closest to zero, the larger `n` on a tie. -/
def fixed2Int (num den : Nat) : Nat := (200 * num + den) / (2 * den)

/-- `Number.prototype.toFixed(2)` on a non-negative number below `10^21`. -/
def toFixed2 : JsNum → String
  | .nan => "NaN"
  | .inf => "Infinity"
  | .fin num den => fixed2 (fixed2Int num den)

/-- The decimal numeral of `n / 100` with exactly two decimal places: the digits of the
integer part, a point, the tenths digit and the hundredths digit. -/
def decimal2 (n : Nat) : String :=
  String.mk (Nat.toDigits 10 (n / 100) ++ ['.', Nat.digitChar (n / 10 % 10), Nat.digitChar (n % 10)])

/-! ## Conversion rates -/

/-- The `conversionRates` object of a report row. -/
structure ConversionRates where
  cookieToFtd : JsVal
  regToFtd : JsVal
  deriving DecidableEq, Repr

/-- The expression `((ftds / denom) * 100).toFixed(2)`. -/
def ratePct (ftds denom : Nat) : String :=
  toFixed2 (jsMul (jsDiv ftds denom) 100)

/-- The rate object built in `routes/reports-sqlite.js` (lines 78-81, 94-97, 181-184,
197-200), `routes/reports.js` (lines 91-94, 107-110, 203-206, 220-223) and the
`conversionRates` virtual of `models/Campaign.js`:
`cookieSets > 0 ? ((ftds / cookieSets) * 100).toFixed(2) : 0` and the same with
`registrations`. -/
def conversionRates (cookieSets registrations ftds : Nat) : ConversionRates :=
  { cookieToFtd := if cookieSets > 0 then .str (ratePct ftds cookieSets) else .num 0
    regToFtd := if registrations > 0 then .str (ratePct ftds registrations) else .num 0 }

/-- The value `v` renders `ftds / denom × 100` with exactly two decimal places: it is the
string of a two-decimal numeral `n / 100` that lies within half a hundredth of the
exact ratio, up to the rounding of the two double operations (a relative `2^-51`), and
exactly within half a hundredth when `ftds` is below `10^11`. -/
def RendersRate (v : JsVal) (ftds denom : Nat) : Prop :=
  ∃ n : Nat, v = .str (decimal2 n) ∧
    |(n : ℚ) / 100 - (ftds : ℚ) / denom * 100| ≤ 1 / 200 + (ftds : ℚ) / denom * 100 / 2 ^ 51 ∧
    (ftds < 10 ^ 11 → |(n : ℚ) / 100 - (ftds : ℚ) / denom * 100| ≤ 1 / 200)

/-! ## Stored records -/

/-- The calendar fields of a JavaScript `Date` as its local-time getters return them:
`getFullYear()`, `getMonth()` (0 to 11), `getDate()` (1 to 31), `getHours()`,
`getMinutes()`, `getSeconds()`.  The creation time of an event row is held in this
form, that is, as `new Date(event.created_at)` reads it. -/
structure JsDate where
  fullYear : Nat
  month : Nat
  date : Nat
  hours : Nat
  minutes : Nat
  seconds : Nat
  deriving DecidableEq, Repr

/-- The getters of a `Date` stay in their calendar ranges. -/
def JsDate.Valid (d : JsDate) : Prop :=
  d.month ≤ 11 ∧ 1 ≤ d.date ∧ d.date ≤ 31

instance (d : JsDate) : Decidable d.Valid := by
  unfold JsDate.Valid
  infer_instance

/-- Seconds since local midnight. -/
def JsDate.timeOfDay (d : JsDate) : Nat := (d.hours * 60 + d.minutes) * 60 + d.seconds

/-- Chronological order of two creation times (`ORDER BY created_at ASC`). -/
def JsDate.le (a b : JsDate) : Prop :=
  a.fullYear < b.fullYear ∨ (a.fullYear = b.fullYear ∧
    (a.month < b.month ∨ (a.month = b.month ∧
      (a.date < b.date ∨ (a.date = b.date ∧ a.timeOfDay ≤ b.timeOfDay)))))

instance (a b : JsDate) : Decidable (a.le b) := by
  unfold JsDate.le
  infer_instance

/-- The time of a postback as the handler records it: `new Date(timestamp)` when the
body carries a timestamp, the receipt time otherwise. -/
inductive PostbackTime where
  | supplied (timestamp : String)
  | receipt (now : JsDate)
  deriving DecidableEq, Repr

/-- The `eventData` object of `routes/postbacks-sqlite.js`, stored as `postback_data`. -/
structure PostbackData where
  playerId : String
  amount : JsVal
  currency : String
  timestamp : PostbackTime
  deriving DecidableEq, Repr

/-- A row of the `events` table (without the columns `id` and `ip_address`, which no
handler reads back). -/
structure Event where
  campaignId : Nat
  eventType : String
  userAgent : Option String
  referrer : Option String
  cookieData : List (String × String)
  postbackData : Option PostbackData
  metadata : List (String × String)
  createdAt : JsDate
  deriving DecidableEq, Repr

/-- The `stats` object of a campaign. -/
structure Stats where
  cookieSets : Nat
  registrations : Nat
  ftds : Nat
  deriving DecidableEq, Repr

/-- A row of the `campaigns` table (the columns the handlers read or write). -/
structure Campaign where
  id : Nat
  name : String
  casino : String
  isActive : Bool
  stats : Stats
  deriving DecidableEq, Repr

/-- The `conversionRates` virtual of `models/Campaign.js` (lines 75-84). -/
def Campaign.conversionRates (c : Campaign) : ConversionRates :=
  let cookieSets := c.stats.cookieSets
  let ftds := c.stats.ftds
  let registrations := c.stats.registrations
  { cookieToFtd := if cookieSets > 0 then .str (ratePct ftds cookieSets) else .num 0
    regToFtd := if registrations > 0 then .str (ratePct ftds registrations) else .num 0 }

/-- The method `updateStats(type, increment)` of `models/Campaign.js` (lines 94-101) on
the document; the call to `save()` is left to the caller. -/
def Campaign.updateStats (c : Campaign) (type : String) (increment : Nat) :
    Except String Campaign :=
  if type = "cookieSets" then
    .ok { c with stats := { c.stats with cookieSets := c.stats.cookieSets + increment } }
  else if type = "registrations" then
    .ok { c with stats := { c.stats with registrations := c.stats.registrations + increment } }
  else if type = "ftds" then
    .ok { c with stats := { c.stats with ftds := c.stats.ftds + increment } }
  else .error "Invalid stat type"

/-- The database: the `campaigns` table and the append-only `events` table. -/
structure Db where
  campaigns : List Campaign
  events : List Event
  deriving DecidableEq, Repr

/-! ## Reporting aggregator (`routes/reports-sqlite.js`) -/

/-- JavaScript `String(n).padStart(2, '0')`. -/
def padStart2 (s : String) : String :=
  String.mk (List.replicate (2 - s.length) '0') ++ s

/-- The bucket key of a creation time: `YYYY-MM` when `period === 'monthly'`,
`YYYY-MM-DD` otherwise. -/
def dateKey (period : String) (date : JsDate) : String :=
  if period = "monthly" then
    toString date.fullYear ++ "-" ++ padStart2 (toString (date.month + 1))
  else
    toString date.fullYear ++ "-" ++ padStart2 (toString (date.month + 1)) ++ "-"
      ++ padStart2 (toString date.date)

/-- JavaScript `ToString` on a JSON scalar. -/
def JsVal.toStr : JsVal → String
  | .num n => toString n
  | .str s => s

/-- JavaScript `a + b`: numeric addition of two numbers, string concatenation as soon
as one operand is a string. -/
def jsAdd : JsVal → JsVal → JsVal
  | .num a, .num b => .num (a + b)
  | a, b => .str (a.toStr ++ b.toStr)

/-- JavaScript `v || 0` on an optional JSON scalar: `undefined`, `0` and the empty
string are falsy. -/
def orZero : Option JsVal → JsVal
  | none => .num 0
  | some (.num 0) => .num 0
  | some (.str "") => .num 0
  | some v => v

/-- An entry of the `reportData` object. -/
structure Bucket where
  date : String
  cookieSets : Nat
  registrations : Nat
  ftds : Nat
  totalAmount : JsVal
  deriving DecidableEq, Repr

/-- The counting step of the `forEach` body (lines 59-67) on the bucket of the event. -/
def countEvent (event : Event) (b : Bucket) : Bucket :=
  if event.eventType = "cookie_set" then
    { b with cookieSets := b.cookieSets + 1 }
  else if event.eventType = "registration" then
    { b with registrations := b.registrations + 1 }
  else if event.eventType = "ftd" then
    { b with
      ftds := b.ftds + 1
      totalAmount := jsAdd b.totalAmount (orZero (event.postbackData.map (·.amount))) }
  else b

/-- One iteration of `events.forEach` (lines 43-68).  The object `reportData` is held
as the list of its entries in insertion order, which is the order `Object.values`
returns them in (no key is an array index). -/
def addEvent (period : String) (reportData : List Bucket) (event : Event) : List Bucket :=
  let dateKey := dateKey period event.createdAt
  let reportData :=
    if reportData.any (fun b => b.date = dateKey) then reportData
    else reportData ++ [{ date := dateKey, cookieSets := 0, registrations := 0, ftds := 0,
                          totalAmount := .num 0 }]
  reportData.map (fun b => if b.date = dateKey then countEvent event b else b)

/-- The grouping loop: `reportData` after `events.forEach`. -/
def groupByDate (period : String) (events : List Event) : List Bucket :=
  events.foldl (addEvent period) []

/-- An element of `formattedData`: the bucket with its conversion rates. -/
structure ReportRow where
  date : String
  cookieSets : Nat
  registrations : Nat
  ftds : Nat
  totalAmount : JsVal
  conversionRates : ConversionRates
  deriving DecidableEq, Repr

/-- The mapping of lines 71-83. -/
def formatBucket (item : Bucket) : ReportRow :=
  { date := item.date, cookieSets := item.cookieSets, registrations := item.registrations,
    ftds := item.ftds, totalAmount := item.totalAmount,
    conversionRates := conversionRates item.cookieSets item.registrations item.ftds }

/-- The array `formattedData`. -/
def formattedData (period : String) (events : List Event) : List ReportRow :=
  (groupByDate period events).map formatBucket

/-- The `totals` object (also the shape of `grandTotals`). -/
structure Totals where
  cookieSets : Nat
  registrations : Nat
  ftds : Nat
  totalAmount : JsVal
  conversionRates : ConversionRates
  deriving DecidableEq, Repr

/-- The accumulator of the `reduce` of lines 86-92. -/
structure Acc where
  cookieSets : Nat
  registrations : Nat
  ftds : Nat
  totalAmount : JsVal
  deriving DecidableEq, Repr

/-- The `reduce` callback of lines 86-91. -/
def accRow (acc : Acc) (item : ReportRow) : Acc :=
  { cookieSets := acc.cookieSets + item.cookieSets
    registrations := acc.registrations + item.registrations
    ftds := acc.ftds + item.ftds
    totalAmount := jsAdd acc.totalAmount item.totalAmount }

/-- The `totals` of a campaign report (lines 85-97). -/
def totals (rows : List ReportRow) : Totals :=
  let acc := rows.foldl accRow
    { cookieSets := 0, registrations := 0, ftds := 0, totalAmount := .num 0 }
  { cookieSets := acc.cookieSets, registrations := acc.registrations, ftds := acc.ftds,
    totalAmount := acc.totalAmount,
    conversionRates := conversionRates acc.cookieSets acc.registrations acc.ftds }

/-- The `data` of a campaign report, given the rows of the window scan. -/
structure CampaignReport where
  reportData : List ReportRow
  totals : Totals
  deriving DecidableEq, Repr

/-- The body of `GET /campaigns/:campaignId` after the window scan (lines 41-97). -/
def reportForCampaign (period : String) (events : List Event) : CampaignReport :=
  let formattedData := formattedData period events
  { reportData := formattedData, totals := totals formattedData }

/-! ### Overview (`GET /overview`, lines 144-200) -/

/-- One iteration of the `events.forEach` of lines 159-169 on the `stats` object. -/
def overviewCount (stats : Acc) (event : Event) : Acc :=
  if event.eventType = "cookie_set" then
    { stats with cookieSets := stats.cookieSets + 1 }
  else if event.eventType = "registration" then
    { stats with registrations := stats.registrations + 1 }
  else if event.eventType = "ftd" then
    { stats with
      ftds := stats.ftds + 1
      totalAmount := jsAdd stats.totalAmount (orZero (event.postbackData.map (·.amount))) }
  else stats

/-- An element of `campaignReports`. -/
structure CampaignSummary where
  id : Nat
  name : String
  casino : String
  stats : Acc
  conversionRates : ConversionRates
  deriving DecidableEq, Repr

/-- The callback of `campaigns.map` (lines 145-186), given the rows of the window scan
of the campaign. -/
def campaignSummary (campaign : Campaign) (events : List Event) : CampaignSummary :=
  let stats := events.foldl overviewCount
    { cookieSets := 0, registrations := 0, ftds := 0, totalAmount := .num 0 }
  { id := campaign.id, name := campaign.name, casino := campaign.casino, stats := stats,
    conversionRates := conversionRates stats.cookieSets stats.registrations stats.ftds }

/-- The `reduce` callback of lines 189-194. -/
def accSummary (acc : Acc) (campaign : CampaignSummary) : Acc :=
  { cookieSets := acc.cookieSets + campaign.stats.cookieSets
    registrations := acc.registrations + campaign.stats.registrations
    ftds := acc.ftds + campaign.stats.ftds
    totalAmount := jsAdd acc.totalAmount campaign.stats.totalAmount }

/-- The `grandTotals` of the overview (lines 188-200). -/
def grandTotals (campaignReports : List CampaignSummary) : Totals :=
  let acc := campaignReports.foldl accSummary
    { cookieSets := 0, registrations := 0, ftds := 0, totalAmount := .num 0 }
  { cookieSets := acc.cookieSets, registrations := acc.registrations, ftds := acc.ftds,
    totalAmount := acc.totalAmount,
    conversionRates := conversionRates acc.cookieSets acc.registrations acc.ftds }

/-! ## Event ingestion (`routes/events-sqlite.js`) -/

/-- The HTTP status a handler answers with. -/
inductive Status where
  | ok
  | badRequest
  | notFound
  | serverError
  deriving DecidableEq, Repr

/-- The body of `POST /track`.  An absent field is `none`. -/
structure TrackRequest where
  campaignId : Option Nat
  eventType : Option String
  userAgent : Option String
  referrer : Option String
  cookieData : Option (List (String × String))
  metadata : List (String × String)
  deriving DecidableEq, Repr

/-- JavaScript `!campaignId`: true for an absent id and for `0`. -/
def falsyId : Option Nat → Bool
  | none => true
  | some n => n = 0

/-- JavaScript `!eventType`: true for an absent string and for the empty string. -/
def falsyStr : Option String → Bool
  | none => true
  | some s => s = ""

/-- Assignment of a key of an object literal after a spread: an existing key keeps
its position and takes the new value, a new key is appended. -/
def setKey (obj : List (String × String)) (k v : String) : List (String × String) :=
  if obj.any (fun p => p.1 = k) then obj.map (fun p => if p.1 = k then (k, v) else p)
  else obj ++ [(k, v)]

/-- The query `SELECT * FROM campaigns WHERE id = ? AND is_active = 1` with `.get`. -/
def findActiveCampaign (db : Db) (campaignId : Nat) : Option Campaign :=
  db.campaigns.find? (fun c => c.id = campaignId ∧ c.isActive = true)

/-- The statement `UPDATE campaigns SET stats = ? WHERE id = ?`. -/
def updateStats (db : Db) (stats : Stats) (campaignId : Nat) : Db :=
  { db with
    campaigns := db.campaigns.map (fun c => if c.id = campaignId then { c with stats := stats } else c) }

/-- The statement `INSERT INTO events ...`; `created_at` defaults to the current time. -/
def insertEvent (db : Db) (event : Event) : Db :=
  { db with events := db.events ++ [event] }

/-- The handler of `POST /track` (`routes/events-sqlite.js`, lines 5-66); `now` is the
time of the insert. -/
def trackEvent (now : JsDate) (req : TrackRequest) (db : Db) : Status × Db :=
  if falsyId req.campaignId || falsyStr req.eventType then (.badRequest, db)
  else
    let campaignId := req.campaignId.getD 0
    let eventType := req.eventType.getD ""
    match findActiveCampaign db campaignId with
    | none => (.notFound, db)
    | some campaign =>
      let eventMetadata := setKey (setKey req.metadata "campaignName" campaign.name)
        "casino" campaign.casino
      let db := insertEvent db
        { campaignId := campaignId, eventType := eventType, userAgent := req.userAgent,
          referrer := req.referrer, cookieData := req.cookieData.getD [],
          postbackData := none, metadata := eventMetadata, createdAt := now }
      if eventType = "cookie_set" then
        let stats := { campaign.stats with cookieSets := campaign.stats.cookieSets + 1 }
        (.ok, updateStats db stats campaignId)
      else (.ok, db)

/-! ## Conversion attribution (`routes/postbacks-sqlite.js`) -/

/-- The body and the two headers of `POST /:campaignId`.  An absent field is `none`. -/
structure PostbackBody where
  eventType : Option String
  playerId : Option String
  amount : Option JsVal
  currency : Option String
  timestamp : Option String
  userAgent : Option String
  referer : Option String
  deriving DecidableEq, Repr

/-- The check `isNumeric` of the validation library, on the string form of the value:
the regular expression `^[+-]?([0-9]*[.])?[0-9]+$`. -/
def isNumeric (s : String) : Bool :=
  let cs := match s.data with
    | '+' :: r => r
    | '-' :: r => r
    | cs => cs
  let intPart := cs.takeWhile Char.isDigit
  match cs.dropWhile Char.isDigit with
  | [] => !intPart.isEmpty
  | '.' :: frac => !frac.isEmpty && frac.all Char.isDigit
  | _ => false

/-- The validation chain of lines 6-12; `isISO8601` is the check of the validation
library on timestamps.  `optional()` skips a field only when it is absent. -/
def validPostback (isISO8601 : String → Bool) (body : PostbackBody) : Bool :=
  (body.eventType = some "registration" || body.eventType = some "ftd")
  && (match body.playerId with
      | some s => s != ""
      | none => false)
  && (match body.amount with
      | some v => isNumeric v.toStr
      | none => true)
  && (match body.currency with
      | some s => s.length = 3
      | none => true)
  && (match body.timestamp with
      | some s => isISO8601 s
      | none => true)

/-- The `eventData` object of lines 44-49. -/
def eventData (now : JsDate) (body : PostbackBody) : PostbackData :=
  { playerId := body.playerId.getD ""
    amount := orZero body.amount
    currency := if falsyStr body.currency then "USD" else body.currency.getD ""
    timestamp := if falsyStr body.timestamp then .receipt now
                 else .supplied (body.timestamp.getD "") }

/-- The handler of `POST /:campaignId` (`routes/postbacks-sqlite.js`, lines 12-91). -/
def attributeConversion (isISO8601 : String → Bool) (now : JsDate) (campaignId : Nat)
    (body : PostbackBody) (db : Db) : Status × Db :=
  if !validPostback isISO8601 body then (.badRequest, db)
  else
    let eventType := body.eventType.getD ""
    match findActiveCampaign db campaignId with
    | none => (.notFound, db)
    | some campaign =>
      let db := insertEvent db
        { campaignId := campaignId, eventType := eventType, userAgent := body.userAgent,
          referrer := body.referer, cookieData := [],
          postbackData := some (eventData now body),
          metadata := [("campaignName", campaign.name), ("casino", campaign.casino)],
          createdAt := now }
      let stats :=
        if eventType = "ftd" then { campaign.stats with ftds := campaign.stats.ftds + 1 }
        else { campaign.stats with registrations := campaign.stats.registrations + 1 }
      (.ok, updateStats db stats campaignId)

/-- A request to one of the two writing endpoints. -/
inductive Call where
  | track (now : JsDate) (req : TrackRequest)
  | postback (now : JsDate) (campaignId : Nat) (body : PostbackBody)
  deriving DecidableEq, Repr

/-- The database after one request has been handled. -/
def step (isISO8601 : String → Bool) (db : Db) : Call → Db
  | .track now req => (trackEvent now req db).2
  | .postback now campaignId body => (attributeConversion isISO8601 now campaignId body db).2

/-- The database after a sequence of requests handled one at a time. -/
def run (isISO8601 : String → Bool) (db : Db) (calls : List Call) : Db :=
  calls.foldl (step isISO8601) db

/-- The counters of the campaign with the given id, when there is one. -/
def statsOf (db : Db) (campaignId : Nat) : Option Stats :=
  (db.campaigns.find? (fun c => c.id = campaignId)).map (·.stats)

/-- The number of persisted events of a campaign with the given type. -/
def countEvents (db : Db) (campaignId : Nat) (eventType : String) : Nat :=
  db.events.countP (fun e => e.campaignId = campaignId ∧ e.eventType = eventType)

/-- The number of persisted postback events of a campaign with the given type: the
events recorded by `POST /:campaignId`, which are the ones that carry `postback_data`. -/
def countPostbacks (db : Db) (campaignId : Nat) (eventType : String) : Nat :=
  db.events.countP (fun e =>
    e.campaignId = campaignId ∧ e.eventType = eventType ∧ e.postbackData.isSome = true)

/-! ## Specification vocabulary for the reports -/

/-- Two creation times fall in the same bucket: the same calendar month for a monthly
report, the same calendar day otherwise. -/
def sameBucket (period : String) (a b : JsDate) : Prop :=
  a.fullYear = b.fullYear ∧ a.month = b.month ∧ (period = "monthly" ∨ a.date = b.date)

instance (period : String) (a b : JsDate) : Decidable (sameBucket period a b) := by
  unfold sameBucket
  infer_instance

/-- The bucket of `a` is strictly earlier than the bucket of `b`. -/
def bucketLt (period : String) (a b : JsDate) : Prop :=
  a.fullYear < b.fullYear ∨ (a.fullYear = b.fullYear ∧
    (a.month < b.month ∨ (a.month = b.month ∧ period ≠ "monthly" ∧ a.date < b.date)))

/-- The number a digit string denotes. -/
def digitsValue (cs : List Char) : Nat := cs.foldl (fun a c => 10 * a + (c.toNat - 48)) 0

/-- The events of a list whose bucket key is `k`. -/
def eventsOfKey (period : String) (k : String) (events : List Event) : List Event :=
  events.filter (fun e => dateKey period e.createdAt = k)

/-- The amounts of the `ftd` events of a list, added up from `0` with JavaScript `+` in
list order. -/
def accumulateAmounts (events : List Event) : JsVal :=
  (events.filter (fun e => e.eventType = "ftd")).foldl
    (fun acc e => jsAdd acc (orZero (e.postbackData.map (·.amount)))) (.num 0)

/-- The bucket with key `k` as the per-type counts of the events of that key. -/
def bucketFor (period : String) (k : String) (events : List Event) : Bucket :=
  { date := k
    cookieSets := (eventsOfKey period k events).countP (fun e => e.eventType = "cookie_set")
    registrations := (eventsOfKey period k events).countP (fun e => e.eventType = "registration")
    ftds := (eventsOfKey period k events).countP (fun e => e.eventType = "ftd")
    totalAmount := accumulateAmounts (eventsOfKey period k events) }

/-- The amount of an event as a number: the recorded amount when it is a number, `0`
when there is none. -/
def numericAmount (e : Event) : Int :=
  match orZero (e.postbackData.map (·.amount)) with
  | .num n => n
  | .str _ => 0

/-- The state of the grouping loop after the events `pre`: the keys are distinct, they are
the keys of the events seen, and each bucket holds the counts of the events of its key. -/
def GroupInv (period : String) (pre : List Event) (rd : List Bucket) : Prop :=
  (rd.map (·.date)).Nodup ∧
  (∀ k, k ∈ rd.map (·.date) ↔ ∃ e ∈ pre, dateKey period e.createdAt = k) ∧
  (∀ b ∈ rd, b = bucketFor period b.date pre)

/-- The order part of the state of the grouping loop: the keys are those of a sublist of
the events seen, one per key, whose buckets are strictly ascending. -/
def OrderInv (period : String) (pre : List Event) (rd : List Bucket) : Prop :=
  ∃ reps : List Event, reps.Sublist pre ∧
    reps.map (fun e => dateKey period e.createdAt) = rd.map (·.date) ∧
    reps.Pairwise (fun a b => bucketLt period a.createdAt b.createdAt)

/-! ## Sample data -/

/-- A creation time on 15 January 2024 (`getMonth()` is 0). -/
def jan15 : JsDate :=
  { fullYear := 2024, month := 0, date := 15, hours := 10, minutes := 30, seconds := 0 }

/-- An event row of campaign 1 with the given type and no payload. -/
def sampleEvent (eventType : String) (createdAt : JsDate) : Event :=
  { campaignId := 1, eventType := eventType, userAgent := none, referrer := none,
    cookieData := [], postbackData := none, metadata := [], createdAt := createdAt }

/-- Three `cookie_set` events and one `ftd` event, all on 2024-01-15. -/
def sampleEvents : List Event :=
  [sampleEvent "cookie_set" jan15, sampleEvent "cookie_set" jan15,
   sampleEvent "cookie_set" jan15, sampleEvent "ftd" jan15]

/-- A database with one active campaign, zero counters and no events. -/
def sampleDb : Db :=
  { campaigns := [{ id := 1, name := "spring", casino := "royal", isActive := true,
                    stats := { cookieSets := 0, registrations := 0, ftds := 0 } }],
    events := [] }

/-- A tracking request for campaign 1 with the given event type. -/
def sampleTrack (eventType : String) : TrackRequest :=
  { campaignId := some 1, eventType := some eventType, userAgent := none, referrer := none,
    cookieData := none, metadata := [] }

/-- A creation time on 3 February 2024 (`getMonth()` is 1). -/
def feb3 : JsDate :=
  { fullYear := 2024, month := 1, date := 3, hours := 9, minutes := 0, seconds := 0 }

/-- Two `ftd` postbacks for campaign 1 on 15 January 2024 whose amounts are the numeric
strings `"50"` and `"25"` (a form-encoded body, or JSON with quoted numbers). -/
def stringAmountCalls : List Call :=
  [.postback jan15 1
     { eventType := some "ftd", playerId := some "p1", amount := some (.str "50"),
       currency := none, timestamp := none, userAgent := none, referer := none },
   .postback jan15 1
     { eventType := some "ftd", playerId := some "p2", amount := some (.str "25"),
       currency := none, timestamp := none, userAgent := none, referer := none }]

/-- The same two postbacks, the second one on 3 February 2024. -/
def stringAmountCallsTwoDays : List Call :=
  [.postback jan15 1
     { eventType := some "ftd", playerId := some "p1", amount := some (.str "50"),
       currency := none, timestamp := none, userAgent := none, referer := none },
   .postback feb3 1
     { eventType := some "ftd", playerId := some "p2", amount := some (.str "25"),
       currency := none, timestamp := none, userAgent := none, referer := none }]

/-- A postback body with the given event type and amount. -/
def samplePostback (eventType : String) (amount : Option JsVal) : PostbackBody :=
  { eventType := some eventType, playerId := some "p1", amount := amount, currency := none,
    timestamp := none, userAgent := none, referer := none }

/-! ## Conversion attribution, document store (`routes/postbacks.js`) -/

/-- The query `Campaign.findById(campaignId)`: the campaign document with that id, active
or not. -/
def findById (db : Db) (campaignId : Nat) : Option Campaign :=
  db.campaigns.find? (fun c => c.id = campaignId)

/-- The call `this.save()` on a campaign document: the stored document with its id is
replaced by it. -/
def saveCampaign (db : Db) (campaign : Campaign) : Db :=
  { db with
    campaigns := db.campaigns.map (fun c => if c.id = campaign.id then campaign else c) }

/-- The handler of `POST /:campaignId` of `routes/postbacks.js` (lines 14-82).
`castNumber` is the cast of the schema type `Number` that `event.save()` applies to
`postbackData.amount` (`models/Event.js`); a failed cast rejects the save, which the
`catch` answers with 500. -/
def attributeConversionDocStore (isISO8601 : String → Bool)
    (castNumber : JsVal → Option JsVal) (now : JsDate) (campaignId : Nat)
    (body : PostbackBody) (db : Db) : Status × Db :=
  if !validPostback isISO8601 body then (.badRequest, db)
  else
    let eventType := body.eventType.getD ""
    match findById db campaignId with
    | none => (.notFound, db)
    | some campaign =>
      match castNumber (orZero body.amount) with
      | none => (.serverError, db)
      | some amount =>
        let db := insertEvent db
          { campaignId := campaignId, eventType := eventType, userAgent := body.userAgent,
            referrer := none, cookieData := [],
            postbackData := some { eventData now body with amount := amount },
            metadata := [("campaignName", campaign.name), ("casino", campaign.casino)],
            createdAt := now }
        match campaign.updateStats (if eventType = "ftd" then "ftds" else "registrations") 1 with
        | .ok campaign => (.ok, saveCampaign db campaign)
        | .error _ => (.serverError, db)

/-- A cast that keeps every number and rejects every string (the sample postbacks below
carry numbers only). -/
def keepNumbers : JsVal → Option JsVal
  | .num n => some (.num n)
  | .str _ => none

/-- A database whose only campaign, with id 2, is inactive (soft-deleted). -/
def inactiveDb : Db :=
  { campaigns := [{ id := 2, name := "autumn", casino := "royal", isActive := false,
                    stats := { cookieSets := 4, registrations := 1, ftds := 0 } }],
    events := [] }

/-! ## Real-time snapshot (`GET /realtime`, `routes/reports-sqlite.js` lines 221-259) -/

/-- The decimal digits of `n`, left-padded with zeros to `width` characters. -/
def zeroPad (width n : Nat) : String :=
  String.mk (List.replicate (width - (toString n).length) '0') ++ toString n

/-- The text of a `created_at` column filled by `DEFAULT CURRENT_TIMESTAMP`:
`YYYY-MM-DD HH:MM:SS`, in UTC. -/
def createdAtText (d : JsDate) : String :=
  zeroPad 4 d.fullYear ++ "-" ++ zeroPad 2 (d.month + 1) ++ "-" ++ zeroPad 2 d.date ++ " "
    ++ zeroPad 2 d.hours ++ ":" ++ zeroPad 2 d.minutes ++ ":" ++ zeroPad 2 d.seconds

/-- JavaScript `toISOString()` of the instant with the given UTC calendar fields and
milliseconds: `YYYY-MM-DDTHH:mm:ss.sssZ`. -/
def toISOString (d : JsDate) (ms : Nat) : String :=
  zeroPad 4 d.fullYear ++ "-" ++ zeroPad 2 (d.month + 1) ++ "-" ++ zeroPad 2 d.date ++ "T"
    ++ zeroPad 2 d.hours ++ ":" ++ zeroPad 2 d.minutes ++ ":" ++ zeroPad 2 d.seconds ++ "."
    ++ zeroPad 3 ms ++ "Z"

/-- Leap years of the Gregorian calendar. -/
def isLeapYear (y : Nat) : Bool := (y % 4 = 0 && y % 100 != 0) || y % 400 = 0

/-- The number of days of month `m` (0 to 11) of year `y`. -/
def daysInMonth (y m : Nat) : Nat :=
  if m = 1 then (if isLeapYear y then 29 else 28)
  else if m = 3 ∨ m = 5 ∨ m = 8 ∨ m = 10 then 30
  else 31

/-- The UTC calendar fields of `new Date(now.getTime() - 24 * 60 * 60 * 1000)`: the same
time on the previous day. -/
def minus24Hours (now : JsDate) : JsDate :=
  if 1 < now.date then { now with date := now.date - 1 }
  else if 0 < now.month then
    { now with month := now.month - 1, date := daysInMonth now.fullYear (now.month - 1) }
  else { now with fullYear := now.fullYear - 1, month := 11, date := 31 }

/-- The comparison `a >= b` of SQLite on two texts: the order of their bytes (for the
characters of a timestamp, the order of their character lists). -/
def textGe (a b : String) : Bool := decide (¬ a.data < b.data)

/-- The rows of `SELECT ... FROM events WHERE created_at >= ?`, the stored text being
compared with the bound text. -/
def eventsSince (cutoff : String) (events : List Event) : List Event :=
  events.filter (fun e => textGe (createdAtText e.createdAt) cutoff)

/-- The rows of `SELECT event_type, COUNT(*) as count ... GROUP BY event_type`: one row
per event type that occurs, with the number of its events.  SQL leaves the order of
the groups open; they are listed in order of last occurrence here. -/
def groupCounts (events : List Event) : List (String × Nat) :=
  (events.map (·.eventType)).dedup.map
    (fun t => (t, events.countP (fun e => e.eventType = t)))

/-- The assignment `stats[key] = count` on an object held as its entries in insertion
order. -/
def setCount (stats : List (String × Nat)) (key : String) (count : Nat) :
    List (String × Nat) :=
  if stats.any (fun p => p.1 = key) then stats.map (fun p => if p.1 = key then (key, count) else p)
  else stats ++ [(key, count)]

/-- The `stats` object of lines 234-242: the three counters at 0, then
`stats[event.event_type] = event.count` for every row of the grouped query. -/
def realtimeStats (rows : List (String × Nat)) : List (String × Nat) :=
  rows.foldl (fun stats event => setCount stats event.1 event.2)
    [("cookieSets", 0), ("registrations", 0), ("ftds", 0)]

/-- The `stats` of `GET /realtime` called at the instant with UTC fields `now` and
milliseconds `ms`. -/
def realtimeSnapshot (now : JsDate) (ms : Nat) (events : List Event) : List (String × Nat) :=
  let last24Hours := minus24Hours now
  let events := groupCounts (eventsSince (toISOString last24Hours ms) events)
  realtimeStats events

/-- The instant `a` plus `ams` milliseconds is strictly before the instant `b` plus
`bms` milliseconds. -/
def stampLt (a : JsDate) (ams : Nat) (b : JsDate) (bms : Nat) : Prop :=
  a.fullYear < b.fullYear ∨ (a.fullYear = b.fullYear ∧
    (a.month < b.month ∨ (a.month = b.month ∧
      (a.date < b.date ∨ (a.date = b.date ∧
        a.timeOfDay * 1000 + ams < b.timeOfDay * 1000 + bms)))))

instance (a : JsDate) (ams : Nat) (b : JsDate) (bms : Nat) : Decidable (stampLt a ams b bms) := by
  unfold stampLt
  infer_instance

/-- The creation time `t` lies within the 24 hours that end at the instant `now`, `ms`. -/
def withinLast24Hours (now : JsDate) (ms : Nat) (t : JsDate) : Prop :=
  ¬ stampLt t 0 (minus24Hours now) ms ∧ ¬ stampLt now ms t 0

instance (now : JsDate) (ms : Nat) (t : JsDate) : Decidable (withinLast24Hours now ms t) := by
  unfold withinLast24Hours
  infer_instance

/-- The call instant of the sample snapshot: 16 January 2024, 09:00:00 UTC. -/
def jan16 : JsDate :=
  { fullYear := 2024, month := 0, date := 16, hours := 9, minutes := 0, seconds := 0 }

/-- One hour before the sample call instant. -/
def jan16Early : JsDate :=
  { fullYear := 2024, month := 0, date := 16, hours := 8, minutes := 0, seconds := 0 }

/-! ## Overview report (`GET /overview`, `routes/reports-sqlite.js` lines 123-220) -/

/-- The rows of `SELECT * FROM campaigns WHERE is_active = 1 ORDER BY created_at DESC`:
the active campaigns, the latest created first.  `Db.campaigns` holds the rows in order
of creation. -/
def activeCampaigns (db : Db) : List Campaign :=
  (db.campaigns.filter (fun c => c.isActive)).reverse

/-- The rows of `SELECT event_type, postback_data FROM events WHERE campaign_id = ? AND
created_at BETWEEN ? AND ?`, the window being given by its membership test. -/
def windowScan (inWindow : JsDate → Bool) (db : Db) (campaignId : Nat) : List Event :=
  db.events.filter (fun e => e.campaignId = campaignId && inWindow e.createdAt)

/-- The `data` of the overview answer (without `period` and `dateRange`, which echo the
request). -/
structure Overview where
  campaigns : List CampaignSummary
  grandTotals : Totals
  deriving DecidableEq, Repr

/-- The body of `GET /overview` (lines 139-200). -/
def overviewReport (inWindow : JsDate → Bool) (db : Db) : Overview :=
  let campaigns := activeCampaigns db
  let campaignReports := campaigns.map
    (fun campaign => campaignSummary campaign (windowScan inWindow db campaign.id))
  { campaigns := campaignReports, grandTotals := grandTotals campaignReports }

/-- A database with two active campaigns and an inactive one, holding `ftd` events with
numeric amounts for all three. -/
def threeCampaignDb : Db :=
  { campaigns :=
      [{ id := 1, name := "spring", casino := "royal", isActive := true,
         stats := { cookieSets := 0, registrations := 0, ftds := 0 } },
       { id := 2, name := "autumn", casino := "royal", isActive := false,
         stats := { cookieSets := 0, registrations := 0, ftds := 0 } },
       { id := 3, name := "winter", casino := "grand", isActive := true,
         stats := { cookieSets := 0, registrations := 0, ftds := 0 } }],
    events :=
      [{ sampleEvent "cookie_set" jan15 with campaignId := 1 },
       { sampleEvent "ftd" jan15 with
           campaignId := 1
           postbackData := some { playerId := "p1", amount := .num 50, currency := "USD",
                                  timestamp := .receipt jan15 } },
       { sampleEvent "ftd" jan15 with
           campaignId := 2
           postbackData := some { playerId := "p2", amount := .num 10, currency := "USD",
                                  timestamp := .receipt jan15 } },
       { sampleEvent "registration" feb3 with campaignId := 3 },
       { sampleEvent "ftd" feb3 with
           campaignId := 3
           postbackData := some { playerId := "p3", amount := .num 25, currency := "USD",
                                  timestamp := .receipt feb3 } }] }

/-! ## Report window (`routes/reports-sqlite.js` lines 5-120 and 124-220) -/

/-- A bound of the window scan as the handler binds it: the ISO text of a parsed query
value, or a `Date` object (its local calendar fields and milliseconds). -/
inductive Bound where
  | isoText (text : String)
  | dateObject (date : JsDate) (ms : Nat)
  deriving DecidableEq, Repr

/-- Equality of handler results is decidable. -/
instance exceptDecEq {ε α : Type} [DecidableEq ε] [DecidableEq α] : DecidableEq (Except ε α)
  | .ok a, .ok b => if h : a = b then isTrue (by rw [h]) else isFalse (fun h2 => h (Except.ok.inj h2))
  | .error a, .error b =>
    if h : a = b then isTrue (by rw [h]) else isFalse (fun h2 => h (Except.error.inj h2))
  | .ok _, .error _ => isFalse (fun h => Except.noConfusion h)
  | .error _, .ok _ => isFalse (fun h => Except.noConfusion h)

/-- The loop of `setDate` for a day that is not after the last day of the month: a day
below 1 is counted back from the end of the previous month. -/
def setDateAux : Nat → JsDate → Int → JsDate
  | 0, d, day => { d with date := day.toNat }
  | fuel + 1, d, day =>
    if 1 ≤ day then { d with date := day.toNat }
    else
      let y := if 0 < d.month then d.fullYear else d.fullYear - 1
      let m := if 0 < d.month then d.month - 1 else 11
      setDateAux fuel { d with fullYear := y, month := m } (day + daysInMonth y m)

/-- JavaScript `d.setDate(day)` for a day that is not after the last day of the month of
`d`: day 0 is the last day of the previous month, day -1 the day before, and so on. -/
def setDate (d : JsDate) (day : Int) : JsDate := setDateAux (1 - day).toNat d day

/-- The block `// Set date range`: both bounds from the query when `startDate && endDate`
holds, else the `Date` objects of the call instant and of the same time 30 calendar days
before.  `parseDate` is `new Date(string)` (`none` for an invalid date, on which
`toISOString()` throws); `now` holds the local calendar fields of `new Date()`. -/
def dateRange (parseDate : String → Option (JsDate × Nat)) (now : JsDate) (nowMs : Nat)
    (startDate endDate : Option String) : Except String (Bound × Bound) :=
  if !falsyStr startDate && !falsyStr endDate then
    match startDate.bind parseDate, endDate.bind parseDate with
    | some start, some end_ =>
      .ok (.isoText (toISOString start.1 start.2), .isoText (toISOString end_.1 end_.2))
    | _, _ => .error "RangeError: Invalid time value"
  else
    let end_ := now
    let start := setDate now (now.date - 30)
    .ok (.dateObject start nowMs, .dateObject end_ nowMs)

/-- The number of days of the years before year `y` (proleptic Gregorian calendar). -/
def daysBeforeYear (y : Nat) : Nat := 365 * y + (y + 3) / 4 - (y + 99) / 100 + (y + 399) / 400

/-- The number of days of the months before month `m` in year `y`. -/
def daysBeforeMonth (y m : Nat) : Nat := ((List.range m).map (daysInMonth y)).sum

/-- The number of a calendar day, counted in days from the start of year 0. -/
def dayNumber (d : JsDate) : Int :=
  (daysBeforeYear d.fullYear : Int) + daysBeforeMonth d.fullYear d.month + d.date

/-- A calendar date that exists: the month is 0 to 11 and the day is one of that month. -/
def JsDate.OnCalendar (d : JsDate) : Prop :=
  d.month ≤ 11 ∧ 1 ≤ d.date ∧ d.date ≤ daysInMonth d.fullYear d.month

instance (d : JsDate) : Decidable d.OnCalendar := by
  unfold JsDate.OnCalendar
  infer_instance

/-- A parser that reads the two dates `2024-01-01` and `2024-01-31` (as UTC midnight) and
takes every other text for an invalid date. -/
def parseJanuary (s : String) : Option (JsDate × Nat) :=
  if s = "2024-01-01" then
    some ({ fullYear := 2024, month := 0, date := 1, hours := 0, minutes := 0, seconds := 0 }, 0)
  else if s = "2024-01-31" then
    some ({ fullYear := 2024, month := 0, date := 31, hours := 0, minutes := 0, seconds := 0 }, 0)
  else none

/-- A call instant on 1 March 2023, 30 days after 30 January 2023. -/
def mar1 : JsDate :=
  { fullYear := 2023, month := 2, date := 1, hours := 12, minutes := 0, seconds := 0 }

/-! ### The window scan (`routes/reports-sqlite.js` lines 33-39 and 146-150) -/

/-- What the storage library `better-sqlite3` (`server-sqlite.js` line 6) does with a
parameter handed to `.all(...)`: a string is bound as text; a `Date` object is none of the
values the library binds (numbers, strings, bigints, buffers and null), and the call
throws a `TypeError`. -/
def bindParameter : Bound → Except String String
  | .isoText text => .ok text
  | .dateObject _ _ =>
    .error "TypeError: SQLite3 can only bind numbers, strings, bigints, buffers, and null"

/-- The test `created_at BETWEEN ? AND ?` of SQLite on texts: `value >= low AND
value <= high` in the order of their bytes. -/
def textBetween (value low high : String) : Bool := textGe value low && textGe high value

/-- The statement of lines 34-39 with `.all(campaignId, start, end)`: the events of the
campaign whose stored `created_at` text lies between the two bound texts, in ascending
order of that text. -/
def campaignWindowScan (db : Db) (campaignId : Nat) (start end_ : Bound) :
    Except String (List Event) := do
  let start ← bindParameter start
  let end_ ← bindParameter end_
  pure ((db.events.filter (fun e => e.campaignId = campaignId &&
      textBetween (createdAtText e.createdAt) start end_)).insertionSort
    (fun a b => textGe (createdAtText b.createdAt) (createdAtText a.createdAt) = true))

/-- The statement of lines 146-150 with `.all(campaign.id, start, end)`: the same scan
without `ORDER BY`. -/
def overviewWindowScan (db : Db) (campaignId : Nat) (start end_ : Bound) :
    Except String (List Event) := do
  let start ← bindParameter start
  let end_ ← bindParameter end_
  pure (db.events.filter (fun e => e.campaignId = campaignId &&
    textBetween (createdAtText e.createdAt) start end_))

/-- The answer of `GET /campaigns/:campaignId`: status 404, status 500 from the `catch`
clause, or status 200 with the `dateRange` and the report. -/
inductive ReportAnswer where
  | notFound
  | failed
  | report (start end_ : Bound) (data : CampaignReport)
  deriving DecidableEq, Repr

/-- The HTTP status of the answer. -/
def ReportAnswer.status : ReportAnswer → Nat
  | .notFound => 404
  | .failed => 500
  | .report _ _ _ => 200

/-- The bucket keys of the report in the answer. -/
def ReportAnswer.dates : ReportAnswer → List String
  | .report _ _ data => data.reportData.map (·.date)
  | _ => []

/-- The handler of `GET /campaigns/:campaignId` (lines 5-120): the campaign lookup, the
block `// Set date range`, the window scan and the report; whatever is thrown on the way
is caught and answered with status 500. -/
def campaignReportHandler (parseDate : String → Option (JsDate × Nat)) (now : JsDate)
    (nowMs : Nat) (db : Db) (campaignId : Nat) (period : String)
    (startDate endDate : Option String) : ReportAnswer :=
  match findActiveCampaign db campaignId with
  | none => .notFound
  | some _ =>
    let outcome : Except String (Bound × Bound × CampaignReport) := do
      let (start, end_) ← dateRange parseDate now nowMs startDate endDate
      let events ← campaignWindowScan db campaignId start end_
      pure (start, end_, reportForCampaign period events)
    match outcome with
    | .ok (start, end_, data) => .report start end_ data
    | .error _ => .failed

/-- The answer of `GET /overview`: status 500 from the `catch` clause, or status 200 with
the `dateRange` and the overview. -/
inductive OverviewAnswer where
  | failed
  | overview (start end_ : Bound) (data : Overview)
  deriving DecidableEq, Repr

/-- The HTTP status of the answer. -/
def OverviewAnswer.status : OverviewAnswer → Nat
  | .failed => 500
  | .overview _ _ _ => 200

/-- The handler of `GET /overview` (lines 124-220): the block `// Set date range`, the
active campaigns, one window scan per campaign inside `campaigns.map`, and the grand
totals; whatever is thrown on the way is caught and answered with status 500. -/
def overviewHandler (parseDate : String → Option (JsDate × Nat)) (now : JsDate) (nowMs : Nat)
    (db : Db) (startDate endDate : Option String) : OverviewAnswer :=
  let outcome : Except String (Bound × Bound × Overview) := do
    let (start, end_) ← dateRange parseDate now nowMs startDate endDate
    let campaignReports ← (activeCampaigns db).mapM (fun campaign => do
      let events ← overviewWindowScan db campaign.id start end_
      pure (campaignSummary campaign events))
    pure (start, end_, { campaigns := campaignReports, grandTotals := grandTotals campaignReports })
  match outcome with
  | .ok (start, end_, data) => .overview start end_ data
  | .error _ => .failed

/-- An instant with the given calendar fields in January 2024. -/
def january (date hours : Nat) : JsDate :=
  { fullYear := 2024, month := 0, date := date, hours := hours, minutes := 0, seconds := 0 }

/-- A database with the active campaign 1 and three `cookie_set` events of it, stamped
`2024-01-01 08:00:00`, `2024-01-15 08:00:00` and `2024-01-31 08:00:00`. -/
def januaryDb : Db :=
  { campaigns := [{ id := 1, name := "spring", casino := "royal", isActive := true,
                    stats := { cookieSets := 3, registrations := 0, ftds := 0 } }],
    events := [sampleEvent "cookie_set" (january 1 8), sampleEvent "cookie_set" (january 15 8),
               sampleEvent "cookie_set" (january 31 8)] }

/-! ## Client decision logic (script template of `utils/scriptGenerator.js`, lines 100-196)

A regular expression of the template is held as its `test` method, a function from the
tested string to the outcome; reading a browser property is an outcome as well, so that
the `catch` clauses of the template have something to catch. -/

/-- JavaScript `value || ''` on a string that may be `undefined`. -/
def orEmpty : Option String → String
  | none => ""
  | some s => s

/-- The function `checkReferrer` of the template (lines 126-132):
`try { return referrerRegex.test(document.referrer || ''); } catch (e) { return false; }`.
`documentReferrer` is the outcome of reading `document.referrer`. -/
def checkReferrer (referrerRegex : String → Except String Bool)
    (documentReferrer : Except String (Option String)) : Bool :=
  match documentReferrer with
  | .error _ => false
  | .ok referrer =>
    match referrerRegex (orEmpty referrer) with
    | .ok result => result
    | .error _ => false

/-- The `test` method of `/.*/i`: a match is found in every string. -/
def anythingRegex : String → Except String Bool := fun _ => .ok true

/-- Whether the characters `p` occur in a row in `s`. -/
def occursIn (p : List Char) : List Char → Bool
  | [] => p.isEmpty
  | c :: s => p.isPrefixOf (c :: s) || occursIn p s

/-- The `test` method of `/partner/i`: the tested string contains `partner` in any
letter case. -/
def partnerRegex : String → Except String Bool :=
  fun s => .ok (occursIn "partner".data (s.data.map Char.toLower))

/-! ### Cookie lookup and the cookie A check (template lines 115-141) -/

/-- JavaScript white space and line terminators: the class `\s` of a regular expression
and the characters `trim()` removes. -/
def isJsSpace (c : Char) : Bool :=
  c.toNat = 9 || c.toNat = 10 || c.toNat = 11 || c.toNat = 12 || c.toNat = 13 ||
  c.toNat = 32 || c.toNat = 160 || c.toNat = 5760 || (8192 ≤ c.toNat && c.toNat ≤ 8202) ||
  c.toNat = 8232 || c.toNat = 8233 || c.toNat = 8239 || c.toNat = 8287 ||
  c.toNat = 12288 || c.toNat = 65279

/-- JavaScript `text.trim()` on the characters of a string. -/
def trim (s : List Char) : List Char :=
  ((s.dropWhile isJsSpace).reverse.dropWhile isJsSpace).reverse

/-- JavaScript `text.split(separator)` for a separator of one character: the pieces
between the separators, `['']` for the empty string. -/
def splitChars (separator : Char) : List Char → List (List Char)
  | [] => [[]]
  | c :: s =>
    if c = separator then [] :: splitChars separator s
    else
      match splitChars separator s with
      | [] => [[c]]
      | piece :: pieces => (c :: piece) :: pieces

/-- The function `getCookie` of the template (lines 115-124).  `documentCookie` is the
outcome of reading `document.cookie`; the result `none` is `null`.  A row that `find`
returns starts with `name=` after trimming, so it is a non-empty string and the test
`value ?` passes; `split('=')[1]` of a row without a second piece would be `undefined`,
which `decodeURIComponent` reads as the text `undefined`. -/
def getCookie (decodeURIComponent : String → Except String String)
    (documentCookie : Except String String) (name : String) : Option String :=
  let attempt : Except String (Option String) := do
    let cookie ← documentCookie
    let value := (splitChars ';' cookie.data).find?
      (fun row => (name.data ++ ['=']).isPrefixOf (trim row))
    match value with
    | some value =>
      let decoded ← decodeURIComponent
        (String.mk ((splitChars '=' value).getD 1 "undefined".data))
      pure (some decoded)
    | none => pure none
  match attempt with
  | .ok result => result
  | .error _ => none

/-- The function `checkCookieA` of the template (lines 134-141), as the truth value of
what it returns: `cookieValue && cookieARegex.test(cookieValue)` is `null` for an absent
cookie and `''` for an empty value, both falsy. -/
def checkCookieA (cookieARegex : String → Except String Bool)
    (decodeURIComponent : String → Except String String)
    (documentCookie : Except String String) (cookieAName : String) : Bool :=
  match getCookie decodeURIComponent documentCookie cookieAName with
  | none => false
  | some cookieValue =>
    if cookieValue = "" then false
    else
      match cookieARegex cookieValue with
      | .ok result => result
      | .error _ => false

/-- The value stored for a cookie name in a cookie string `name1=value1; name2=value2`:
the text after the first `=` of the first pair with that name. -/
def storedCookieValue (documentCookie : String) (name : String) : Option String :=
  ((splitChars ';' documentCookie.data).find?
    (fun row => (name.data ++ ['=']).isPrefixOf (trim row))).map
    (fun row => String.mk ((trim row).drop (name.length + 1)))

/-! ### Setting the cookies and reporting (template lines 104-113 and 143-186) -/

/-- A cookie of the template configuration, `expiry` being the text handed to
`new Date(...)`. -/
structure CookieSpec where
  name : String
  value : String
  domain : String
  expiry : String
  deriving DecidableEq, Repr

/-- The configuration the template is rendered from, the two regular expressions held as
their `test` methods.  `apiBaseUrl` is `process.env.API_BASE_URL` at render time. -/
structure ScriptConfig where
  cookieA : CookieSpec
  cookieB : CookieSpec
  referrerRegex : String → Except String Bool
  cookieARegex : String → Except String Bool
  campaignId : String
  campaignName : String
  casino : String
  apiBaseUrl : Option String

/-- The object handed to `JSON.stringify` as the body of the tracking call. -/
structure TrackingBody where
  campaignId : String
  eventType : String
  userAgent : Option String
  referrer : Option String
  cookieA : String
  cookieB : String
  sessionId : String
  campaignName : String
  casino : String
  deriving DecidableEq, Repr

/-- What a run of the script does to the page, in order: an accepted assignment
`document.cookie = text`, a call `console.warn(message, ...)`, a call
`fetch(url, ...)` with method `POST`. -/
inductive Effect where
  | cookieAssigned (text : String)
  | warned (message : String)
  | fetchCalled (url : String) (body : TrackingBody)
  deriving DecidableEq, Repr

/-- What a call of `fetch` comes to: it throws, or it returns a promise that is fulfilled
or rejected. -/
inductive FetchOutcome where
  | thrown (error : String)
  | fulfilled
  | rejected (error : String)
  deriving DecidableEq, Repr

/-- The browser as the script meets it: the outcome of every operation that can fail,
and the values it reads.  `console.warn` is taken not to fail. -/
structure Browser where
  referrer : Except String (Option String)
  cookie : Except String String
  decodeURIComponent : String → Except String String
  encodeURIComponent : String → Except String String
  toUTCString : String → Except String String
  assignCookie : String → Except String Unit
  userAgent : Option String
  now : Nat
  fetch : FetchOutcome

/-- The function `setCookie` of the template (lines 104-113): the returned boolean and
what the call did. -/
def setCookie (b : Browser) (name value domain expiry : String) : Bool × List Effect :=
  let attempt : Except String String := do
    let expires ← b.toUTCString expiry
    let encoded ← b.encodeURIComponent value
    let text := name ++ "=" ++ encoded ++ ";domain=" ++ domain ++ ";expires=" ++ expires
      ++ ";path=/"
    b.assignCookie text
    pure text
  match attempt with
  | .ok text => (true, [.cookieAssigned text])
  | .error _ => (false, [.warned "Cookie setting failed:"])

/-- The call of `fetch` of lines 161-181, `referrer` being what `document.referrer`
reads at that point. -/
def trackingCall (b : Browser) (config : ScriptConfig) (referrer : Option String) : Effect :=
  .fetchCalled ((config.apiBaseUrl.getD "http://localhost:5000") ++ "/api/events/track")
    { campaignId := config.campaignId, eventType := "cookie_set",
      userAgent := b.userAgent, referrer := referrer,
      cookieA := config.cookieA.value, cookieB := config.cookieB.value,
      sessionId := toString b.now, campaignName := config.campaignName,
      casino := config.casino }

/-- The function `executeScript` of the template (lines 143-186): how the call completes
(`.ok` when it returns, `.error` when it throws) and what it did.  `body` is the `try`
block, the final `match` the `catch` clause. -/
def executeScript (b : Browser) (config : ScriptConfig) : Except String Unit × List Effect :=
  let body : Except String Unit × List Effect :=
    if !checkReferrer config.referrerRegex b.referrer then (.ok (), [])
    else if !checkCookieA config.cookieARegex b.decodeURIComponent b.cookie
        config.cookieA.name then (.ok (), [])
    else
      let cookieASet := setCookie b config.cookieA.name config.cookieA.value
        config.cookieA.domain config.cookieA.expiry
      let cookieBSet := setCookie b config.cookieB.name config.cookieB.value
        config.cookieB.domain config.cookieB.expiry
      if cookieASet.1 && cookieBSet.1 then
        match b.referrer with
        | .error e => (.error e, cookieASet.2 ++ cookieBSet.2)
        | .ok referrer =>
          let call := trackingCall b config referrer
          match b.fetch with
          | .thrown e => (.error e, cookieASet.2 ++ cookieBSet.2 ++ [call])
          | .fulfilled => (.ok (), cookieASet.2 ++ cookieBSet.2 ++ [call])
          | .rejected _ =>
            (.ok (), cookieASet.2 ++ cookieBSet.2 ++ [call, .warned "Tracking failed:"])
      else (.ok (), cookieASet.2 ++ cookieBSet.2)
  match body with
  | (.ok _, effects) => (.ok (), effects)
  | (.error _, effects) => (.ok (), effects ++ [.warned "Script execution failed:"])

/-- The `test` method of `/\d+/i`: the tested string contains a digit. -/
def digitsRegex : String → Except String Bool :=
  fun s => .ok (s.data.any Char.isDigit)

/-- Whether `ref` in any letter case, followed by a digit, occurs in the characters. -/
def occursRefDigit : List Char → Bool
  | [] => false
  | c :: s =>
    ("ref".data.isPrefixOf ((c :: s).take 3 |>.map Char.toLower)
      && (((c :: s).drop 3).head?.any Char.isDigit)) || occursRefDigit s

/-- The `test` method of `/ref\d+/i`. -/
def refDigitsRegex : String → Except String Bool :=
  fun s => .ok (occursRefDigit s.data)

/-- A browser in which every operation succeeds, with the given referrer and cookie
string; values without reserved characters are their own URI encoding, and the one
expiry date of the sample configuration is rendered. -/
def sampleBrowser (referrer : Option String) (cookie : String) : Browser :=
  { referrer := .ok referrer, cookie := .ok cookie,
    decodeURIComponent := fun s => .ok s, encodeURIComponent := fun s => .ok s,
    toUTCString := fun _ => .ok "Wed, 31 Dec 2025 23:59:59 GMT",
    assignCookie := fun _ => .ok (), userAgent := some "Mozilla/5.0",
    now := 1700000000000, fetch := .fulfilled }

/-- A configuration with the regular expressions `ref\d+` and `\d+`. -/
def sampleScriptConfig : ScriptConfig :=
  { cookieA := { name := "affA", value := "a1", domain := ".casino.example",
                 expiry := "2025-12-31T23:59:59.000Z" },
    cookieB := { name := "affB", value := "b2", domain := ".casino.example",
                 expiry := "2025-12-31T23:59:59.000Z" },
    referrerRegex := refDigitsRegex, cookieARegex := digitsRegex,
    campaignId := "1", campaignName := "spring", casino := "royal", apiBaseUrl := none }

/-! ## Script synthesis (`utils/scriptGenerator.js`)

Texts are handled as lists of characters.  A character outside the Basic Multilingual
Plane is two code units in JavaScript, neither of them a word character, white space or
a punctuator, so it is treated here as one character of that kind. -/

/-- The word characters of a regular expression without the `u` flag: `[A-Za-z0-9_]`. -/
def isWordChar (c : Char) : Bool :=
  (48 ≤ c.toNat && c.toNat ≤ 57) || (65 ≤ c.toNat && c.toNat ≤ 90) || c.toNat = 95 ||
  (97 ≤ c.toNat && c.toNat ≤ 122)

/-- The character class `[{}();,=]` of `minifyWithRandomSpacing`. -/
def isPunctuator (c : Char) : Bool :=
  c.toNat = 123 || c.toNat = 125 || c.toNat = 40 || c.toNat = 41 || c.toNat = 59 ||
  c.toNat = 44 || c.toNat = 61

/-- The line terminators of JavaScript source text: LF, CR, LS and PS. -/
def isLineTerminator (c : Char) : Bool :=
  c.toNat = 10 || c.toNat = 13 || c.toNat = 8232 || c.toNat = 8233

/-- The assertion `\b` between two neighbours, `none` standing for an end of the text:
exactly one of the two is a word character. -/
def wordBoundary (before after : Option Char) : Bool :=
  (before.any isWordChar) != (after.any isWordChar)

/-- JavaScript `text.replace(regex, replacement)` for a regular expression with the `g`
flag whose matches are not empty.  `rule before text` is the match of the expression at
the start of `text`, `before` being the character in front of it: `none` when there is no
match, else the text that replaces it and the number of characters matched.  The search
goes from left to right; after a match it goes on behind the match, and where there is
no match the character is kept.  `fuel` bounds the number of steps. -/
def replaceGlobalFuel (rule : Option Char → List Char → Option (List Char × Nat)) :
    Nat → Option Char → List Char → List Char
  | 0, _, text => text
  | _ + 1, _, [] => []
  | fuel + 1, before, c :: text =>
    match rule before (c :: text) with
    | some (replacement, length) =>
      replacement ++ replaceGlobalFuel rule fuel ((c :: text).take length).getLast?
        ((c :: text).drop length)
    | none => c :: replaceGlobalFuel rule fuel (some c) text

/-- The replacement over a whole text. -/
def replaceGlobal (rule : Option Char → List Char → Option (List Char × Nat))
    (text : List Char) : List Char :=
  replaceGlobalFuel rule text.length none text

/-- The match of `new RegExp(fnName, 'g')` (line 26), `fnName` being plain letters, with
its replacement `obfuscatedName`. -/
def literalRule (fnName obfuscatedName : List Char) :
    Option Char → List Char → Option (List Char × Nat) :=
  fun _ text => if fnName.isPrefixOf text then some (obfuscatedName, fnName.length) else none

/-- The match of `new RegExp('\\b' + varName + '\\b', 'g')` (line 36) with its
replacement `obfuscatedName`. -/
def wholeWordRule (varName obfuscatedName : List Char) :
    Option Char → List Char → Option (List Char × Nat) :=
  fun before text =>
    if wordBoundary before text.head? && varName.isPrefixOf text
        && wordBoundary varName.getLast? (text.drop varName.length).head? then
      some (obfuscatedName, varName.length)
    else none

/-- The method `generateObfuscatedName(prefix)`, `randomString` being
`crypto.randomBytes(8).toString('hex')`. -/
def generateObfuscatedName (kind randomString : String) : String :=
  kind ++ "_" ++ randomString

/-- The state of the generator object, of which the module exports one instance: the
`obfuscationMap` in insertion order, the hex strings that the calls of
`crypto.randomBytes(8).toString('hex')` return, and the number of calls made. -/
structure Generator where
  obfuscationMap : List (String × String)
  randomStrings : Nat → String
  drawn : Nat

/-- The array `functionNames` (line 20). -/
def functionNames : List String :=
  ["setCookie", "getCookie", "checkReferrer", "checkCookieA", "executeScript"]

/-- The array `variableNames` (line 30). -/
def variableNames : List String := ["cookieA", "cookieB", "referrer", "domain", "expiry"]

/-- The first three statements of both `forEach` bodies (lines 22-25 and 32-35): the
name gets an entry in `obfuscationMap` unless it has one, and `obfuscatedName` is its
entry. -/
def obfuscatedNameOf (kind : String) (g : Generator) (name : String) : String × Generator :=
  let g :=
    if (g.obfuscationMap.lookup name).isSome then g
    else { g with
      obfuscationMap := g.obfuscationMap ++
        [(name, generateObfuscatedName kind (g.randomStrings g.drawn))]
      drawn := g.drawn + 1 }
  ((g.obfuscationMap.lookup name).getD "", g)

/-- One round of `functionNames.forEach` (lines 21-27). -/
def functionNameStep (state : List Char × Generator) (fnName : String) :
    List Char × Generator :=
  let (obfuscatedName, g) := obfuscatedNameOf "fn" state.2 fnName
  (replaceGlobal (literalRule fnName.data obfuscatedName.data) state.1, g)

/-- One round of `variableNames.forEach` (lines 31-37). -/
def variableNameStep (state : List Char × Generator) (varName : String) :
    List Char × Generator :=
  let (obfuscatedName, g) := obfuscatedNameOf "var" state.2 varName
  (replaceGlobal (wholeWordRule varName.data obfuscatedName.data) state.1, g)

/-- The array `comments` of `addRandomComments` (lines 49-55). -/
def comments : List String :=
  ["// Optimized for performance", "// Enhanced tracking", "// Secure implementation",
   "// Advanced analytics", "// Real-time monitoring"]

/-- The callback of `lines.map` (lines 59-65) along the lines.  The decision for a line is
`some k` when `Math.random() < 0.1` holds for it and the second draw selects
`comments[k]`, else `none`; lines beyond the list of decisions get none. -/
def commentLines : List (Option (Fin 5)) → List (List Char) → List (List Char)
  | _, [] => []
  | [], line :: lines => line :: commentLines [] lines
  | decision :: decisions, line :: lines =>
    (match decision with
     | some k =>
       if trim line ≠ [] then line ++ '\n' :: (comments.getD k.val "").data else line
     | none => line) :: commentLines decisions lines

/-- The method `addRandomComments` (lines 48-68). -/
def addRandomComments (decisions : List (Option (Fin 5))) (code : List Char) : List Char :=
  let lines := splitChars '\n' code
  let modifiedLines := commentLines decisions lines
  List.intercalate ['\n'] modifiedLines

/-- The match of `/\s+/g` with its replacement `' '` (line 72). -/
def spaceRunRule : Option Char → List Char → Option (List Char × Nat) :=
  fun _ text =>
    if (text.takeWhile isJsSpace).isEmpty then none
    else some ([' '], (text.takeWhile isJsSpace).length)

/-- The match of `/\s*([{}();,=])\s*/g` with its replacement `'$1'` (line 73). -/
def aroundPunctuatorRule : Option Char → List Char → Option (List Char × Nat) :=
  fun _ text =>
    match text.dropWhile isJsSpace with
    | p :: rest =>
      if isPunctuator p then
        some ([p], (text.takeWhile isJsSpace).length + 1 + (rest.takeWhile isJsSpace).length)
      else none
    | [] => none

/-- The match of `/([{}();,=])\s+/g` with its replacement `'$1'` (line 74). -/
def afterPunctuatorRule : Option Char → List Char → Option (List Char × Nat) :=
  fun _ text =>
    match text with
    | p :: rest =>
      if isPunctuator p && !(rest.takeWhile isJsSpace).isEmpty then
        some ([p], 1 + (rest.takeWhile isJsSpace).length)
      else none
    | [] => none

/-- The match of `/\s+([{}();,=])/g` with its replacement `'$1'` (line 75). -/
def beforePunctuatorRule : Option Char → List Char → Option (List Char × Nat) :=
  fun _ text =>
    if (text.takeWhile isJsSpace).isEmpty then none
    else
      match text.dropWhile isJsSpace with
      | p :: _ =>
        if isPunctuator p then some ([p], (text.takeWhile isJsSpace).length + 1) else none
      | [] => none

/-- The method `minifyWithRandomSpacing` (lines 70-77). -/
def minifyWithRandomSpacing (code : List Char) : List Char :=
  trim (replaceGlobal beforePunctuatorRule (replaceGlobal afterPunctuatorRule
    (replaceGlobal aroundPunctuatorRule (replaceGlobal spaceRunRule code))))

/-- The method `obfuscateCode` (lines 15-46): the obfuscated text and the generator
afterwards. -/
def obfuscateCode (g : Generator) (decisions : List (Option (Fin 5))) (code : String) :
    String × Generator :=
  let state := functionNames.foldl functionNameStep (code.data, g)
  let state := variableNames.foldl variableNameStep state
  let obfuscated := addRandomComments decisions state.1
  let obfuscated := minifyWithRandomSpacing obfuscated
  (String.mk obfuscated, state.2)

/-- The configuration handed to `generateMyaffiliatesScript`: the template configuration
of the campaign with its id, name and casino, every value in the text form the template
literal gives it.  `apiBaseUrl` is `process.env.API_BASE_URL`. -/
structure TemplateConfig where
  cookieA : CookieSpec
  cookieB : CookieSpec
  referrerRegex : String
  cookieARegex : String
  campaignId : String
  campaignName : String
  casino : String
  apiBaseUrl : Option String
  deriving DecidableEq, Repr

/-- The lines of the template literal of `generateMyaffiliatesScript` (lines 81-195), the
text between two line feeds of the literal being one entry. -/
def templateLines (config : TemplateConfig) : List String :=
  ["", "(function() \x7b", "  'use strict';", "  ", "  // Configuration",
   "  const cookieA = \x7b", "    name: '" ++ config.cookieA.name ++ "',",
   "    value: '" ++ config.cookieA.value ++ "',",
   "    domain: '" ++ config.cookieA.domain ++ "',",
   "    expiry: new Date('" ++ config.cookieA.expiry ++ "')", "  \x7d;", "  ",
   "  const cookieB = \x7b", "    name: '" ++ config.cookieB.name ++ "',",
   "    value: '" ++ config.cookieB.value ++ "',",
   "    domain: '" ++ config.cookieB.domain ++ "',",
   "    expiry: new Date('" ++ config.cookieB.expiry ++ "')", "  \x7d;", "  ",
   "  const referrerRegex = /" ++ config.referrerRegex ++ "/i;",
   "  const cookieARegex = /" ++ config.cookieARegex ++ "/i;", "  ", "  // Utility functions",
   "  function setCookie(name, value, domain, expiry) \x7b", "    try \x7b",
   "      const expires = expiry.toUTCString();",
   "      document.cookie = name + '=' + encodeURIComponent(value) + ';domain=' + domain + ';expires=' + expires + ';path=/';",
   "      return true;", "    \x7d catch (e) \x7b",
   "      console.warn('Cookie setting failed:', e);", "      return false;", "    \x7d",
   "  \x7d", "  ", "  function getCookie(name) \x7b", "    try \x7b",
   "      const value = document.cookie", "        .split(';')",
   "        .find(row => row.trim().startsWith(name + '='));",
   "      return value ? decodeURIComponent(value.split('=')[1]) : null;",
   "    \x7d catch (e) \x7b", "      return null;", "    \x7d", "  \x7d", "  ",
   "  function checkReferrer() \x7b", "    try \x7b",
   "      return referrerRegex.test(document.referrer || '');", "    \x7d catch (e) \x7b",
   "      return false;", "    \x7d", "  \x7d", "  ", "  function checkCookieA() \x7b",
   "    try \x7b", "      const cookieValue = getCookie(cookieA.name);",
   "      return cookieValue && cookieARegex.test(cookieValue);", "    \x7d catch (e) \x7b",
   "      return false;", "    \x7d", "  \x7d", "  ", "  function executeScript() \x7b",
   "    try \x7b", "      // Check referrer first", "      if (!checkReferrer()) \x7b",
   "        return;", "      \x7d", "      ", "      // Check existing cookie A logic",
   "      if (!checkCookieA()) \x7b", "        return;", "      \x7d", "      ",
   "      // Set both cookies",
   "      const cookieASet = setCookie(cookieA.name, cookieA.value, cookieA.domain, cookieA.expiry);",
   "      const cookieBSet = setCookie(cookieB.name, cookieB.value, cookieB.domain, cookieB.expiry);",
   "      ", "      if (cookieASet && cookieBSet) \x7b",
   "        // Send tracking event to server",
   "        fetch('" ++ (config.apiBaseUrl.getD "http://localhost:5000") ++ "/api/events/track', \x7b",
   "          method: 'POST',", "          headers: \x7b",
   "            'Content-Type': 'application/json',", "          \x7d,",
   "          body: JSON.stringify(\x7b",
   "            campaignId: '" ++ config.campaignId ++ "',",
   "            eventType: 'cookie_set',", "            userAgent: navigator.userAgent,",
   "            referrer: document.referrer,", "            cookieData: \x7b",
   "              cookieA: cookieA.value,", "              cookieB: cookieB.value",
   "            \x7d,", "            metadata: \x7b",
   "              sessionId: Date.now().toString(),",
   "              campaignName: '" ++ config.campaignName ++ "',",
   "              casino: '" ++ config.casino ++ "'", "            \x7d", "          \x7d)",
   "        \x7d).catch(e => console.warn('Tracking failed:', e));", "      \x7d",
   "    \x7d catch (e) \x7b", "      console.warn('Script execution failed:', e);", "    \x7d",
   "  \x7d", "  ", "  // Execute when DOM is ready",
   "  if (document.readyState === 'loading') \x7b",
   "    document.addEventListener('DOMContentLoaded', executeScript);", "  \x7d else \x7b",
   "    executeScript();", "  \x7d", "\x7d)();", "    "]

/-- The constant `script` of `generateMyaffiliatesScript`: the lines of the template
literal with a line feed between them. -/
def scriptTemplate (config : TemplateConfig) : String :=
  String.mk (List.intercalate ['\n'] ((templateLines config).map String.data))

/-- The method `generateMyaffiliatesScript` (lines 80-198). -/
def generateMyaffiliatesScript (g : Generator) (decisions : List (Option (Fin 5)))
    (config : TemplateConfig) : String × Generator :=
  obfuscateCode g decisions (scriptTemplate config)

/-- A generator at the start of the process: an empty table, and hex strings that
repeat the digits of the number of the draw. -/
def freshGenerator : Generator :=
  { obfuscationMap := [],
    randomStrings := fun i => String.mk (List.replicate 16 (Nat.digitChar (i % 10))),
    drawn := 0 }

/-- A template configuration with the regular expressions `ref\d+` and `\d+`. -/
def sampleTemplateConfig : TemplateConfig :=
  { cookieA := { name := "affA", value := "a1", domain := ".casino.example",
                 expiry := "2025-12-31T23:59:59.000Z" },
    cookieB := { name := "affB", value := "b2", domain := ".casino.example",
                 expiry := "2025-12-31T23:59:59.000Z" },
    referrerRegex := "ref\\d+", cookieARegex := "\\d+",
    campaignId := "1", campaignName := "spring", casino := "royal", apiBaseUrl := none }

/-! ### Vocabulary for the replacements and the comments -/

/-- Every match of the rule takes at least one character. -/
def Progress (rule : Option Char → List Char → Option (List Char × Nat)) : Prop :=
  ∀ before text r n, rule before text = some (r, n) → 1 ≤ n

/-- The rule decides inside `a` without looking behind its end: appending a text to a
non-empty end piece of `a` changes neither whether the rule matches there nor what it
matches, and no match reaches behind the end of `a`. -/
def LocalIn (rule : Option Char → List Char → Option (List Char × Nat)) (a : List Char) : Prop :=
  ∀ t, t ≠ [] → t <:+ a → ∀ before b,
    rule before (t ++ b) = rule before t ∧ ∀ r n, rule before t = some (r, n) → n ≤ t.length

/-- No white space stands next to one of the characters `{ } ( ) ; , =`. -/
def Tight (text : List Char) : Prop :=
  List.Chain' (fun x y => ¬ (isJsSpace x = true ∧ isPunctuator y = true) ∧
    ¬ (isPunctuator x = true ∧ isJsSpace y = true)) text

/-- The text of a line after the callback of `addRandomComments`. -/
def commentedLine (decision : Option (Fin 5)) (line : List Char) : List Char :=
  match decision with
  | some k => if trim line ≠ [] then line ++ '\n' :: (comments.getD k.val "").data else line
  | none => line

/-! ### The head of the rendered script -/

/-- The first five lines of the template literal; no value of the configuration enters
them. -/
def templateHead : List (List Char) :=
  ["".data, "(function() \x7b".data, "  'use strict';".data, "  ".data,
   "  // Configuration".data]

/-- The head of the template with a line feed behind it. -/
def templateHeadText : List Char := List.intercalate ['\n'] templateHead ++ ['\n']

/-- The head of the script after `addRandomComments`, up to the marker `// Configuration`,
for the decisions on its second and third line. -/
def commentedHead (d1 d2 : Option (Fin 5)) : List Char :=
  '\n' :: commentedLine d1 "(function() \x7b".data ++ '\n' ::
    commentedLine d2 "  'use strict';".data ++ "\n  \n  // Configuration".data

/-- What `minifyWithRandomSpacing` leaves of a comment that `addRandomComments` has put
behind a line: the comment and a blank. -/
def minifiedComment (decision : Option (Fin 5)) : List Char :=
  match decision with
  | some k => (comments.getD k.val "").data ++ [' ']
  | none => []

/-- The head of the script as `generateMyaffiliatesScript` returns it, up to the marker
`// Configuration`. -/
def minifiedHead (d1 d2 : Option (Fin 5)) : List Char :=
  "(function()\x7b".data ++ minifiedComment d1 ++ "'use strict';".data ++ minifiedComment d2
    ++ "// Configuration".data

/-- The decisions `addRandomComments` can take on a line. -/
def allDecisions : List (Option (Fin 5)) := [none, some 0, some 1, some 2, some 3, some 4]

/-- The four replacements of `minifyWithRandomSpacing` on the head, and the last character
of every stage. -/
def headCheck (d1 d2 : Option (Fin 5)) : Bool :=
  (commentedHead d1 d2).getLast? == some 'n' &&
  (replaceGlobal spaceRunRule (commentedHead d1 d2)).getLast? == some 'n' &&
  (replaceGlobal aroundPunctuatorRule
    (replaceGlobal spaceRunRule (commentedHead d1 d2))).getLast? == some 'n' &&
  (replaceGlobal afterPunctuatorRule (replaceGlobal aroundPunctuatorRule
    (replaceGlobal spaceRunRule (commentedHead d1 d2)))).getLast? == some 'n' &&
  replaceGlobal beforePunctuatorRule (replaceGlobal afterPunctuatorRule
    (replaceGlobal aroundPunctuatorRule (replaceGlobal spaceRunRule (commentedHead d1 d2))))
    == minifiedHead d1 d2

/-! ### Tokens and whole words -/

/-- A token of a text: a word, that is a longest run of word characters, or a character
that is neither a word character nor white space. -/
inductive Tok where
  | word (w : List Char)
  | sym (c : Char)
  deriving DecidableEq, Repr

/-- The state of the tokeniser: the tokens read, and the word being read. -/
structure TokState where
  done : List Tok
  cur : List Char
  deriving DecidableEq, Repr

/-- The word being read, as a token when there is one. -/
def flushWord (cur : List Char) : List Tok := if cur.isEmpty then [] else [.word cur]

/-- The tokeniser reads a character. -/
def tokStep (st : TokState) (c : Char) : TokState :=
  if isWordChar c then { done := st.done, cur := st.cur ++ [c] }
  else { done := st.done ++ flushWord st.cur ++ (if isJsSpace c then [] else [.sym c]), cur := [] }

/-- The tokens at the end of the text. -/
def TokState.finish (st : TokState) : List Tok := st.done ++ flushWord st.cur

/-- The tokens of a text.  A name occurs as a whole word in the text when it is one of
its word tokens: the occurrences that `\bname\b` matches. -/
def tokens (text : List Char) : List Tok := (text.foldl tokStep { done := [], cur := [] }).finish

/-- The renaming of the word `name` to `alias`. -/
def renameTok (name obfuscatedName : List Char) (tok : Tok) : Tok :=
  if tok = .word name then .word obfuscatedName else tok

/-- The tokeniser on a text and on what the whole-word replacement makes of it. -/
def RenameRel (name obfuscatedName : List Char) (st st2 : TokState) (before : Option Char)
    (text : List Char) : Prop :=
  st2.done = st.done.map (renameTok name obfuscatedName) ∧
  ((st2.cur = st.cur ∧ before.any isWordChar = !st.cur.isEmpty ∧
      (st.cur ≠ [] → st.cur ++ text.takeWhile isWordChar ≠ name)) ∨
   (st.cur = name ∧ st2.cur = obfuscatedName ∧ before.any isWordChar = true ∧
      text.head?.any isWordChar = false))

/-- A hex digit, as `toString('hex')` writes it. -/
def isHexChar (c : Char) : Bool :=
  (48 ≤ c.toNat && c.toNat ≤ 57) || (97 ≤ c.toNat && c.toNat ≤ 102)

/-- The shape of a generated name: word characters, one of them an underscore. -/
def isAlias (obfuscatedName : String) : Bool :=
  obfuscatedName.data.all isWordChar && obfuscatedName.data.contains '_'

/-- The states of the generator that the process can be in: the random strings are hex
strings, and every entry of the table is a generated name. -/
def Generator.WellFormed (g : Generator) : Prop :=
  (∀ i, (g.randomStrings i).data.all isHexChar = true) ∧
  ∀ entry ∈ g.obfuscationMap, isAlias entry.2 = true

/-- The name occurs in the text as a whole word: where `\bname\b` matches. -/
def WholeWordIn (name text : List Char) : Prop :=
  ∃ pre post, text = pre ++ name ++ post ∧ pre.getLast?.any isWordChar = false ∧
    post.head?.any isWordChar = false

/-- The tokens of the five comments of `addRandomComments`. -/
def commentTokens : List Tok := (comments.map (fun comment => tokens comment.data)).flatten

/-- The text has the line `line`, with a line feed on both sides. -/
def LineIn (text line : List Char) : Prop :=
  ∃ A B, text = (A ++ ['\n']) ++ ((line ++ ['\n']) ++ B)

/-- The text has a line, with a line feed on both sides, in whose tokens the tokens `run`
follow one another. -/
def HasLineRun (text : List Char) (run : List Tok) : Prop :=
  ∃ line, LineIn text line ∧ (∀ c ∈ line, c ≠ '\n') ∧ run <:+: tokens line

/-- The line of the template that writes the cookie (line 107). -/
def cookieWriteLine : String :=
  "      document.cookie = name + '=' + encodeURIComponent(value) + ';domain=' + domain + ';expires=' + expires + ';path=/';"

/-- The line of the template that tests the referrer (line 128). -/
def referrerTestLine : String := "      return referrerRegex.test(document.referrer || '');"

/-- The line of the template with the value of cookie A (line 88). -/
def cookieAValueLine (config : TemplateConfig) : String :=
  "    value: '" ++ config.cookieA.value ++ "',"

/-- The template configuration `sampleTemplateConfig` with the text `domain` as the value
of cookie A. -/
def domainValueConfig : TemplateConfig :=
  { sampleTemplateConfig with
    cookieA := { name := "affA", value := "domain", domain := ".casino.example",
                 expiry := "2025-12-31T23:59:59.000Z" } }

/-- The generator `g` with another supply of random strings: every draw gives
`ffffffffffffffff`. -/
def withConstantSupply (g : Generator) : Generator :=
  { obfuscationMap := g.obfuscationMap, randomStrings := fun _ => "ffffffffffffffff",
    drawn := g.drawn }

/-! # Properties -/

/-! ## Decimal rendering -/

theorem toDigitsCore_append (fuel : Nat) : ∀ (n : Nat) (ds : List Char),
    Nat.toDigitsCore 10 fuel n ds = Nat.toDigitsCore 10 fuel n [] ++ ds := by
  induction fuel with
  | zero => intro n ds; simp [Nat.toDigitsCore]
  | succ fuel ih =>
    intro n ds
    simp only [Nat.toDigitsCore]
    split
    · simp
    · rw [ih (n / 10) (Nat.digitChar (n % 10) :: ds), ih (n / 10) [Nat.digitChar (n % 10)]]
      simp

theorem toDigitsCore_fuel (fuel : Nat) : ∀ (fuel2 n : Nat) (ds : List Char),
    n < fuel → n < fuel2 →
    Nat.toDigitsCore 10 fuel n ds = Nat.toDigitsCore 10 fuel2 n ds := by
  induction fuel with
  | zero => intro fuel2 n ds h; omega
  | succ fuel ih =>
    intro fuel2 n ds h1 h2
    cases fuel2 with
    | zero => omega
    | succ fuel2 =>
      simp only [Nat.toDigitsCore]
      split
      · rfl
      · rename_i hne
        have : n / 10 < n := Nat.div_lt_self (by omega) (by omega)
        exact ih fuel2 (n / 10) _ (by omega) (by omega)

theorem toDigits_lt_ten (n : Nat) (h : n < 10) : Nat.toDigits 10 n = [Nat.digitChar n] := by
  have h0 : n / 10 = 0 := by omega
  have h1 : n % 10 = n := by omega
  simp [Nat.toDigits, Nat.toDigitsCore, h0, h1]

theorem toDigits_step (n : Nat) (h : 10 ≤ n) :
    Nat.toDigits 10 n = Nat.toDigits 10 (n / 10) ++ [Nat.digitChar (n % 10)] := by
  have hne : ¬ n / 10 = 0 := by omega
  have hlt : n / 10 < n := Nat.div_lt_self (by omega) (by omega)
  unfold Nat.toDigits
  rw [Nat.toDigitsCore]
  simp only [hne, if_false]
  rw [toDigitsCore_append, toDigitsCore_fuel n (n / 10 + 1) (n / 10) [] hlt (by omega)]

theorem toDigits_ne_nil (n : Nat) : Nat.toDigits 10 n ≠ [] := by
  by_cases h : n < 10
  · rw [toDigits_lt_ten n h]; simp
  · rw [toDigits_step n (by omega)]; simp

theorem fixed2_eq_decimal2 (n : Nat) : fixed2 n = decimal2 n := by
  unfold fixed2 decimal2
  by_cases h1 : n < 10
  · have e1 : n / 100 = 0 := by omega
    have e2 : n / 10 % 10 = 0 := by omega
    have e3 : n % 10 = n := by omega
    rw [toDigits_lt_ten n h1, e1, e2, e3, toDigits_lt_ten 0 (by omega)]
    rfl
  · by_cases h2 : n < 100
    · have e1 : n / 100 = 0 := by omega
      have e2 : n / 10 % 10 = n / 10 := by omega
      rw [toDigits_step n (by omega), toDigits_lt_ten (n / 10) (by omega), e1, e2,
        toDigits_lt_ten 0 (by omega)]
      rfl
    · have e1 : n / 10 / 10 = n / 100 := by omega
      rw [toDigits_step n (by omega), toDigits_step (n / 10) (by omega), e1]
      have hpos : 0 < (Nat.toDigits 10 (n / 100)).length :=
        List.length_pos.mpr (toDigits_ne_nil _)
      generalize Nat.toDigits 10 (n / 100) = t at hpos ⊢
      have hlen : (t ++ [Nat.digitChar (n / 10 % 10)] ++ [Nat.digitChar (n % 10)]).length
          = t.length + 2 := by simp
      have h3 : 3 - (t.length + 2) = 0 := by omega
      simp only [hlen, h3, List.replicate_zero, List.nil_append, Nat.add_sub_cancel]
      congr 1
      rw [List.append_assoc, List.take_left', List.drop_left']
      · rfl
      · rfl
      · rfl

theorem log2Fuel_bounds (fuel : Nat) : ∀ n : Nat, n ≤ fuel → 1 ≤ n →
    2 ^ log2Fuel fuel n ≤ n ∧ n < 2 ^ (log2Fuel fuel n + 1) := by
  induction fuel with
  | zero => intro n h1 h2; omega
  | succ fuel ih =>
    intro n h1 h2
    unfold log2Fuel
    split
    · constructor <;> simp <;> omega
    · have := ih (n / 2) (by omega) (by omega)
      obtain ⟨a, b⟩ := this
      rw [pow_succ] at b
      constructor
      · rw [pow_succ]; omega
      · rw [pow_succ, pow_succ]; omega

theorem floorLog2_bounds (n : Nat) (h : 1 ≤ n) :
    2 ^ floorLog2 n ≤ n ∧ n < 2 ^ (floorLog2 n + 1) :=
  log2Fuel_bounds n n le_rfl h

theorem roundHalfEven_bounds (n d : Nat) (hd : 0 < d) :
    2 * (d * roundHalfEven n d) ≤ 2 * n + d ∧ 2 * n ≤ 2 * (d * roundHalfEven n d) + d := by
  have h1 := Nat.div_add_mod n d
  have h2 := Nat.mod_lt n hd
  unfold roundHalfEven
  simp only
  generalize n / d = f at h1 ⊢
  generalize n % d = r at h1 h2 ⊢
  generalize hx : d * f = x at h1
  split
  · rw [hx]; omega
  · split
    · rw [Nat.mul_add, hx]; omega
    · split
      · rw [hx]; omega
      · rw [Nat.mul_add, hx]; omega

theorem roundDouble_normalised (num den : Nat) (hn : 0 < num) (hd : 0 < den) :
    let down := floorLog2 num
    let up0 := 52 + floorLog2 den
    let up := if num * 2 ^ up0 < 2 ^ 52 * (den * 2 ^ down) then up0 + 1 else up0
    2 ^ 52 * (den * 2 ^ down) ≤ num * 2 ^ up := by
  intro down up0 up
  by_cases h : num * 2 ^ up0 < 2 ^ 52 * (den * 2 ^ down)
  · have hup : up = up0 + 1 := if_pos h
    rw [hup]
    obtain ⟨a, _⟩ := floorLog2_bounds num hn
    obtain ⟨_, b⟩ := floorLog2_bounds den hd
    have e1 : num * 2 ^ (up0 + 1) = 2 ^ 52 * (num * 2 ^ (floorLog2 den + 1)) := by
      simp only [up0]; ring
    rw [e1]
    apply Nat.mul_le_mul_left
    calc den * 2 ^ down ≤ 2 ^ (floorLog2 den + 1) * num :=
          Nat.mul_le_mul (le_of_lt b) a
      _ = num * 2 ^ (floorLog2 den + 1) := by ring
  · have hup : up = up0 := if_neg h
    rw [hup]
    omega

/-- The scaled quotient stays below `2^53`: the mantissa has 53 bits. -/
theorem roundDouble_mantissa_lt (num den : Nat) (hn : 0 < num) (hd : 0 < den) :
    let down := floorLog2 num
    let up0 := 52 + floorLog2 den
    let up := if num * 2 ^ up0 < 2 ^ 52 * (den * 2 ^ down) then up0 + 1 else up0
    num * 2 ^ up < 2 ^ 53 * (den * 2 ^ down) := by
  intro down up0 up
  by_cases h : num * 2 ^ up0 < 2 ^ 52 * (den * 2 ^ down)
  · have hup : up = up0 + 1 := if_pos h
    have e1 : num * 2 ^ (up0 + 1) = 2 * (num * 2 ^ up0) := by ring
    have e2 : 2 ^ 53 * (den * 2 ^ down) = 2 * (2 ^ 52 * (den * 2 ^ down)) := by ring
    rw [hup, e1, e2]
    omega
  · have hup : up = up0 := if_neg h
    rw [hup]
    obtain ⟨_, a⟩ := floorLog2_bounds num hn
    obtain ⟨b, _⟩ := floorLog2_bounds den hd
    have e1 : num * 2 ^ up0 = 2 ^ 52 * (num * 2 ^ floorLog2 den) := by
      simp only [up0]; ring
    have e2 : 2 ^ 53 * (den * 2 ^ down) = 2 ^ 52 * (den * 2 ^ (floorLog2 num + 1)) := by
      simp only [down]; ring
    rw [e1, e2]
    apply Nat.mul_lt_mul_of_pos_left _ (by positivity)
    calc num * 2 ^ floorLog2 den < 2 ^ (floorLog2 num + 1) * 2 ^ floorLog2 den :=
          Nat.mul_lt_mul_of_pos_right a (by positivity)
      _ ≤ 2 ^ (floorLog2 num + 1) * den := Nat.mul_le_mul_left _ b
      _ = den * 2 ^ (floorLog2 num + 1) := by ring

theorem roundDouble_error (num den : Nat) (hn : 0 < num) (hd : 0 < den) :
    ∃ N D : Nat, roundDouble num den = .fin N D ∧ 0 < D ∧
      |(N : ℚ) / D - (num : ℚ) / den| ≤ (num : ℚ) / den / 2 ^ 53 := by
  have hnorm := roundDouble_normalised num den hn hd
  unfold roundDouble
  rw [if_neg (by omega)]
  simp only at hnorm ⊢
  generalize (if num * 2 ^ (52 + floorLog2 den) < 2 ^ 52 * (den * 2 ^ floorLog2 num)
    then 52 + floorLog2 den + 1 else 52 + floorLog2 den) = up at hnorm ⊢
  generalize floorLog2 num = down at hnorm ⊢
  have hB : 0 < den * 2 ^ down := Nat.mul_pos hd (by positivity)
  obtain ⟨r1, r2⟩ := roundHalfEven_bounds (num * 2 ^ up) (den * 2 ^ down) hB
  generalize roundHalfEven (num * 2 ^ up) (den * 2 ^ down) = M at r1 r2 ⊢
  refine ⟨M * 2 ^ down, 2 ^ up, rfl, by positivity, ?_⟩
  have hP : (0 : ℚ) < 2 ^ down := by positivity
  have hQ : (0 : ℚ) < 2 ^ up := by positivity
  have hdq : (0 : ℚ) < den := by exact_mod_cast hd
  have q1 : (2 : ℚ) * (den * 2 ^ down * M) ≤ 2 * (num * 2 ^ up) + den * 2 ^ down := by
    exact_mod_cast r1
  have q2 : (2 : ℚ) * (num * 2 ^ up) ≤ 2 * (den * 2 ^ down * M) + den * 2 ^ down := by
    exact_mod_cast r2
  have q3 : (2 : ℚ) ^ 52 * (den * 2 ^ down) ≤ num * 2 ^ up := by exact_mod_cast hnorm
  have hx : (num : ℚ) / den * den = num := div_mul_cancel₀ _ (ne_of_gt hdq)
  have hv : ((M * 2 ^ down : ℕ) : ℚ) / ((2 ^ up : ℕ) : ℚ) * 2 ^ up = M * 2 ^ down := by
    push_cast
    exact div_mul_cancel₀ _ (ne_of_gt hQ)
  generalize (num : ℚ) / den = x at hx ⊢
  generalize ((M * 2 ^ down : ℕ) : ℚ) / ((2 ^ up : ℕ) : ℚ) = v at hv ⊢
  rw [← hx] at q1 q2 q3
  have a1 : 2 * (v * 2 ^ up) ≤ 2 * (x * 2 ^ up) + 2 ^ down := by
    have : (den : ℚ) * (2 * (v * 2 ^ up)) ≤ den * (2 * (x * 2 ^ up) + 2 ^ down) := by
      rw [hv]; linarith
    exact le_of_mul_le_mul_left this hdq
  have a2 : 2 * (x * 2 ^ up) ≤ 2 * (v * 2 ^ up) + 2 ^ down := by
    have : (den : ℚ) * (2 * (x * 2 ^ up)) ≤ den * (2 * (v * 2 ^ up) + 2 ^ down) := by
      rw [hv]; linarith
    exact le_of_mul_le_mul_left this hdq
  have a3 : (2 : ℚ) ^ 52 * 2 ^ down ≤ x * 2 ^ up := by
    have : (den : ℚ) * (2 ^ 52 * 2 ^ down) ≤ den * (x * 2 ^ up) := by linarith
    exact le_of_mul_le_mul_left this hdq
  have hS : (0 : ℚ) < 2 ^ up * 2 ^ 53 := by positivity
  have e : x / 2 ^ 53 * (2 ^ up * 2 ^ 53) = x * 2 ^ up := by
    field_simp
    ring
  rw [abs_le]
  constructor
  · have : -(x / 2 ^ 53) * (2 ^ up * 2 ^ 53) ≤ (v - x) * (2 ^ up * 2 ^ 53) := by
      rw [neg_mul, e]; norm_num at a3 ⊢; linarith
    exact le_of_mul_le_mul_right this hS
  · have : (v - x) * (2 ^ up * 2 ^ 53) ≤ x / 2 ^ 53 * (2 ^ up * 2 ^ 53) := by
      rw [e]; norm_num at a3 ⊢; linarith
    exact le_of_mul_le_mul_right this hS

theorem fixed2Int_error (N D : Nat) (hD : 0 < D) :
    |((fixed2Int N D : ℕ) : ℚ) / 100 - (N : ℚ) / D| ≤ 1 / 200 := by
  unfold fixed2Int
  have h2D : 0 < 2 * D := by omega
  have h1 := Nat.div_mul_le_self (200 * N + D) (2 * D)
  have h2 := Nat.lt_div_mul_add (a := 200 * N + D) h2D
  generalize (200 * N + D) / (2 * D) = n at h1 h2 ⊢
  have hDq : (0 : ℚ) < D := by exact_mod_cast hD
  have q1 : (n : ℚ) * (2 * D) ≤ 200 * N + D := by exact_mod_cast h1
  have q2 : (200 : ℚ) * N + D < n * (2 * D) + 2 * D := by exact_mod_cast h2
  have hx : (N : ℚ) / D * D = N := div_mul_cancel₀ _ (ne_of_gt hDq)
  generalize (N : ℚ) / D = x at hx ⊢
  rw [← hx] at q1 q2
  rw [abs_le]
  constructor
  · have : (D : ℚ) * (-(1 / 200)) ≤ D * ((n : ℚ) / 100 - x) := by linarith
    exact le_of_mul_le_mul_left this hDq
  · have : (D : ℚ) * ((n : ℚ) / 100 - x) ≤ D * (1 / 200) := by linarith
    exact le_of_mul_le_mul_left this hDq

theorem ratePct_spec (f c : Nat) (hc : 0 < c) :
    ∃ n : Nat, ratePct f c = decimal2 n ∧
      |(n : ℚ) / 100 - (f : ℚ) / c * 100| ≤ 1 / 200 + (f : ℚ) / c * 100 / 2 ^ 51 := by
  unfold ratePct jsDiv
  rw [if_neg (by omega)]
  by_cases hf : f = 0
  · subst hf
    refine ⟨0, ?_, ?_⟩
    · rw [← fixed2_eq_decimal2]; rfl
    · norm_num
  · have hfpos : 0 < f := by omega
    obtain ⟨N1, D1, e1, hD1, b1⟩ := roundDouble_error f c hfpos hc
    have hcq : (0 : ℚ) < c := by exact_mod_cast hc
    have hfq : (0 : ℚ) < f := by exact_mod_cast hfpos
    have hxpos : (0 : ℚ) < (f : ℚ) / c := div_pos hfq hcq
    have hN1 : 0 < N1 := by
      rcases Nat.eq_zero_or_pos N1 with h | h
      · subst h
        rw [abs_le] at b1
        norm_num at b1
        linarith
      · exact h
    obtain ⟨N2, D2, e2, hD2, b2⟩ := roundDouble_error (N1 * 100) D1 (by omega) hD1
    rw [e1]
    simp only [jsMul]
    rw [e2]
    simp only [toFixed2]
    refine ⟨fixed2Int N2 D2, fixed2_eq_decimal2 _, ?_⟩
    have b3 := fixed2Int_error N2 D2 hD2
    push_cast at b2
    have e3 : (N1 : ℚ) * 100 / D1 = (N1 : ℚ) / D1 * 100 := by ring
    rw [e3] at b2
    generalize (f : ℚ) / c = x at b1 hxpos ⊢
    generalize (N1 : ℚ) / D1 = v1 at b1 b2
    generalize (N2 : ℚ) / D2 = v2 at b2 b3
    generalize ((fixed2Int N2 D2 : ℕ) : ℚ) = n at b3 ⊢
    rw [abs_le] at b1 b2 b3 ⊢
    norm_num at b1 b2 b3 ⊢
    constructor <;> linarith

theorem nearest_of_small (f c n : Nat) (hc : 0 < c) (hf : f < 10 ^ 11)
    (h : |(n : ℚ) / 100 - (f : ℚ) / c * 100| ≤ 1 / 200 + (f : ℚ) / c * 100 / 2 ^ 51) :
    |(n : ℚ) / 100 - (f : ℚ) / c * 100| ≤ 1 / 200 := by
  have hcq : (0 : ℚ) < c := by exact_mod_cast hc
  have hfq : (f : ℚ) < 10 ^ 11 := by exact_mod_cast hf
  have hk : (n : ℚ) / 100 - (f : ℚ) / c * 100
      = (((n : ℤ) * c - 10000 * f : ℤ) : ℚ) / (100 * c) := by
    push_cast
    field_simp
    ring
  have hy : (f : ℚ) / c * 100 / 2 ^ 51 = ((f : ℚ) * 10000 / 2 ^ 51) / (100 * c) := by
    field_simp
    ring
  have hh : (1 : ℚ) / 200 = ((c : ℚ) / 2) / (100 * c) := by
    field_simp
    ring
  rw [hk, abs_div, abs_of_pos (by positivity : (0 : ℚ) < 100 * c)] at h ⊢
  rw [hy, hh, ← add_div, div_le_div_iff_of_pos_right (by positivity)] at h
  rw [hh, div_le_div_iff_of_pos_right (by positivity)]
  generalize ((n : ℤ) * c - 10000 * f : ℤ) = k at h ⊢
  have h2 : (((2 * |k| : ℤ)) : ℚ) < ((c + 1 : ℤ) : ℚ) := by
    push_cast
    have : (f : ℚ) * 10000 / 2 ^ 51 < 1 / 2 := by
      rw [div_lt_iff₀ (by positivity)]
      norm_num
      linarith
    linarith
  have h3 : 2 * |k| < (c : ℤ) + 1 := by exact_mod_cast h2
  have h4 : 2 * |k| ≤ (c : ℤ) := by omega
  have h5 : ((2 * |k| : ℤ) : ℚ) ≤ ((c : ℤ) : ℚ) := by exact_mod_cast h4
  push_cast at h5
  linarith

theorem decimal2_ne_nan (n : Nat) : decimal2 n ≠ "NaN" ∧ decimal2 n ≠ "Infinity" := by
  have hmem : '.' ∈ (decimal2 n).data := by
    unfold decimal2
    simp
  constructor
  · intro h
    rw [h] at hmem
    revert hmem
    decide
  · intro h
    rw [h] at hmem
    revert hmem
    decide

theorem ratePct_ne_nan (f c : Nat) (hc : 0 < c) :
    ratePct f c ≠ "NaN" ∧ ratePct f c ≠ "Infinity" := by
  obtain ⟨n, e, _⟩ := ratePct_spec f c hc
  rw [e]
  exact decimal2_ne_nan n

theorem rendersRate_ratePct (f c : Nat) (hc : 0 < c) : RendersRate (.str (ratePct f c)) f c := by
  obtain ⟨n, e, b⟩ := ratePct_spec f c hc
  exact ⟨n, by rw [e], b, fun hf => nearest_of_small f c n hc hf b⟩

theorem rendersRate_conversionRates (cookieSets registrations ftds : Nat) :
    (0 < cookieSets →
      RendersRate (conversionRates cookieSets registrations ftds).cookieToFtd ftds cookieSets) ∧
    (0 < registrations →
      RendersRate (conversionRates cookieSets registrations ftds).regToFtd ftds registrations) := by
  constructor
  · intro h
    simp only [conversionRates, gt_iff_lt, h, if_true]
    exact rendersRate_ratePct _ _ h
  · intro h
    simp only [conversionRates, gt_iff_lt, h, if_true]
    exact rendersRate_ratePct _ _ h

/-! ## Conversion rates (C1, C2) -/

/-- C1, counterexample: with `cookieSets = 0` and `ftds = 5` the reported `cookieToFtd`
is not the string `"0"` (it is the number `0`). -/
theorem zero_rate_is_not_the_string_zero :
    (conversionRates 0 0 5).cookieToFtd ≠ JsVal.str "0" := by
  decide

/-- C1, amended: for all counts, `cookieToFtd` is the number `0` whenever
`cookieSets = 0` and `regToFtd` is the number `0` whenever `registrations = 0`; neither
rate is ever `"NaN"` or `"Infinity"`; and the rates of a bucket, of the window totals,
of an overview entry, of the overview grand totals and of the `Campaign` virtual are all
this rate object of their own counts. -/
theorem zero_denominator_rate_is_number_zero (cookieSets registrations ftds : Nat) :
    ((cookieSets = 0 → (conversionRates cookieSets registrations ftds).cookieToFtd = .num 0) ∧
     (registrations = 0 → (conversionRates cookieSets registrations ftds).regToFtd = .num 0) ∧
     (conversionRates cookieSets registrations ftds).cookieToFtd ≠ .str "NaN" ∧
     (conversionRates cookieSets registrations ftds).regToFtd ≠ .str "NaN" ∧
     (conversionRates cookieSets registrations ftds).cookieToFtd ≠ .str "Infinity" ∧
     (conversionRates cookieSets registrations ftds).regToFtd ≠ .str "Infinity") ∧
    (∀ item : Bucket, (formatBucket item).conversionRates
        = conversionRates item.cookieSets item.registrations item.ftds) ∧
    (∀ rows : List ReportRow, (totals rows).conversionRates
        = conversionRates (totals rows).cookieSets (totals rows).registrations (totals rows).ftds) ∧
    (∀ (campaign : Campaign) (events : List Event),
        (campaignSummary campaign events).conversionRates
        = conversionRates (campaignSummary campaign events).stats.cookieSets
            (campaignSummary campaign events).stats.registrations
            (campaignSummary campaign events).stats.ftds) ∧
    (∀ reports : List CampaignSummary, (grandTotals reports).conversionRates
        = conversionRates (grandTotals reports).cookieSets (grandTotals reports).registrations
            (grandTotals reports).ftds) ∧
    (∀ c : Campaign, c.conversionRates
        = conversionRates c.stats.cookieSets c.stats.registrations c.stats.ftds) := by
  refine ⟨⟨?_, ?_, ?_, ?_, ?_, ?_⟩, fun _ => rfl, fun _ => rfl, fun _ _ => rfl, fun _ => rfl,
    fun _ => rfl⟩
  · intro h
    simp [conversionRates, h]
  · intro h
    simp [conversionRates, h]
  · unfold conversionRates
    by_cases h : cookieSets > 0
    · simpa [h] using (ratePct_ne_nan ftds cookieSets h).1
    · simp [h]
  · unfold conversionRates
    by_cases h : registrations > 0
    · simpa [h] using (ratePct_ne_nan ftds registrations h).1
    · simp [h]
  · unfold conversionRates
    by_cases h : cookieSets > 0
    · simpa [h] using (ratePct_ne_nan ftds cookieSets h).2
    · simp [h]
  · unfold conversionRates
    by_cases h : registrations > 0
    · simpa [h] using (ratePct_ne_nan ftds registrations h).2
    · simp [h]

/-- C1, witness of the amended statement at `cookieSets = 0`, `registrations = 0`,
`ftds = 5`. -/
theorem zero_denominator_rate_is_number_zero_witness :
    (conversionRates 0 0 5).cookieToFtd = .num 0 ∧ (conversionRates 0 0 5).regToFtd = .num 0 :=
  ⟨(zero_denominator_rate_is_number_zero 0 0 5).1.1 rfl,
   (zero_denominator_rate_is_number_zero 0 0 5).1.2.1 rfl⟩

/-- C2: in a campaign report, every bucket with `cookieSets > 0` reports as `cookieToFtd`
the two-decimal rendering of `ftds / cookieSets × 100`, every bucket with
`registrations > 0` reports as `regToFtd` the two-decimal rendering of
`ftds / registrations × 100`, the window totals do the same on the summed counts, and
`ftds = 1`, `cookieSets = 3` gives `"33.33"`. -/
theorem rates_rendered_with_two_decimals (period : String) (events : List Event) :
    (∀ row ∈ (reportForCampaign period events).reportData,
      (0 < row.cookieSets → RendersRate row.conversionRates.cookieToFtd row.ftds row.cookieSets) ∧
      (0 < row.registrations →
        RendersRate row.conversionRates.regToFtd row.ftds row.registrations)) ∧
    ((0 < (reportForCampaign period events).totals.cookieSets →
        RendersRate (reportForCampaign period events).totals.conversionRates.cookieToFtd
          (reportForCampaign period events).totals.ftds
          (reportForCampaign period events).totals.cookieSets) ∧
     (0 < (reportForCampaign period events).totals.registrations →
        RendersRate (reportForCampaign period events).totals.conversionRates.regToFtd
          (reportForCampaign period events).totals.ftds
          (reportForCampaign period events).totals.registrations)) ∧
    (conversionRates 3 0 1).cookieToFtd = .str "33.33" := by
  refine ⟨?_, ?_, by decide⟩
  · intro row hrow
    simp only [reportForCampaign, formattedData, List.mem_map] at hrow
    obtain ⟨b, _, rfl⟩ := hrow
    exact rendersRate_conversionRates b.cookieSets b.registrations b.ftds
  · exact rendersRate_conversionRates _ _ _

/-- C2, witness: the only bucket of the daily report of the sample events has
`cookieSets = 3 > 0` and `ftds = 1`, and its `cookieToFtd` `"33.33"` renders `1 / 3 × 100`. -/
theorem rates_rendered_with_two_decimals_witness :
    RendersRate (.str "33.33") 1 3 :=
  ((rates_rendered_with_two_decimals "daily" sampleEvents).1
    { date := "2024-01-15", cookieSets := 3, registrations := 0, ftds := 1,
      totalAmount := .num 0,
      conversionRates := { cookieToFtd := .str "33.33", regToFtd := .num 0 } }
    (by decide)).1 (by decide)

/-! ## Handlers: effect lemmas -/

theorem findActiveCampaign_some (db : Db) (campaignId : Nat) (c : Campaign)
    (h : findActiveCampaign db campaignId = some c) :
    c ∈ db.campaigns ∧ c.id = campaignId ∧ c.isActive = true := by
  unfold findActiveCampaign at h
  have h1 := List.mem_of_find?_eq_some h
  have h2 := List.find?_some h
  simp only [decide_eq_true_eq] at h2
  exact ⟨h1, h2.1, h2.2⟩

theorem findActiveCampaign_none (db : Db) (campaignId : Nat)
    (h : ∀ c ∈ db.campaigns, ¬ (c.id = campaignId ∧ c.isActive = true)) :
    findActiveCampaign db campaignId = none := by
  unfold findActiveCampaign
  rw [List.find?_eq_none]
  intro c hc
  simpa using h c hc

theorem campaign_unique (l : List Campaign) (hN : (l.map (·.id)).Nodup) (c d : Campaign)
    (hc : c ∈ l) (hd : d ∈ l) (h : c.id = d.id) : c = d :=
  List.inj_on_of_nodup_map hN hc hd h

/-- What a request to `POST /track` does: it is rejected and nothing changes, or it
appends one event and bumps `cookieSets` of the campaign when the type is `cookie_set`. -/
theorem trackEvent_effect (now : JsDate) (req : TrackRequest) (db : Db)
    (hN : (db.campaigns.map (·.id)).Nodup) :
    ((trackEvent now req db).1 ≠ .ok ∧ (trackEvent now req db).2 = db) ∨
    ((trackEvent now req db).1 = .ok ∧
      falsyId req.campaignId = false ∧ falsyStr req.eventType = false ∧
      (∃ c ∈ db.campaigns, c.id = req.campaignId.getD 0 ∧ c.isActive = true) ∧
      (∃ ev : Event, ev.campaignId = req.campaignId.getD 0 ∧
        ev.eventType = req.eventType.getD "" ∧ ev.postbackData = none ∧
        (trackEvent now req db).2.events = db.events ++ [ev]) ∧
      (trackEvent now req db).2.campaigns = db.campaigns.map (fun c =>
        if c.id = req.campaignId.getD 0 ∧ req.eventType.getD "" = "cookie_set" then
          { c with stats := { c.stats with cookieSets := c.stats.cookieSets + 1 } }
        else c)) := by
  unfold trackEvent
  by_cases hf : (falsyId req.campaignId || falsyStr req.eventType) = true
  · left
    simp [hf]
  · rw [if_neg hf]
    simp only [Bool.or_eq_true, not_or, Bool.not_eq_true] at hf
    cases hfind : findActiveCampaign db (req.campaignId.getD 0) with
    | none => left; simp [hfind]
    | some campaign =>
      right
      simp only [hfind]
      obtain ⟨hmem, hid, hact⟩ := findActiveCampaign_some db _ campaign hfind
      by_cases ht : req.eventType.getD "" = "cookie_set"
      · simp only [ht, if_true, and_true]
        refine ⟨trivial, hf.1, hf.2, ⟨campaign, hmem, hid, hact⟩, ⟨_, rfl, rfl, rfl, rfl⟩, ?_⟩
        simp only [updateStats, insertEvent]
        apply List.map_congr_left
        intro c hc
        by_cases hcid : c.id = req.campaignId.getD 0
        · have : c = campaign := campaign_unique _ hN c campaign hc hmem (by rw [hcid, hid])
          subst this
          simp [hcid]
        · simp [hcid]
      · simp only [ht, if_false, and_false]
        refine ⟨trivial, hf.1, hf.2, ⟨campaign, hmem, hid, hact⟩, ⟨_, rfl, rfl, rfl, rfl⟩, ?_⟩
        simp [insertEvent]

theorem validPostback_eventType (isISO8601 : String → Bool) (body : PostbackBody)
    (h : validPostback isISO8601 body = true) :
    body.eventType.getD "" = "registration" ∨ body.eventType.getD "" = "ftd" := by
  unfold validPostback at h
  simp only [Bool.and_eq_true, Bool.or_eq_true, decide_eq_true_eq] at h
  rcases h.1.1.1.1 with h1 | h1
  · left; rw [h1]; rfl
  · right; rw [h1]; rfl

/-- What a request to `POST /:campaignId` does: it is rejected and nothing changes, or it
appends one postback event and bumps `ftds` (type `ftd`) or `registrations`. -/
theorem attributeConversion_effect (isISO8601 : String → Bool) (now : JsDate)
    (campaignId : Nat) (body : PostbackBody) (db : Db)
    (hN : (db.campaigns.map (·.id)).Nodup) :
    ((attributeConversion isISO8601 now campaignId body db).1 ≠ .ok ∧
      (attributeConversion isISO8601 now campaignId body db).2 = db) ∨
    ((attributeConversion isISO8601 now campaignId body db).1 = .ok ∧
      validPostback isISO8601 body = true ∧
      (∃ c ∈ db.campaigns, c.id = campaignId ∧ c.isActive = true) ∧
      (∃ ev : Event, ev.campaignId = campaignId ∧
        ev.eventType = body.eventType.getD "" ∧
        ev.postbackData = some (eventData now body) ∧
        (attributeConversion isISO8601 now campaignId body db).2.events = db.events ++ [ev]) ∧
      (attributeConversion isISO8601 now campaignId body db).2.campaigns =
        db.campaigns.map (fun c =>
          if c.id = campaignId then
            (if body.eventType.getD "" = "ftd" then
              { c with stats := { c.stats with ftds := c.stats.ftds + 1 } }
            else { c with stats := { c.stats with registrations := c.stats.registrations + 1 } })
          else c)) := by
  unfold attributeConversion
  by_cases hv : validPostback isISO8601 body = true
  · simp only [hv, Bool.not_true, Bool.false_eq_true, if_false]
    cases hfind : findActiveCampaign db campaignId with
    | none => left; simp [hfind]
    | some campaign =>
      right
      simp only [hfind]
      obtain ⟨hmem, hid, hact⟩ := findActiveCampaign_some db _ campaign hfind
      refine ⟨trivial, trivial, ⟨campaign, hmem, hid, hact⟩, ⟨_, rfl, rfl, rfl, rfl⟩, ?_⟩
      simp only [updateStats, insertEvent]
      apply List.map_congr_left
      intro c hc
      by_cases hcid : c.id = campaignId
      · have : c = campaign := campaign_unique _ hN c campaign hc hmem (by rw [hcid, hid])
        subst this
        by_cases ht : body.eventType.getD "" = "ftd" <;> simp [hcid, ht]
      · simp [hcid]
  · left
    simp [hv]

/-! ## Counters and the event log (C7, C8) -/

theorem step_effect (isISO8601 : String → Bool) (db : Db) (call : Call)
    (hN : (db.campaigns.map (·.id)).Nodup) :
    step isISO8601 db call = db ∨
    ∃ (ev : Event) (g : Campaign → Campaign),
      (step isISO8601 db call).events = db.events ++ [ev] ∧
      (step isISO8601 db call).campaigns
        = db.campaigns.map (fun c => if c.id = ev.campaignId then g c else c) ∧
      (∀ c, (g c).id = c.id) ∧
      (∀ c, (g c).stats.cookieSets = c.stats.cookieSets
        + (if ev.eventType = "cookie_set" then 1 else 0)) ∧
      (∀ c, (g c).stats.registrations = c.stats.registrations
        + (if ev.eventType = "registration" ∧ ev.postbackData.isSome = true then 1 else 0)) ∧
      (∀ c, (g c).stats.ftds = c.stats.ftds
        + (if ev.eventType = "ftd" ∧ ev.postbackData.isSome = true then 1 else 0)) := by
  cases call with
  | track now req =>
    rcases trackEvent_effect now req db hN with ⟨_, h⟩ | ⟨_, _, _, _, ⟨ev, h1, h2, h3, h4⟩, h5⟩
    · left; exact h
    · right
      refine ⟨ev, fun c => if req.eventType.getD "" = "cookie_set" then
          { c with stats := { c.stats with cookieSets := c.stats.cookieSets + 1 } } else c,
        h4, ?_, ?_, ?_, ?_, ?_⟩
      · simp only [step]
        rw [h5, h1]
        apply List.map_congr_left
        intro c _
        by_cases a : c.id = req.campaignId.getD 0 <;>
          by_cases b : req.eventType.getD "" = "cookie_set" <;> simp [a, b]
      · intro c; split <;> rfl
      · intro c; rw [h2]; split <;> simp
      · intro c; rw [h3]; split <;> simp
      · intro c; rw [h3]; split <;> simp
  | postback now campaignId body =>
    rcases attributeConversion_effect isISO8601 now campaignId body db hN with
      ⟨_, h⟩ | ⟨_, hv, _, ⟨ev, h1, h2, h3, h4⟩, h5⟩
    · left; exact h
    · right
      have ht := validPostback_eventType isISO8601 body hv
      refine ⟨ev, fun c => if body.eventType.getD "" = "ftd" then
          { c with stats := { c.stats with ftds := c.stats.ftds + 1 } }
          else { c with stats := { c.stats with registrations := c.stats.registrations + 1 } },
        h4, ?_, ?_, ?_, ?_, ?_⟩
      · simp only [step]
        rw [h5, h1]
      · intro c; split <;> rfl
      · intro c
        rw [h2]
        rcases ht with ht | ht <;> simp [ht]
      · intro c
        rw [h2, h3]
        rcases ht with ht | ht <;> simp [ht]
      · intro c
        rw [h2, h3]
        rcases ht with ht | ht <;> simp [ht]

theorem step_ids (isISO8601 : String → Bool) (db : Db) (call : Call)
    (hN : (db.campaigns.map (·.id)).Nodup) :
    (step isISO8601 db call).campaigns.map (·.id) = db.campaigns.map (·.id) := by
  rcases step_effect isISO8601 db call hN with h | ⟨ev, g, _, h2, h3, _⟩
  · rw [h]
  · rw [h2, List.map_map]
    apply List.map_congr_left
    intro c _
    simp only [Function.comp]
    split
    · exact h3 c
    · rfl

theorem run_ids (isISO8601 : String → Bool) (calls : List Call) : ∀ (db : Db),
    (db.campaigns.map (·.id)).Nodup →
    (run isISO8601 db calls).campaigns.map (·.id) = db.campaigns.map (·.id) := by
  induction calls with
  | nil => intro db _; rfl
  | cons call calls ih =>
    intro db hN
    have h1 := step_ids isISO8601 db call hN
    simp only [run, List.foldl_cons]
    have := ih (step isISO8601 db call) (by rw [h1]; exact hN)
    simp only [run] at this
    rw [this, h1]

theorem step_cookieSets (isISO8601 : String → Bool) (db : Db) (call : Call) (id0 : Nat)
    (hN : (db.campaigns.map (·.id)).Nodup)
    (h : ∀ c ∈ db.campaigns, c.id = id0 → c.stats.cookieSets = countEvents db id0 "cookie_set") :
    ∀ c ∈ (step isISO8601 db call).campaigns, c.id = id0 →
      c.stats.cookieSets = countEvents (step isISO8601 db call) id0 "cookie_set" := by
  rcases step_effect isISO8601 db call hN with h0 | ⟨ev, g, h1, h2, h3, h4, _, _⟩
  · rw [h0]; exact h
  · intro c hc hid
    rw [h2, List.mem_map] at hc
    obtain ⟨c1, hc1, rfl⟩ := hc
    simp only [countEvents, h1, List.countP_append, List.countP_singleton]
    have hold := h c1 hc1
    simp only [countEvents] at hold
    by_cases a : c1.id = ev.campaignId
    · simp only [a, if_true] at hid ⊢
      rw [h3] at hid
      rw [h4, hold hid, ← hid, ← a]
      by_cases b : ev.eventType = "cookie_set" <;> simp [b, a]
    · simp only [a, if_false] at hid ⊢
      rw [hold hid]
      have : ¬ ev.campaignId = id0 := fun e => a (by rw [hid, e])
      simp [this]

theorem step_postbacks (isISO8601 : String → Bool) (db : Db) (call : Call) (id0 : Nat)
    (hN : (db.campaigns.map (·.id)).Nodup)
    (h : ∀ c ∈ db.campaigns, c.id = id0 →
      c.stats.registrations = countPostbacks db id0 "registration" ∧
      c.stats.ftds = countPostbacks db id0 "ftd") :
    ∀ c ∈ (step isISO8601 db call).campaigns, c.id = id0 →
      c.stats.registrations = countPostbacks (step isISO8601 db call) id0 "registration" ∧
      c.stats.ftds = countPostbacks (step isISO8601 db call) id0 "ftd" := by
  rcases step_effect isISO8601 db call hN with h0 | ⟨ev, g, h1, h2, h3, _, h5, h6⟩
  · rw [h0]; exact h
  · intro c hc hid
    rw [h2, List.mem_map] at hc
    obtain ⟨c1, hc1, rfl⟩ := hc
    simp only [countPostbacks, h1, List.countP_append, List.countP_singleton]
    have hold := h c1 hc1
    simp only [countPostbacks] at hold
    by_cases a : c1.id = ev.campaignId
    · simp only [a, if_true] at hid ⊢
      rw [h3] at hid
      rw [h5, h6, (hold hid).1, (hold hid).2, ← hid, ← a]
      constructor
      · by_cases b : ev.eventType = "registration" ∧ ev.postbackData.isSome = true
        · simp [b, a]
        · rw [if_neg b]
          simp only [a, true_and, decide_eq_true_eq]
          rw [if_neg (by simpa using b)]
      · by_cases b : ev.eventType = "ftd" ∧ ev.postbackData.isSome = true
        · simp [b, a]
        · rw [if_neg b]
          simp only [a, true_and, decide_eq_true_eq]
          rw [if_neg (by simpa using b)]
    · simp only [a, if_false] at hid ⊢
      rw [(hold hid).1, (hold hid).2]
      have : ¬ ev.campaignId = id0 := fun e => a (by rw [hid, e])
      simp [this]

theorem run_cookieSets (isISO8601 : String → Bool) (id0 : Nat) (calls : List Call) :
    ∀ (db : Db), (db.campaigns.map (·.id)).Nodup →
    (∀ c ∈ db.campaigns, c.id = id0 → c.stats.cookieSets = countEvents db id0 "cookie_set") →
    ∀ c ∈ (run isISO8601 db calls).campaigns, c.id = id0 →
      c.stats.cookieSets = countEvents (run isISO8601 db calls) id0 "cookie_set" := by
  induction calls with
  | nil => intro db _ h; exact h
  | cons call calls ih =>
    intro db hN h
    have h1 := step_ids isISO8601 db call hN
    exact ih (step isISO8601 db call) (by rw [h1]; exact hN)
      (step_cookieSets isISO8601 db call id0 hN h)

theorem run_postbacks (isISO8601 : String → Bool) (id0 : Nat) (calls : List Call) :
    ∀ (db : Db), (db.campaigns.map (·.id)).Nodup →
    (∀ c ∈ db.campaigns, c.id = id0 →
      c.stats.registrations = countPostbacks db id0 "registration" ∧
      c.stats.ftds = countPostbacks db id0 "ftd") →
    ∀ c ∈ (run isISO8601 db calls).campaigns, c.id = id0 →
      c.stats.registrations = countPostbacks (run isISO8601 db calls) id0 "registration" ∧
      c.stats.ftds = countPostbacks (run isISO8601 db calls) id0 "ftd" := by
  induction calls with
  | nil => intro db _ h; exact h
  | cons call calls ih =>
    intro db hN h
    have h1 := step_ids isISO8601 db call hN
    exact ih (step isISO8601 db call) (by rw [h1]; exact hN)
      (step_postbacks isISO8601 db call id0 hN h)

theorem statsOf_of_mem_ids (db : Db) (id0 : Nat) (h : id0 ∈ db.campaigns.map (·.id)) :
    ∃ c ∈ db.campaigns, c.id = id0 ∧ statsOf db id0 = some c.stats := by
  unfold statsOf
  cases hf : db.campaigns.find? (fun c => c.id = id0) with
  | none =>
    rw [List.find?_eq_none] at hf
    rw [List.mem_map] at h
    obtain ⟨c, hc, hid⟩ := h
    exact absurd hid (by simpa using hf c hc)
  | some c =>
    have h1 := List.mem_of_find?_eq_some hf
    have h2 := List.find?_some hf
    exact ⟨c, h1, by simpa using h2, rfl⟩

theorem countP_eq_zero_of_no_events (db : Db) (id0 : Nat)
    (h : ∀ e ∈ db.events, e.campaignId ≠ id0) (t : String) :
    countEvents db id0 t = 0 ∧ countPostbacks db id0 t = 0 := by
  unfold countEvents countPostbacks
  constructor
  · rw [List.countP_eq_zero]
    intro e he
    simp [h e he]
  · rw [List.countP_eq_zero]
    intro e he
    simp [h e he]

/-- C7: starting from a campaign with `stats.cookieSets = 0` and no events, after every
finite sequence of `trackEvent` and `attributeConversion` requests handled one at a time,
`stats.cookieSets` of the campaign equals the number of persisted `cookie_set` events of
that campaign (campaign ids are the primary key of the table). -/
theorem cookieSets_equals_persisted_cookie_set_events (isISO8601 : String → Bool)
    (db0 : Db) (c0 : Campaign) (calls : List Call)
    (hN : (db0.campaigns.map (·.id)).Nodup) (hc0 : c0 ∈ db0.campaigns)
    (hzero : c0.stats.cookieSets = 0) (hev : ∀ e ∈ db0.events, e.campaignId ≠ c0.id) :
    ∃ s : Stats, statsOf (run isISO8601 db0 calls) c0.id = some s ∧
      s.cookieSets = countEvents (run isISO8601 db0 calls) c0.id "cookie_set" := by
  have hids := run_ids isISO8601 calls db0 hN
  have hmem : c0.id ∈ (run isISO8601 db0 calls).campaigns.map (·.id) := by
    rw [hids]
    exact List.mem_map_of_mem _ hc0
  obtain ⟨c, hc, hid, hs⟩ := statsOf_of_mem_ids _ _ hmem
  refine ⟨c.stats, hs, ?_⟩
  apply run_cookieSets isISO8601 c0.id calls db0 hN _ c hc hid
  intro d hd hdid
  have : d = c0 := campaign_unique _ hN d c0 hd hc0 hdid
  rw [this, hzero, (countP_eq_zero_of_no_events db0 c0.id hev "cookie_set").1]

/-- C7, witness: campaign 1 of the sample database after two `cookie_set` tracking
requests, one `registration` tracking request and one `ftd` postback. -/
theorem cookieSets_equals_persisted_cookie_set_events_witness :
    ∃ s : Stats,
      statsOf (run (fun _ => true) sampleDb
        [.track jan15 (sampleTrack "cookie_set"), .track jan15 (sampleTrack "registration"),
         .postback jan15 1 (samplePostback "ftd" none),
         .track jan15 (sampleTrack "cookie_set")]) 1 = some s ∧
      s.cookieSets = countEvents (run (fun _ => true) sampleDb
        [.track jan15 (sampleTrack "cookie_set"), .track jan15 (sampleTrack "registration"),
         .postback jan15 1 (samplePostback "ftd" none),
         .track jan15 (sampleTrack "cookie_set")]) 1 "cookie_set" :=
  cookieSets_equals_persisted_cookie_set_events (fun _ => true) sampleDb
    { id := 1, name := "spring", casino := "royal", isActive := true,
      stats := { cookieSets := 0, registrations := 0, ftds := 0 } }
    _ (by decide) (by decide) rfl (by decide)

/-- C8, counterexample: after one tracking request with `eventType = registration` for
campaign 1 of the sample database, one `registration` event is persisted and
`stats.registrations` is still 0. -/
theorem registrations_counter_misses_tracked_registration :
    statsOf (run (fun _ => true) sampleDb [.track jan15 (sampleTrack "registration")]) 1
      = some { cookieSets := 0, registrations := 0, ftds := 0 } ∧
    countEvents (run (fun _ => true) sampleDb [.track jan15 (sampleTrack "registration")]) 1
      "registration" = 1 := by
  decide

/-- C8, amended: starting from a campaign with zero stats and no events, after every
finite sequence of `trackEvent` and `attributeConversion` requests handled one at a time,
`stats.registrations` equals the number of persisted `registration` postback events and
`stats.ftds` the number of persisted `ftd` postback events of the campaign, a postback
event being one recorded by `attributeConversion`; events of these types recorded by
`trackEvent` are not counted. -/
theorem postback_counters_equal_persisted_postback_events (isISO8601 : String → Bool)
    (db0 : Db) (c0 : Campaign) (calls : List Call)
    (hN : (db0.campaigns.map (·.id)).Nodup) (hc0 : c0 ∈ db0.campaigns)
    (hzero : c0.stats = { cookieSets := 0, registrations := 0, ftds := 0 })
    (hev : ∀ e ∈ db0.events, e.campaignId ≠ c0.id) :
    ∃ s : Stats, statsOf (run isISO8601 db0 calls) c0.id = some s ∧
      s.registrations = countPostbacks (run isISO8601 db0 calls) c0.id "registration" ∧
      s.ftds = countPostbacks (run isISO8601 db0 calls) c0.id "ftd" := by
  have hids := run_ids isISO8601 calls db0 hN
  have hmem : c0.id ∈ (run isISO8601 db0 calls).campaigns.map (·.id) := by
    rw [hids]
    exact List.mem_map_of_mem _ hc0
  obtain ⟨c, hc, hid, hs⟩ := statsOf_of_mem_ids _ _ hmem
  refine ⟨c.stats, hs, ?_⟩
  apply run_postbacks isISO8601 c0.id calls db0 hN _ c hc hid
  intro d hd hdid
  have : d = c0 := campaign_unique _ hN d c0 hd hc0 hdid
  rw [this, hzero, (countP_eq_zero_of_no_events db0 c0.id hev "registration").2,
    (countP_eq_zero_of_no_events db0 c0.id hev "ftd").2]
  exact ⟨rfl, rfl⟩

/-- C8, witness of the amended statement: campaign 1 of the sample database after a
`registration` tracking request, a `registration` postback and two `ftd` postbacks. -/
theorem postback_counters_equal_persisted_postback_events_witness :
    ∃ s : Stats,
      statsOf (run (fun _ => true) sampleDb
        [.track jan15 (sampleTrack "registration"),
         .postback jan15 1 (samplePostback "registration" none),
         .postback jan15 1 (samplePostback "ftd" (some (.num 50))),
         .postback jan15 1 (samplePostback "ftd" none)]) 1 = some s ∧
      s.registrations = countPostbacks (run (fun _ => true) sampleDb
        [.track jan15 (sampleTrack "registration"),
         .postback jan15 1 (samplePostback "registration" none),
         .postback jan15 1 (samplePostback "ftd" (some (.num 50))),
         .postback jan15 1 (samplePostback "ftd" none)]) 1 "registration" ∧
      s.ftds = countPostbacks (run (fun _ => true) sampleDb
        [.track jan15 (sampleTrack "registration"),
         .postback jan15 1 (samplePostback "registration" none),
         .postback jan15 1 (samplePostback "ftd" (some (.num 50))),
         .postback jan15 1 (samplePostback "ftd" none)]) 1 "ftd" :=
  postback_counters_equal_persisted_postback_events (fun _ => true) sampleDb
    { id := 1, name := "spring", casino := "royal", isActive := true,
      stats := { cookieSets := 0, registrations := 0, ftds := 0 } }
    _ (by decide) (by decide) rfl (by decide)

/-! ## Event ingestion (C9, C10) -/

/-- C9: `trackEvent` answers 400 whenever `campaignId` or `eventType` is missing (absent,
or falsy: `0`, the empty string), and otherwise answers 404 whenever no active campaign
has that `campaignId`; in both cases the database (events and counters) is unchanged. -/
theorem trackEvent_rejects_without_effect (now : JsDate) (req : TrackRequest) (db : Db) :
    (req.campaignId = none ∨ req.eventType = none →
      trackEvent now req db = (.badRequest, db)) ∧
    (falsyId req.campaignId = true ∨ falsyStr req.eventType = true →
      trackEvent now req db = (.badRequest, db)) ∧
    (falsyId req.campaignId = false → falsyStr req.eventType = false →
      (∀ c ∈ db.campaigns, ¬ (c.id = req.campaignId.getD 0 ∧ c.isActive = true)) →
      trackEvent now req db = (.notFound, db)) := by
  have h2 : falsyId req.campaignId = true ∨ falsyStr req.eventType = true →
      trackEvent now req db = (.badRequest, db) := by
    intro h
    unfold trackEvent
    rw [if_pos (by simpa using h)]
  refine ⟨?_, h2, ?_⟩
  · intro h
    apply h2
    rcases h with h | h
    · left; rw [h]; rfl
    · right; rw [h]; rfl
  · intro ha hb hc
    unfold trackEvent
    rw [if_neg (by simp [ha, hb])]
    simp only [findActiveCampaign_none db _ hc]

/-- C9, witness: a request without `campaignId` is answered 400, and a request for the
unknown campaign 7 is answered 404, the sample database being left as it was. -/
theorem trackEvent_rejects_without_effect_witness :
    trackEvent jan15 { sampleTrack "cookie_set" with campaignId := none } sampleDb
      = (.badRequest, sampleDb) ∧
    trackEvent jan15 { sampleTrack "cookie_set" with campaignId := some 7 } sampleDb
      = (.notFound, sampleDb) :=
  ⟨(trackEvent_rejects_without_effect jan15 _ sampleDb).1 (Or.inl rfl),
   (trackEvent_rejects_without_effect jan15 _ sampleDb).2.2 rfl rfl (by decide)⟩

/-- C10: for every successful `trackEvent` request, the campaigns table afterwards is the
table before in which the campaign of the request has `cookieSets` increased by exactly 1
when `eventType` is `cookie_set`, `registrations` and `ftds` being kept, and is unchanged
when `eventType` is anything else; every other campaign is unchanged in both cases. The
campaign of the request exists (campaign ids are the primary key of the table). The
model method `updateStats('cookieSets')` likewise adds 1 to `cookieSets` only. -/
theorem trackEvent_counter_frame (now : JsDate) (req : TrackRequest) (db : Db)
    (hN : (db.campaigns.map (·.id)).Nodup) (hok : (trackEvent now req db).1 = .ok) :
    (∃ c ∈ db.campaigns, c.id = req.campaignId.getD 0) ∧
    (req.eventType = some "cookie_set" →
      (trackEvent now req db).2.campaigns = db.campaigns.map (fun c =>
        if c.id = req.campaignId.getD 0 then
          { c with stats := { cookieSets := c.stats.cookieSets + 1,
                              registrations := c.stats.registrations, ftds := c.stats.ftds } }
        else c)) ∧
    (req.eventType ≠ some "cookie_set" → (trackEvent now req db).2.campaigns = db.campaigns) ∧
    (∀ c : Campaign, c.updateStats "cookieSets" 1 =
      .ok { c with stats := { cookieSets := c.stats.cookieSets + 1,
                              registrations := c.stats.registrations,
                              ftds := c.stats.ftds } }) := by
  rcases trackEvent_effect now req db hN with ⟨h, _⟩ | ⟨_, _, hs, ⟨c, hc, hid, _⟩, _, h5⟩
  · exact absurd hok h
  · refine ⟨⟨c, hc, hid⟩, ?_, ?_, fun _ => rfl⟩
    · intro ht
      rw [h5]
      apply List.map_congr_left
      intro d _
      simp [ht]
    · intro ht
      rw [h5]
      have : ¬ req.eventType.getD "" = "cookie_set" := by
        intro e
        apply ht
        cases hreq : req.eventType with
        | none => rw [hreq] at hs; simp [falsyStr] at hs
        | some t => rw [hreq] at e; simpa using e
      simp [this]

/-- C10, witness: a `cookie_set` request for campaign 1 of the sample database. -/
theorem trackEvent_counter_frame_witness :
    (trackEvent jan15 (sampleTrack "cookie_set") sampleDb).2.campaigns
      = [{ id := 1, name := "spring", casino := "royal", isActive := true,
           stats := { cookieSets := 1, registrations := 0, ftds := 0 } }] :=
  (trackEvent_counter_frame jan15 (sampleTrack "cookie_set") sampleDb
    (by decide) (by decide)).2.1 rfl

/-! ## Bucket keys -/

theorem toString_data (n : Nat) : (toString n).data = Nat.toDigits 10 n := rfl

theorem digitChar_toNat : ∀ k < 10, (Nat.digitChar k).toNat = k + 48 := by decide

theorem digitChar_inj (a b : Nat) (ha : a < 10) (hb : b < 10)
    (h : Nat.digitChar a = Nat.digitChar b) : a = b := by
  have h1 := digitChar_toNat a ha
  have h2 := digitChar_toNat b hb
  rw [h] at h1
  omega

theorem digitsValue_toDigits (n : Nat) : digitsValue (Nat.toDigits 10 n) = n := by
  induction n using Nat.strong_induction_on with
  | _ n ih =>
    by_cases h : n < 10
    · rw [toDigits_lt_ten n h]
      simp [digitsValue, digitChar_toNat n h]
    · rw [toDigits_step n (by omega)]
      have := ih (n / 10) (by omega)
      unfold digitsValue at this ⊢
      rw [List.foldl_append, this]
      simp [digitChar_toNat (n % 10) (by omega)]
      omega

theorem toDigits_inj (a b : Nat) (h : Nat.toDigits 10 a = Nat.toDigits 10 b) : a = b := by
  rw [← digitsValue_toDigits a, ← digitsValue_toDigits b, h]

theorem padStart2_data (n : Nat) (h : n < 100) :
    (padStart2 (toString n)).data = [Nat.digitChar (n / 10), Nat.digitChar (n % 10)] := by
  unfold padStart2
  rw [String.data_append, ← String.length_data, toString_data]
  by_cases h1 : n < 10
  · have e1 : n / 10 = 0 := by omega
    have e2 : n % 10 = n := by omega
    rw [toDigits_lt_ten n h1, e1, e2]
    rfl
  · rw [toDigits_step n (by omega), toDigits_lt_ten (n / 10) (by omega)]
    rfl

theorem dateKey_data (period : String) (d : JsDate) (hv : d.Valid) :
    (dateKey period d).data =
      if period = "monthly" then
        Nat.toDigits 10 d.fullYear ++
          ['-', Nat.digitChar ((d.month + 1) / 10), Nat.digitChar ((d.month + 1) % 10)]
      else
        Nat.toDigits 10 d.fullYear ++
          ['-', Nat.digitChar ((d.month + 1) / 10), Nat.digitChar ((d.month + 1) % 10),
           '-', Nat.digitChar (d.date / 10), Nat.digitChar (d.date % 10)] := by
  obtain ⟨h1, h2, h3⟩ := hv
  unfold dateKey
  split
  · simp only [String.data_append, toString_data, padStart2_data (d.month + 1) (by omega)]
    simp
  · simp only [String.data_append, toString_data, padStart2_data (d.month + 1) (by omega),
      padStart2_data d.date (by omega)]
    simp

theorem dateKey_eq_of_sameBucket (period : String) (a b : JsDate)
    (h : sameBucket period a b) : dateKey period a = dateKey period b := by
  obtain ⟨h1, h2, h3⟩ := h
  unfold dateKey
  rcases h3 with h3 | h3
  · simp [h3, h1, h2]
  · simp [h3, h1, h2]

theorem sameBucket_of_dateKey_eq (period : String) (a b : JsDate) (ha : a.Valid) (hb : b.Valid)
    (h : dateKey period a = dateKey period b) : sameBucket period a b := by
  have h' := congrArg String.data h
  rw [dateKey_data period a ha, dateKey_data period b hb] at h'
  obtain ⟨a1, a2, a3⟩ := ha
  obtain ⟨b1, b2, b3⟩ := hb
  by_cases hp : period = "monthly"
  · simp only [hp, if_true] at h'
    obtain ⟨e1, e2⟩ := List.append_inj' h' rfl
    have ey := toDigits_inj _ _ e1
    simp only [List.cons.injEq, and_true, true_and] at e2
    have m1 := digitChar_inj _ _ (by omega) (by omega) e2.1
    have m2 := digitChar_inj _ _ (by omega) (by omega) e2.2
    exact ⟨ey, by omega, Or.inl hp⟩
  · simp only [hp, if_false] at h'
    obtain ⟨e1, e2⟩ := List.append_inj' h' rfl
    have ey := toDigits_inj _ _ e1
    simp only [List.cons.injEq, and_true, true_and] at e2
    have m1 := digitChar_inj _ _ (by omega) (by omega) e2.1
    have m2 := digitChar_inj _ _ (by omega) (by omega) e2.2.1
    have d1 := digitChar_inj _ _ (by omega) (by omega) e2.2.2.1
    have d2 := digitChar_inj _ _ (by omega) (by omega) e2.2.2.2
    exact ⟨ey, by omega, Or.inr (by omega)⟩


/-! ## The grouping loop (C3 to C6) -/

theorem countEvent_date (e : Event) (b : Bucket) : (countEvent e b).date = b.date := by
  unfold countEvent
  split
  · rfl
  · split
    · rfl
    · split <;> rfl

theorem eventsOfKey_append (period k : String) (pre : List Event) (e : Event) :
    eventsOfKey period k (pre ++ [e]) =
      eventsOfKey period k pre ++ (if dateKey period e.createdAt = k then [e] else []) := by
  unfold eventsOfKey
  rw [List.filter_append]
  by_cases h : dateKey period e.createdAt = k <;> simp [List.filter, h]

theorem bucketFor_append_other (period k : String) (pre : List Event) (e : Event)
    (h : dateKey period e.createdAt ≠ k) :
    bucketFor period k (pre ++ [e]) = bucketFor period k pre := by
  unfold bucketFor
  rw [eventsOfKey_append, if_neg h, List.append_nil]

theorem bucketFor_append_same (period : String) (pre : List Event) (e : Event) :
    bucketFor period (dateKey period e.createdAt) (pre ++ [e]) =
      countEvent e (bucketFor period (dateKey period e.createdAt) pre) := by
  unfold bucketFor countEvent accumulateAmounts
  rw [eventsOfKey_append, if_pos rfl]
  generalize eventsOfKey period (dateKey period e.createdAt) pre = l
  simp only [List.countP_append, List.countP_singleton, List.filter_append]
  by_cases h1 : e.eventType = "cookie_set"
  · simp [h1, List.filter]
  · by_cases h2 : e.eventType = "registration"
    · simp [h2, List.filter]
    · by_cases h3 : e.eventType = "ftd"
      · simp [h3, List.filter, List.foldl_append]
      · simp [h1, h2, h3, List.filter]

theorem bucketFor_of_no_event (period k : String) (pre : List Event)
    (h : ∀ e ∈ pre, dateKey period e.createdAt ≠ k) :
    bucketFor period k pre =
      { date := k, cookieSets := 0, registrations := 0, ftds := 0, totalAmount := .num 0 } := by
  have : eventsOfKey period k pre = [] := by
    unfold eventsOfKey
    rw [List.filter_eq_nil_iff]
    intro e he
    simpa using h e he
  unfold bucketFor accumulateAmounts
  rw [this]
  rfl


theorem addEvent_of_mem (period : String) (rd : List Bucket) (e : Event)
    (h : dateKey period e.createdAt ∈ rd.map (·.date)) :
    addEvent period rd e =
      rd.map (fun b => if b.date = dateKey period e.createdAt then countEvent e b else b) := by
  unfold addEvent
  have : rd.any (fun b => decide (b.date = dateKey period e.createdAt)) = true := by
    rw [List.any_eq_true]
    rw [List.mem_map] at h
    obtain ⟨b, hb, e1⟩ := h
    exact ⟨b, hb, by simpa using e1⟩
  simp only [this, if_true]

theorem addEvent_of_not_mem (period : String) (rd : List Bucket) (e : Event)
    (h : dateKey period e.createdAt ∉ rd.map (·.date)) :
    addEvent period rd e =
      rd ++ [countEvent e { date := dateKey period e.createdAt, cookieSets := 0,
                            registrations := 0, ftds := 0, totalAmount := .num 0 }] := by
  unfold addEvent
  have : ¬ rd.any (fun b => decide (b.date = dateKey period e.createdAt)) = true := by
    rw [List.any_eq_true]
    rintro ⟨b, hb, e1⟩
    exact h (List.mem_map.mpr ⟨b, hb, by simpa using e1⟩)
  have hany : rd.any (fun b => decide (b.date = dateKey period e.createdAt)) = false := by
    simpa using this
  simp only [hany, Bool.false_eq_true, if_false, List.map_append, List.map_cons, List.map_nil,
    if_true]
  congr 1
  conv_rhs => rw [← List.map_id rd]
  apply List.map_congr_left
  intro b hb
  have : ¬ b.date = dateKey period e.createdAt := fun e1 => h (e1 ▸ List.mem_map_of_mem _ hb)
  simp [this]

theorem addEvent_keys (period : String) (rd : List Bucket) (e : Event) :
    (addEvent period rd e).map (·.date) =
      if dateKey period e.createdAt ∈ rd.map (·.date) then rd.map (·.date)
      else rd.map (·.date) ++ [dateKey period e.createdAt] := by
  by_cases h : dateKey period e.createdAt ∈ rd.map (·.date)
  · rw [if_pos h, addEvent_of_mem period rd e h, List.map_map]
    apply List.map_congr_left
    intro b _
    simp only [Function.comp]
    split
    · exact countEvent_date e b
    · rfl
  · rw [if_neg h, addEvent_of_not_mem period rd e h, List.map_append]
    simp [countEvent_date]

theorem groupInv_step (period : String) (pre : List Event) (rd : List Bucket) (e : Event)
    (h : GroupInv period pre rd) : GroupInv period (pre ++ [e]) (addEvent period rd e) := by
  obtain ⟨hnd, hkeys, hb⟩ := h
  refine ⟨?_, ?_, ?_⟩
  · rw [addEvent_keys]
    split
    · exact hnd
    · rename_i hk
      rw [List.nodup_append]
      refine ⟨hnd, List.nodup_singleton _, ?_⟩
      intro a ha ha2
      rw [List.mem_singleton] at ha2
      exact hk (ha2 ▸ ha)
  · intro k
    rw [addEvent_keys]
    constructor
    · intro hk
      split at hk
      · obtain ⟨x, hx, e1⟩ := (hkeys k).1 hk
        exact ⟨x, List.mem_append_left _ hx, e1⟩
      · rw [List.mem_append, List.mem_singleton] at hk
        rcases hk with hk | hk
        · obtain ⟨x, hx, e1⟩ := (hkeys k).1 hk
          exact ⟨x, List.mem_append_left _ hx, e1⟩
        · exact ⟨e, by simp, hk.symm⟩
    · rintro ⟨x, hx, e1⟩
      rw [List.mem_append, List.mem_singleton] at hx
      rcases hx with hx | hx
      · have := (hkeys k).2 ⟨x, hx, e1⟩
        split
        · exact this
        · exact List.mem_append_left _ this
      · subst hx
        split
        · rename_i hk; exact e1 ▸ hk
        · rw [e1]; simp
  · by_cases hk : dateKey period e.createdAt ∈ rd.map (·.date)
    · rw [addEvent_of_mem period rd e hk]
      intro b' hb'
      rw [List.mem_map] at hb'
      obtain ⟨b, hbm, rfl⟩ := hb'
      by_cases hd : b.date = dateKey period e.createdAt
      · simp only [hd, if_true]
        rw [countEvent_date, hd, bucketFor_append_same]
        congr 1
        rw [← hd]
        exact hb b hbm
      · simp only [hd, if_false]
        rw [bucketFor_append_other period b.date pre e (fun e1 => hd e1.symm)]
        exact hb b hbm
    · rw [addEvent_of_not_mem period rd e hk]
      intro b' hb'
      rw [List.mem_append, List.mem_singleton] at hb'
      rcases hb' with hb' | hb'
      · have hd : dateKey period e.createdAt ≠ b'.date :=
          fun e1 => hk (e1 ▸ List.mem_map_of_mem _ hb')
        rw [bucketFor_append_other period b'.date pre e hd]
        exact hb b' hb'
      · subst hb'
        rw [countEvent_date, bucketFor_append_same]
        congr 1
        symm
        apply bucketFor_of_no_event
        intro x hx e1
        exact hk ((hkeys _).2 ⟨x, hx, e1⟩)

theorem groupInv_foldl (period : String) (events : List Event) :
    ∀ (pre : List Event) (rd : List Bucket), GroupInv period pre rd →
      GroupInv period (pre ++ events) (events.foldl (addEvent period) rd) := by
  induction events with
  | nil => intro pre rd h; simpa using h
  | cons e events ih =>
    intro pre rd h
    have := ih (pre ++ [e]) (addEvent period rd e) (groupInv_step period pre rd e h)
    simpa using this

theorem groupInv_groupByDate (period : String) (events : List Event) :
    GroupInv period events (groupByDate period events) := by
  have := groupInv_foldl period events [] [] ⟨by simp, by simp, by simp⟩
  simpa [groupByDate] using this

theorem bucketLt_of_le (period : String) (a b : JsDate) (h : a.le b)
    (hk : dateKey period a ≠ dateKey period b) : bucketLt period a b := by
  have hns : ¬ sameBucket period a b := fun hs => hk (dateKey_eq_of_sameBucket period a b hs)
  unfold JsDate.le at h
  unfold sameBucket at hns
  unfold bucketLt
  rcases h with h | ⟨h1, h | ⟨h2, h⟩⟩
  · exact Or.inl h
  · exact Or.inr ⟨h1, Or.inl h⟩
  · by_cases hp : period = "monthly"
    · exact absurd ⟨h1, h2, Or.inl hp⟩ hns
    · rcases h with h | ⟨h3, _⟩
      · exact Or.inr ⟨h1, Or.inr ⟨h2, hp, h⟩⟩
      · exact absurd ⟨h1, h2, Or.inr h3⟩ hns

theorem orderInv_step (period : String) (pre : List Event) (rd : List Bucket) (e : Event)
    (hle : ∀ x ∈ pre, x.createdAt.le e.createdAt) (h : OrderInv period pre rd) :
    OrderInv period (pre ++ [e]) (addEvent period rd e) := by
  obtain ⟨reps, hsub, hmap, hpw⟩ := h
  unfold OrderInv
  rw [addEvent_keys]
  by_cases hk : dateKey period e.createdAt ∈ rd.map (·.date)
  · rw [if_pos hk]
    exact ⟨reps, hsub.trans (List.sublist_append_left pre [e]), hmap, hpw⟩
  · rw [if_neg hk]
    refine ⟨reps ++ [e], List.Sublist.append hsub (List.Sublist.refl _), ?_, ?_⟩
    · rw [List.map_append, hmap]
      rfl
    · rw [List.pairwise_append]
      refine ⟨hpw, List.pairwise_singleton _ _, ?_⟩
      intro a ha b hb
      rw [List.mem_singleton] at hb
      subst hb
      apply bucketLt_of_le period _ _ (hle a (hsub.subset ha))
      intro e1
      apply hk
      rw [← e1, ← hmap]
      exact List.mem_map_of_mem _ ha

theorem orderInv_foldl (period : String) (events : List Event) :
    ∀ (pre : List Event) (rd : List Bucket),
      (pre ++ events).Pairwise (fun a b => a.createdAt.le b.createdAt) →
      OrderInv period pre rd →
      OrderInv period (pre ++ events) (events.foldl (addEvent period) rd) := by
  induction events with
  | nil => intro pre rd _ h; simpa using h
  | cons e events ih =>
    intro pre rd hs h
    have hle : ∀ x ∈ pre, x.createdAt.le e.createdAt := by
      intro x hx
      exact (List.pairwise_append.1 hs).2.2 x hx e (List.mem_cons_self _ _)
    have hs2 : (pre ++ [e] ++ events).Pairwise (fun a b => a.createdAt.le b.createdAt) := by
      simpa using hs
    have := ih (pre ++ [e]) (addEvent period rd e) hs2 (orderInv_step period pre rd e hle h)
    simpa using this

theorem orderInv_groupByDate (period : String) (events : List Event)
    (hs : events.Pairwise (fun a b => a.createdAt.le b.createdAt)) :
    OrderInv period events (groupByDate period events) := by
  have := orderInv_foldl period events [] []
    (by simpa using hs) ⟨[], List.Sublist.refl _, rfl, List.Pairwise.nil⟩
  simpa [groupByDate] using this

theorem reportData_dates (period : String) (events : List Event) :
    (reportForCampaign period events).reportData.map (·.date)
      = (groupByDate period events).map (·.date) := by
  simp only [reportForCampaign, formattedData, List.map_map]
  rfl

theorem countP_eventsOfKey (period : String) (events : List Event) (e0 : Event) (t : String)
    (hvalid : ∀ e ∈ events, e.createdAt.Valid) (hv0 : e0.createdAt.Valid) :
    (eventsOfKey period (dateKey period e0.createdAt) events).countP
        (fun e => e.eventType = t)
      = events.countP (fun e =>
          sameBucket period e.createdAt e0.createdAt ∧ e.eventType = t) := by
  unfold eventsOfKey
  rw [List.countP_filter]
  apply List.countP_congr
  intro e he
  simp only [Bool.and_eq_true, decide_eq_true_eq]
  constructor
  · rintro ⟨h1, h2⟩
    exact ⟨sameBucket_of_dateKey_eq period _ _ (hvalid e he) hv0 h2, h1⟩
  · rintro ⟨h1, h2⟩
    exact ⟨h2, dateKey_eq_of_sameBucket period _ _ h1⟩

/-- C3: for every list of events with creation times in calendar range and every period,
each emitted bucket is the bucket of some event of the list and its `cookieSets`,
`registrations` and `ftds` are the numbers of `cookie_set`, `registration` and `ftd`
events of the list that fall on the same calendar day (same calendar month for a monthly
report); the key is the year, `-`, the two-digit month and, for a daily report, `-` and
the two-digit day; and three `cookie_set` events and one `ftd` event on 2024-01-15 give
exactly one daily bucket `"2024-01-15"` with `cookieSets = 3`, `ftds = 1` and
`cookieToFtd = "33.33"`. -/
theorem bucket_counts_are_per_calendar_bucket (period : String) (events : List Event)
    (hvalid : ∀ e ∈ events, e.createdAt.Valid) :
    (∀ row ∈ (reportForCampaign period events).reportData,
      ∃ e0 ∈ events, row.date = dateKey period e0.createdAt ∧
        row.cookieSets = events.countP (fun e =>
          sameBucket period e.createdAt e0.createdAt ∧ e.eventType = "cookie_set") ∧
        row.registrations = events.countP (fun e =>
          sameBucket period e.createdAt e0.createdAt ∧ e.eventType = "registration") ∧
        row.ftds = events.countP (fun e =>
          sameBucket period e.createdAt e0.createdAt ∧ e.eventType = "ftd")) ∧
    (∀ e ∈ events, (dateKey period e.createdAt).data =
      if period = "monthly" then
        Nat.toDigits 10 e.createdAt.fullYear ++
          ['-', Nat.digitChar ((e.createdAt.month + 1) / 10),
           Nat.digitChar ((e.createdAt.month + 1) % 10)]
      else
        Nat.toDigits 10 e.createdAt.fullYear ++
          ['-', Nat.digitChar ((e.createdAt.month + 1) / 10),
           Nat.digitChar ((e.createdAt.month + 1) % 10),
           '-', Nat.digitChar (e.createdAt.date / 10), Nat.digitChar (e.createdAt.date % 10)]) ∧
    (reportForCampaign "daily" sampleEvents).reportData.map
        (fun row => (row.date, row.cookieSets, row.ftds, row.conversionRates.cookieToFtd))
      = [("2024-01-15", 3, 1, JsVal.str "33.33")] := by
  refine ⟨?_, fun e he => dateKey_data period e.createdAt (hvalid e he), by decide⟩
  intro row hrow
  obtain ⟨_, hkeys, hb⟩ := groupInv_groupByDate period events
  simp only [reportForCampaign, formattedData, List.mem_map] at hrow
  obtain ⟨b, hbm, rfl⟩ := hrow
  obtain ⟨e0, he0, hk⟩ := (hkeys b.date).1 (List.mem_map_of_mem _ hbm)
  refine ⟨e0, he0, hk.symm, ?_, ?_, ?_⟩
  · show b.cookieSets = _
    rw [← countP_eventsOfKey period events e0 "cookie_set" hvalid (hvalid e0 he0), hk]
    conv_lhs => rw [hb b hbm]
    rfl
  · show b.registrations = _
    rw [← countP_eventsOfKey period events e0 "registration" hvalid (hvalid e0 he0), hk]
    conv_lhs => rw [hb b hbm]
    rfl
  · show b.ftds = _
    rw [← countP_eventsOfKey period events e0 "ftd" hvalid (hvalid e0 he0), hk]
    conv_lhs => rw [hb b hbm]
    rfl

/-- C3, witness: the daily report of the sample events, whose only bucket counts the
three `cookie_set` events of 15 January 2024. -/
theorem bucket_counts_are_per_calendar_bucket_witness :
    ∃ e0 ∈ sampleEvents, (3 : Nat) = sampleEvents.countP (fun e =>
      sameBucket "daily" e.createdAt e0.createdAt ∧ e.eventType = "cookie_set") := by
  obtain ⟨e0, he0, _, h, _⟩ :=
    (bucket_counts_are_per_calendar_bucket "daily" sampleEvents (by decide)).1
      { date := "2024-01-15", cookieSets := 3, registrations := 0, ftds := 1,
        totalAmount := .num 0,
        conversionRates := { cookieToFtd := .str "33.33", regToFtd := .num 0 } }
      (by decide)
  exact ⟨e0, he0, h⟩

/-- C4: for every list of events ordered by creation time, the bucket keys of
`reportData` are pairwise distinct, a key is emitted exactly when some event of the list
has it, the keys are those of a sublist of the events whose buckets are strictly
ascending in calendar order, and (creation times being in calendar range) every event
falls in the bucket of one of them. -/
theorem bucket_keys_are_distinct_and_ascending (period : String) (events : List Event)
    (hvalid : ∀ e ∈ events, e.createdAt.Valid)
    (hsorted : events.Pairwise (fun a b => a.createdAt.le b.createdAt)) :
    ((reportForCampaign period events).reportData.map (·.date)).Nodup ∧
    (∀ k, k ∈ (reportForCampaign period events).reportData.map (·.date) ↔
      ∃ e ∈ events, dateKey period e.createdAt = k) ∧
    ∃ reps : List Event, reps.Sublist events ∧
      reps.map (fun e => dateKey period e.createdAt)
        = (reportForCampaign period events).reportData.map (·.date) ∧
      reps.Pairwise (fun a b => bucketLt period a.createdAt b.createdAt) ∧
      ∀ e ∈ events, ∃ r ∈ reps, sameBucket period e.createdAt r.createdAt := by
  rw [reportData_dates]
  obtain ⟨hnd, hkeys, _⟩ := groupInv_groupByDate period events
  obtain ⟨reps, hsub, hmap, hpw⟩ := orderInv_groupByDate period events hsorted
  refine ⟨hnd, hkeys, reps, hsub, hmap, hpw, ?_⟩
  intro e he
  have : dateKey period e.createdAt ∈ (groupByDate period events).map (·.date) :=
    (hkeys _).2 ⟨e, he, rfl⟩
  rw [← hmap, List.mem_map] at this
  obtain ⟨r, hr, e1⟩ := this
  exact ⟨r, hr, sameBucket_of_dateKey_eq period _ _ (hvalid e he)
    (hvalid r (hsub.subset hr)) e1.symm⟩

/-- C4, witness: events on 15 January, 15 January and 3 February 2024, in that order. -/
theorem bucket_keys_are_distinct_and_ascending_witness :
    ((reportForCampaign "daily"
      [sampleEvent "cookie_set" jan15, sampleEvent "ftd" jan15,
       sampleEvent "cookie_set" feb3]).reportData.map (·.date)).Nodup :=
  (bucket_keys_are_distinct_and_ascending "daily"
    [sampleEvent "cookie_set" jan15, sampleEvent "ftd" jan15, sampleEvent "cookie_set" feb3]
    (by decide) (by decide)).1

/-! ## Amounts (C5, C6) -/

/-- Every bucket's `totalAmount` is the accumulation, with JavaScript `+`, of the
amounts of the `ftd` events of its key; events of other types contribute nothing. -/
theorem totalAmount_accumulates_ftd_amounts (period : String) (events : List Event) :
    ∀ row ∈ (reportForCampaign period events).reportData,
      row.totalAmount = accumulateAmounts (eventsOfKey period row.date events) := by
  intro row hrow
  obtain ⟨_, _, hb⟩ := groupInv_groupByDate period events
  simp only [reportForCampaign, formattedData, List.mem_map] at hrow
  obtain ⟨b, hbm, rfl⟩ := hrow
  show b.totalAmount = accumulateAmounts (eventsOfKey period b.date events)
  conv_lhs => rw [hb b hbm]
  rfl

theorem foldl_numeric_amounts (l : List Event) : ∀ (acc : Int),
    (∀ e ∈ l, ∃ n, orZero (e.postbackData.map (·.amount)) = .num n) →
    l.foldl (fun acc e => jsAdd acc (orZero (e.postbackData.map (·.amount)))) (.num acc)
      = .num (acc + (l.map numericAmount).sum) := by
  induction l with
  | nil => intro acc _; simp
  | cons e l ih =>
    intro acc h
    obtain ⟨n, hn⟩ := h e (List.mem_cons_self _ _)
    have hnum : numericAmount e = n := by
      unfold numericAmount
      rw [hn]
    have hstep : jsAdd (.num acc) (orZero (e.postbackData.map (·.amount))) = .num (acc + n) := by
      rw [hn]
      rfl
    rw [List.foldl_cons, hstep, ih (acc + n) (fun x hx => h x (List.mem_cons_of_mem _ hx))]
    simp only [List.map_cons, List.sum_cons, hnum]
    congr 1
    ring

/-- When every `ftd` event of a list carries a numeric amount (or none), the accumulated
amount is the number that is their arithmetic sum. -/
theorem accumulateAmounts_of_numeric (l : List Event)
    (h : ∀ e ∈ l, e.eventType = "ftd" → ∃ n, orZero (e.postbackData.map (·.amount)) = .num n) :
    accumulateAmounts l
      = .num (((l.filter (fun e => e.eventType = "ftd")).map numericAmount).sum) := by
  unfold accumulateAmounts
  rw [foldl_numeric_amounts _ 0]
  · simp
  · intro e he
    rw [List.mem_filter] at he
    exact h e he.1 (by simpa using he.2)

/-- C5, the code at the failing input: after two valid `ftd` postbacks with the amounts
`"50"` and `"25"`, the daily report has one bucket whose `totalAmount` is the string
`"05025"`, not the sum 75. -/
theorem totalAmount_concatenates_string_amounts :
    (run (fun _ => true) sampleDb stringAmountCalls).events.map
        (fun e => (e.eventType, e.postbackData.map (·.amount)))
      = [("ftd", some (JsVal.str "50")), ("ftd", some (JsVal.str "25"))] ∧
    (reportForCampaign "daily"
        (run (fun _ => true) sampleDb stringAmountCalls).events).reportData.map
        (fun row => (row.date, row.ftds, row.totalAmount))
      = [("2024-01-15", 2, JsVal.str "05025")] := by
  decide

/-- C6, the code at the failing input: with the two postbacks on two days, the buckets
report `"050"` and `"025"` and `totals.totalAmount` is the string `"0050025"`, while the
counts of the totals are the sums over the buckets. -/
theorem window_totals_concatenate_string_amounts :
    (reportForCampaign "daily"
        (run (fun _ => true) sampleDb stringAmountCallsTwoDays).events).reportData.map
        (fun row => (row.date, row.ftds, row.totalAmount))
      = [("2024-01-15", 1, JsVal.str "050"), ("2024-02-03", 1, JsVal.str "025")] ∧
    (reportForCampaign "daily"
        (run (fun _ => true) sampleDb stringAmountCallsTwoDays).events).totals.totalAmount
      = JsVal.str "0050025" ∧
    (reportForCampaign "daily"
        (run (fun _ => true) sampleDb stringAmountCallsTwoDays).events).totals.ftds = 2 := by
  decide

theorem sum_map_update (f : Bucket → Nat) (g : Bucket → Bucket) (d : Nat) (k : String)
    (hg : ∀ b, f (g b) = f b + d) : ∀ (l : List Bucket), (l.map (·.date)).Nodup →
    k ∈ l.map (·.date) →
    ((l.map (fun b => if b.date = k then g b else b)).map f).sum = (l.map f).sum + d := by
  intro l
  induction l with
  | nil => intro _ h; simp at h
  | cons b l ih =>
    intro hnd hk
    rw [List.map_cons, List.nodup_cons] at hnd
    simp only [List.map_cons, List.sum_cons]
    by_cases hb : b.date = k
    · have hnot : k ∉ l.map (·.date) := hb ▸ hnd.1
      have hrest : l.map (fun b => if b.date = k then g b else b) = l := by
        conv_rhs => rw [← List.map_id l]
        apply List.map_congr_left
        intro x hx
        have : ¬ x.date = k := fun e1 => hnot (e1 ▸ List.mem_map_of_mem _ hx)
        simp [this]
      rw [hrest, if_pos hb, hg]
      omega
    · rw [if_neg hb]
      have hk2 : k ∈ l.map (·.date) := by
        rw [List.map_cons, List.mem_cons] at hk
        rcases hk with hk | hk
        · exact absurd hk.symm hb
        · exact hk
      rw [ih hnd.2 hk2]
      omega

theorem sum_addEvent (f : Bucket → Nat) (d : Nat) (period : String) (rd : List Bucket)
    (e : Event) (hnd : (rd.map (·.date)).Nodup) (hg : ∀ b, f (countEvent e b) = f b + d)
    (h0 : ∀ k, f { date := k, cookieSets := 0, registrations := 0, ftds := 0,
                   totalAmount := .num 0 } = 0) :
    ((addEvent period rd e).map f).sum = (rd.map f).sum + d := by
  by_cases hk : dateKey period e.createdAt ∈ rd.map (·.date)
  · rw [addEvent_of_mem period rd e hk]
    exact sum_map_update f (countEvent e) d _ hg rd hnd hk
  · rw [addEvent_of_not_mem period rd e hk]
    simp [hg, h0]

theorem sum_groupByDate (f : Bucket → Nat) (q : Event → Bool) (period : String)
    (hg : ∀ e b, f (countEvent e b) = f b + (if q e = true then 1 else 0))
    (h0 : ∀ k, f { date := k, cookieSets := 0, registrations := 0, ftds := 0,
                   totalAmount := .num 0 } = 0) (events : List Event) :
    ∀ (pre : List Event) (rd : List Bucket), GroupInv period pre rd →
      (rd.map f).sum = pre.countP q →
      (((events.foldl (addEvent period) rd)).map f).sum = (pre ++ events).countP q := by
  induction events with
  | nil => intro pre rd _ h; simpa using h
  | cons e events ih =>
    intro pre rd hinv h
    have h1 := ih (pre ++ [e]) (addEvent period rd e) (groupInv_step period pre rd e hinv)
      (by rw [sum_addEvent f _ period rd e hinv.1 (hg e) h0, h, List.countP_append,
            List.countP_singleton])
    simpa using h1

theorem foldl_accRow (rows : List ReportRow) : ∀ (acc : Acc),
    (rows.foldl accRow acc).cookieSets = acc.cookieSets + (rows.map (·.cookieSets)).sum ∧
    (rows.foldl accRow acc).registrations
      = acc.registrations + (rows.map (·.registrations)).sum ∧
    (rows.foldl accRow acc).ftds = acc.ftds + (rows.map (·.ftds)).sum := by
  induction rows with
  | nil => intro acc; simp
  | cons r rows ih =>
    intro acc
    obtain ⟨h1, h2, h3⟩ := ih (accRow acc r)
    simp only [List.foldl_cons, List.map_cons, List.sum_cons]
    rw [h1, h2, h3]
    simp only [accRow]
    omega

/-- The counts of the window totals are the sums of the bucket counts, which are the
per-type counts of all events of the scan, and the rates of the totals are the rate
formula on these sums. -/
theorem totals_counts_are_event_counts (period : String) (events : List Event) :
    (reportForCampaign period events).totals.cookieSets
      = ((reportForCampaign period events).reportData.map (·.cookieSets)).sum ∧
    (reportForCampaign period events).totals.registrations
      = ((reportForCampaign period events).reportData.map (·.registrations)).sum ∧
    (reportForCampaign period events).totals.ftds
      = ((reportForCampaign period events).reportData.map (·.ftds)).sum ∧
    (reportForCampaign period events).totals.cookieSets
      = events.countP (fun e => e.eventType = "cookie_set") ∧
    (reportForCampaign period events).totals.registrations
      = events.countP (fun e => e.eventType = "registration") ∧
    (reportForCampaign period events).totals.ftds
      = events.countP (fun e => e.eventType = "ftd") ∧
    (reportForCampaign period events).totals.conversionRates
      = conversionRates (events.countP (fun e => e.eventType = "cookie_set"))
          (events.countP (fun e => e.eventType = "registration"))
          (events.countP (fun e => e.eventType = "ftd")) := by
  have hinv0 : GroupInv period [] [] := ⟨by simp, by simp, by simp⟩
  have c1 := sum_groupByDate (·.cookieSets) (fun e => e.eventType = "cookie_set") period
    (by intro e b; unfold countEvent; by_cases h : e.eventType = "cookie_set"
        · simp [h]
        · by_cases h2 : e.eventType = "registration"
          · simp [h, h2]
          · by_cases h3 : e.eventType = "ftd" <;> simp [h, h2, h3])
    (fun _ => rfl) events [] [] hinv0 rfl
  have c2 := sum_groupByDate (·.registrations) (fun e => e.eventType = "registration") period
    (by intro e b; unfold countEvent; by_cases h : e.eventType = "cookie_set"
        · have : ¬ e.eventType = "registration" := by rw [h]; decide
          simp [h]
        · by_cases h2 : e.eventType = "registration"
          · simp [h2]
          · by_cases h3 : e.eventType = "ftd" <;> simp [h, h2, h3])
    (fun _ => rfl) events [] [] hinv0 rfl
  have c3 := sum_groupByDate (·.ftds) (fun e => e.eventType = "ftd") period
    (by intro e b; unfold countEvent; by_cases h : e.eventType = "cookie_set"
        · have : ¬ e.eventType = "ftd" := by rw [h]; decide
          simp [h]
        · by_cases h2 : e.eventType = "registration"
          · have : ¬ e.eventType = "ftd" := by rw [h2]; decide
            simp [h2]
          · by_cases h3 : e.eventType = "ftd" <;> simp [h, h2, h3])
    (fun _ => rfl) events [] [] hinv0 rfl
  simp only [List.nil_append] at c1 c2 c3
  obtain ⟨t1, t2, t3⟩ := foldl_accRow (formattedData period events)
    { cookieSets := 0, registrations := 0, ftds := 0, totalAmount := .num 0 }
  simp only [Nat.zero_add] at t1 t2 t3
  have r1 : (formattedData period events).map (·.cookieSets)
      = (groupByDate period events).map (·.cookieSets) := by
    simp only [formattedData, List.map_map]; rfl
  have r2 : (formattedData period events).map (·.registrations)
      = (groupByDate period events).map (·.registrations) := by
    simp only [formattedData, List.map_map]; rfl
  have r3 : (formattedData period events).map (·.ftds)
      = (groupByDate period events).map (·.ftds) := by
    simp only [formattedData, List.map_map]; rfl
  have e1 : (reportForCampaign period events).totals.cookieSets
      = events.countP (fun e => e.eventType = "cookie_set") := by
    show (List.foldl accRow _ (formattedData period events)).cookieSets = _
    rw [t1, r1]; exact c1
  have e2 : (reportForCampaign period events).totals.registrations
      = events.countP (fun e => e.eventType = "registration") := by
    show (List.foldl accRow _ (formattedData period events)).registrations = _
    rw [t2, r2]; exact c2
  have e3 : (reportForCampaign period events).totals.ftds
      = events.countP (fun e => e.eventType = "ftd") := by
    show (List.foldl accRow _ (formattedData period events)).ftds = _
    rw [t3, r3]; exact c3
  refine ⟨t1, t2, t3, e1, e2, e3, ?_⟩
  rw [← e1, ← e2, ← e3]
  rfl

/-! ## Stored events (C11) -/

theorem lookup_map_setValue {β : Type} (k : String) (v : β) (k2 : String) :
    ∀ (obj : List (String × β)),
    (obj.map (fun p => if p.1 = k then (k, v) else p)).lookup k2 =
      if k2 = k then (obj.lookup k).map (fun _ => v) else obj.lookup k2 := by
  intro obj
  induction obj with
  | nil => simp
  | cons p obj ih =>
    obtain ⟨a, b⟩ := p
    by_cases ha : a = k
    · subst ha
      by_cases hk : k2 = a
      · subst hk
        simp only [List.map_cons, if_true, List.lookup_cons, beq_self_eq_true, Option.map_some']
      · have hne : (k2 == a) = false := by simpa using hk
        simp only [List.map_cons, if_true, List.lookup_cons, hne, hk, if_false] at ih ⊢
        exact ih
    · by_cases hk : k2 = k
      · subst hk
        have hne : (k2 == a) = false := by simpa using fun e => ha e.symm
        simp only [List.map_cons, ha, if_false, List.lookup_cons, hne, if_true] at ih ⊢
        exact ih
      · simp only [List.map_cons, ha, if_false, List.lookup_cons, hk] at ih ⊢
        rw [ih]

theorem lookup_append_singleton {β : Type} (k : String) (v : β) (k2 : String) :
    ∀ (obj : List (String × β)),
    (obj ++ [(k, v)]).lookup k2 =
      match obj.lookup k2 with
      | some w => some w
      | none => if k2 = k then some v else none := by
  intro obj
  induction obj with
  | nil =>
    by_cases h : k2 = k
    · subst h; simp [List.lookup]
    · have hne : (k2 == k) = false := by simpa using h
      simp [List.lookup, hne, h]
  | cons p obj ih =>
    obtain ⟨a, b⟩ := p
    simp only [List.cons_append, List.lookup_cons]
    cases hab : k2 == a with
    | true => rfl
    | false => exact ih

theorem lookup_eq_none_of_not_any {β : Type} (k : String) : ∀ (obj : List (String × β)),
    obj.any (fun p => decide (p.1 = k)) = false → obj.lookup k = none := by
  intro obj
  induction obj with
  | nil => intro _; rfl
  | cons p obj ih =>
    obtain ⟨a, b⟩ := p
    intro h
    simp only [List.any_cons, Bool.or_eq_false_iff, decide_eq_false_iff_not] at h
    have hne : (k == a) = false := by simpa using fun e => h.1 e.symm
    simp only [List.lookup_cons, hne]
    exact ih h.2

theorem lookup_isSome_of_any {β : Type} (k : String) : ∀ (obj : List (String × β)),
    obj.any (fun p => decide (p.1 = k)) = true → (obj.lookup k).isSome = true := by
  intro obj
  induction obj with
  | nil => intro h; simp at h
  | cons p obj ih =>
    obtain ⟨a, b⟩ := p
    intro h
    simp only [List.any_cons, Bool.or_eq_true, decide_eq_true_eq] at h
    simp only [List.lookup_cons]
    cases hab : k == a with
    | true => rfl
    | false =>
      have : ¬ a = k := by
        intro e
        rw [e] at hab
        simp at hab
      rcases h with h | h
      · exact absurd h this
      · exact ih h

theorem lookup_setKey_same (obj : List (String × String)) (k v : String) :
    (setKey obj k v).lookup k = some v := by
  unfold setKey
  by_cases h : obj.any (fun p => decide (p.1 = k)) = true
  · rw [if_pos h, lookup_map_setValue, if_pos rfl]
    have := lookup_isSome_of_any k obj h
    cases hl : obj.lookup k with
    | none => rw [hl] at this; simp at this
    | some w => rfl
  · rw [if_neg h, lookup_append_singleton, lookup_eq_none_of_not_any k obj (Bool.eq_false_iff.mpr h)]
    simp

theorem lookup_setKey_other (obj : List (String × String)) (k v k2 : String) (h2 : k2 ≠ k) :
    (setKey obj k v).lookup k2 = obj.lookup k2 := by
  unfold setKey
  by_cases h : obj.any (fun p => decide (p.1 = k)) = true
  · rw [if_pos h, lookup_map_setValue, if_neg h2]
  · rw [if_neg h, lookup_append_singleton]
    cases obj.lookup k2 with
    | none => simp [h2]
    | some w => rfl

/-- C11: every successful `trackEvent` request appends exactly one event; the event
carries the `eventType` of the request and the id of the campaign, and its metadata is
the metadata of the request with `campaignName` and `casino` set to the name and casino
of the campaign row, whatever the request supplied for these two keys, every other key
keeping the value the request supplied. -/
theorem trackEvent_appends_event_with_merged_metadata (now : JsDate) (req : TrackRequest)
    (db : Db) (hok : (trackEvent now req db).1 = .ok) :
    ∃ (campaign : Campaign) (ev : Event),
      findActiveCampaign db (req.campaignId.getD 0) = some campaign ∧
      (trackEvent now req db).2.events = db.events ++ [ev] ∧
      req.eventType = some ev.eventType ∧
      req.campaignId = some ev.campaignId ∧
      ev.createdAt = now ∧
      ev.metadata.lookup "campaignName" = some campaign.name ∧
      ev.metadata.lookup "casino" = some campaign.casino ∧
      ∀ k, k ≠ "campaignName" → k ≠ "casino" →
        ev.metadata.lookup k = req.metadata.lookup k := by
  unfold trackEvent at hok ⊢
  by_cases hf : (falsyId req.campaignId || falsyStr req.eventType) = true
  · rw [if_pos hf] at hok
    simp at hok
  · rw [if_neg hf] at hok ⊢
    simp only [Bool.or_eq_true, not_or, Bool.not_eq_true] at hf
    have hid : req.campaignId = some (req.campaignId.getD 0) := by
      cases h : req.campaignId with
      | none => rw [h] at hf; simp [falsyId] at hf
      | some n => rfl
    have hty : req.eventType = some (req.eventType.getD "") := by
      cases h : req.eventType with
      | none => rw [h] at hf; simp [falsyStr] at hf
      | some n => rfl
    cases hfind : findActiveCampaign db (req.campaignId.getD 0) with
    | none =>
      simp only [hfind] at hok
      simp at hok
    | some campaign =>
      simp only [hfind]
      refine ⟨campaign,
        { campaignId := req.campaignId.getD 0, eventType := req.eventType.getD "",
          userAgent := req.userAgent, referrer := req.referrer,
          cookieData := req.cookieData.getD [], postbackData := none,
          metadata := setKey (setKey req.metadata "campaignName" campaign.name)
            "casino" campaign.casino,
          createdAt := now }, rfl, ?_, hty, hid, rfl, ?_, ?_, ?_⟩
      · by_cases ht : req.eventType.getD "" = "cookie_set"
        · simp only [ht, if_true, updateStats, insertEvent]
        · simp only [ht, if_false, insertEvent]
      · show (setKey (setKey req.metadata "campaignName" campaign.name) "casino"
          campaign.casino).lookup "campaignName" = _
        rw [lookup_setKey_other _ _ _ _ (by decide), lookup_setKey_same]
      · show (setKey (setKey req.metadata "campaignName" campaign.name) "casino"
          campaign.casino).lookup "casino" = _
        rw [lookup_setKey_same]
      · intro k h1 h2
        show (setKey (setKey req.metadata "campaignName" campaign.name) "casino"
          campaign.casino).lookup k = _
        rw [lookup_setKey_other _ _ _ _ h2, lookup_setKey_other _ _ _ _ h1]

/-- C11, witness: a `cookie_set` request for campaign 1 of the sample database whose
metadata carries a session id and a forged casino. -/
theorem trackEvent_appends_event_with_merged_metadata_witness :
    ∃ (campaign : Campaign) (ev : Event),
      findActiveCampaign sampleDb 1 = some campaign ∧
      (trackEvent jan15 { sampleTrack "cookie_set" with
          metadata := [("sessionId", "s1"), ("casino", "forged")] } sampleDb).2.events
        = sampleDb.events ++ [ev] ∧
      ev.metadata.lookup "casino" = some campaign.casino ∧
      ev.metadata.lookup "sessionId" = some "s1" := by
  obtain ⟨campaign, ev, h1, h2, _, _, _, _, h3, h4⟩ :=
    trackEvent_appends_event_with_merged_metadata jan15
      { sampleTrack "cookie_set" with metadata := [("sessionId", "s1"), ("casino", "forged")] }
      sampleDb (by decide)
  exact ⟨campaign, ev, h1, h2, h3, h4 "sessionId" (by decide) (by decide)⟩

/-! ## Conversion attribution (C12 to C15) -/

theorem findActiveCampaign_isSome (db : Db) (campaignId : Nat)
    (h : ∃ c ∈ db.campaigns, c.id = campaignId ∧ c.isActive = true) :
    ∃ campaign, findActiveCampaign db campaignId = some campaign := by
  cases hf : findActiveCampaign db campaignId with
  | some campaign => exact ⟨campaign, rfl⟩
  | none =>
    unfold findActiveCampaign at hf
    rw [List.find?_eq_none] at hf
    obtain ⟨c, hc, h1, h2⟩ := h
    have h3 := hf c hc
    simp only [decide_eq_true_eq] at h3
    exact absurd ⟨h1, h2⟩ h3

/-- A successful postback was valid, found its active campaign, inserted the event built
from the body and rewrote the counters of the campaign row. -/
theorem attributeConversion_of_ok (isISO8601 : String → Bool) (now : JsDate)
    (campaignId : Nat) (body : PostbackBody) (db : Db)
    (hok : (attributeConversion isISO8601 now campaignId body db).1 = .ok) :
    validPostback isISO8601 body = true ∧
    ∃ campaign, findActiveCampaign db campaignId = some campaign ∧
      (attributeConversion isISO8601 now campaignId body db).2.events = db.events ++
        [{ campaignId := campaignId, eventType := body.eventType.getD "",
           userAgent := body.userAgent, referrer := body.referer, cookieData := [],
           postbackData := some (eventData now body),
           metadata := [("campaignName", campaign.name), ("casino", campaign.casino)],
           createdAt := now }] := by
  unfold attributeConversion at hok ⊢
  by_cases hv : validPostback isISO8601 body = true
  · simp only [hv, Bool.not_true, Bool.false_eq_true, if_false] at hok ⊢
    cases hfind : findActiveCampaign db campaignId with
    | none =>
      simp only [hfind] at hok
      simp at hok
    | some campaign =>
      simp only [hfind]
      exact ⟨trivial, campaign, rfl, rfl⟩
  · simp [hv] at hok

theorem attributeConversion_success (isISO8601 : String → Bool) (now : JsDate)
    (campaignId : Nat) (body : PostbackBody) (db : Db)
    (hv : validPostback isISO8601 body = true)
    (hactive : ∃ c ∈ db.campaigns, c.id = campaignId ∧ c.isActive = true) :
    (attributeConversion isISO8601 now campaignId body db).1 = .ok := by
  obtain ⟨campaign, hfind⟩ := findActiveCampaign_isSome db campaignId hactive
  unfold attributeConversion
  simp only [hv, Bool.not_true, Bool.false_eq_true, if_false, hfind]

/-- C12: for every successful `attributeConversion` request, the campaigns table
afterwards is the table before in which the campaign of the request has `ftds` increased
by exactly 1 when `eventType` is `ftd` and `registrations` increased by exactly 1
otherwise, its other two counters and every other campaign being unchanged; this holds
for the SQLite handler and for the document-store handler, and the model method
`updateStats` adds 1 to the named counter only. -/
theorem attributeConversion_counter_frame (isISO8601 : String → Bool)
    (castNumber : JsVal → Option JsVal) (now : JsDate) (campaignId : Nat)
    (body : PostbackBody) (db : Db) (hN : (db.campaigns.map (·.id)).Nodup) :
    ((attributeConversion isISO8601 now campaignId body db).1 = .ok →
      (∃ c ∈ db.campaigns, c.id = campaignId) ∧
      (attributeConversion isISO8601 now campaignId body db).2.campaigns =
        db.campaigns.map (fun c =>
          if c.id = campaignId then
            (if body.eventType = some "ftd" then
              { c with stats := { cookieSets := c.stats.cookieSets,
                                  registrations := c.stats.registrations,
                                  ftds := c.stats.ftds + 1 } }
            else
              { c with stats := { cookieSets := c.stats.cookieSets,
                                  registrations := c.stats.registrations + 1,
                                  ftds := c.stats.ftds } })
          else c)) ∧
    ((attributeConversionDocStore isISO8601 castNumber now campaignId body db).1 = .ok →
      (∃ c ∈ db.campaigns, c.id = campaignId) ∧
      (attributeConversionDocStore isISO8601 castNumber now campaignId body db).2.campaigns =
        db.campaigns.map (fun c =>
          if c.id = campaignId then
            (if body.eventType = some "ftd" then
              { c with stats := { cookieSets := c.stats.cookieSets,
                                  registrations := c.stats.registrations,
                                  ftds := c.stats.ftds + 1 } }
            else
              { c with stats := { cookieSets := c.stats.cookieSets,
                                  registrations := c.stats.registrations + 1,
                                  ftds := c.stats.ftds } })
          else c)) ∧
    (∀ c : Campaign, c.updateStats "ftds" 1 =
      .ok { c with stats := { cookieSets := c.stats.cookieSets,
                              registrations := c.stats.registrations,
                              ftds := c.stats.ftds + 1 } }) ∧
    (∀ c : Campaign, c.updateStats "registrations" 1 =
      .ok { c with stats := { cookieSets := c.stats.cookieSets,
                              registrations := c.stats.registrations + 1,
                              ftds := c.stats.ftds } }) := by
  have hftd : ∀ (hv : validPostback isISO8601 body = true),
      (body.eventType.getD "" = "ftd" ↔ body.eventType = some "ftd") := by
    intro hv
    rcases validPostback_eventType isISO8601 body hv with h | h
    · constructor
      · intro e; rw [h] at e; exact absurd e (by decide)
      · intro e; rw [e]; rfl
    · constructor
      · intro _
        cases hb : body.eventType with
        | none => rw [hb] at h; exact absurd h (by decide)
        | some t => rw [hb] at h; simp only [Option.getD_some] at h; rw [h]
      · intro e; rw [e]; rfl
  refine ⟨?_, ?_, fun _ => rfl, fun _ => rfl⟩
  · intro hok
    rcases attributeConversion_effect isISO8601 now campaignId body db hN with
      ⟨h, _⟩ | ⟨_, hv, ⟨c, hc, hid, _⟩, _, h5⟩
    · exact absurd hok h
    · refine ⟨⟨c, hc, hid⟩, ?_⟩
      rw [h5]
      apply List.map_congr_left
      intro d _
      by_cases hd : d.id = campaignId
      · by_cases ht : body.eventType.getD "" = "ftd"
        · simp [hd, ht, (hftd hv).1 ht]
        · have : ¬ body.eventType = some "ftd" := fun e => ht ((hftd hv).2 e)
          simp [hd, ht, this]
      · simp [hd]
  · intro hok
    unfold attributeConversionDocStore at hok ⊢
    by_cases hv : validPostback isISO8601 body = true
    · simp only [hv, Bool.not_true, Bool.false_eq_true, if_false] at hok ⊢
      cases hfind : findById db campaignId with
      | none =>
        simp only [hfind] at hok
        simp at hok
      | some campaign =>
        simp only [hfind] at hok ⊢
        have hmem : campaign ∈ db.campaigns := List.mem_of_find?_eq_some hfind
        have hid : campaign.id = campaignId := by
          have := List.find?_some hfind
          simpa using this
        cases hcast : castNumber (orZero body.amount) with
        | none =>
          simp only [hcast] at hok
          simp at hok
        | some amount =>
          simp only [hcast] at hok ⊢
          refine ⟨⟨campaign, hmem, hid⟩, ?_⟩
          by_cases ht : body.eventType.getD "" = "ftd"
          · simp only [ht, if_true, Campaign.updateStats, saveCampaign, insertEvent]
            simp only [show ¬ ("ftds" = "cookieSets") by decide,
              show ¬ ("ftds" = "registrations") by decide, if_false, if_true]
            apply List.map_congr_left
            intro d hdm
            by_cases hd : d.id = campaignId
            · have : d = campaign := campaign_unique _ hN d campaign hdm hmem (by rw [hd, hid])
              subst this
              simp [hd, (hftd hv).1 ht]
            · have : ¬ d.id = campaign.id := by rw [hid]; exact hd
              simp [hd, this]
          · have hne : ¬ body.eventType = some "ftd" := fun e => ht ((hftd hv).2 e)
            simp only [ht, if_false, Campaign.updateStats, saveCampaign, insertEvent]
            simp only [show ¬ ("registrations" = "cookieSets") by decide, if_false, if_true]
            apply List.map_congr_left
            intro d hdm
            by_cases hd : d.id = campaignId
            · have : d = campaign := campaign_unique _ hN d campaign hdm hmem (by rw [hd, hid])
              subst this
              simp [hd, hne]
            · have : ¬ d.id = campaign.id := by rw [hid]; exact hd
              simp [hd, this]
    · simp [hv] at hok

/-- C12, witness: an `ftd` postback for campaign 1 of the sample database, through the
SQLite handler and through the document-store handler. -/
theorem attributeConversion_counter_frame_witness :
    (attributeConversion (fun _ => true) jan15 1 (samplePostback "ftd" none) sampleDb).2.campaigns
      = [{ id := 1, name := "spring", casino := "royal", isActive := true,
           stats := { cookieSets := 0, registrations := 0, ftds := 1 } }] ∧
    (attributeConversionDocStore (fun _ => true) keepNumbers jan15 1
        (samplePostback "ftd" none) sampleDb).2.campaigns
      = [{ id := 1, name := "spring", casino := "royal", isActive := true,
           stats := { cookieSets := 0, registrations := 0, ftds := 1 } }] :=
  ⟨((attributeConversion_counter_frame (fun _ => true) keepNumbers jan15 1
      (samplePostback "ftd" none) sampleDb (by decide)).1 (by decide)).2,
   ((attributeConversion_counter_frame (fun _ => true) keepNumbers jan15 1
      (samplePostback "ftd" none) sampleDb (by decide)).2.1 (by decide)).2⟩

theorem orZero_of_numeric (v : JsVal) (h : isNumeric v.toStr = true) : orZero (some v) = v := by
  cases v with
  | num n =>
    by_cases hn : n = 0
    · subst hn; rfl
    · unfold orZero
      split
      · rename_i heq; cases heq
      · rename_i heq; cases heq; exact absurd rfl hn
      · rename_i heq; cases heq
      · rename_i heq; cases heq; rfl
  | str s =>
    by_cases hs : s = ""
    · subst hs
      exact absurd h (by decide)
    · unfold orZero
      split
      · rename_i heq; cases heq
      · rename_i heq; cases heq
      · rename_i heq; cases heq; exact absurd rfl hs
      · rename_i heq; cases heq; rfl

/-- The fields of a valid body as the `eventData` object records them. -/
theorem eventData_of_valid (isISO8601 : String → Bool) (now : JsDate) (body : PostbackBody)
    (hv : validPostback isISO8601 body = true) :
    (body.amount = none → (eventData now body).amount = .num 0) ∧
    (body.currency = none → (eventData now body).currency = "USD") ∧
    (∀ v, body.amount = some v → (eventData now body).amount = v) ∧
    (∀ s, body.currency = some s → (eventData now body).currency = s) ∧
    body.playerId = some (eventData now body).playerId := by
  unfold validPostback at hv
  simp only [Bool.and_eq_true] at hv
  obtain ⟨⟨⟨⟨_, hp⟩, ha⟩, hc⟩, _⟩ := hv
  refine ⟨?_, ?_, ?_, ?_, ?_⟩
  · intro h
    simp only [eventData, h]
    rfl
  · intro h
    simp only [eventData, h]
    rfl
  · intro v h
    rw [h] at ha
    simp only [eventData, h]
    exact orZero_of_numeric v ha
  · intro s h
    rw [h] at hc
    simp only [decide_eq_true_eq] at hc
    have hne : s ≠ "" := by
      intro e
      rw [e] at hc
      exact absurd hc (by decide)
    simp [eventData, h, falsyStr, hne]
  · cases hpl : body.playerId with
    | none => rw [hpl] at hp; simp at hp
    | some p => simp [eventData, hpl]

/-- C13: for every postback the SQLite handler accepts, exactly one event is appended and
its `postbackData` has `amount = 0` when the body has no amount, `currency = "USD"` when
the body has no currency, the supplied amount and the supplied currency when the body
has them, and the supplied `playerId`. -/
theorem postback_data_defaults_and_supplied_values (isISO8601 : String → Bool)
    (now : JsDate) (campaignId : Nat) (body : PostbackBody) (db : Db)
    (hok : (attributeConversion isISO8601 now campaignId body db).1 = .ok) :
    ∃ (ev : Event) (pd : PostbackData),
      (attributeConversion isISO8601 now campaignId body db).2.events = db.events ++ [ev] ∧
      ev.postbackData = some pd ∧
      (body.amount = none → pd.amount = .num 0) ∧
      (body.currency = none → pd.currency = "USD") ∧
      (∀ v, body.amount = some v → pd.amount = v) ∧
      (∀ s, body.currency = some s → pd.currency = s) ∧
      body.playerId = some pd.playerId := by
  obtain ⟨hv, campaign, _, hev⟩ := attributeConversion_of_ok isISO8601 now campaignId body db hok
  exact ⟨_, eventData now body, hev, rfl, eventData_of_valid isISO8601 now body hv⟩

/-- C13, witness: an `ftd` postback for campaign 1 of the sample database without amount
and without currency. -/
theorem postback_data_defaults_and_supplied_values_witness :
    ∃ (ev : Event) (pd : PostbackData),
      (attributeConversion (fun _ => true) jan15 1 (samplePostback "ftd" none) sampleDb).2.events
        = sampleDb.events ++ [ev] ∧
      ev.postbackData = some pd ∧ pd.amount = .num 0 ∧ pd.currency = "USD" ∧
      pd.playerId = "p1" := by
  obtain ⟨ev, pd, h1, h2, h3, h4, _, _, h5⟩ :=
    postback_data_defaults_and_supplied_values (fun _ => true) jan15 1
      (samplePostback "ftd" none) sampleDb (by decide)
  refine ⟨ev, pd, h1, h2, h3 rfl, h4 rfl, ?_⟩
  have : some "p1" = some pd.playerId := h5
  exact (Option.some.inj this).symm

/-- C14: a valid postback to an active campaign, processed twice in succession by the
SQLite handler, is accepted both times, appends two event records that carry the same
event type and the same player, amount and currency, and increases `ftds` (type `ftd`)
or `registrations` (otherwise) of the campaign by 2, every other counter being kept. -/
theorem replayed_postback_counts_twice (isISO8601 : String → Bool) (now1 now2 : JsDate)
    (campaignId : Nat) (body : PostbackBody) (db : Db)
    (hN : (db.campaigns.map (·.id)).Nodup) (hv : validPostback isISO8601 body = true)
    (hactive : ∃ c ∈ db.campaigns, c.id = campaignId ∧ c.isActive = true) :
    (attributeConversion isISO8601 now1 campaignId body db).1 = .ok ∧
    (attributeConversion isISO8601 now2 campaignId body
      (attributeConversion isISO8601 now1 campaignId body db).2).1 = .ok ∧
    (∃ campaign ∈ db.campaigns,
      (attributeConversion isISO8601 now2 campaignId body
        (attributeConversion isISO8601 now1 campaignId body db).2).2.events = db.events ++
        [{ campaignId := campaignId, eventType := body.eventType.getD "",
           userAgent := body.userAgent, referrer := body.referer, cookieData := [],
           postbackData := some (eventData now1 body),
           metadata := [("campaignName", campaign.name), ("casino", campaign.casino)],
           createdAt := now1 },
         { campaignId := campaignId, eventType := body.eventType.getD "",
           userAgent := body.userAgent, referrer := body.referer, cookieData := [],
           postbackData := some (eventData now2 body),
           metadata := [("campaignName", campaign.name), ("casino", campaign.casino)],
           createdAt := now2 }]) ∧
    (attributeConversion isISO8601 now2 campaignId body
      (attributeConversion isISO8601 now1 campaignId body db).2).2.campaigns =
      db.campaigns.map (fun c =>
        if c.id = campaignId then
          (if body.eventType = some "ftd" then
            { c with stats := { cookieSets := c.stats.cookieSets,
                                registrations := c.stats.registrations,
                                ftds := c.stats.ftds + 2 } }
          else
            { c with stats := { cookieSets := c.stats.cookieSets,
                                registrations := c.stats.registrations + 2,
                                ftds := c.stats.ftds } })
        else c) := by
  have hok1 := attributeConversion_success isISO8601 now1 campaignId body db hv hactive
  rcases attributeConversion_effect isISO8601 now1 campaignId body db hN with
    ⟨h, _⟩ | ⟨_, _, _, _, hc1⟩
  · exact absurd hok1 h
  obtain ⟨_, campaign, hfind1, hev1⟩ :=
    attributeConversion_of_ok isISO8601 now1 campaignId body db hok1
  obtain ⟨hmem, hid, hact⟩ := findActiveCampaign_some db campaignId campaign hfind1
  generalize attributeConversion isISO8601 now1 campaignId body db = r1 at hok1 hc1 hev1 ⊢
  have hids : r1.2.campaigns.map (·.id) = db.campaigns.map (·.id) := by
    rw [hc1, List.map_map]
    apply List.map_congr_left
    intro c _
    simp only [Function.comp]
    split
    · split <;> rfl
    · rfl
  have hN2 : (r1.2.campaigns.map (·.id)).Nodup := by rw [hids]; exact hN
  have hmem2 : (if body.eventType.getD "" = "ftd" then
        { campaign with stats := { campaign.stats with ftds := campaign.stats.ftds + 1 } }
      else { campaign with stats :=
        { campaign.stats with registrations := campaign.stats.registrations + 1 } })
      ∈ r1.2.campaigns := by
    rw [hc1, List.mem_map]
    exact ⟨campaign, hmem, by simp [hid]⟩
  have hactive2 : ∃ c ∈ r1.2.campaigns, c.id = campaignId ∧ c.isActive = true := by
    refine ⟨_, hmem2, ?_, ?_⟩
    · split <;> exact hid
    · split <;> exact hact
  have hok2 := attributeConversion_success isISO8601 now2 campaignId body r1.2 hv hactive2
  rcases attributeConversion_effect isISO8601 now2 campaignId body r1.2 hN2 with
    ⟨h, _⟩ | ⟨_, _, _, _, hc2⟩
  · exact absurd hok2 h
  obtain ⟨_, campaign2, hfind2, hev2⟩ :=
    attributeConversion_of_ok isISO8601 now2 campaignId body r1.2 hok2
  obtain ⟨hmem3, hid3, _⟩ := findActiveCampaign_some r1.2 campaignId campaign2 hfind2
  have hsame : campaign2 = (if body.eventType.getD "" = "ftd" then
        { campaign with stats := { campaign.stats with ftds := campaign.stats.ftds + 1 } }
      else { campaign with stats :=
        { campaign.stats with registrations := campaign.stats.registrations + 1 } }) := by
    apply campaign_unique _ hN2 _ _ hmem3 hmem2
    rw [hid3]
    split <;> exact hid.symm
  have hname : campaign2.name = campaign.name ∧ campaign2.casino = campaign.casino := by
    rw [hsame]
    split <;> exact ⟨rfl, rfl⟩
  have hftd : (body.eventType.getD "" = "ftd" ↔ body.eventType = some "ftd") := by
    rcases validPostback_eventType isISO8601 body hv with h | h
    · constructor
      · intro e; rw [h] at e; exact absurd e (by decide)
      · intro e; rw [e]; rfl
    · constructor
      · intro _
        cases hb : body.eventType with
        | none => rw [hb] at h; exact absurd h (by decide)
        | some t => rw [hb] at h; simp only [Option.getD_some] at h; rw [h]
      · intro e; rw [e]; rfl
  refine ⟨hok1, hok2, ⟨campaign, hmem, ?_⟩, ?_⟩
  · rw [hev2, hev1, hname.1, hname.2]
    simp
  · rw [hc2, hc1, List.map_map]
    apply List.map_congr_left
    intro c _
    simp only [Function.comp]
    by_cases hc : c.id = campaignId
    · by_cases ht : body.eventType.getD "" = "ftd"
      · simp [hc, ht, hftd.1 ht]
      · have : ¬ body.eventType = some "ftd" := fun e => ht (hftd.2 e)
        simp [hc, ht, this]
    · simp [hc]

/-- C14, witness: the `ftd` postback of player `p1` replayed on campaign 1 of the sample
database. -/
theorem replayed_postback_counts_twice_witness :
    (attributeConversion (fun _ => true) feb3 1 (samplePostback "ftd" none)
      (attributeConversion (fun _ => true) jan15 1 (samplePostback "ftd" none)
        sampleDb).2).2.campaigns
      = [{ id := 1, name := "spring", casino := "royal", isActive := true,
           stats := { cookieSets := 0, registrations := 0, ftds := 2 } }] :=
  (replayed_postback_counts_twice (fun _ => true) jan15 feb3 1 (samplePostback "ftd" none)
    sampleDb (by decide) (by decide) (by decide)).2.2.2

/-- The SQLite postback handler answers a valid postback for an absent or inactive
campaign with 404 and leaves the database unchanged. -/
theorem attributeConversion_not_found (isISO8601 : String → Bool) (now : JsDate)
    (campaignId : Nat) (body : PostbackBody) (db : Db)
    (hv : validPostback isISO8601 body = true)
    (h : ∀ c ∈ db.campaigns, ¬ (c.id = campaignId ∧ c.isActive = true)) :
    attributeConversion isISO8601 now campaignId body db = (.notFound, db) := by
  unfold attributeConversion
  simp only [hv, Bool.not_true, Bool.false_eq_true, if_false,
    findActiveCampaign_none db campaignId h]

/-- The document-store postback handler answers a valid postback for an absent campaign
with 404 and leaves the database unchanged. -/
theorem attributeConversionDocStore_absent (isISO8601 : String → Bool)
    (castNumber : JsVal → Option JsVal) (now : JsDate) (campaignId : Nat)
    (body : PostbackBody) (db : Db) (hv : validPostback isISO8601 body = true)
    (h : ∀ c ∈ db.campaigns, c.id ≠ campaignId) :
    attributeConversionDocStore isISO8601 castNumber now campaignId body db
      = (.notFound, db) := by
  have hfind : findById db campaignId = none := by
    unfold findById
    rw [List.find?_eq_none]
    intro c hc
    simpa using h c hc
  unfold attributeConversionDocStore
  simp only [hv, Bool.not_true, Bool.false_eq_true, if_false, hfind]

/-- C15, the code at the failing input: for the inactive campaign 2 the SQLite handler
answers 404 and changes nothing, while the document-store handler answers 200, persists
an `ftd` event and raises `ftds` from 0 to 1. -/
theorem docStore_postback_accepts_inactive_campaign :
    attributeConversion (fun _ => true) jan15 2 (samplePostback "ftd" none) inactiveDb
      = (.notFound, inactiveDb) ∧
    (attributeConversionDocStore (fun _ => true) keepNumbers jan15 2
      (samplePostback "ftd" none) inactiveDb).1 = .ok ∧
    (attributeConversionDocStore (fun _ => true) keepNumbers jan15 2
      (samplePostback "ftd" none) inactiveDb).2.events.map (fun e => (e.campaignId, e.eventType))
      = [(2, "ftd")] ∧
    (attributeConversionDocStore (fun _ => true) keepNumbers jan15 2
      (samplePostback "ftd" none) inactiveDb).2.campaigns.map (fun c => (c.isActive, c.stats))
      = [(false, { cookieSets := 4, registrations := 1, ftds := 1 })] := by
  decide

/-! ## Real-time snapshot (C16, C17) -/

theorem lookup_setCount_same (obj : List (String × Nat)) (k : String) (v : Nat) :
    (setCount obj k v).lookup k = some v := by
  unfold setCount
  by_cases h : obj.any (fun p => decide (p.1 = k)) = true
  · rw [if_pos h, lookup_map_setValue, if_pos rfl]
    have := lookup_isSome_of_any k obj h
    cases hl : obj.lookup k with
    | none => rw [hl] at this; simp at this
    | some w => rfl
  · rw [if_neg h, lookup_append_singleton, lookup_eq_none_of_not_any k obj (Bool.eq_false_iff.mpr h)]
    simp

theorem lookup_setCount_other (obj : List (String × Nat)) (k : String) (v : Nat) (k2 : String)
    (h2 : k2 ≠ k) : (setCount obj k v).lookup k2 = obj.lookup k2 := by
  unfold setCount
  by_cases h : obj.any (fun p => decide (p.1 = k)) = true
  · rw [if_pos h, lookup_map_setValue, if_neg h2]
  · rw [if_neg h, lookup_append_singleton]
    cases obj.lookup k2 with
    | none => simp [h2]
    | some w => rfl

theorem lookup_foldl_setCount (k : String) (rows : List (String × Nat)) :
    ∀ (stats : List (String × Nat)),
      ((rows.foldl (fun stats event => setCount stats event.1 event.2) stats).lookup k
        = if k ∈ rows.map (·.1) then
            (rows.reverse.lookup k)
          else stats.lookup k) := by
  induction rows with
  | nil => intro stats; simp
  | cons r rows ih =>
    intro stats
    obtain ⟨a, b⟩ := r
    rw [List.foldl_cons, ih]
    by_cases hk : k ∈ rows.map (·.1)
    · have hk2 : k ∈ ((a, b) :: rows).map (·.1) := by
        rw [List.map_cons]; exact List.mem_cons_of_mem _ hk
      rw [if_pos hk, if_pos hk2, List.reverse_cons, lookup_append_singleton]
      rw [List.mem_map] at hk
      obtain ⟨⟨x, y⟩, hxy, e1⟩ := hk
      have : (rows.reverse.lookup k).isSome = true := by
        apply lookup_isSome_of_any
        rw [List.any_eq_true]
        exact ⟨(x, y), List.mem_reverse.mpr hxy, by simpa using e1⟩
      cases hl : rows.reverse.lookup k with
      | none => rw [hl] at this; simp at this
      | some w => rfl
    · rw [if_neg hk]
      by_cases ha : k = a
      · subst ha
        have hk2 : k ∈ ((k, b) :: rows).map (·.1) := by simp
        rw [if_pos hk2, lookup_setCount_same, List.reverse_cons, lookup_append_singleton]
        have : rows.reverse.lookup k = none := by
          apply lookup_eq_none_of_not_any
          rw [Bool.eq_false_iff]
          intro hany
          rw [List.any_eq_true] at hany
          obtain ⟨⟨x, y⟩, hxy, e1⟩ := hany
          exact hk (List.mem_map.mpr ⟨(x, y), List.mem_reverse.mp hxy, by simpa using e1⟩)
        rw [this]
        simp
      · have hk2 : ¬ k ∈ ((a, b) :: rows).map (·.1) := by
          simp only [List.map_cons, List.mem_cons, not_or]
          exact ⟨ha, hk⟩
        rw [if_neg hk2, lookup_setCount_other _ _ _ _ ha]

theorem groupCounts_keys (events : List Event) (k : String) :
    k ∈ (groupCounts events).map (·.1) ↔ ∃ e ∈ events, e.eventType = k := by
  unfold groupCounts
  simp only [List.map_map, List.mem_map, List.mem_dedup, Function.comp]
  constructor
  · rintro ⟨t, ⟨e, he, rfl⟩, rfl⟩
    exact ⟨e, he, rfl⟩
  · rintro ⟨e, he, rfl⟩
    exact ⟨e.eventType, ⟨e, he, rfl⟩, rfl⟩

/-- In every snapshot the three keys `cookieSets`, `registrations` and `ftds` are present,
and each of them is 0 unless some event in the scan has that very word as its event
type. -/
theorem realtimeSnapshot_counters (now : JsDate) (ms : Nat) (events : List Event) (k : String)
    (hk : k = "cookieSets" ∨ k = "registrations" ∨ k = "ftds") :
    ((realtimeSnapshot now ms events).lookup k).isSome = true ∧
    ((∀ e ∈ events, e.eventType ≠ k) → (realtimeSnapshot now ms events).lookup k = some 0) := by
  unfold realtimeSnapshot realtimeStats
  simp only
  rw [lookup_foldl_setCount]
  constructor
  · split
    · rename_i h
      rw [List.mem_map] at h
      obtain ⟨⟨x, y⟩, hxy, e1⟩ := h
      apply lookup_isSome_of_any
      rw [List.any_eq_true]
      exact ⟨(x, y), List.mem_reverse.mpr hxy, by simpa using e1⟩
    · rcases hk with h | h | h <;> subst h <;> rfl
  · intro hno
    have : ¬ k ∈ (groupCounts (eventsSince (toISOString (minus24Hours now) ms) events)).map
        (·.1) := by
      rw [groupCounts_keys]
      rintro ⟨e, he, e1⟩
      exact hno e (List.mem_of_mem_filter he) e1
    rw [if_neg this]
    rcases hk with h | h | h <;> subst h <;> rfl

/-- C16 (evaluation at the failing input).  One `cookie_set` event stamped
2024-01-16 08:00:00 and a call at 2024-01-16T09:00:00.000Z: the event lies within the
trailing 24 hours and passes the scan, yet the handler files its count under the key
`cookie_set`, the name of the event type, and `cookieSets` stays 0. -/
theorem realtime_counts_are_filed_under_event_type_keys :
    withinLast24Hours jan16 0 jan16Early ∧
    eventsSince (toISOString (minus24Hours jan16) 0) [sampleEvent "cookie_set" jan16Early]
      = [sampleEvent "cookie_set" jan16Early] ∧
    realtimeSnapshot jan16 0 [sampleEvent "cookie_set" jan16Early]
      = [("cookieSets", 0), ("registrations", 0), ("ftds", 0), ("cookie_set", 1)] ∧
    (realtimeSnapshot jan16 0 [sampleEvent "cookie_set" jan16Early]).lookup "cookieSets"
      = some 0 := by
  decide

/-- The counters `cookieSets`, `registrations` and `ftds` of a snapshot are 0 for every
log of `cookie_set`, `registration` and `ftd` events, whatever their number. -/
theorem realtimeSnapshot_counters_stay_zero (now : JsDate) (ms : Nat) (events : List Event)
    (htypes : ∀ e ∈ events,
      e.eventType = "cookie_set" ∨ e.eventType = "registration" ∨ e.eventType = "ftd") :
    (realtimeSnapshot now ms events).lookup "cookieSets" = some 0 ∧
    (realtimeSnapshot now ms events).lookup "registrations" = some 0 ∧
    (realtimeSnapshot now ms events).lookup "ftds" = some 0 := by
  refine ⟨(realtimeSnapshot_counters now ms events _ (Or.inl rfl)).2 ?_,
    (realtimeSnapshot_counters now ms events _ (Or.inr (Or.inl rfl))).2 ?_,
    (realtimeSnapshot_counters now ms events _ (Or.inr (Or.inr rfl))).2 ?_⟩ <;>
  · intro e he h
    rcases htypes e he with h1 | h1 | h1 <;> rw [h1] at h <;> revert h <;> decide

/-- The scan compares `created_at` with the cutoff as text: an event stamped on the
cutoff's own calendar day is left out even when its time of day is later than the
cutoff's, because the blank of `YYYY-MM-DD HH:MM:SS` sorts before the `T` of the ISO
string. -/
theorem realtime_scan_drops_events_of_the_cutoff_day :
    withinLast24Hours jan16 0 jan15 ∧
    eventsSince (toISOString (minus24Hours jan16) 0) [sampleEvent "registration" jan15] = [] := by
  decide

theorem digitChar_lt : ∀ a < 10, ∀ b < 10, a < b → Nat.digitChar a < Nat.digitChar b := by
  decide

theorem charList_cons_lt_cons (a : Char) (s t : List Char) (h : s < t) : a :: s < a :: t :=
  List.Lex.cons h

theorem charList_append_lt_append (p s t : List Char) (h : s < t) : p ++ s < p ++ t := by
  induction p with
  | nil => exact h
  | cons a p ih => exact charList_cons_lt_cons a _ _ ih

/-- Two-digit blocks order text as their numbers do. -/
theorem twoDigits_lt (a b : Nat) (ha : a < 100) (hb : b < 100) (s t : List Char)
    (h : a < b ∨ (a = b ∧ s < t)) :
    Nat.digitChar (a / 10) :: Nat.digitChar (a % 10) :: s
      < Nat.digitChar (b / 10) :: Nat.digitChar (b % 10) :: t := by
  rcases h with h | ⟨rfl, h⟩
  · by_cases h1 : a / 10 < b / 10
    · exact List.Lex.rel (digitChar_lt _ (by omega) _ (by omega) h1)
    · have e : a / 10 = b / 10 := by omega
      rw [e]
      exact charList_cons_lt_cons _ _ _
        (List.Lex.rel (digitChar_lt _ (by omega) _ (by omega) (by omega)))
  · exact charList_cons_lt_cons _ _ _ (charList_cons_lt_cons _ _ _ h)

theorem zeroPad2_data (n : Nat) (h : n < 100) :
    (zeroPad 2 n).data = [Nat.digitChar (n / 10), Nat.digitChar (n % 10)] :=
  padStart2_data n h

theorem zeroPad4_data (n : Nat) (h : n ≤ 9999) :
    (zeroPad 4 n).data = [Nat.digitChar (n / 100 / 10), Nat.digitChar (n / 100 % 10),
      Nat.digitChar (n % 100 / 10), Nat.digitChar (n % 100 % 10)] := by
  unfold zeroPad
  rw [String.data_append, ← String.length_data, toString_data]
  by_cases h1 : n < 10
  · have e1 : n / 100 = 0 := by omega
    have e2 : n % 100 / 10 = 0 := by omega
    have e3 : n % 100 % 10 = n := by omega
    rw [toDigits_lt_ten n h1, e1, e2, e3]
    rfl
  · by_cases h2 : n < 100
    · have e1 : n / 100 = 0 := by omega
      have e2 : n % 100 / 10 = n / 10 := by omega
      have e3 : n % 100 % 10 = n % 10 := by omega
      rw [toDigits_step n (by omega), toDigits_lt_ten (n / 10) (by omega), e1, e2, e3]
      rfl
    · by_cases h3 : n < 1000
      · have e1 : n / 100 / 10 = 0 := by omega
        have e2 : n % 100 / 10 = n / 10 % 10 := by omega
        have e3 : n % 100 % 10 = n % 10 := by omega
        have e4 : n / 100 % 10 = n / 10 / 10 := by omega
        rw [toDigits_step n (by omega), toDigits_step (n / 10) (by omega),
          toDigits_lt_ten (n / 10 / 10) (by omega), e1, e2, e3, e4]
        rfl
      · have e1 : n / 100 / 10 = n / 10 / 10 / 10 := by omega
        have e2 : n % 100 / 10 = n / 10 % 10 := by omega
        have e3 : n % 100 % 10 = n % 10 := by omega
        have e4 : n / 100 % 10 = n / 10 / 10 % 10 := by omega
        rw [toDigits_step n (by omega), toDigits_step (n / 10) (by omega),
          toDigits_step (n / 10 / 10) (by omega),
          toDigits_lt_ten (n / 10 / 10 / 10) (by omega), e1, e2, e3, e4]
        rfl

/-- An event stamped on a calendar day not later than the cutoff's day has a `created_at`
text that sorts strictly before the cutoff's ISO string. -/
theorem createdAtText_lt_toISOString (e c : JsDate) (ms : Nat)
    (he : e.Valid) (hc : c.Valid) (hey : e.fullYear ≤ 9999) (hcy : c.fullYear ≤ 9999)
    (h : e.fullYear < c.fullYear ∨ (e.fullYear = c.fullYear ∧
      (e.month < c.month ∨ (e.month = c.month ∧ e.date ≤ c.date)))) :
    (createdAtText e).data < (toISOString c ms).data := by
  obtain ⟨he1, he2, he3⟩ := he
  obtain ⟨hc1, hc2, hc3⟩ := hc
  unfold createdAtText toISOString
  simp only [String.data_append, zeroPad4_data _ hey, zeroPad4_data _ hcy,
    zeroPad2_data (e.month + 1) (by omega), zeroPad2_data (c.month + 1) (by omega),
    zeroPad2_data e.date (by omega), zeroPad2_data c.date (by omega),
    List.cons_append, List.nil_append, List.append_assoc]
  by_cases hy : e.fullYear = c.fullYear
  · have hm : e.month < c.month ∨ (e.month = c.month ∧ e.date ≤ c.date) := by omega
    rw [hy]
    refine charList_cons_lt_cons _ _ _ (charList_cons_lt_cons _ _ _
      (charList_cons_lt_cons _ _ _ (charList_cons_lt_cons _ _ _ ?_)))
    show ('-' :: _ : List Char) < '-' :: _
    refine charList_cons_lt_cons _ _ _ ?_
    apply twoDigits_lt _ _ (by omega) (by omega)
    by_cases hmm : e.month = c.month
    · refine Or.inr ⟨by omega, ?_⟩
      show ('-' :: _ : List Char) < '-' :: _
      refine charList_cons_lt_cons _ _ _ ?_
      apply twoDigits_lt _ _ (by omega) (by omega)
      by_cases hd : e.date = c.date
      · refine Or.inr ⟨hd, ?_⟩
        exact List.Lex.rel (by decide)
      · exact Or.inl (by omega)
    · exact Or.inl (by omega)
  · have hlt : e.fullYear < c.fullYear := by omega
    apply twoDigits_lt _ _ (by omega) (by omega)
    by_cases h100 : e.fullYear / 100 = c.fullYear / 100
    · refine Or.inr ⟨h100, ?_⟩
      apply twoDigits_lt _ _ (by omega) (by omega)
      exact Or.inl (by omega)
    · exact Or.inl (by omega)

theorem minus24Hours_valid (now : JsDate) (h : now.Valid) : (minus24Hours now).Valid := by
  obtain ⟨h1, h2, h3⟩ := h
  unfold minus24Hours
  by_cases hd : 1 < now.date
  · rw [if_pos hd]
    exact ⟨h1, by show 1 ≤ now.date - 1; omega, by show now.date - 1 ≤ 31; omega⟩
  · rw [if_neg hd]
    by_cases hm : 0 < now.month
    · rw [if_pos hm]
      refine ⟨by show now.month - 1 ≤ 11; omega, ?_, ?_⟩ <;>
      · show _ ≤ _
        simp only [daysInMonth]
        split_ifs <;> omega
    · rw [if_neg hm]
      exact ⟨by show 11 ≤ 11; omega, by show 1 ≤ 31; omega, by show 31 ≤ 31; omega⟩

theorem minus24Hours_fullYear_le (now : JsDate) : (minus24Hours now).fullYear ≤ now.fullYear := by
  unfold minus24Hours
  split_ifs
  · exact Nat.le_refl _
  · exact Nat.le_refl _
  · exact Nat.sub_le _ _

/-- An event older than the cutoff is left out of the scan. -/
theorem eventsSince_drops_older (now : JsDate) (ms : Nat) (e : Event)
    (hnow : now.Valid) (hny : now.fullYear ≤ 9999)
    (he : e.createdAt.Valid) (hey : e.createdAt.fullYear ≤ 9999)
    (hold : stampLt e.createdAt 0 (minus24Hours now) ms) :
    textGe (createdAtText e.createdAt) (toISOString (minus24Hours now) ms) = false := by
  unfold textGe
  have hly := minus24Hours_fullYear_le now
  have := createdAtText_lt_toISOString e.createdAt (minus24Hours now) ms he
    (minus24Hours_valid now hnow) hey (by omega)
    (by
      unfold stampLt at hold
      rcases hold with h | ⟨h1, h | ⟨h2, h | ⟨h3, _⟩⟩⟩
      · exact Or.inl h
      · exact Or.inr ⟨h1, Or.inl h⟩
      · exact Or.inr ⟨h1, Or.inr ⟨h2, by omega⟩⟩
      · exact Or.inr ⟨h1, Or.inr ⟨h2, by omega⟩⟩)
  simp only [decide_eq_false_iff_not, not_not]
  exact this

/-- C17.  When every event of the log is stamped no later than the call instant and none
is stamped within the trailing 24 hours, the snapshot is exactly
`{cookieSets: 0, registrations: 0, ftds: 0}`; and for every event log whatsoever the
keys `cookieSets`, `registrations` and `ftds` are all present in the snapshot. -/
theorem realtime_snapshot_zero_without_recent_events (now : JsDate) (ms : Nat)
    (events : List Event)
    (hnow : now.Valid) (hny : now.fullYear ≤ 9999)
    (hev : ∀ e ∈ events, e.createdAt.Valid ∧ e.createdAt.fullYear ≤ 9999)
    (hpast : ∀ e ∈ events, ¬ stampLt now ms e.createdAt 0)
    (hnone : ∀ e ∈ events, ¬ withinLast24Hours now ms e.createdAt) :
    realtimeSnapshot now ms events = [("cookieSets", 0), ("registrations", 0), ("ftds", 0)] ∧
    ∀ (log : List Event) (at_ : JsDate) (atMs : Nat),
      ((realtimeSnapshot at_ atMs log).lookup "cookieSets").isSome = true ∧
      ((realtimeSnapshot at_ atMs log).lookup "registrations").isSome = true ∧
      ((realtimeSnapshot at_ atMs log).lookup "ftds").isSome = true := by
  constructor
  · have hempty : eventsSince (toISOString (minus24Hours now) ms) events = [] := by
      unfold eventsSince
      rw [List.filter_eq_nil_iff]
      intro e he
      have hold : stampLt e.createdAt 0 (minus24Hours now) ms := by
        by_contra hcon
        exact hnone e he ⟨hcon, hpast e he⟩
      rw [eventsSince_drops_older now ms e hnow hny (hev e he).1 (hev e he).2 hold]
      decide
    unfold realtimeSnapshot
    simp only [hempty]
    rfl
  · intro log at_ atMs
    exact ⟨(realtimeSnapshot_counters at_ atMs log _ (Or.inl rfl)).1,
      (realtimeSnapshot_counters at_ atMs log _ (Or.inr (Or.inl rfl))).1,
      (realtimeSnapshot_counters at_ atMs log _ (Or.inr (Or.inr rfl))).1⟩

/-- C17, witness: a call on 3 February 2024 over a log whose events are all of
15 January 2024. -/
theorem realtime_snapshot_zero_without_recent_events_witness :
    realtimeSnapshot feb3 0 sampleEvents
      = [("cookieSets", 0), ("registrations", 0), ("ftds", 0)] ∧
    ∀ (log : List Event) (at_ : JsDate) (atMs : Nat),
      ((realtimeSnapshot at_ atMs log).lookup "cookieSets").isSome = true ∧
      ((realtimeSnapshot at_ atMs log).lookup "registrations").isSome = true ∧
      ((realtimeSnapshot at_ atMs log).lookup "ftds").isSome = true :=
  realtime_snapshot_zero_without_recent_events feb3 0 sampleEvents (by decide) (by decide)
    (by decide) (by decide) (by decide)

/-! ## Overview report (C18) -/

theorem foldl_overviewCount (events : List Event) : ∀ (acc : Acc),
    (events.foldl overviewCount acc).cookieSets
      = acc.cookieSets + events.countP (fun e => e.eventType = "cookie_set") ∧
    (events.foldl overviewCount acc).registrations
      = acc.registrations + events.countP (fun e => e.eventType = "registration") ∧
    (events.foldl overviewCount acc).ftds
      = acc.ftds + events.countP (fun e => e.eventType = "ftd") ∧
    (events.foldl overviewCount acc).totalAmount
      = (events.filter (fun e => e.eventType = "ftd")).foldl
          (fun acc e => jsAdd acc (orZero (e.postbackData.map (·.amount)))) acc.totalAmount := by
  induction events with
  | nil => intro acc; simp
  | cons e events ih =>
    intro acc
    rw [List.foldl_cons]
    obtain ⟨h1, h2, h3, h4⟩ := ih (overviewCount acc e)
    rw [h1, h2, h3, h4]
    unfold overviewCount
    by_cases c1 : e.eventType = "cookie_set"
    · have c2 : e.eventType ≠ "registration" := by rw [c1]; decide
      have c3 : e.eventType ≠ "ftd" := by rw [c1]; decide
      simp [c1, c2, c3, List.countP_cons, List.filter_cons]
      omega
    · by_cases c2 : e.eventType = "registration"
      · have c3 : e.eventType ≠ "ftd" := by rw [c2]; decide
        simp [c1, c2, c3, List.countP_cons, List.filter_cons]
        omega
      · by_cases c3 : e.eventType = "ftd"
        · simp [c1, c2, c3, List.countP_cons, List.filter_cons]
          omega
        · simp [c1, c2, c3, List.countP_cons, List.filter_cons]

theorem foldl_accSummary (reports : List CampaignSummary) : ∀ (acc : Acc),
    (reports.foldl accSummary acc).cookieSets
      = acc.cookieSets + (reports.map (·.stats.cookieSets)).sum ∧
    (reports.foldl accSummary acc).registrations
      = acc.registrations + (reports.map (·.stats.registrations)).sum ∧
    (reports.foldl accSummary acc).ftds
      = acc.ftds + (reports.map (·.stats.ftds)).sum ∧
    (reports.foldl accSummary acc).totalAmount
      = reports.foldl (fun a r => jsAdd a r.stats.totalAmount) acc.totalAmount := by
  induction reports with
  | nil => intro acc; simp
  | cons r reports ih =>
    intro acc
    rw [List.foldl_cons]
    obtain ⟨h1, h2, h3, h4⟩ := ih (accSummary acc r)
    rw [h1, h2, h3, h4]
    simp only [accSummary, List.map_cons, List.sum_cons, List.foldl_cons]
    refine ⟨by omega, by omega, by omega, trivial⟩

theorem foldl_numeric_summaries (reports : List CampaignSummary) : ∀ (acc : Int),
    (∀ r ∈ reports, ∃ n, r.stats.totalAmount = .num n) →
    ∃ n, reports.foldl (fun a r => jsAdd a r.stats.totalAmount) (.num acc) = .num n ∧
      ∀ amounts : List Int, reports.map (·.stats.totalAmount) = amounts.map JsVal.num →
        n = acc + amounts.sum := by
  induction reports with
  | nil =>
    intro acc _
    refine ⟨acc, rfl, ?_⟩
    intro amounts h
    cases amounts with
    | nil => simp
    | cons a t => simp at h
  | cons r reports ih =>
    intro acc h
    obtain ⟨m, hm⟩ := h r (List.mem_cons_self _ _)
    obtain ⟨n, hn, hsum⟩ := ih (acc + m) (fun x hx => h x (List.mem_cons_of_mem _ hx))
    refine ⟨n, ?_, ?_⟩
    · rw [List.foldl_cons, hm]
      exact hn
    · intro amounts hmap
      cases amounts with
      | nil => simp at hmap
      | cons a t =>
        simp only [List.map_cons, List.cons.injEq] at hmap
        obtain ⟨ha, ht⟩ := hmap
        rw [hm] at ha
        injection ha with ha
        rw [hsum t ht, List.sum_cons, ← ha]
        ring

/-- The overview lists exactly the active campaigns; each entry carries the per-type counts
of the campaign's events in the window and, as `totalAmount`, the accumulation with
JavaScript `+` of the amounts of its `ftd` events in the window, which is their
arithmetic sum when those amounts are numbers; the counts of `grandTotals` are the sums
over the entries, its rates are the rate formula on those sums, and its `totalAmount` is
the number that is the sum of the entries' amounts when these are numbers. -/
theorem overview_counts_are_event_counts (inWindow : JsDate → Bool) (db : Db) :
    (overviewReport inWindow db).campaigns.map (fun r => (r.id, r.name, r.casino))
      = (activeCampaigns db).map (fun c => (c.id, c.name, c.casino)) ∧
    (∀ c, c ∈ activeCampaigns db ↔ (c ∈ db.campaigns ∧ c.isActive = true)) ∧
    (∀ r ∈ (overviewReport inWindow db).campaigns,
      r.stats.cookieSets
        = (windowScan inWindow db r.id).countP (fun e => e.eventType = "cookie_set") ∧
      r.stats.registrations
        = (windowScan inWindow db r.id).countP (fun e => e.eventType = "registration") ∧
      r.stats.ftds = (windowScan inWindow db r.id).countP (fun e => e.eventType = "ftd") ∧
      r.stats.totalAmount = accumulateAmounts (windowScan inWindow db r.id) ∧
      ((∀ e ∈ windowScan inWindow db r.id, e.eventType = "ftd" →
          ∃ n, orZero (e.postbackData.map (·.amount)) = .num n) →
        r.stats.totalAmount = .num (((windowScan inWindow db r.id).filter
          (fun e => e.eventType = "ftd")).map numericAmount).sum) ∧
      r.conversionRates = conversionRates r.stats.cookieSets r.stats.registrations r.stats.ftds) ∧
    (overviewReport inWindow db).grandTotals.cookieSets
      = ((overviewReport inWindow db).campaigns.map (·.stats.cookieSets)).sum ∧
    (overviewReport inWindow db).grandTotals.registrations
      = ((overviewReport inWindow db).campaigns.map (·.stats.registrations)).sum ∧
    (overviewReport inWindow db).grandTotals.ftds
      = ((overviewReport inWindow db).campaigns.map (·.stats.ftds)).sum ∧
    (overviewReport inWindow db).grandTotals.conversionRates
      = conversionRates (overviewReport inWindow db).grandTotals.cookieSets
          (overviewReport inWindow db).grandTotals.registrations
          (overviewReport inWindow db).grandTotals.ftds ∧
    (∀ amounts : List Int,
      (overviewReport inWindow db).campaigns.map (·.stats.totalAmount) = amounts.map JsVal.num →
      (overviewReport inWindow db).grandTotals.totalAmount = .num amounts.sum) := by
  refine ⟨?_, ?_, ?_, ?_, ?_, ?_, rfl, ?_⟩
  · simp [overviewReport, campaignSummary, List.map_map, Function.comp]
  · intro c
    simp [activeCampaigns, List.mem_filter]
  · intro r hr
    simp only [overviewReport, List.mem_map] at hr
    obtain ⟨c, _, rfl⟩ := hr
    simp only [show (campaignSummary c (windowScan inWindow db c.id)).id = c.id from rfl]
    obtain ⟨h1, h2, h3, h4⟩ := foldl_overviewCount (windowScan inWindow db c.id)
      { cookieSets := 0, registrations := 0, ftds := 0, totalAmount := .num 0 }
    have hamt : (campaignSummary c (windowScan inWindow db c.id)).stats.totalAmount
        = accumulateAmounts (windowScan inWindow db c.id) := h4
    refine ⟨?_, ?_, ?_, hamt, ?_, rfl⟩
    · show (List.foldl overviewCount _ _).cookieSets = _
      rw [h1]; simp
    · show (List.foldl overviewCount _ _).registrations = _
      rw [h2]; simp
    · show (List.foldl overviewCount _ _).ftds = _
      rw [h3]; simp
    · intro hnum
      show (campaignSummary c (windowScan inWindow db c.id)).stats.totalAmount = _
      rw [hamt]
      exact accumulateAmounts_of_numeric _ hnum
  · obtain ⟨h1, _, _, _⟩ := foldl_accSummary (overviewReport inWindow db).campaigns
      { cookieSets := 0, registrations := 0, ftds := 0, totalAmount := .num 0 }
    refine h1.trans ?_
    simp
  · obtain ⟨_, h2, _, _⟩ := foldl_accSummary (overviewReport inWindow db).campaigns
      { cookieSets := 0, registrations := 0, ftds := 0, totalAmount := .num 0 }
    refine h2.trans ?_
    simp
  · obtain ⟨_, _, h3, _⟩ := foldl_accSummary (overviewReport inWindow db).campaigns
      { cookieSets := 0, registrations := 0, ftds := 0, totalAmount := .num 0 }
    refine h3.trans ?_
    simp
  · intro amounts hmap
    obtain ⟨_, _, _, h4⟩ := foldl_accSummary (overviewReport inWindow db).campaigns
      { cookieSets := 0, registrations := 0, ftds := 0, totalAmount := .num 0 }
    have hnum : ∀ r ∈ (overviewReport inWindow db).campaigns, ∃ n, r.stats.totalAmount = .num n := by
      intro r hr
      have : r.stats.totalAmount ∈ amounts.map JsVal.num := by
        rw [← hmap]
        exact List.mem_map.mpr ⟨r, hr, rfl⟩
      obtain ⟨n, _, hn⟩ := List.mem_map.mp this
      exact ⟨n, hn.symm⟩
    obtain ⟨n, hn, hsum⟩ := foldl_numeric_summaries (overviewReport inWindow db).campaigns 0 hnum
    have h4b : (overviewReport inWindow db).grandTotals.totalAmount
        = List.foldl (fun a r => jsAdd a r.stats.totalAmount) (.num 0)
            (overviewReport inWindow db).campaigns := h4
    rw [h4b, hn, hsum amounts hmap]
    simp

/-- The overview of a database with two active campaigns and an inactive one: the active
ones are listed, the latest first, with their counts and numeric amount sums, and
`grandTotals` adds them up. -/
theorem overview_of_three_campaigns :
    (overviewReport (fun _ => true) threeCampaignDb).campaigns.map
        (fun r => (r.id, r.stats.cookieSets, r.stats.registrations, r.stats.ftds,
          r.stats.totalAmount))
      = [(3, 0, 1, 1, JsVal.num 25), (1, 1, 0, 1, JsVal.num 50)] ∧
    ((overviewReport (fun _ => true) threeCampaignDb).grandTotals.cookieSets,
     (overviewReport (fun _ => true) threeCampaignDb).grandTotals.registrations,
     (overviewReport (fun _ => true) threeCampaignDb).grandTotals.ftds,
     (overviewReport (fun _ => true) threeCampaignDb).grandTotals.totalAmount)
      = (1, 1, 2, JsVal.num 75) := by
  decide

/-- C18, the code at the failing input: after two valid `ftd` postbacks with the amounts
`"50"` and `"25"` for the one active campaign, the overview lists that campaign with two
ftds and the `totalAmount` string `"05025"`, and `grandTotals.totalAmount` is the string
`"005025"`, not the sum 75. -/
theorem overview_amounts_concatenate_strings :
    (overviewReport (fun _ => true) (run (fun _ => true) sampleDb stringAmountCalls)).campaigns.map
        (fun r => (r.id, r.stats.ftds, r.stats.totalAmount))
      = [(1, 2, JsVal.str "05025")] ∧
    (overviewReport (fun _ => true)
        (run (fun _ => true) sampleDb stringAmountCalls)).grandTotals.ftds = 2 ∧
    (overviewReport (fun _ => true)
        (run (fun _ => true) sampleDb stringAmountCalls)).grandTotals.totalAmount
      = JsVal.str "005025" := by
  decide

/-! ## Report window (C19) -/

theorem daysInMonth_bounds (y m : Nat) : 28 ≤ daysInMonth y m ∧ daysInMonth y m ≤ 31 := by
  unfold daysInMonth
  split_ifs <;> omega

theorem daysBeforeMonth_succ (y m : Nat) :
    daysBeforeMonth y (m + 1) = daysBeforeMonth y m + daysInMonth y m := by
  unfold daysBeforeMonth
  rw [List.range_succ, List.map_append, List.sum_append]
  simp

theorem daysBeforeMonth_twelve (y : Nat) :
    daysBeforeMonth y 12 = if isLeapYear y then 366 else 365 := by
  unfold daysBeforeMonth
  have hr : List.range 12 = [0, 1, 2, 3, 4, 5, 6, 7, 8, 9, 10, 11] := by decide
  rw [hr]
  cases hl : isLeapYear y <;> simp [daysInMonth, hl]

theorem daysBeforeYear_succ (y : Nat) :
    daysBeforeYear (y + 1) = daysBeforeYear y + daysBeforeMonth y 12 := by
  rw [daysBeforeMonth_twelve]
  have hleap : isLeapYear y = true ↔ ((y % 4 = 0 ∧ y % 100 ≠ 0) ∨ y % 400 = 0) := by
    simp [isLeapYear]
  have a4 : (y + 1 + 3) / 4 = (y + 3) / 4 + (if y % 4 = 0 then 1 else 0) := by
    split_ifs <;> omega
  have a100 : (y + 1 + 99) / 100 = (y + 99) / 100 + (if y % 100 = 0 then 1 else 0) := by
    split_ifs <;> omega
  have a400 : (y + 1 + 399) / 400 = (y + 399) / 400 + (if y % 400 = 0 then 1 else 0) := by
    split_ifs <;> omega
  have hle : (y + 99) / 100 ≤ (y + 3) / 4 := by omega
  have d1 : y % 400 = 0 → y % 100 = 0 := by omega
  have d2 : y % 100 = 0 → y % 4 = 0 := by omega
  unfold daysBeforeYear
  rw [a4, a100, a400]
  generalize (y + 3) / 4 = q4 at hle ⊢
  generalize (y + 99) / 100 = q100 at hle ⊢
  generalize (y + 399) / 400 = q400
  by_cases hl : isLeapYear y = true
  · rw [if_pos hl]
    have h := hleap.mp hl
    by_cases h4 : y % 4 = 0 <;> by_cases h100 : y % 100 = 0 <;> by_cases h400 : y % 400 = 0 <;>
      simp only [h4, h100, h400, if_true, if_false] <;> omega
  · rw [if_neg hl]
    have h : ¬ ((y % 4 = 0 ∧ y % 100 ≠ 0) ∨ y % 400 = 0) := fun h2 => hl (hleap.mpr h2)
    by_cases h4 : y % 4 = 0 <;> by_cases h100 : y % 100 = 0 <;> by_cases h400 : y % 400 = 0 <;>
      simp only [h4, h100, h400, if_true, if_false] <;> omega

/-- The loop of `setDate` keeps the day number of the requested day, lands on a day of
the calendar and keeps the time of day. -/
theorem setDateAux_spec : ∀ (fuel : Nat) (d : JsDate) (day : Int),
    d.month ≤ 11 → 1 - day ≤ fuel → 1 - day ≤ 28 * (12 * (d.fullYear : Int) + d.month) →
    day ≤ daysInMonth d.fullYear d.month →
    dayNumber (setDateAux fuel d day)
      = (daysBeforeYear d.fullYear : Int) + daysBeforeMonth d.fullYear d.month + day ∧
    (setDateAux fuel d day).OnCalendar ∧
    (setDateAux fuel d day).hours = d.hours ∧
    (setDateAux fuel d day).minutes = d.minutes ∧
    (setDateAux fuel d day).seconds = d.seconds := by
  intro fuel
  induction fuel with
  | zero =>
    intro d day hm hf _ hdim
    have hday : 1 ≤ day := by omega
    have hcast : ((day.toNat : Nat) : Int) = day := Int.toNat_of_nonneg (by omega)
    refine ⟨?_, ⟨hm, ?_, ?_⟩, rfl, rfl, rfl⟩
    · show ((daysBeforeYear d.fullYear : Nat) : Int) + daysBeforeMonth d.fullYear d.month
        + (day.toNat : Nat) = _
      rw [hcast]
    · show 1 ≤ day.toNat
      omega
    · show day.toNat ≤ daysInMonth d.fullYear d.month
      omega
  | succ fuel ih =>
    intro d day hm hf hN hdim
    unfold setDateAux
    by_cases hday : 1 ≤ day
    · rw [if_pos hday]
      have hcast : ((day.toNat : Nat) : Int) = day := Int.toNat_of_nonneg (by omega)
      refine ⟨?_, ⟨hm, ?_, ?_⟩, rfl, rfl, rfl⟩
      · show ((daysBeforeYear d.fullYear : Nat) : Int) + daysBeforeMonth d.fullYear d.month
          + (day.toNat : Nat) = _
        rw [hcast]
      · show 1 ≤ day.toNat
        omega
      · show day.toNat ≤ daysInMonth d.fullYear d.month
        omega
    · rw [if_neg hday]
      by_cases hpos : 0 < d.month
      · simp only [hpos, if_true]
        have hb := daysInMonth_bounds d.fullYear (d.month - 1)
        obtain ⟨h1, h2, h3, h4, h5⟩ := ih
          { d with fullYear := d.fullYear, month := d.month - 1 }
          (day + daysInMonth d.fullYear (d.month - 1))
          (by show d.month - 1 ≤ 11; omega) (by omega)
          (by show _ ≤ 28 * (12 * (d.fullYear : Int) + ((d.month - 1 : Nat) : Int)); omega)
          (by show _ ≤ ((daysInMonth d.fullYear (d.month - 1) : Nat) : Int); omega)
        refine ⟨?_, h2, h3, h4, h5⟩
        rw [h1]
        show ((daysBeforeYear d.fullYear : Nat) : Int) + daysBeforeMonth d.fullYear (d.month - 1)
          + (day + daysInMonth d.fullYear (d.month - 1)) = _
        have hs := daysBeforeMonth_succ d.fullYear (d.month - 1)
        have hm1 : d.month - 1 + 1 = d.month := by omega
        rw [hm1] at hs
        rw [hs]
        push_cast
        ring
      · simp only [hpos, if_false]
        have hm0 : d.month = 0 := by omega
        have hy : 1 ≤ d.fullYear := by
          rw [hm0] at hN
          omega
        have hb := daysInMonth_bounds (d.fullYear - 1) 11
        obtain ⟨h1, h2, h3, h4, h5⟩ := ih
          { d with fullYear := d.fullYear - 1, month := 11 }
          (day + daysInMonth (d.fullYear - 1) 11)
          (by show 11 ≤ 11; omega) (by omega)
          (by show _ ≤ 28 * (12 * ((d.fullYear - 1 : Nat) : Int) + ((11 : Nat) : Int)); omega)
          (by show _ ≤ ((daysInMonth (d.fullYear - 1) 11 : Nat) : Int); omega)
        refine ⟨?_, h2, h3, h4, h5⟩
        rw [h1]
        show ((daysBeforeYear (d.fullYear - 1) : Nat) : Int) + daysBeforeMonth (d.fullYear - 1) 11
          + (day + daysInMonth (d.fullYear - 1) 11) = _
        have hs := daysBeforeMonth_succ (d.fullYear - 1) 11
        have hys := daysBeforeYear_succ (d.fullYear - 1)
        have hy1 : d.fullYear - 1 + 1 = d.fullYear := by omega
        rw [hy1] at hys
        have hz : daysBeforeMonth d.fullYear d.month = 0 := by
          rw [hm0]
          rfl
        rw [hys, hs, hz]
        push_cast
        ring

/-- The call `start.setDate(start.getDate() - 30)` moves a date of the calendar, from year
1 on, 30 days back and keeps the time of day. -/
theorem setDate_thirty_days_back (now : JsDate) (hnow : now.OnCalendar) (hy : 1 ≤ now.fullYear) :
    dayNumber (setDate now (now.date - 30)) = dayNumber now - 30 ∧
    (setDate now (now.date - 30)).OnCalendar ∧
    (setDate now (now.date - 30)).hours = now.hours ∧
    (setDate now (now.date - 30)).minutes = now.minutes ∧
    (setDate now (now.date - 30)).seconds = now.seconds := by
  obtain ⟨hm, hd1, hd2⟩ := hnow
  have hb := daysInMonth_bounds now.fullYear now.month
  obtain ⟨h1, h2, h3, h4, h5⟩ := setDateAux_spec (1 - ((now.date : Int) - 30)).toNat now
    ((now.date : Int) - 30) hm (by omega) (by omega) (by omega)
  refine ⟨?_, h2, h3, h4, h5⟩
  unfold setDate
  rw [h1]
  unfold dayNumber
  ring

/-- The block `// Set date range` on its own.  When `startDate` and `endDate` are both
supplied (non-empty) and parse as dates, the block leaves the ISO texts of these two dates.
When either of them is absent or empty, whatever the other one is, it leaves two `Date`
objects: the call instant and the instant 30 calendar days before it at the same time of
day. -/
theorem report_window_bounds (parseDate : String → Option (JsDate × Nat)) (now : JsDate)
    (nowMs : Nat) (hnow : now.OnCalendar) (hy : 1 ≤ now.fullYear) :
    (∀ (startDate endDate : String) (start end_ : JsDate × Nat),
      startDate ≠ "" → endDate ≠ "" →
      parseDate startDate = some start → parseDate endDate = some end_ →
      dateRange parseDate now nowMs (some startDate) (some endDate)
        = .ok (.isoText (toISOString start.1 start.2), .isoText (toISOString end_.1 end_.2))) ∧
    (∀ (startDate endDate : Option String),
      (falsyStr startDate = true ∨ falsyStr endDate = true) →
      ∃ start : JsDate,
        dateRange parseDate now nowMs startDate endDate
          = .ok (.dateObject start nowMs, .dateObject now nowMs) ∧
        dayNumber start = dayNumber now - 30 ∧ start.OnCalendar ∧
        start.hours = now.hours ∧ start.minutes = now.minutes ∧ start.seconds = now.seconds) ∧
    (∀ (supplied : String),
      dateRange parseDate now nowMs (some supplied) none = dateRange parseDate now nowMs none none ∧
      dateRange parseDate now nowMs none (some supplied) = dateRange parseDate now nowMs none none) := by
  refine ⟨?_, ?_, ?_⟩
  · intro startDate endDate start end_ hs he hps hpe
    unfold dateRange
    simp [falsyStr, hs, he, hps, hpe]
  · intro startDate endDate hfalsy
    refine ⟨setDate now (now.date - 30), ?_, setDate_thirty_days_back now hnow hy⟩
    unfold dateRange
    rcases hfalsy with h | h <;> simp [h]
  · intro supplied
    constructor
    · unfold dateRange
      simp [falsyStr]
    · unfold dateRange
      simp [falsyStr]

/-- The block `// Set date range` at a call on 1 March 2023 with both dates supplied,
with only `startDate` supplied, and with none. -/
theorem report_window_bounds_witness :
    (dateRange parseJanuary mar1 0 (some "2024-01-01") (some "2024-01-31")
      = .ok (.isoText "2024-01-01T00:00:00.000Z", .isoText "2024-01-31T00:00:00.000Z")) ∧
    (dateRange parseJanuary mar1 0 (some "2024-01-01") none
      = .ok (.dateObject { mar1 with month := 0, date := 30 } 0, .dateObject mar1 0)) ∧
    (∃ start : JsDate,
      dateRange parseJanuary mar1 0 none none = .ok (.dateObject start 0, .dateObject mar1 0) ∧
      dayNumber start = dayNumber mar1 - 30 ∧ start.OnCalendar ∧
      start.hours = mar1.hours ∧ start.minutes = mar1.minutes ∧ start.seconds = mar1.seconds) :=
  ⟨by decide, by decide,
    (report_window_bounds parseJanuary mar1 0 (by decide) (by decide)).2.1 none none
      (Or.inl rfl)⟩

/-! ### The window scan and the answer of the handlers -/

theorem mapM_ok {α β : Type} (f : α → β) : ∀ l : List α,
    l.mapM (fun a => (Except.ok (f a) : Except String β)) = .ok (l.map f) := by
  intro l
  induction l with
  | nil => rfl
  | cons a l ih =>
    rw [List.mapM_cons, ih]
    rfl

/-- A request for the report of an active campaign with both dates supplied is answered
with status 200: the `dateRange` holds the ISO texts of the two parsed instants, and the
report is made of the events of the campaign whose stored `created_at` text lies between
these two texts. -/
theorem campaignReportHandler_of_window (parseDate : String → Option (JsDate × Nat))
    (now : JsDate) (nowMs : Nat) (db : Db) (campaignId : Nat) (period : String)
    (startDate endDate : String) (start end_ : JsDate × Nat)
    (hactive : (findActiveCampaign db campaignId).isSome = true)
    (hs : startDate ≠ "") (he : endDate ≠ "")
    (hps : parseDate startDate = some start) (hpe : parseDate endDate = some end_) :
    ∃ events, campaignWindowScan db campaignId (.isoText (toISOString start.1 start.2))
        (.isoText (toISOString end_.1 end_.2)) = .ok events ∧
      (∀ e, e ∈ events ↔ (e ∈ db.events ∧ e.campaignId = campaignId ∧
        textBetween (createdAtText e.createdAt) (toISOString start.1 start.2)
          (toISOString end_.1 end_.2) = true)) ∧
      campaignReportHandler parseDate now nowMs db campaignId period (some startDate)
          (some endDate)
        = .report (.isoText (toISOString start.1 start.2))
            (.isoText (toISOString end_.1 end_.2)) (reportForCampaign period events) := by
  obtain ⟨campaign, hc⟩ := Option.isSome_iff_exists.mp hactive
  have hrange : dateRange parseDate now nowMs (some startDate) (some endDate)
      = .ok (.isoText (toISOString start.1 start.2), .isoText (toISOString end_.1 end_.2)) := by
    unfold dateRange
    simp [falsyStr, hs, he, hps, hpe]
  refine ⟨_, rfl, ?_, ?_⟩
  · intro e
    rw [List.Perm.mem_iff (List.perm_insertionSort _ _)]
    simp [List.mem_filter]
  · unfold campaignReportHandler
    simp only [hc, hrange]
    rfl

/-- The overview requested with both dates supplied is answered with status 200, and its
data is `overviewReport` on the window of the events whose stored `created_at` text lies
between the ISO texts of the two parsed instants. -/
theorem overviewHandler_of_window (parseDate : String → Option (JsDate × Nat))
    (now : JsDate) (nowMs : Nat) (db : Db) (startDate endDate : String)
    (start end_ : JsDate × Nat) (hs : startDate ≠ "") (he : endDate ≠ "")
    (hps : parseDate startDate = some start) (hpe : parseDate endDate = some end_) :
    overviewHandler parseDate now nowMs db (some startDate) (some endDate)
      = .overview (.isoText (toISOString start.1 start.2))
          (.isoText (toISOString end_.1 end_.2))
          (overviewReport (fun t => textBetween (createdAtText t) (toISOString start.1 start.2)
            (toISOString end_.1 end_.2)) db) := by
  have hrange : dateRange parseDate now nowMs (some startDate) (some endDate)
      = .ok (.isoText (toISOString start.1 start.2), .isoText (toISOString end_.1 end_.2)) := by
    unfold dateRange
    simp [falsyStr, hs, he, hps, hpe]
  unfold overviewHandler
  simp only [hrange]
  have hscan : (fun campaign : Campaign => (do
      let events ← overviewWindowScan db campaign.id (.isoText (toISOString start.1 start.2))
        (.isoText (toISOString end_.1 end_.2))
      pure (campaignSummary campaign events) : Except String CampaignSummary))
      = fun campaign => Except.ok (campaignSummary campaign (windowScan
          (fun t => textBetween (createdAtText t) (toISOString start.1 start.2)
            (toISOString end_.1 end_.2)) db campaign.id)) := by
    funext campaign
    rfl
  simp only [bind, Except.bind, pure, Except.pure] at hscan ⊢
  rw [hscan, mapM_ok]
  rfl

theorem campaignWindowScan_of_dateObject (db : Db) (campaignId : Nat) (start end_ : Bound)
    (h : (∃ d ms, start = .dateObject d ms) ∨ (∃ d ms, end_ = .dateObject d ms)) :
    ∃ e, campaignWindowScan db campaignId start end_ = .error e ∧
      overviewWindowScan db campaignId start end_ = .error e := by
  rcases h with ⟨d, ms, rfl⟩ | ⟨d, ms, rfl⟩
  · exact ⟨_, rfl, rfl⟩
  · cases start with
    | isoText text => exact ⟨_, rfl, rfl⟩
    | dateObject d2 ms2 => exact ⟨_, rfl, rfl⟩

/-- A request for the report of an active campaign in which `startDate` or `endDate` is
absent or empty is answered with status 500: the block `// Set date range` leaves two
`Date` objects, and the window scan cannot bind them. -/
theorem campaignReportHandler_of_missing_date (parseDate : String → Option (JsDate × Nat))
    (now : JsDate) (nowMs : Nat) (db : Db) (campaignId : Nat) (period : String)
    (startDate endDate : Option String)
    (hactive : (findActiveCampaign db campaignId).isSome = true)
    (hmissing : falsyStr startDate = true ∨ falsyStr endDate = true) :
    campaignReportHandler parseDate now nowMs db campaignId period startDate endDate = .failed := by
  obtain ⟨campaign, hc⟩ := Option.isSome_iff_exists.mp hactive
  have hrange : dateRange parseDate now nowMs startDate endDate
      = .ok (.dateObject (setDate now (now.date - 30)) nowMs, .dateObject now nowMs) := by
    unfold dateRange
    rcases hmissing with h | h <;> simp [h]
  unfold campaignReportHandler
  simp only [hc, hrange]
  rfl

/-- The overview of a database with an active campaign, requested with `startDate` or
`endDate` absent or empty, is answered with status 500 as well. -/
theorem overviewHandler_of_missing_date (parseDate : String → Option (JsDate × Nat))
    (now : JsDate) (nowMs : Nat) (db : Db) (startDate endDate : Option String)
    (hactive : activeCampaigns db ≠ [])
    (hmissing : falsyStr startDate = true ∨ falsyStr endDate = true) :
    overviewHandler parseDate now nowMs db startDate endDate = .failed := by
  have hrange : dateRange parseDate now nowMs startDate endDate
      = .ok (.dateObject (setDate now (now.date - 30)) nowMs, .dateObject now nowMs) := by
    unfold dateRange
    rcases hmissing with h | h <;> simp [h]
  unfold overviewHandler
  cases hcs : activeCampaigns db with
  | nil => exact absurd hcs hactive
  | cons c cs =>
    simp only [hrange, List.mapM_cons]
    rfl

/-- C19, the code at the failing input.  On 3 February 2024 the report of campaign 1 is
requested without `startDate` and `endDate`, and with `startDate` alone: the block
`// Set date range` gives the default window as two `Date` objects, the window scan
throws on binding them, and the answer has status 500, not the report of the last 30
days.  With both dates supplied, `2024-01-01` and `2024-01-31`, the answer has status 200
and its `dateRange` holds the two parsed instants, but the scan compares the stored text
`YYYY-MM-DD HH:MM:SS` with the ISO text of the bounds: the event of 1 January 08:00,
inside the window, is left out, and the event of 31 January 08:00, after its end, is
counted. -/
theorem default_window_request_is_answered_with_500 :
    dateRange parseJanuary feb3 0 none none
      = .ok (.dateObject (january 4 9) 0, .dateObject feb3 0) ∧
    campaignReportHandler parseJanuary feb3 0 januaryDb 1 "daily" none none = .failed ∧
    (campaignReportHandler parseJanuary feb3 0 januaryDb 1 "daily" none none).status = 500 ∧
    campaignReportHandler parseJanuary feb3 0 januaryDb 1 "daily" (some "2024-01-01") none
      = .failed ∧
    overviewHandler parseJanuary feb3 0 januaryDb none none = .failed ∧
    (campaignReportHandler parseJanuary feb3 0 januaryDb 1 "daily" (some "2024-01-01")
      (some "2024-01-31")).status = 200 ∧
    campaignWindowScan januaryDb 1 (.isoText "2024-01-01T00:00:00.000Z")
        (.isoText "2024-01-31T00:00:00.000Z")
      = .ok [sampleEvent "cookie_set" (january 15 8), sampleEvent "cookie_set" (january 31 8)] ∧
    (campaignReportHandler parseJanuary feb3 0 januaryDb 1 "daily" (some "2024-01-01")
      (some "2024-01-31")).dates = ["2024-01-15", "2024-01-31"] := by
  decide

/-! ## Referrer check (C20) -/

/-- C20, counterexample: with `referrerRegex` `.*` the check passes on an empty referrer
and on an absent one, so an empty or absent referrer is not a non-match for every
`referrerRegex`. -/
theorem empty_referrer_passes_a_regex_matching_the_empty_string :
    checkReferrer anythingRegex (.ok (some "")) = true ∧
    checkReferrer anythingRegex (.ok none) = true := by
  decide

/-- C20, amended: the check passes if and only if `referrerRegex` matches the referrer
string, an absent referrer being tested as the empty string; so an empty or absent
referrer passes exactly when `referrerRegex` matches the empty string, and fails for
every `referrerRegex` that does not; a failure of the read or of the test makes the check
fail, and `checkReferrer` always returns a boolean. -/
theorem checkReferrer_tests_referrer_or_empty_string
    (referrerRegex : String → Except String Bool) :
    (∀ referrer : String,
      checkReferrer referrerRegex (.ok (some referrer)) = true
        ↔ referrerRegex referrer = .ok true) ∧
    (checkReferrer referrerRegex (.ok none) = true ↔ referrerRegex "" = .ok true) ∧
    (checkReferrer referrerRegex (.ok (some "")) = checkReferrer referrerRegex (.ok none)) ∧
    (referrerRegex "" ≠ .ok true →
      checkReferrer referrerRegex (.ok (some "")) = false ∧
      checkReferrer referrerRegex (.ok none) = false) ∧
    (∀ e : String, checkReferrer referrerRegex (.error e) = false) ∧
    (∀ referrer : Option String, (∃ e, referrerRegex (orEmpty referrer) = .error e) →
      checkReferrer referrerRegex (.ok referrer) = false) := by
  have key : ∀ referrer : Option String,
      checkReferrer referrerRegex (.ok referrer) = true
        ↔ referrerRegex (orEmpty referrer) = .ok true := by
    intro referrer
    unfold checkReferrer
    cases h : referrerRegex (orEmpty referrer) with
    | error e => simp [h]
    | ok b => simp [h]
  refine ⟨fun referrer => key (some referrer), key none, rfl, ?_, fun _ => rfl, ?_⟩
  · intro h
    have h1 : ¬ checkReferrer referrerRegex (.ok none) = true := fun h2 => h ((key none).mp h2)
    have h2 : checkReferrer referrerRegex (.ok none) = false := by simpa using h1
    exact ⟨h2, h2⟩
  · rintro referrer ⟨e, he⟩
    unfold checkReferrer
    simp only [he]

/-- C20, witness of the amended statement: `/partner/i` on a partner referrer, on an
empty referrer and on an absent one. -/
theorem checkReferrer_tests_referrer_or_empty_string_witness :
    (checkReferrer partnerRegex (.ok (some "https://Partner.example/ref123")) = true) ∧
    (checkReferrer partnerRegex (.ok (some "")) = false ∧
      checkReferrer partnerRegex (.ok none) = false) :=
  ⟨((checkReferrer_tests_referrer_or_empty_string partnerRegex).1
      "https://Partner.example/ref123").mpr (by decide),
   (checkReferrer_tests_referrer_or_empty_string partnerRegex).2.2.2.1 (by decide)⟩

/-! ## Client decision logic (C21 to C24) -/

/-- The cookie A check passes exactly when `getCookie` returns a non-empty value that
`cookieARegex` matches. -/
theorem checkCookieA_iff (cookieARegex : String → Except String Bool)
    (decodeURIComponent : String → Except String String)
    (documentCookie : Except String String) (cookieAName : String) :
    checkCookieA cookieARegex decodeURIComponent documentCookie cookieAName = true ↔
      ∃ cookieValue, getCookie decodeURIComponent documentCookie cookieAName = some cookieValue ∧
        cookieValue ≠ "" ∧ cookieARegex cookieValue = .ok true := by
  unfold checkCookieA
  cases hg : getCookie decodeURIComponent documentCookie cookieAName with
  | none => simp
  | some v =>
    by_cases hv : v = ""
    · simp [hv]
    · cases hr : cookieARegex v with
      | error e => simp [hv, hr]
      | ok r => simp [hv, hr]

/-- When no pair of the cookie string carries the name of cookie A, or the cookie string
cannot be read, the cookie A check fails. -/
theorem checkCookieA_absent (cookieARegex : String → Except String Bool)
    (decodeURIComponent : String → Except String String) (cookieAName : String) :
    (∀ documentCookie : String, storedCookieValue documentCookie cookieAName = none →
      checkCookieA cookieARegex decodeURIComponent (.ok documentCookie) cookieAName = false) ∧
    (∀ e : String,
      checkCookieA cookieARegex decodeURIComponent (.error e) cookieAName = false) := by
  constructor
  · intro documentCookie h
    unfold storedCookieValue at h
    rw [Option.map_eq_none'] at h
    unfold checkCookieA getCookie
    simp only [bind, Except.bind, h]
    rfl
  · intro e
    rfl

/-- C21, the code at the failing input: the cookie string `affA=x=42` stores the value
`x=42` under the name `affA`, and `\d+` matches that value; `getCookie` returns `x`, the
text between the first and the second `=`, and the cookie A check fails. -/
theorem checkCookieA_reads_value_up_to_second_equals_sign :
    storedCookieValue "affA=x=42" "affA" = some "x=42" ∧
    digitsRegex "x=42" = .ok true ∧
    getCookie (fun s => .ok s) (.ok "affA=x=42") "affA" = some "x" ∧
    checkCookieA digitsRegex (fun s => .ok s) (.ok "affA=x=42") "affA" = false := by
  decide

/-- A stored empty value fails the cookie A check even under `.*`, which matches the
empty string; a stored value without `=` is read whole and passes under `\d+`. -/
theorem checkCookieA_empty_value_and_plain_value :
    storedCookieValue "affA=" "affA" = some "" ∧
    anythingRegex "" = .ok true ∧
    checkCookieA anythingRegex (fun s => .ok s) (.ok "affA=") "affA" = false ∧
    storedCookieValue "lang=en; affA=abc-42" "affA" = some "abc-42" ∧
    getCookie (fun s => .ok s) (.ok "lang=en; affA=abc-42") "affA" = some "abc-42" ∧
    checkCookieA digitsRegex (fun s => .ok s) (.ok "lang=en; affA=abc-42") "affA" = true := by
  decide

/-- A call of `setCookie` does one thing: the assignment when it returns `true`, a
warning when it returns `false`. -/
theorem setCookie_effect (b : Browser) (name value domain expiry : String) :
    ((setCookie b name value domain expiry).1 = true ∧
      ∃ text, (setCookie b name value domain expiry).2 = [.cookieAssigned text]) ∨
    ((setCookie b name value domain expiry).1 = false ∧
      (setCookie b name value domain expiry).2 = [.warned "Cookie setting failed:"]) := by
  unfold setCookie
  simp only
  split
  · rename_i text _
    exact Or.inl ⟨rfl, text, rfl⟩
  · exact Or.inr ⟨rfl, rfl⟩

/-- When the assignment to `document.cookie` fails, `setCookie` returns `false`. -/
theorem setCookie_of_assign_fails (b : Browser) (name value domain expiry : String)
    (h : ∀ text, ∃ e, b.assignCookie text = .error e) :
    setCookie b name value domain expiry = (false, [.warned "Cookie setting failed:"]) := by
  unfold setCookie
  simp only [bind, Except.bind]
  cases h1 : b.toUTCString expiry with
  | error e => rfl
  | ok expires =>
    cases h2 : b.encodeURIComponent value with
    | error e => rfl
    | ok encoded =>
      obtain ⟨e, he⟩ := h (name ++ "=" ++ encoded ++ ";domain=" ++ domain ++ ";expires=" ++ expires
        ++ ";path=/")
      simp only [he]

/-- The run of `executeScript` once both checks have passed: the effects of the two
`setCookie` calls, then the call of `fetch` and its aftermath when both returned `true`,
and nothing more otherwise. -/
theorem executeScript_of_checks_passed (b : Browser) (config : ScriptConfig)
    (href : checkReferrer config.referrerRegex b.referrer = true)
    (hcookie : checkCookieA config.cookieARegex b.decodeURIComponent b.cookie
      config.cookieA.name = true) :
    ∃ rest : List Effect,
      (executeScript b config).2 =
        (setCookie b config.cookieA.name config.cookieA.value config.cookieA.domain
          config.cookieA.expiry).2 ++
        (setCookie b config.cookieB.name config.cookieB.value config.cookieB.domain
          config.cookieB.expiry).2 ++ rest ∧
      (((setCookie b config.cookieA.name config.cookieA.value config.cookieA.domain
            config.cookieA.expiry).1 = true ∧
         (setCookie b config.cookieB.name config.cookieB.value config.cookieB.domain
            config.cookieB.expiry).1 = true) →
        ∃ url body tail, rest = Effect.fetchCalled url body :: tail ∧
          body.eventType = "cookie_set" ∧ ∀ e ∈ tail, ∃ m, e = Effect.warned m) ∧
      (¬ ((setCookie b config.cookieA.name config.cookieA.value config.cookieA.domain
            config.cookieA.expiry).1 = true ∧
         (setCookie b config.cookieB.name config.cookieB.value config.cookieB.domain
            config.cookieB.expiry).1 = true) → rest = []) := by
  have hr : ∃ referrer, b.referrer = .ok referrer := by
    unfold checkReferrer at href
    cases h : b.referrer with
    | error e => rw [h] at href; simp at href
    | ok r => exact ⟨r, rfl⟩
  obtain ⟨referrer, hr⟩ := hr
  unfold executeScript
  simp only [href, hcookie, Bool.not_true, Bool.false_eq_true, if_false]
  generalize setCookie b config.cookieA.name config.cookieA.value config.cookieA.domain
    config.cookieA.expiry = cookieASet
  generalize setCookie b config.cookieB.name config.cookieB.value config.cookieB.domain
    config.cookieB.expiry = cookieBSet
  by_cases hboth : (cookieASet.1 && cookieBSet.1) = true
  · have hb2 : cookieASet.1 = true ∧ cookieBSet.1 = true := by simpa using hboth
    simp only [hboth, if_true, hr]
    cases hf : b.fetch with
    | thrown e =>
      exact ⟨[trackingCall b config referrer, .warned "Script execution failed:"], by simp,
        fun _ => ⟨_, _, _, rfl, rfl, by simp⟩, fun h => absurd hb2 h⟩
    | fulfilled =>
      exact ⟨[trackingCall b config referrer], by simp,
        fun _ => ⟨_, _, _, rfl, rfl, by simp⟩, fun h => absurd hb2 h⟩
    | rejected e =>
      exact ⟨[trackingCall b config referrer, .warned "Tracking failed:"], by simp,
        fun _ => ⟨_, _, _, rfl, rfl, by simp⟩, fun h => absurd hb2 h⟩
  · have hb2 : ¬ (cookieASet.1 = true ∧ cookieBSet.1 = true) := by simpa using hboth
    simp only [hboth, if_false]
    exact ⟨[], by simp, fun h => absurd h hb2, fun _ => rfl⟩

/-- C22: once both checks have passed, the run does the set attempt for cookie A, then
the set attempt for cookie B, each attempt ending in the assignment or in a warning, and
the attempt for cookie B is there whatever the attempt for cookie A returned; the run
contains a call of `fetch` if and only if both attempts returned `true`, and that call
carries the event type `cookie_set`. -/
theorem cookieB_attempted_and_call_fired_iff_both_set (b : Browser) (config : ScriptConfig)
    (href : checkReferrer config.referrerRegex b.referrer = true)
    (hcookie : checkCookieA config.cookieARegex b.decodeURIComponent b.cookie
      config.cookieA.name = true) :
    (∃ (attemptA attemptB : Effect) (rest : List Effect),
      (setCookie b config.cookieA.name config.cookieA.value config.cookieA.domain
        config.cookieA.expiry).2 = [attemptA] ∧
      (setCookie b config.cookieB.name config.cookieB.value config.cookieB.domain
        config.cookieB.expiry).2 = [attemptB] ∧
      (executeScript b config).2 = attemptA :: attemptB :: rest) ∧
    ((∃ url body, Effect.fetchCalled url body ∈ (executeScript b config).2) ↔
      ((setCookie b config.cookieA.name config.cookieA.value config.cookieA.domain
          config.cookieA.expiry).1 = true ∧
       (setCookie b config.cookieB.name config.cookieB.value config.cookieB.domain
          config.cookieB.expiry).1 = true)) ∧
    (∀ url body, Effect.fetchCalled url body ∈ (executeScript b config).2 →
      body.eventType = "cookie_set") := by
  obtain ⟨rest, hrun, hyes, hno⟩ := executeScript_of_checks_passed b config href hcookie
  have hA1 : ∃ a, (setCookie b config.cookieA.name config.cookieA.value config.cookieA.domain
      config.cookieA.expiry).2 = [a] ∧ ∀ url body, a ≠ Effect.fetchCalled url body := by
    rcases setCookie_effect b config.cookieA.name config.cookieA.value config.cookieA.domain
      config.cookieA.expiry with ⟨_, text, h⟩ | ⟨_, h⟩
    · exact ⟨_, h, fun _ _ hne => by cases hne⟩
    · exact ⟨_, h, fun _ _ hne => by cases hne⟩
  have hB1 : ∃ a, (setCookie b config.cookieB.name config.cookieB.value config.cookieB.domain
      config.cookieB.expiry).2 = [a] ∧ ∀ url body, a ≠ Effect.fetchCalled url body := by
    rcases setCookie_effect b config.cookieB.name config.cookieB.value config.cookieB.domain
      config.cookieB.expiry with ⟨_, text, h⟩ | ⟨_, h⟩
    · exact ⟨_, h, fun _ _ hne => by cases hne⟩
    · exact ⟨_, h, fun _ _ hne => by cases hne⟩
  obtain ⟨a, ha, hna⟩ := hA1
  obtain ⟨a2, hb, hnb⟩ := hB1
  have hrun2 : (executeScript b config).2 = a :: a2 :: rest := by
    rw [hrun, ha, hb]
    rfl
  have hmem : ∀ url body, Effect.fetchCalled url body ∈ (executeScript b config).2 ↔
      Effect.fetchCalled url body ∈ rest := by
    intro url body
    rw [hrun2]
    simp only [List.mem_cons]
    constructor
    · rintro (h | h | h)
      · exact absurd h.symm (hna url body)
      · exact absurd h.symm (hnb url body)
      · exact h
    · intro h
      exact Or.inr (Or.inr h)
  refine ⟨⟨a, a2, rest, ha, hb, hrun2⟩, ?_, ?_⟩
  · constructor
    · rintro ⟨url, body, h⟩
      by_contra hcon
      rw [(hmem url body), hno hcon] at h
      simp at h
    · intro hboth
      obtain ⟨url, body, tail, hrest, _, _⟩ := hyes hboth
      exact ⟨url, body, (hmem url body).mpr (by rw [hrest]; exact List.mem_cons_self _ _)⟩
  · intro url body hmemb
    rw [hmem] at hmemb
    by_cases hboth : ((setCookie b config.cookieA.name config.cookieA.value config.cookieA.domain
          config.cookieA.expiry).1 = true ∧
       (setCookie b config.cookieB.name config.cookieB.value config.cookieB.domain
          config.cookieB.expiry).1 = true)
    · obtain ⟨url2, body2, tail, hrest, hty, htail⟩ := hyes hboth
      rw [hrest, List.mem_cons] at hmemb
      rcases hmemb with h | h
      · injection h with _ h2
        rw [h2]
        exact hty
      · obtain ⟨m, hm⟩ := htail _ h
        cases hm
    · rw [hno hboth] at hmemb
      simp at hmemb

/-- C22, witness: the sample browser and configuration, with a matching referrer and a
matching stored cookie A; both set attempts return `true` and `fetch` is called. -/
theorem cookieB_attempted_and_call_fired_iff_both_set_witness :
    ∃ url body, Effect.fetchCalled url body ∈
        (executeScript (sampleBrowser (some "https://partner.example/ref123") "affA=abc-42")
          sampleScriptConfig).2 :=
  (cookieB_attempted_and_call_fired_iff_both_set
    (sampleBrowser (some "https://partner.example/ref123") "affA=abc-42") sampleScriptConfig
    (by decide) (by decide)).2.1.mpr ⟨by decide, by decide⟩

/-- A run in which one of the two checks fails has no effect. -/
theorem executeScript_of_failed_check (b : Browser) (config : ScriptConfig) :
    (checkReferrer config.referrerRegex b.referrer = false → (executeScript b config).2 = []) ∧
    (checkReferrer config.referrerRegex b.referrer = true →
      checkCookieA config.cookieARegex b.decodeURIComponent b.cookie config.cookieA.name = false →
      (executeScript b config).2 = []) := by
  constructor
  · intro h
    unfold executeScript
    simp [h]
  · intro h1 h2
    unfold executeScript
    simp [h1, h2]

/-- C23: when the referrer check fails the run does nothing, and when the referrer check
passes but the cookie A check fails the run does nothing either: no cookie is assigned
and `fetch` is not called.  With `referrerRegex` `ref\d+` and `cookieARegex` `\d+`, the
referrer `https://other.example` ends the run after the first check with nothing done,
and the referrer `https://partner.example/ref123` with the stored cookie A value
`abc-42` assigns both cookies and calls `fetch`. -/
theorem failed_check_sets_no_cookie_and_makes_no_call (b : Browser) (config : ScriptConfig) :
    (checkReferrer config.referrerRegex b.referrer = false → (executeScript b config).2 = []) ∧
    (checkReferrer config.referrerRegex b.referrer = true →
      checkCookieA config.cookieARegex b.decodeURIComponent b.cookie config.cookieA.name = false →
      (executeScript b config).2 = []) ∧
    (checkReferrer refDigitsRegex (.ok (some "https://other.example")) = false ∧
      (executeScript (sampleBrowser (some "https://other.example") "affA=abc-42")
        sampleScriptConfig).2 = []) ∧
    (checkReferrer refDigitsRegex (.ok (some "https://partner.example/ref123")) = true ∧
      checkCookieA digitsRegex (fun s => .ok s) (.ok "affA=abc-42") "affA" = true ∧
      (executeScript (sampleBrowser (some "https://partner.example/ref123") "affA=abc-42")
        sampleScriptConfig).2 =
        [.cookieAssigned
           "affA=a1;domain=.casino.example;expires=Wed, 31 Dec 2025 23:59:59 GMT;path=/",
         .cookieAssigned
           "affB=b2;domain=.casino.example;expires=Wed, 31 Dec 2025 23:59:59 GMT;path=/",
         .fetchCalled "http://localhost:5000/api/events/track"
           { campaignId := "1", eventType := "cookie_set", userAgent := some "Mozilla/5.0",
             referrer := some "https://partner.example/ref123", cookieA := "a1",
             cookieB := "b2", sessionId := "1700000000000", campaignName := "spring",
             casino := "royal" }]) := by
  exact ⟨(executeScript_of_failed_check b config).1, (executeScript_of_failed_check b config).2,
    by decide, by decide⟩

/-- C23, witness: a referrer that matches `ref\d+` with a stored cookie A value without a
digit, in the sample browser. -/
theorem failed_check_sets_no_cookie_and_makes_no_call_witness :
    (executeScript (sampleBrowser (some "https://partner.example/ref123") "affA=abc")
      sampleScriptConfig).2 = [] :=
  (failed_check_sets_no_cookie_and_makes_no_call
    (sampleBrowser (some "https://partner.example/ref123") "affA=abc")
    sampleScriptConfig).2.1 (by decide) (by decide)

/-- C24: for every browser and every configuration `executeScript` returns normally.
A failure to read the referrer, to test `referrerRegex`, to read `document.cookie`, to
decode the cookie value or to test `cookieARegex` ends the run with nothing done; when
the assignment to `document.cookie` fails, both `setCookie` calls return `false`, no
cookie is assigned and `fetch` is not called; a `fetch` that throws or whose promise is
rejected ends in a warning. -/
theorem executeScript_returns_normally (b : Browser) (config : ScriptConfig) :
    (executeScript b config).1 = .ok () ∧
    ((∃ e, b.referrer = .error e) → (executeScript b config).2 = []) ∧
    ((∀ s, ∃ e, config.referrerRegex s = .error e) → (executeScript b config).2 = []) ∧
    ((∃ e, b.cookie = .error e) → (executeScript b config).2 = []) ∧
    ((∀ s, ∃ e, b.decodeURIComponent s = .error e) → (executeScript b config).2 = []) ∧
    ((∀ s, ∃ e, config.cookieARegex s = .error e) → (executeScript b config).2 = []) ∧
    ((∀ text, ∃ e, b.assignCookie text = .error e) →
      ∀ effect ∈ (executeScript b config).2, effect = .warned "Cookie setting failed:") ∧
    (b.fetch ≠ .fulfilled → ∀ url body,
      Effect.fetchCalled url body ∈ (executeScript b config).2 →
      ∃ m, Effect.warned m ∈ (executeScript b config).2) := by
  have hnone : ∀ h : checkReferrer config.referrerRegex b.referrer = false,
      (executeScript b config).2 = [] :=
    (executeScript_of_failed_check b config).1
  have hnone2 : checkCookieA config.cookieARegex b.decodeURIComponent b.cookie
      config.cookieA.name = false → (executeScript b config).2 = [] := by
    intro h2
    cases h1 : checkReferrer config.referrerRegex b.referrer with
    | false => exact hnone h1
    | true => exact (executeScript_of_failed_check b config).2 h1 h2
  refine ⟨?_, ?_, ?_, ?_, ?_, ?_, ?_, ?_⟩
  · unfold executeScript
    simp only
    split <;> rfl
  · rintro ⟨e, he⟩
    apply hnone
    unfold checkReferrer
    rw [he]
  · intro h
    apply hnone
    unfold checkReferrer
    cases hr : b.referrer with
    | error e => rfl
    | ok r =>
      obtain ⟨e, he⟩ := h (orEmpty r)
      simp only [he]
  · rintro ⟨e, he⟩
    apply hnone2
    rw [he]
    rfl
  · intro h
    apply hnone2
    have hg : getCookie b.decodeURIComponent b.cookie config.cookieA.name = none := by
      unfold getCookie
      cases hc : b.cookie with
      | error e => rfl
      | ok cookie =>
        cases hfind : (splitChars ';' cookie.data).find?
            (fun row => (config.cookieA.name.data ++ ['=']).isPrefixOf (trim row)) with
        | none => simp [bind, Except.bind, hfind, pure, Except.pure]
        | some value =>
          obtain ⟨e, he⟩ := h (String.mk ((splitChars '=' value).getD 1 "undefined".data))
          simp only [bind, Except.bind, hfind, he]
    unfold checkCookieA
    rw [hg]
  · intro h
    apply hnone2
    unfold checkCookieA
    split
    · rfl
    · rename_i v _
      split
      · rfl
      · obtain ⟨e, he⟩ := h v
        simp only [he]
  · intro h effect hmem
    have hA := setCookie_of_assign_fails b config.cookieA.name config.cookieA.value
      config.cookieA.domain config.cookieA.expiry h
    have hB := setCookie_of_assign_fails b config.cookieB.name config.cookieB.value
      config.cookieB.domain config.cookieB.expiry h
    by_cases h1 : checkReferrer config.referrerRegex b.referrer = true
    · by_cases h2 : checkCookieA config.cookieARegex b.decodeURIComponent b.cookie
          config.cookieA.name = true
      · obtain ⟨rest, hrun, _, hno⟩ := executeScript_of_checks_passed b config h1 h2
        rw [hA, hB] at hrun hno
        rw [hrun, hno (by simp)] at hmem
        simpa using hmem
      · rw [hnone2 (by simpa using h2)] at hmem
        simp at hmem
    · rw [hnone (by simpa using h1)] at hmem
      simp at hmem
  · intro hf url body hmem
    by_cases h1 : checkReferrer config.referrerRegex b.referrer = true
    · by_cases h2 : checkCookieA config.cookieARegex b.decodeURIComponent b.cookie
          config.cookieA.name = true
      · have hr : ∃ referrer, b.referrer = .ok referrer := by
          unfold checkReferrer at h1
          cases h : b.referrer with
          | error e => rw [h] at h1; simp at h1
          | ok r => exact ⟨r, rfl⟩
        obtain ⟨referrer, hr⟩ := hr
        obtain ⟨rest, hrun, hyes, hno⟩ := executeScript_of_checks_passed b config h1 h2
        by_cases hboth : ((setCookie b config.cookieA.name config.cookieA.value
            config.cookieA.domain config.cookieA.expiry).1 = true ∧
            (setCookie b config.cookieB.name config.cookieB.value config.cookieB.domain
            config.cookieB.expiry).1 = true)
        · have hb : ((setCookie b config.cookieA.name config.cookieA.value
              config.cookieA.domain config.cookieA.expiry).1 &&
              (setCookie b config.cookieB.name config.cookieB.value config.cookieB.domain
              config.cookieB.expiry).1) = true := by simpa using hboth
          unfold executeScript
          simp only [h1, h2, Bool.not_true, Bool.false_eq_true, if_false, hb, if_true]
          rw [hr]
          cases hfe : b.fetch with
          | thrown e => exact ⟨"Script execution failed:", by simp⟩
          | fulfilled => exact absurd hfe hf
          | rejected e => exact ⟨"Tracking failed:", by simp⟩
        · exfalso
          rw [hrun, hno hboth] at hmem
          have hA1 := setCookie_effect b config.cookieA.name config.cookieA.value
            config.cookieA.domain config.cookieA.expiry
          have hB1 := setCookie_effect b config.cookieB.name config.cookieB.value
            config.cookieB.domain config.cookieB.expiry
          simp only [List.mem_append, List.not_mem_nil, or_false] at hmem
          rcases hmem with hm | hm
          · rcases hA1 with ⟨_, text, h⟩ | ⟨_, h⟩ <;> rw [h] at hm <;> simp at hm
          · rcases hB1 with ⟨_, text, h⟩ | ⟨_, h⟩ <;> rw [h] at hm <;> simp at hm
      · rw [hnone2 (by simpa using h2)] at hmem
        simp at hmem
    · rw [hnone (by simpa using h1)] at hmem
      simp at hmem

/-- A browser in which every operation fails. -/
theorem executeScript_in_failing_browser (config : ScriptConfig) :
    executeScript
      { referrer := .error "SecurityError", cookie := .error "SecurityError",
        decodeURIComponent := fun _ => .error "URIError",
        encodeURIComponent := fun _ => .error "URIError",
        toUTCString := fun _ => .error "TypeError",
        assignCookie := fun _ => .error "SecurityError", userAgent := none, now := 0,
        fetch := .thrown "ReferenceError" } config = (.ok (), []) := by
  unfold executeScript checkReferrer
  rfl

/-- C24, witness: in the sample browser with a `fetch` that throws, the run assigns both
cookies, calls `fetch` and returns normally with a warning. -/
theorem executeScript_returns_normally_witness :
    (executeScript { sampleBrowser (some "https://partner.example/ref123") "affA=abc-42" with
        fetch := .thrown "TypeError" } sampleScriptConfig).1 = .ok () ∧
    ∃ m, Effect.warned m ∈
      (executeScript { sampleBrowser (some "https://partner.example/ref123") "affA=abc-42" with
        fetch := .thrown "TypeError" } sampleScriptConfig).2 :=
  ⟨(executeScript_returns_normally
      { sampleBrowser (some "https://partner.example/ref123") "affA=abc-42" with
        fetch := .thrown "TypeError" } sampleScriptConfig).1,
   (executeScript_returns_normally
      { sampleBrowser (some "https://partner.example/ref123") "affA=abc-42" with
        fetch := .thrown "TypeError" } sampleScriptConfig).2.2.2.2.2.2.2 (by decide)
      "http://localhost:5000/api/events/track"
      { campaignId := "1", eventType := "cookie_set", userAgent := some "Mozilla/5.0",
        referrer := some "https://partner.example/ref123", cookieA := "a1",
        cookieB := "b2", sessionId := "1700000000000", campaignName := "spring",
        casino := "royal" } (by decide)⟩

/-! ## Script synthesis (C25 to C30) -/

/-! ### Global replacement: general facts -/

theorem replaceGlobalFuel_fuel (rule : Option Char → List Char → Option (List Char × Nat))
    (hp : Progress rule) : ∀ (fuel1 fuel2 : Nat) (before : Option Char) (text : List Char),
    text.length ≤ fuel1 → text.length ≤ fuel2 →
    replaceGlobalFuel rule fuel1 before text = replaceGlobalFuel rule fuel2 before text := by
  intro fuel1
  induction fuel1 with
  | zero =>
    intro fuel2 before text h1 _
    have : text = [] := List.length_eq_zero.mp (by omega)
    subst this
    cases fuel2 <;> rfl
  | succ fuel1 ih =>
    intro fuel2 before text h1 h2
    cases text with
    | nil => cases fuel2 <;> rfl
    | cons c text =>
      cases fuel2 with
      | zero => simp at h2
      | succ fuel2 =>
        simp only [replaceGlobalFuel]
        cases hr : rule before (c :: text) with
        | none =>
          simp only
          rw [ih fuel2 (some c) text (by simpa using h1) (by simpa using h2)]
        | some p =>
          obtain ⟨r, n⟩ := p
          simp only
          have hn := hp _ _ _ _ hr
          have hlen : ((c :: text).drop n).length ≤ text.length := by
            rw [List.length_drop, List.length_cons]
            omega
          rw [ih fuel2 _ _ (by simp at h1; omega) (by simp at h2; omega)]

theorem replaceGlobal_eq_fuel (rule : Option Char → List Char → Option (List Char × Nat))
    (hp : Progress rule) (fuel : Nat) (text : List Char) (h : text.length ≤ fuel) :
    replaceGlobal rule text = replaceGlobalFuel rule fuel none text :=
  replaceGlobalFuel_fuel rule hp _ _ _ _ (Nat.le_refl _) h

theorem LocalIn.of_suffix {rule : Option Char → List Char → Option (List Char × Nat)}
    {a a2 : List Char} (h : LocalIn rule a) (hs : a2 <:+ a) : LocalIn rule a2 :=
  fun t ht hta => h t ht (hta.trans hs)

theorem getLast?_drop_or_take (a : List Char) (n : Nat) (before : Option Char)
    (h1 : 1 ≤ n) (h2 : n ≤ a.length) :
    ((a.drop n).getLast?.or ((a.take n).getLast?)) = a.getLast?.or before := by
  have ha : a = a.take n ++ a.drop n := (List.take_append_drop n a).symm
  have htake : a.take n ≠ [] := by
    intro h
    have := congrArg List.length h
    rw [List.length_take, List.length_nil] at this
    omega
  cases hd : a.drop n with
  | nil =>
    rw [hd] at ha
    simp only [List.append_nil] at ha
    rw [← ha]
    simp only [List.getLast?_nil, Option.or]
    cases hl : a.getLast? with
    | none => rw [List.getLast?_eq_none_iff] at hl; rw [hl] at htake; simp at htake
    | some x => rfl
  | cons x xs =>
    have hne : a.drop n ≠ [] := by rw [hd]; simp
    have h3 : a.getLast? = (a.drop n).getLast? := by
      conv_lhs => rw [ha]
      rw [List.getLast?_append_of_ne_nil _ hne]
    rw [h3, hd]
    cases hl : (x :: xs).getLast? with
    | none => rw [List.getLast?_eq_none_iff] at hl; simp at hl
    | some y => rfl

/-- A global replacement works through a text `a ++ b` as through `a` and then through
`b`, when the rule decides inside `a` without looking behind its end. -/
theorem replaceGlobalFuel_append (rule : Option Char → List Char → Option (List Char × Nat))
    (hp : Progress rule) : ∀ (fuel : Nat) (before : Option Char) (a b : List Char),
    LocalIn rule a → a.length + b.length ≤ fuel →
    replaceGlobalFuel rule fuel before (a ++ b) =
      replaceGlobalFuel rule fuel before a ++ replaceGlobalFuel rule fuel (a.getLast?.or before) b := by
  intro fuel
  induction fuel with
  | zero =>
    intro before a b _ hlen
    have ha : a = [] := List.length_eq_zero.mp (by omega)
    have hb : b = [] := List.length_eq_zero.mp (by omega)
    subst ha hb
    rfl
  | succ fuel ih =>
    intro before a b hloc hlen
    cases a with
    | nil => simp [replaceGlobalFuel, Option.or]
    | cons c a =>
      obtain ⟨h1, h2⟩ := hloc (c :: a) (by simp) (List.suffix_refl _) before b
      have hcons : (c :: a) ++ b = c :: (a ++ b) := rfl
      rw [hcons]
      simp only [replaceGlobalFuel]
      rw [← hcons, h1]
      cases hr : rule before (c :: a) with
      | none =>
        simp only
        have hloc2 : LocalIn rule a := hloc.of_suffix (List.suffix_cons c a)
        have e1 : (a.getLast?.or (some c)) = ((c :: a).getLast?.or before) := by
          cases a with
          | nil => rfl
          | cons x xs =>
            rw [List.getLast?_cons_cons]
            cases hl : (x :: xs).getLast? with
            | none => rw [List.getLast?_eq_none_iff] at hl; simp at hl
            | some y => rfl
        rw [ih (some c) a b hloc2 (by simp at hlen; omega), e1, List.cons_append]
        congr 2
        exact replaceGlobalFuel_fuel rule hp _ _ _ _ (by simp at hlen; omega)
          (by simp at hlen; omega)
      | some p =>
        obtain ⟨r, n⟩ := p
        simp only
        have hn1 := hp _ _ _ _ hr
        have hn2 := h2 r n hr
        have hloc2 : LocalIn rule ((c :: a).drop n) := hloc.of_suffix (List.drop_suffix n _)
        have hd : ((c :: a) ++ b).drop n = (c :: a).drop n ++ b := by
          rw [List.drop_append_of_le_length hn2]
        have ht : ((c :: a) ++ b).take n = (c :: a).take n := by
          rw [List.take_append_of_le_length hn2]
        rw [hd, ht, ih _ _ b hloc2 (by rw [List.length_drop]; simp at hlen hn2 ⊢; omega),
          List.append_assoc]
        congr 2
        rw [getLast?_drop_or_take (c :: a) n before hn1 hn2]
        exact replaceGlobalFuel_fuel rule hp _ _ _ _
          (by simp at hlen; omega) (by simp at hlen; omega)

/-- Where the rule matches nowhere in a text, the replacement leaves the text as it is. -/
theorem replaceGlobalFuel_of_no_match
    (rule : Option Char → List Char → Option (List Char × Nat)) :
    ∀ (fuel : Nat) (before : Option Char) (text : List Char),
    (∀ t, t ≠ [] → t <:+ text → ∀ before, rule before t = none) →
    replaceGlobalFuel rule fuel before text = text := by
  intro fuel
  induction fuel with
  | zero => intro before text _; rfl
  | succ fuel ih =>
    intro before text h
    cases text with
    | nil => rfl
    | cons c text =>
      simp only [replaceGlobalFuel, h (c :: text) (by simp) (List.suffix_refl _) before]
      rw [ih (some c) text (fun t ht hs => h t ht (hs.trans (List.suffix_cons c text)))]

/-- The characters of the result have a property that the characters put in by the rule
have and that the characters have at which the rule does not match. -/
theorem replaceGlobalFuel_all (rule : Option Char → List Char → Option (List Char × Nat))
    (hp : Progress rule) (Q : Char → Prop)
    (hin : ∀ before text r n, rule before text = some (r, n) → ∀ c ∈ r, Q c)
    (hkeep : ∀ before c text, rule before (c :: text) = none → Q c) :
    ∀ (fuel : Nat) (before : Option Char) (text : List Char), text.length ≤ fuel →
    ∀ c ∈ replaceGlobalFuel rule fuel before text, Q c := by
  intro fuel
  induction fuel with
  | zero =>
    intro before text h c hc
    have : text = [] := List.length_eq_zero.mp (by omega)
    subst this
    simp [replaceGlobalFuel] at hc
  | succ fuel ih =>
    intro before text h c hc
    cases text with
    | nil => simp [replaceGlobalFuel] at hc
    | cons d text =>
      simp only [replaceGlobalFuel] at hc
      cases hr : rule before (d :: text) with
      | none =>
        simp only [hr, List.mem_cons] at hc
        rcases hc with rfl | hc
        · exact hkeep _ _ _ hr
        · exact ih _ _ (by simpa using h) c hc
      | some p =>
        obtain ⟨r, n⟩ := p
        simp only [hr, List.mem_append] at hc
        rcases hc with hc | hc
        · exact hin _ _ _ _ hr c hc
        · have hn := hp _ _ _ _ hr
          exact ih _ _ (by rw [List.length_drop]; simp at h ⊢; omega) c hc

/-- The characters of the result have a property that the characters of the text and the
characters put in by the rule have. -/
theorem replaceGlobalFuel_all_of_all
    (rule : Option Char → List Char → Option (List Char × Nat)) (Q : Char → Prop)
    (hin : ∀ before text r n, rule before text = some (r, n) → (∀ c ∈ text, Q c) → ∀ c ∈ r, Q c) :
    ∀ (fuel : Nat) (before : Option Char) (text : List Char), (∀ c ∈ text, Q c) →
    ∀ c ∈ replaceGlobalFuel rule fuel before text, Q c := by
  intro fuel
  induction fuel with
  | zero => intro before text h c hc; exact h c hc
  | succ fuel ih =>
    intro before text h c hc
    cases text with
    | nil => simp [replaceGlobalFuel] at hc
    | cons d text =>
      simp only [replaceGlobalFuel] at hc
      cases hr : rule before (d :: text) with
      | none =>
        simp only [hr, List.mem_cons] at hc
        rcases hc with rfl | hc
        · exact h _ (List.mem_cons_self _ _)
        · exact ih _ _ (fun x hx => h x (List.mem_cons_of_mem _ hx)) c hc
      | some p =>
        obtain ⟨r, n⟩ := p
        simp only [hr, List.mem_append] at hc
        rcases hc with hc | hc
        · exact hin _ _ _ _ hr h c hc
        · exact ih _ _ (fun x hx => h x (List.mem_of_mem_drop hx)) c hc

/-- A fold over the result is the fold over the text, when what the rule puts in acts on
every state of the fold as what it takes out. -/
theorem replaceGlobalFuel_foldl {σ : Type}
    (rule : Option Char → List Char → Option (List Char × Nat)) (step : σ → Char → σ)
    (hn : ∀ before text r n, rule before text = some (r, n) →
      ∀ st, r.foldl step st = (text.take n).foldl step st) :
    ∀ (fuel : Nat) (before : Option Char) (text : List Char) (st : σ),
    (replaceGlobalFuel rule fuel before text).foldl step st = text.foldl step st := by
  intro fuel
  induction fuel with
  | zero => intro before text st; rfl
  | succ fuel ih =>
    intro before text st
    cases text with
    | nil => rfl
    | cons c text =>
      simp only [replaceGlobalFuel]
      cases hr : rule before (c :: text) with
      | none =>
        simp only [List.foldl_cons]
        exact ih _ _ _
      | some p =>
        obtain ⟨r, n⟩ := p
        simp only
        rw [List.foldl_append, ih, hn _ _ _ _ hr, ← List.foldl_append, List.take_append_drop]

/-! ### The six rules -/

theorem isJsSpace_not_word (c : Char) (h : isJsSpace c = true) : isWordChar c = false := by
  unfold isJsSpace at h
  unfold isWordChar
  simp only [Bool.or_eq_true, Bool.and_eq_true, decide_eq_true_eq] at h
  simp only [Bool.or_eq_false_iff, Bool.and_eq_false_iff, decide_eq_false_iff_not]
  omega

theorem isPunctuator_not_word (c : Char) (h : isPunctuator c = true) : isWordChar c = false := by
  unfold isPunctuator at h
  unfold isWordChar
  simp only [Bool.or_eq_true, decide_eq_true_eq] at h
  simp only [Bool.or_eq_false_iff, Bool.and_eq_false_iff, decide_eq_false_iff_not]
  omega

theorem isPunctuator_not_space (c : Char) (h : isPunctuator c = true) : isJsSpace c = false := by
  unfold isPunctuator at h
  unfold isJsSpace
  simp only [Bool.or_eq_true, decide_eq_true_eq] at h
  simp only [Bool.or_eq_false_iff, Bool.and_eq_false_iff, decide_eq_false_iff_not]
  omega

theorem isLineTerminator_space (c : Char) (h : isLineTerminator c = true) : isJsSpace c = true := by
  unfold isLineTerminator at h
  unfold isJsSpace
  simp only [Bool.or_eq_true, decide_eq_true_eq] at h
  simp only [Bool.or_eq_true, Bool.and_eq_true, decide_eq_true_eq]
  omega

theorem progress_literalRule (fnName obfuscatedName : List Char) (h : fnName ≠ []) :
    Progress (literalRule fnName obfuscatedName) := by
  intro before text r n hr
  unfold literalRule at hr
  split at hr
  · injection hr with hr
    injection hr with _ hn
    rw [← hn]
    exact List.length_pos.mpr h
  · cases hr

theorem progress_wholeWordRule (varName obfuscatedName : List Char) (h : varName ≠ []) :
    Progress (wholeWordRule varName obfuscatedName) := by
  intro before text r n hr
  unfold wholeWordRule at hr
  split at hr
  · injection hr with hr
    injection hr with _ hn
    rw [← hn]
    exact List.length_pos.mpr h
  · cases hr

theorem progress_spaceRunRule : Progress spaceRunRule := by
  intro before text r n hr
  unfold spaceRunRule at hr
  split at hr
  · cases hr
  · rename_i h
    injection hr with hr
    injection hr with _ hn
    rw [← hn]
    cases hl : text.takeWhile isJsSpace with
    | nil => rw [hl] at h; simp at h
    | cons x xs => simp

theorem progress_aroundPunctuatorRule : Progress aroundPunctuatorRule := by
  intro before text r n hr
  unfold aroundPunctuatorRule at hr
  split at hr
  · split at hr
    · injection hr with hr
      injection hr with _ hn
      omega
    · cases hr
  · cases hr

theorem progress_afterPunctuatorRule : Progress afterPunctuatorRule := by
  intro before text r n hr
  unfold afterPunctuatorRule at hr
  split at hr
  · split at hr
    · injection hr with hr
      injection hr with _ hn
      omega
    · cases hr
  · cases hr

theorem progress_beforePunctuatorRule : Progress beforePunctuatorRule := by
  intro before text r n hr
  unfold beforePunctuatorRule at hr
  split at hr
  · cases hr
  · split at hr
    · split at hr
      · injection hr with hr
        injection hr with _ hn
        omega
      · cases hr
    · cases hr

/-! ### White space around punctuators (C30) -/

theorem drop_length_takeWhile (p : Char → Bool) : ∀ (l : List Char),
    l.drop (l.takeWhile p).length = l.dropWhile p := by
  intro l
  induction l with
  | nil => rfl
  | cons c l ih =>
    by_cases h : p c = true
    · simp [List.takeWhile_cons, List.dropWhile_cons, h, ih]
    · simp [List.takeWhile_cons, List.dropWhile_cons, h]

theorem take_length_takeWhile (p : Char → Bool) (l : List Char) :
    l.take (l.takeWhile p).length = l.takeWhile p := by
  conv_lhs => rw [← List.takeWhile_append_dropWhile p l]
  rw [List.take_left']
  rw [List.takeWhile_append_dropWhile]

theorem head_dropWhile_not (p : Char → Bool) (l : List Char) (x : Char)
    (h : (l.dropWhile p).head? = some x) : p x = false := by
  induction l with
  | nil => simp at h
  | cons c l ih =>
    by_cases hc : p c = true
    · rw [List.dropWhile_cons_of_pos hc] at h
      exact ih h
    · rw [List.dropWhile_cons_of_neg hc] at h
      simp at h
      rw [← h]
      simpa using hc

theorem aroundPunctuatorRule_drop (text : List Char) (p : Char) (rest : List Char)
    (hd : text.dropWhile isJsSpace = p :: rest) :
    text.drop ((text.takeWhile isJsSpace).length + 1 + (rest.takeWhile isJsSpace).length)
      = rest.dropWhile isJsSpace := by
  rw [Nat.add_assoc, ← List.drop_drop, drop_length_takeWhile, hd, Nat.add_comm 1,
    List.drop_succ_cons]
  exact drop_length_takeWhile _ _

theorem tight_aroundPunctuator : ∀ (fuel : Nat) (before : Option Char) (text : List Char)
    (b : Option Char), text.length ≤ fuel →
    (∀ x, b = some x → isPunctuator x = true → ∀ y, text.head? = some y → isJsSpace y = false) →
    (∀ x, b = some x → isJsSpace x = true →
      ∀ y, (text.dropWhile isJsSpace).head? = some y → isPunctuator y = false) →
    Tight (b.toList ++ replaceGlobalFuel aroundPunctuatorRule fuel before text) := by
  intro fuel
  induction fuel with
  | zero =>
    intro before text b h _ _
    have : text = [] := List.length_eq_zero.mp (by omega)
    subst this
    cases b <;> simp [Tight, replaceGlobalFuel]
  | succ fuel ih =>
    intro before text b hlen h1 h2
    cases text with
    | nil => cases b <;> simp [Tight, replaceGlobalFuel]
    | cons c t =>
      have step : ∀ (e : Char) (l : List Char),
          (∀ x, b = some x → ¬ (isJsSpace x = true ∧ isPunctuator e = true) ∧
            ¬ (isPunctuator x = true ∧ isJsSpace e = true)) →
          Tight ((some e).toList ++ l) → Tight (b.toList ++ e :: l) := by
        intro e l hx hl
        cases b with
        | none => exact hl
        | some x => exact List.Chain'.cons (hx x rfl) hl
      simp only [replaceGlobalFuel]
      cases hd : (c :: t).dropWhile isJsSpace with
      | nil =>
        have hr : aroundPunctuatorRule before (c :: t) = none := by
          simp only [aroundPunctuatorRule, hd]
        have hc : isJsSpace c = true := by
          by_contra hc
          rw [List.dropWhile_cons_of_neg hc] at hd
          cases hd
        have hdt : t.dropWhile isJsSpace = [] := by
          rw [List.dropWhile_cons_of_pos hc] at hd
          exact hd
        simp only [hr]
        apply step
        · intro x hx
          refine ⟨fun h => ?_, fun h => ?_⟩
          · rw [isPunctuator_not_space c h.2] at hc
            cases hc
          · have := h1 x hx h.1 c rfl
            rw [this] at hc
            cases hc
        · apply ih _ _ _ (by simpa using hlen)
          · intro x hx hp
            injection hx with hx
            subst hx
            rw [isPunctuator_not_space c hp] at hc
            cases hc
          · intro x _ _ y hy
            rw [hdt] at hy
            simp at hy
      | cons p rest =>
        by_cases hp : isPunctuator p = true
        · have hr : aroundPunctuatorRule before (c :: t) = some ([p],
              ((c :: t).takeWhile isJsSpace).length + 1 + (rest.takeWhile isJsSpace).length) := by
            simp only [aroundPunctuatorRule, hd, hp, if_true]
          simp only [hr, aroundPunctuatorRule_drop (c :: t) p rest hd, List.singleton_append]
          apply step
          · intro x hx
            refine ⟨fun h => ?_, fun h => ?_⟩
            · have := h2 x hx h.1 p (by rw [hd]; rfl)
              rw [this] at hp
              cases hp
            · rw [isPunctuator_not_space p hp] at h
              cases h.2
          · apply ih
            · have hle : (rest.dropWhile isJsSpace).length ≤ rest.length :=
                (List.dropWhile_sublist _).length_le
              have hle2 : ((c :: t).dropWhile isJsSpace).length ≤ (c :: t).length :=
                (List.dropWhile_sublist _).length_le
              rw [hd] at hle2
              simp at hle2 hlen
              omega
            · intro x _ _ y hy
              exact head_dropWhile_not _ _ _ hy
            · intro x hx hxs
              injection hx with hx
              subst hx
              rw [isPunctuator_not_space p hp] at hxs
              cases hxs
        · have hr : aroundPunctuatorRule before (c :: t) = none := by
            simp only [aroundPunctuatorRule, hd, hp]
            rfl
          have hcp : isPunctuator c = false := by
            by_contra hcp
            have hcp2 : isPunctuator c = true := by simpa using hcp
            have hcs := isPunctuator_not_space c hcp2
            rw [List.dropWhile_cons_of_neg (by simp [hcs])] at hd
            injection hd with hd1 _
            rw [hd1] at hcp2
            exact hp hcp2
          simp only [hr]
          apply step
          · intro x hx
            refine ⟨fun h => ?_, fun h => ?_⟩
            · rw [hcp] at h
              cases h.2
            · have := h1 x hx h.1 c rfl
              rw [this] at h
              cases h.2
          · apply ih _ _ _ (by simpa using hlen)
            · intro x hx hxp
              injection hx with hx
              subst hx
              rw [hcp] at hxp
              cases hxp
            · intro x hx hxs y hy
              injection hx with hx
              subst hx
              rw [List.dropWhile_cons_of_pos hxs] at hd
              rw [hd] at hy
              injection hy with hy
              rw [← hy]
              simpa using hp

theorem tight_suffix {t text : List Char} (h : Tight text) (hs : t <:+ text) : Tight t :=
  List.Chain'.suffix h hs

theorem afterPunctuatorRule_of_tight (t : List Char) (h : Tight t) (before : Option Char) :
    afterPunctuatorRule before t = none := by
  unfold afterPunctuatorRule
  cases t with
  | nil => rfl
  | cons p rest =>
    simp only
    split
    · rename_i hc
      exfalso
      simp only [Bool.and_eq_true, Bool.not_eq_true', List.isEmpty_eq_false] at hc
      obtain ⟨hp, hne⟩ := hc
      cases rest with
      | nil => simp at hne
      | cons w rest =>
        have hw : isJsSpace w = true := by
          by_contra hw
          rw [List.takeWhile_cons_of_neg hw] at hne
          exact hne rfl
        have := (List.chain'_cons.mp h).1
        exact this.2 ⟨hp, hw⟩
    · rfl

theorem beforePunctuatorRule_of_tight (t : List Char) (h : Tight t) (before : Option Char) :
    beforePunctuatorRule before t = none := by
  unfold beforePunctuatorRule
  split
  · rfl
  · rename_i hne
    cases hd : t.dropWhile isJsSpace with
    | nil => rfl
    | cons p rest =>
      simp only
      split
      · rename_i hp
        exfalso
        have hsplit : t = t.takeWhile isJsSpace ++ p :: rest := by
          rw [← hd, List.takeWhile_append_dropWhile]
        cases hl : (t.takeWhile isJsSpace).reverse with
        | nil =>
          have : t.takeWhile isJsSpace = [] := by simpa using hl
          rw [this] at hne
          simp at hne
        | cons w ws =>
          have htw : t.takeWhile isJsSpace = ws.reverse ++ [w] := by
            have := congrArg List.reverse hl
            simpa using this
          have hw : isJsSpace w = true := by
            have hmem : w ∈ t.takeWhile isJsSpace := by rw [htw]; simp
            exact List.mem_takeWhile_imp hmem
          rw [hsplit, htw, List.append_assoc] at h
          have h2 : Tight ([w] ++ p :: rest) := List.Chain'.right_of_append h
          exact (List.chain'_cons.mp h2).1.1 ⟨hw, hp⟩
      · rfl

theorem tight_trim (text : List Char) (h : Tight text) : Tight (trim text) := by
  unfold trim
  have h1 : Tight (text.dropWhile isJsSpace) := List.Chain'.suffix h (List.dropWhile_suffix _)
  have h2 : ((text.dropWhile isJsSpace).reverse.dropWhile isJsSpace).reverse
      <+: text.dropWhile isJsSpace := by
    have := List.dropWhile_suffix isJsSpace (l := (text.dropWhile isJsSpace).reverse)
    have := List.reverse_prefix.mpr this
    simpa using this
  exact List.Chain'.prefix h1 h2

/-- The result of `minifyWithRandomSpacing` has no white space next to one of the
characters `{ } ( ) ; , =`. -/
theorem minify_tight (code : List Char) : Tight (minifyWithRandomSpacing code) := by
  unfold minifyWithRandomSpacing
  apply tight_trim
  have h2 : Tight (replaceGlobal aroundPunctuatorRule (replaceGlobal spaceRunRule code)) := by
    have := tight_aroundPunctuator _ none (replaceGlobal spaceRunRule code) none (Nat.le_refl _)
      (fun x hx => by cases hx) (fun x hx => by cases hx)
    exact this
  have h3 : replaceGlobal afterPunctuatorRule
      (replaceGlobal aroundPunctuatorRule (replaceGlobal spaceRunRule code))
      = replaceGlobal aroundPunctuatorRule (replaceGlobal spaceRunRule code) :=
    replaceGlobalFuel_of_no_match _ _ _ _
      (fun t _ hs before => afterPunctuatorRule_of_tight t (tight_suffix h2 hs) before)
  rw [h3]
  have h4 : replaceGlobal beforePunctuatorRule
      (replaceGlobal aroundPunctuatorRule (replaceGlobal spaceRunRule code))
      = replaceGlobal aroundPunctuatorRule (replaceGlobal spaceRunRule code) :=
    replaceGlobalFuel_of_no_match _ _ _ _
      (fun t _ hs before => beforePunctuatorRule_of_tight t (tight_suffix h2 hs) before)
  rw [h4]
  exact h2

/-- The result of `minifyWithRandomSpacing` has no line terminator. -/
theorem minify_no_line_terminator (code : List Char) :
    ∀ c ∈ minifyWithRandomSpacing code, isLineTerminator c = false := by
  have h1 : ∀ c ∈ replaceGlobal spaceRunRule code, isLineTerminator c = false := by
    apply replaceGlobalFuel_all spaceRunRule progress_spaceRunRule
      (fun c => isLineTerminator c = false) _ _ _ _ _ (Nat.le_refl _)
    · intro before text r n hr c hc
      unfold spaceRunRule at hr
      split at hr
      · cases hr
      · injection hr with hr
        injection hr with hr _
        rw [← hr] at hc
        simp at hc
        rw [hc]
        decide
    · intro before c text hr
      unfold spaceRunRule at hr
      split at hr
      · rename_i he
        by_contra hlt
        have hs := isLineTerminator_space c (by simpa using hlt)
        rw [List.takeWhile_cons_of_pos hs] at he
        simp at he
      · cases hr
  have hstep : ∀ (rule : Option Char → List Char → Option (List Char × Nat)) (text : List Char),
      (∀ before t r n, rule before t = some (r, n) → ∀ c ∈ r, c ∈ t) →
      (∀ c ∈ text, isLineTerminator c = false) →
      ∀ c ∈ replaceGlobal rule text, isLineTerminator c = false := by
    intro rule text hsub htext
    exact replaceGlobalFuel_all_of_all rule (fun c => isLineTerminator c = false)
      (fun before t r n hr ht c hc => ht c (hsub before t r n hr c hc)) _ _ _ htext
  have h2 := hstep aroundPunctuatorRule _ (by
    intro before t r n hr c hc
    unfold aroundPunctuatorRule at hr
    split at hr
    · rename_i p rest hd
      split at hr
      · injection hr with hr
        injection hr with hr _
        rw [← hr] at hc
        simp at hc
        rw [hc]
        have : p ∈ t.dropWhile isJsSpace := by rw [hd]; simp
        exact (List.dropWhile_sublist _).subset this
      · cases hr
    · cases hr) h1
  have h3 := hstep afterPunctuatorRule _ (by
    intro before t r n hr c hc
    unfold afterPunctuatorRule at hr
    split at hr
    · split at hr
      · injection hr with hr
        injection hr with hr _
        rw [← hr] at hc
        simp at hc
        rw [hc]
        simp
      · cases hr
    · cases hr) h2
  have h4 := hstep beforePunctuatorRule _ (by
    intro before t r n hr c hc
    unfold beforePunctuatorRule at hr
    split at hr
    · cases hr
    · split at hr
      · rename_i p rest hd
        split at hr
        · injection hr with hr
          injection hr with hr _
          rw [← hr] at hc
          simp at hc
          rw [hc]
          have : p ∈ t.dropWhile isJsSpace := by rw [hd]; simp
          exact (List.dropWhile_sublist _).subset this
        · cases hr
      · cases hr) h3
  intro c hc
  unfold minifyWithRandomSpacing trim at hc
  have hc2 := List.mem_reverse.mp hc
  have hc3 := (List.dropWhile_sublist _).subset hc2
  have hc4 := List.mem_reverse.mp hc3
  have hc5 := (List.dropWhile_sublist _).subset hc4
  exact h4 c hc5

/-! ### Lines -/

theorem splitChars_ne_nil (separator : Char) (s : List Char) : splitChars separator s ≠ [] := by
  cases s with
  | nil => simp [splitChars]
  | cons c s =>
    unfold splitChars
    split
    · simp
    · split <;> simp

theorem splitChars_append (separator : Char) (a b : List Char) :
    splitChars separator (a ++ separator :: b) = splitChars separator a ++ splitChars separator b := by
  induction a with
  | nil => simp [splitChars]
  | cons c a ih =>
    rw [List.cons_append]
    by_cases hc : c = separator
    · simp only [splitChars, hc, if_true, ih, List.cons_append]
    · simp only [splitChars, hc, if_false, ih]
      cases h : splitChars separator a with
      | nil => exact absurd h (splitChars_ne_nil _ _)
      | cons piece pieces => rfl

theorem intercalate_cons_cons (separator x y : List Char) (l : List (List Char)) :
    List.intercalate separator (x :: y :: l)
      = x ++ separator ++ List.intercalate separator (y :: l) := by
  simp [List.intercalate, List.intersperse]

theorem intercalate_splitChars (separator : Char) (s : List Char) :
    List.intercalate [separator] (splitChars separator s) = s := by
  induction s with
  | nil => rfl
  | cons c s ih =>
    by_cases hc : c = separator
    · simp only [splitChars, hc, if_true]
      cases h : splitChars separator s with
      | nil => exact absurd h (splitChars_ne_nil _ _)
      | cons piece pieces =>
        rw [h] at ih
        rw [intercalate_cons_cons, ih]
        rfl
    · simp only [splitChars, hc, if_false]
      cases h : splitChars separator s with
      | nil => exact absurd h (splitChars_ne_nil _ _)
      | cons piece pieces =>
        rw [h] at ih
        simp only
        rw [← ih]
        cases pieces with
        | nil => simp [List.intercalate, List.intersperse]
        | cons q qs => rw [intercalate_cons_cons, intercalate_cons_cons]; rfl

theorem intercalate_append (separator : List Char) (l1 l2 : List (List Char))
    (h1 : l1 ≠ []) (h2 : l2 ≠ []) :
    List.intercalate separator (l1 ++ l2)
      = List.intercalate separator l1 ++ separator ++ List.intercalate separator l2 := by
  induction l1 with
  | nil => exact absurd rfl h1
  | cons x l1 ih =>
    cases l1 with
    | nil =>
      cases l2 with
      | nil => exact absurd rfl h2
      | cons y l2 =>
        rw [List.singleton_append, intercalate_cons_cons]
        simp [List.intercalate, List.intersperse]
    | cons z l1 =>
      have := ih (by simp)
      rw [List.cons_append, List.cons_append, intercalate_cons_cons, ← List.cons_append, this,
        intercalate_cons_cons]
      simp only [List.append_assoc]

theorem commentLines_cons (decisions : List (Option (Fin 5))) (line : List Char)
    (lines : List (List Char)) :
    commentLines decisions (line :: lines)
      = commentedLine (decisions.head?.join) line :: commentLines decisions.tail lines := by
  cases decisions with
  | nil => rfl
  | cons d ds =>
    cases d <;> rfl

theorem commentLines_ne_nil (decisions : List (Option (Fin 5))) (lines : List (List Char))
    (h : lines ≠ []) : commentLines decisions lines ≠ [] := by
  cases lines with
  | nil => exact absurd rfl h
  | cons line lines => rw [commentLines_cons]; simp

theorem commentLines_append (lines1 lines2 : List (List Char)) :
    ∀ decisions : List (Option (Fin 5)),
    commentLines decisions (lines1 ++ lines2)
      = commentLines decisions lines1 ++ commentLines (decisions.drop lines1.length) lines2 := by
  induction lines1 with
  | nil => intro decisions; simp [commentLines]
  | cons line lines1 ih =>
    intro decisions
    rw [List.cons_append, commentLines_cons, commentLines_cons, ih]
    simp only [List.cons_append, List.length_cons]
    cases decisions <;> simp

/-! ### Where the rules look -/

theorem localIn_of_last (rule : Option Char → List Char → Option (List Char × Nat))
    (a : List Char) (s : Char) (hs : a.getLast? = some s)
    (h : ∀ t, t.getLast? = some s → ∀ before b,
      rule before (t ++ b) = rule before t ∧ ∀ r n, rule before t = some (r, n) → n ≤ t.length) :
    LocalIn rule a := by
  intro t ht hta before b
  apply h
  obtain ⟨u, hu⟩ := hta
  rw [← hu, List.getLast?_append_of_ne_nil _ ht] at hs
  exact hs

theorem isPrefixOf_append_of_last (pat t b : List Char) (s : Char)
    (hs : t.getLast? = some s) (hn : s ∉ pat) :
    pat.isPrefixOf (t ++ b) = pat.isPrefixOf t := by
  have hmem : s ∈ t := List.mem_of_getLast?_eq_some hs
  rw [Bool.eq_iff_iff, List.isPrefixOf_iff_prefix, List.isPrefixOf_iff_prefix]
  constructor
  · intro h
    rcases Nat.lt_or_ge t.length pat.length with hlt | hge
    · exfalso
      have h2 : t <+: pat :=
        List.prefix_of_prefix_length_le (List.prefix_append t b) h (Nat.le_of_lt hlt)
      exact hn (h2.subset hmem)
    · exact List.prefix_of_prefix_length_le h (List.prefix_append t b) hge
  · intro h
    exact h.trans (List.prefix_append t b)

theorem length_lt_of_prefix_of_last (pat t : List Char) (s : Char)
    (hs : t.getLast? = some s) (hn : s ∉ pat) (h : pat <+: t) : pat.length < t.length := by
  rcases Nat.lt_or_ge pat.length t.length with hlt | hge
  · exact hlt
  · exfalso
    have := h.eq_of_length (Nat.le_antisymm h.length_le hge)
    rw [← this] at hs
    exact hn (List.mem_of_getLast?_eq_some hs)

theorem localIn_literalRule (fnName obfuscatedName a : List Char) (s : Char)
    (hs : a.getLast? = some s) (hn : s ∉ fnName) :
    LocalIn (literalRule fnName obfuscatedName) a := by
  apply localIn_of_last _ a s hs
  intro t ht before b
  unfold literalRule
  rw [isPrefixOf_append_of_last fnName t b s ht hn]
  refine ⟨rfl, ?_⟩
  intro r n hr
  split at hr
  · rename_i hp
    injection hr with hr
    injection hr with _ hr2
    rw [← hr2]
    exact (List.isPrefixOf_iff_prefix.mp hp).length_le
  · cases hr

theorem localIn_wholeWordRule (varName obfuscatedName a : List Char) (s : Char)
    (hs : a.getLast? = some s) (hn : s ∉ varName) :
    LocalIn (wholeWordRule varName obfuscatedName) a := by
  apply localIn_of_last _ a s hs
  intro t ht before b
  have htne : t ≠ [] := by
    intro h
    rw [h] at ht
    cases ht
  have hhead : (t ++ b).head? = t.head? := by
    cases t with
    | nil => exact absurd rfl htne
    | cons c t => rfl
  unfold wholeWordRule
  rw [isPrefixOf_append_of_last varName t b s ht hn, hhead]
  by_cases hp : varName.isPrefixOf t = true
  · have hlt := length_lt_of_prefix_of_last varName t s ht hn (List.isPrefixOf_iff_prefix.mp hp)
    have hd : ((t ++ b).drop varName.length).head? = (t.drop varName.length).head? := by
      rw [List.drop_append_of_le_length (Nat.le_of_lt hlt)]
      cases hdt : t.drop varName.length with
      | nil =>
        have := congrArg List.length hdt
        rw [List.length_drop] at this
        simp at this
        omega
      | cons c u => rfl
    rw [hd]
    refine ⟨rfl, ?_⟩
    intro r n hr
    split at hr
    · injection hr with hr
      injection hr with _ hr2
      rw [← hr2]
      exact Nat.le_of_lt hlt
    · cases hr
  · have hp2 : varName.isPrefixOf t = false := Bool.eq_false_iff.mpr hp
    simp only [hp2, Bool.and_false, Bool.false_and, Bool.false_eq_true, if_false]
    refine ⟨trivial, ?_⟩
    intro r n hr
    cases hr

theorem takeWhile_append_of_last (t b : List Char) (s : Char) (hs : t.getLast? = some s)
    (hn : isJsSpace s = false) :
    (t ++ b).takeWhile isJsSpace = t.takeWhile isJsSpace ∧
    (t ++ b).dropWhile isJsSpace = t.dropWhile isJsSpace ++ b ∧
    t.dropWhile isJsSpace ≠ [] := by
  induction t with
  | nil => cases hs
  | cons c t ih =>
    by_cases hc : isJsSpace c = true
    · cases t with
      | nil =>
        simp at hs
        rw [hs, hn] at hc
        cases hc
      | cons d t =>
        rw [List.getLast?_cons_cons] at hs
        obtain ⟨h1, h2, h3⟩ := ih hs
        rw [List.cons_append, List.takeWhile_cons_of_pos hc, List.takeWhile_cons_of_pos hc,
          List.dropWhile_cons_of_pos hc, List.dropWhile_cons_of_pos hc, h1, h2]
        exact ⟨rfl, rfl, h3⟩
    · rw [List.cons_append, List.takeWhile_cons_of_neg hc, List.takeWhile_cons_of_neg hc,
        List.dropWhile_cons_of_neg hc, List.dropWhile_cons_of_neg hc]
      exact ⟨rfl, rfl, by simp⟩

theorem length_takeWhile_add_dropWhile (p : Char → Bool) (t : List Char) :
    (t.takeWhile p).length + (t.dropWhile p).length = t.length := by
  conv_rhs => rw [← List.takeWhile_append_dropWhile p t]
  rw [List.length_append]

theorem localIn_spaceRunRule (a : List Char) (s : Char) (hs : a.getLast? = some s)
    (hn : isJsSpace s = false) : LocalIn spaceRunRule a := by
  apply localIn_of_last _ a s hs
  intro t ht before b
  obtain ⟨h1, _, _⟩ := takeWhile_append_of_last t b s ht hn
  unfold spaceRunRule
  rw [h1]
  refine ⟨rfl, ?_⟩
  intro r n hr
  split at hr
  · cases hr
  · injection hr with hr
    injection hr with _ hr2
    rw [← hr2]
    have := length_takeWhile_add_dropWhile isJsSpace t
    omega

theorem localIn_aroundPunctuatorRule (a : List Char) (s : Char) (hs : a.getLast? = some s)
    (hn : isJsSpace s = false) (hp : isPunctuator s = false) :
    LocalIn aroundPunctuatorRule a := by
  apply localIn_of_last _ a s hs
  intro t ht before b
  obtain ⟨h1, h2, h3⟩ := takeWhile_append_of_last t b s ht hn
  unfold aroundPunctuatorRule
  rw [h2, h1]
  cases hd : t.dropWhile isJsSpace with
  | nil => exact absurd hd h3
  | cons p rest =>
    simp only [List.cons_append]
    by_cases hpp : isPunctuator p = true
    · have hrest : rest.getLast? = some s := by
        have hl : (t.dropWhile isJsSpace).getLast? = some s := by
          have hsplit := List.takeWhile_append_dropWhile isJsSpace t
          rw [← hsplit, List.getLast?_append_of_ne_nil _ h3] at ht
          exact ht
        rw [hd] at hl
        cases rest with
        | nil =>
          simp at hl
          rw [hl, hp] at hpp
          cases hpp
        | cons d rest =>
          rw [List.getLast?_cons_cons] at hl
          exact hl
      obtain ⟨h4, _, _⟩ := takeWhile_append_of_last rest b s hrest hn
      simp only [hpp, if_true, h4]
      refine ⟨trivial, ?_⟩
      intro r n hr
      injection hr with hr
      injection hr with _ hr2
      rw [← hr2]
      have e1 := length_takeWhile_add_dropWhile isJsSpace t
      have e2 := length_takeWhile_add_dropWhile isJsSpace rest
      rw [hd] at e1
      simp at e1
      omega
    · simp only [hpp, Bool.false_eq_true, if_false]
      refine ⟨trivial, ?_⟩
      intro r n hr
      cases hr

theorem localIn_afterPunctuatorRule (a : List Char) (s : Char) (hs : a.getLast? = some s)
    (hn : isJsSpace s = false) (hp : isPunctuator s = false) :
    LocalIn afterPunctuatorRule a := by
  apply localIn_of_last _ a s hs
  intro t ht before b
  unfold afterPunctuatorRule
  cases t with
  | nil => cases ht
  | cons p rest =>
    simp only [List.cons_append]
    by_cases hpp : isPunctuator p = true
    · have hrest : rest.getLast? = some s := by
        cases rest with
        | nil =>
          simp at ht
          rw [ht, hp] at hpp
          cases hpp
        | cons d rest =>
          rw [List.getLast?_cons_cons] at ht
          exact ht
      obtain ⟨h4, _, _⟩ := takeWhile_append_of_last rest b s hrest hn
      rw [h4]
      refine ⟨rfl, ?_⟩
      intro r n hr
      split at hr
      · injection hr with hr
        injection hr with _ hr2
        rw [← hr2]
        have e2 := length_takeWhile_add_dropWhile isJsSpace rest
        simp
        omega
      · cases hr
    · simp only [hpp, Bool.false_and, Bool.false_eq_true, if_false]
      refine ⟨trivial, ?_⟩
      intro r n hr
      cases hr

theorem localIn_beforePunctuatorRule (a : List Char) (s : Char) (hs : a.getLast? = some s)
    (hn : isJsSpace s = false) :
    LocalIn beforePunctuatorRule a := by
  apply localIn_of_last _ a s hs
  intro t ht before b
  obtain ⟨h1, h2, h3⟩ := takeWhile_append_of_last t b s ht hn
  unfold beforePunctuatorRule
  rw [h2, h1]
  cases hd : t.dropWhile isJsSpace with
  | nil => exact absurd hd h3
  | cons p rest =>
    simp only [List.cons_append]
    refine ⟨trivial, ?_⟩
    intro r n hr
    split at hr
    · cases hr
    · split at hr
      · injection hr with hr
        injection hr with _ hr2
        rw [← hr2]
        have e1 := length_takeWhile_add_dropWhile isJsSpace t
        rw [hd] at e1
        simp at e1
        omega
      · cases hr

theorem isPrefixOf_false_of_not_occursIn (pat : List Char) : ∀ (a t : List Char),
    occursIn pat a = false → t ≠ [] → t <:+ a → pat.isPrefixOf t = false := by
  intro a
  induction a with
  | nil =>
    intro t _ ht hs
    exact absurd (List.eq_nil_of_suffix_nil hs) ht
  | cons c a ih =>
    intro t h ht hs
    unfold occursIn at h
    simp only [Bool.or_eq_false_iff] at h
    rcases List.suffix_cons_iff.mp hs with rfl | hs2
    · exact h.1
    · exact ih t h.2 ht hs2

/-- Where the name does not occur in a text, neither replacement changes the text. -/
theorem replaceGlobal_of_not_occursIn (name obfuscatedName a : List Char)
    (h : occursIn name a = false) :
    replaceGlobal (literalRule name obfuscatedName) a = a ∧
    replaceGlobal (wholeWordRule name obfuscatedName) a = a := by
  constructor
  · apply replaceGlobalFuel_of_no_match
    intro t ht hs before
    simp only [literalRule, isPrefixOf_false_of_not_occursIn name a t h ht hs]
    rfl
  · apply replaceGlobalFuel_of_no_match
    intro t ht hs before
    simp only [wholeWordRule, isPrefixOf_false_of_not_occursIn name a t h ht hs,
      Bool.and_false, Bool.false_and]
    rfl

/-- A global replacement over `a ++ b`, for a rule that decides inside `a` without looking
behind its end. -/
theorem replaceGlobal_append (rule : Option Char → List Char → Option (List Char × Nat))
    (hp : Progress rule) (a b : List Char) (hloc : LocalIn rule a) :
    ∃ b2, replaceGlobal rule (a ++ b) = replaceGlobal rule a ++ b2 := by
  refine ⟨replaceGlobalFuel rule (a ++ b).length (a.getLast?.or none) b, ?_⟩
  unfold replaceGlobal
  rw [replaceGlobalFuel_append rule hp _ none a b hloc (by simp)]
  congr 1
  exact replaceGlobalFuel_fuel rule hp _ _ _ _ (by simp) (Nat.le_refl _)

/-! ### The head of the rendered script -/

theorem mem_allDecisions (d : Option (Fin 5)) : d ∈ allDecisions := by
  rcases d with _ | ⟨k, hk⟩
  · simp [allDecisions]
  · interval_cases k <;> simp [allDecisions]

theorem templateLines_head (config : TemplateConfig) :
    ∃ rest, rest ≠ [] ∧ (templateLines config).map String.data = templateHead ++ rest :=
  ⟨_, by simp, rfl⟩

theorem scriptTemplate_head (config : TemplateConfig) :
    ∃ X, (scriptTemplate config).data = templateHeadText ++ X := by
  obtain ⟨rest, hne, h⟩ := templateLines_head config
  refine ⟨List.intercalate ['\n'] rest, ?_⟩
  show List.intercalate ['\n'] ((templateLines config).map String.data) = _
  rw [h, intercalate_append _ _ _ (by decide) hne]
  rfl

set_option maxRecDepth 100000 in
theorem names_not_in_head : ∀ name ∈ functionNames ++ variableNames,
    name.data ≠ [] ∧ '\n' ∉ name.data ∧ occursIn name.data templateHeadText = false := by
  decide

theorem replace_keeps_head (name obfuscatedName : String) (hn : name ∈ functionNames ++ variableNames)
    (text : List Char) (h : ∃ X, text = templateHeadText ++ X) :
    (∃ X, replaceGlobal (literalRule name.data obfuscatedName.data) text = templateHeadText ++ X) ∧
    (∃ X, replaceGlobal (wholeWordRule name.data obfuscatedName.data) text
      = templateHeadText ++ X) := by
  obtain ⟨X, rfl⟩ := h
  obtain ⟨h1, h2, h3⟩ := names_not_in_head name hn
  have hlast : templateHeadText.getLast? = some '\n' := by
    unfold templateHeadText
    rw [List.getLast?_append_of_ne_nil _ (by simp)]
    rfl
  obtain ⟨e1, e2⟩ := replaceGlobal_of_not_occursIn name.data obfuscatedName.data _ h3
  constructor
  · obtain ⟨b2, hb⟩ := replaceGlobal_append _ (progress_literalRule _ obfuscatedName.data h1)
      templateHeadText X (localIn_literalRule _ _ _ '\n' hlast h2)
    exact ⟨b2, by rw [hb, e1]⟩
  · obtain ⟨b2, hb⟩ := replaceGlobal_append _ (progress_wholeWordRule _ obfuscatedName.data h1)
      templateHeadText X (localIn_wholeWordRule _ _ _ '\n' hlast h2)
    exact ⟨b2, by rw [hb, e2]⟩

theorem foldl_functionNameStep_head : ∀ (names : List String) (state : List Char × Generator),
    (∀ name ∈ names, name ∈ functionNames ++ variableNames) →
    (∃ X, state.1 = templateHeadText ++ X) →
    ∃ X, (names.foldl functionNameStep state).1 = templateHeadText ++ X := by
  intro names
  induction names with
  | nil => intro state _ h; exact h
  | cons name names ih =>
    intro state hmem h
    rw [List.foldl_cons]
    apply ih _ (fun n hn => hmem n (List.mem_cons_of_mem _ hn))
    exact (replace_keeps_head name _ (hmem name (List.mem_cons_self _ _)) state.1 h).1

theorem foldl_variableNameStep_head : ∀ (names : List String) (state : List Char × Generator),
    (∀ name ∈ names, name ∈ functionNames ++ variableNames) →
    (∃ X, state.1 = templateHeadText ++ X) →
    ∃ X, (names.foldl variableNameStep state).1 = templateHeadText ++ X := by
  intro names
  induction names with
  | nil => intro state _ h; exact h
  | cons name names ih =>
    intro state hmem h
    rw [List.foldl_cons]
    apply ih _ (fun n hn => hmem n (List.mem_cons_of_mem _ hn))
    exact (replace_keeps_head name _ (hmem name (List.mem_cons_self _ _)) state.1 h).2

theorem addRandomComments_head (decisions : List (Option (Fin 5))) (X : List Char) :
    ∃ R, addRandomComments decisions (templateHeadText ++ X)
      = commentedHead decisions.tail.head?.join decisions.tail.tail.head?.join ++ R := by
  unfold addRandomComments
  have hsplit : splitChars '\n' (templateHeadText ++ X) = templateHead ++ splitChars '\n' X := by
    unfold templateHeadText
    rw [List.append_assoc, List.singleton_append, splitChars_append]
    congr 1
  simp only [hsplit]
  rw [commentLines_append, intercalate_append _ _ _
    (commentLines_ne_nil _ _ (by decide)) (commentLines_ne_nil _ _ (splitChars_ne_nil _ _))]
  unfold templateHead
  simp only [commentLines_cons, commentLines]
  have e0 : ∀ d, commentedLine d "".data = [] := by
    intro d
    cases d <;> rfl
  have e3 : ∀ d, commentedLine d "  ".data = "  ".data := by
    intro d
    cases d <;> rfl
  have e4 : ∀ d, ∃ extra, commentedLine d "  // Configuration".data
      = "  // Configuration".data ++ extra := by
    intro d
    cases d with
    | none => exact ⟨[], by simp [commentedLine]⟩
    | some k =>
      refine ⟨'\n' :: (comments.getD k.val "").data, ?_⟩
      simp only [commentedLine]
      rw [if_pos (by decide)]
  obtain ⟨extra, he⟩ := e4 decisions.tail.tail.tail.tail.head?.join
  rw [e0, e3, he]
  refine ⟨extra ++ ['\n'] ++ List.intercalate ['\n']
    (commentLines (decisions.drop 5) (splitChars '\n' X)), ?_⟩
  simp only [intercalate_cons_cons, commentedHead, List.append_assoc]
  simp [List.intercalate, List.intersperse]

set_option maxRecDepth 100000 in
theorem headCheck_all : ∀ d1 ∈ allDecisions, ∀ d2 ∈ allDecisions, headCheck d1 d2 = true := by
  decide

theorem trim_append_of_solid_ends (a b : List Char) (x s : Char) (hx : a.head? = some x)
    (hxs : isJsSpace x = false) (hs : a.getLast? = some s) (hss : isJsSpace s = false) :
    ∃ post, trim (a ++ b) = a ++ post := by
  unfold trim
  have h1 : (a ++ b).dropWhile isJsSpace = a ++ b := by
    cases a with
    | nil => cases hx
    | cons c a =>
      injection hx with hx
      subst hx
      rw [List.cons_append, List.dropWhile_cons_of_neg (by simp [hxs])]
  rw [h1, List.reverse_append]
  have hrev : a.reverse.head? = some s := by
    rw [List.head?_reverse]
    exact hs
  have h2 : ∃ u, (b.reverse ++ a.reverse).dropWhile isJsSpace = u ++ a.reverse := by
    generalize b.reverse = br
    induction br with
    | nil =>
      refine ⟨[], ?_⟩
      cases har : a.reverse with
      | nil => rfl
      | cons c ar =>
        rw [har] at hrev
        injection hrev with hrev
        subst hrev
        rw [List.nil_append, List.dropWhile_cons_of_neg (by simp [hss])]
    | cons c br ih =>
      by_cases hc : isJsSpace c = true
      · rw [List.cons_append, List.dropWhile_cons_of_pos hc]
        exact ih
      · rw [List.cons_append, List.dropWhile_cons_of_neg hc]
        exact ⟨c :: br, rfl⟩
  obtain ⟨u, hu⟩ := h2
  rw [hu]
  exact ⟨u.reverse, by simp⟩

/-- For every generator, every run of random decisions and every configuration, the
script that `generateMyaffiliatesScript` returns starts with the head of the template on
one line, up to and with the marker `// Configuration`. -/
theorem generated_script_head (g : Generator) (decisions : List (Option (Fin 5)))
    (config : TemplateConfig) :
    ∃ post, (generateMyaffiliatesScript g decisions config).1.data
      = minifiedHead decisions.tail.head?.join decisions.tail.tail.head?.join ++ post := by
  have h0 := scriptTemplate_head config
  have h1 := foldl_functionNameStep_head functionNames ((scriptTemplate config).data, g)
    (fun n hn => List.mem_append_left _ hn) h0
  obtain ⟨X, hX⟩ := foldl_variableNameStep_head variableNames
    (functionNames.foldl functionNameStep ((scriptTemplate config).data, g))
    (fun n hn => List.mem_append_right _ hn) h1
  obtain ⟨R, hR⟩ := addRandomComments_head decisions X
  have hc := headCheck_all _ (mem_allDecisions decisions.tail.head?.join) _
    (mem_allDecisions decisions.tail.tail.head?.join)
  generalize decisions.tail.head?.join = d1 at hR hc ⊢
  generalize decisions.tail.tail.head?.join = d2 at hR hc ⊢
  unfold headCheck at hc
  simp only [Bool.and_eq_true, beq_iff_eq] at hc
  obtain ⟨⟨⟨⟨l0, l1⟩, l2⟩, l3⟩, l4⟩ := hc
  have sn : isJsSpace 'n' = false := by decide
  have pn : isPunctuator 'n' = false := by decide
  obtain ⟨R1, e1⟩ := replaceGlobal_append spaceRunRule progress_spaceRunRule
    (commentedHead d1 d2) R (localIn_spaceRunRule _ 'n' l0 sn)
  obtain ⟨R2, e2⟩ := replaceGlobal_append aroundPunctuatorRule progress_aroundPunctuatorRule
    _ R1 (localIn_aroundPunctuatorRule _ 'n' l1 sn pn)
  obtain ⟨R3, e3⟩ := replaceGlobal_append afterPunctuatorRule progress_afterPunctuatorRule
    _ R2 (localIn_afterPunctuatorRule _ 'n' l2 sn pn)
  obtain ⟨R4, e4⟩ := replaceGlobal_append beforePunctuatorRule progress_beforePunctuatorRule
    _ R3 (localIn_beforePunctuatorRule _ 'n' l3 sn)
  have hlast : (minifiedHead d1 d2).getLast? = some 'n' := by
    unfold minifiedHead
    rw [List.getLast?_append_of_ne_nil _ (by decide)]
    rfl
  obtain ⟨post, hpost⟩ := trim_append_of_solid_ends (minifiedHead d1 d2) R4 '(' 'n' rfl
    (by decide) hlast sn
  refine ⟨post, ?_⟩
  show minifyWithRandomSpacing (addRandomComments decisions
    (variableNames.foldl variableNameStep
      (functionNames.foldl functionNameStep ((scriptTemplate config).data, g))).1) = _
  rw [hX, hR]
  unfold minifyWithRandomSpacing
  rw [e1, e2, e3, e4, l4, hpost]

/-! ### Tokens -/

theorem foldl_tokStep_done (text : List Char) : ∀ (d d2 : List Tok) (cur : List Char),
    text.foldl tokStep { done := d ++ d2, cur := cur }
      = { done := d ++ (text.foldl tokStep { done := d2, cur := cur }).done,
          cur := (text.foldl tokStep { done := d2, cur := cur }).cur } := by
  induction text with
  | nil => intro d d2 cur; rfl
  | cons c text ih =>
    intro d d2 cur
    simp only [List.foldl_cons, tokStep]
    by_cases hc : isWordChar c = true
    · simp only [hc, if_true]
      exact ih d d2 _
    · simp only [hc, Bool.false_eq_true, if_false]
      rw [List.append_assoc, List.append_assoc, ih d, ← List.append_assoc d2]

theorem finish_foldl (text : List Char) (d : List Tok) (cur : List Char) :
    (text.foldl tokStep { done := d, cur := cur }).finish
      = d ++ (text.foldl tokStep { done := [], cur := cur }).finish := by
  have := foldl_tokStep_done text d [] cur
  rw [List.append_nil] at this
  rw [this]
  simp [TokState.finish]

/-- The tokens of a text in two parts with a character between them that is not a word
character. -/
theorem tokens_append_sep (a b : List Char) (c : Char) (hc : isWordChar c = false) :
    tokens (a ++ c :: b) = tokens a ++ (if isJsSpace c then [] else [.sym c]) ++ tokens b := by
  unfold tokens
  rw [List.foldl_append, List.foldl_cons]
  generalize a.foldl tokStep { done := [], cur := [] } = st
  have : tokStep st c = { done := st.done ++ flushWord st.cur ++
      (if isJsSpace c then [] else [.sym c]), cur := [] } := by
    simp [tokStep, hc]
  rw [this, finish_foldl]
  rfl

theorem tokens_append_newline (a b : List Char) :
    tokens (a ++ '\n' :: b) = tokens a ++ tokens b := by
  rw [tokens_append_sep a b '\n' (by decide)]
  simp [show isJsSpace '\n' = true by decide]

theorem foldl_tokStep_space (ws : List Char) (h : ∀ c ∈ ws, isJsSpace c = true) (st : TokState) :
    ws.foldl tokStep st = if ws.isEmpty then st
      else { done := st.done ++ flushWord st.cur, cur := [] } := by
  induction ws generalizing st with
  | nil => rfl
  | cons c ws ih =>
    have hc := h c (List.mem_cons_self _ _)
    have hw := isJsSpace_not_word c hc
    rw [List.foldl_cons, ih (fun x hx => h x (List.mem_cons_of_mem _ hx))]
    have e : tokStep st c = { done := st.done ++ flushWord st.cur, cur := [] } := by
      simp [tokStep, hw, hc]
    rw [e]
    cases ws with
    | nil => rfl
    | cons d ws => simp [flushWord]

theorem takeWhile_all (p : Char → Bool) (l : List Char) : ∀ c ∈ l.takeWhile p, p c = true :=
  fun _ hc => List.mem_takeWhile_imp hc

theorem tokStep_punct (st : TokState) (p : Char) (hp : isPunctuator p = true) :
    tokStep st p = { done := st.done ++ flushWord st.cur ++ [.sym p], cur := [] } := by
  simp [tokStep, isPunctuator_not_word p hp, isPunctuator_not_space p hp]

theorem foldl_space_punct_space (ws1 ws2 : List Char) (p : Char)
    (h1 : ∀ c ∈ ws1, isJsSpace c = true) (h2 : ∀ c ∈ ws2, isJsSpace c = true)
    (hp : isPunctuator p = true) (st : TokState) :
    (ws1 ++ p :: ws2).foldl tokStep st = [p].foldl tokStep st := by
  rw [List.foldl_append, List.foldl_cons, foldl_tokStep_space ws1 h1, tokStep_punct _ _ hp,
    foldl_tokStep_space ws2 h2]
  simp only [List.foldl_cons, List.foldl_nil, tokStep_punct _ _ hp]
  cases ws1 <;> cases ws2 <;> simp [flushWord]

theorem neutral_spaceRunRule (before : Option Char) (text r : List Char) (n : Nat)
    (hr : spaceRunRule before text = some (r, n)) (st : TokState) :
    r.foldl tokStep st = (text.take n).foldl tokStep st := by
  unfold spaceRunRule at hr
  split at hr
  · cases hr
  · rename_i hne
    injection hr with hr
    injection hr with h1 h2
    rw [← h1, ← h2, take_length_takeWhile,
      foldl_tokStep_space _ (takeWhile_all _ _), foldl_tokStep_space [' '] (by
        intro c hc
        simp at hc
        rw [hc]
        decide)]
    simp only [hne]
    rfl

theorem take_append_cons (a rest : List Char) (p : Char) (k : Nat) :
    (a ++ p :: rest).take (a.length + 1 + k) = a ++ p :: rest.take k := by
  rw [Nat.add_assoc, List.take_append, Nat.add_comm 1, List.take_succ_cons]

theorem take_around (text : List Char) (p : Char) (rest : List Char)
    (hd : text.dropWhile isJsSpace = p :: rest) :
    text.take ((text.takeWhile isJsSpace).length + 1 + (rest.takeWhile isJsSpace).length)
      = text.takeWhile isJsSpace ++ p :: rest.takeWhile isJsSpace := by
  have hsplit : text = text.takeWhile isJsSpace ++ p :: rest := by
    rw [← hd, List.takeWhile_append_dropWhile]
  generalize text.takeWhile isJsSpace = tw at hsplit ⊢
  subst hsplit
  rw [take_append_cons, take_length_takeWhile]

theorem neutral_aroundPunctuatorRule (before : Option Char) (text r : List Char) (n : Nat)
    (hr : aroundPunctuatorRule before text = some (r, n)) (st : TokState) :
    r.foldl tokStep st = (text.take n).foldl tokStep st := by
  unfold aroundPunctuatorRule at hr
  split at hr
  · rename_i p rest hd
    split at hr
    · rename_i hp
      injection hr with hr
      injection hr with h1 h2
      rw [← h1, ← h2, take_around text p rest hd,
        foldl_space_punct_space _ _ p (takeWhile_all _ _) (takeWhile_all _ _) hp]
    · cases hr
  · cases hr

theorem neutral_afterPunctuatorRule (before : Option Char) (text r : List Char) (n : Nat)
    (hr : afterPunctuatorRule before text = some (r, n)) (st : TokState) :
    r.foldl tokStep st = (text.take n).foldl tokStep st := by
  unfold afterPunctuatorRule at hr
  split at hr
  · rename_i p rest
    split at hr
    · rename_i hp
      simp only [Bool.and_eq_true] at hp
      injection hr with hr
      injection hr with h1 h2
      rw [← h1, ← h2, Nat.add_comm 1, List.take_succ_cons, take_length_takeWhile]
      exact (foldl_space_punct_space [] _ p (by simp) (takeWhile_all _ _) hp.1 st).symm
    · cases hr
  · cases hr

theorem neutral_beforePunctuatorRule (before : Option Char) (text r : List Char) (n : Nat)
    (hr : beforePunctuatorRule before text = some (r, n)) (st : TokState) :
    r.foldl tokStep st = (text.take n).foldl tokStep st := by
  unfold beforePunctuatorRule at hr
  split at hr
  · cases hr
  · split at hr
    · rename_i p rest hd
      split at hr
      · rename_i hp
        injection hr with hr
        injection hr with h1 h2
        have hsplit : text = text.takeWhile isJsSpace ++ p :: rest := by
          rw [← hd, List.takeWhile_append_dropWhile]
        have htake : text.take ((text.takeWhile isJsSpace).length + 1)
            = text.takeWhile isJsSpace ++ [p] := by
          generalize text.takeWhile isJsSpace = tw at hsplit ⊢
          subst hsplit
          have := take_append_cons tw rest p 0
          simpa using this
        rw [← h1, ← h2, htake]
        exact (foldl_space_punct_space _ [] p (takeWhile_all _ _) (by simp) hp st).symm
      · cases hr
    · cases hr

theorem tokens_replaceGlobal (rule : Option Char → List Char → Option (List Char × Nat))
    (hn : ∀ before text r n, rule before text = some (r, n) →
      ∀ st, r.foldl tokStep st = (text.take n).foldl tokStep st) (text : List Char) :
    tokens (replaceGlobal rule text) = tokens text := by
  unfold tokens replaceGlobal
  rw [replaceGlobalFuel_foldl rule tokStep hn]

theorem tokens_trim (text : List Char) : tokens (trim text) = tokens text := by
  have hlead : ∀ s : List Char, tokens (s.dropWhile isJsSpace) = tokens s := by
    intro s
    conv_rhs => rw [← List.takeWhile_append_dropWhile isJsSpace s]
    unfold tokens
    rw [List.foldl_append, foldl_tokStep_space _ (takeWhile_all _ _)]
    split <;> rfl
  have htrail : ∀ s : List Char,
      tokens (s.reverse.dropWhile isJsSpace).reverse = tokens s := by
    intro s
    have hs : s = (s.reverse.dropWhile isJsSpace).reverse
        ++ (s.reverse.takeWhile isJsSpace).reverse := by
      rw [← List.reverse_append, List.takeWhile_append_dropWhile, List.reverse_reverse]
    conv_rhs => rw [hs]
    unfold tokens
    rw [List.foldl_append, foldl_tokStep_space (s.reverse.takeWhile isJsSpace).reverse (by
      intro c hc
      exact takeWhile_all _ _ c (List.mem_reverse.mp hc))]
    split
    · rfl
    · simp [TokState.finish, flushWord]
  unfold trim
  rw [htrail, hlead]

/-- The tokens of a text are the tokens of what `minifyWithRandomSpacing` makes of it. -/
theorem tokens_minify (code : List Char) : tokens (minifyWithRandomSpacing code) = tokens code := by
  unfold minifyWithRandomSpacing
  rw [tokens_trim, tokens_replaceGlobal _ neutral_beforePunctuatorRule,
    tokens_replaceGlobal _ neutral_afterPunctuatorRule,
    tokens_replaceGlobal _ neutral_aroundPunctuatorRule,
    tokens_replaceGlobal _ neutral_spaceRunRule]

theorem foldl_tokStep_word (w : List Char) (hw : ∀ c ∈ w, isWordChar c = true) (st : TokState) :
    w.foldl tokStep st = { done := st.done, cur := st.cur ++ w } := by
  induction w generalizing st with
  | nil => simp
  | cons c w ih =>
    rw [List.foldl_cons, ih (fun x hx => hw x (List.mem_cons_of_mem _ hx))]
    simp [tokStep, hw c (List.mem_cons_self _ _)]

theorem tokStep_not_word (st : TokState) (c : Char) (hc : isWordChar c = false) :
    tokStep st c = { done := st.done ++ flushWord st.cur ++
      (if isJsSpace c then [] else [.sym c]), cur := [] } := by
  simp [tokStep, hc]

theorem wholeWordRule_some (name obfuscatedName : List Char) (hne : name ≠ [])
    (hw : ∀ c ∈ name, isWordChar c = true) (before : Option Char) (text r : List Char) (n : Nat)
    (h : wholeWordRule name obfuscatedName before text = some (r, n)) :
    r = obfuscatedName ∧ n = name.length ∧ before.any isWordChar = false ∧
      ∃ rest, text = name ++ rest ∧ rest.head?.any isWordChar = false := by
  unfold wholeWordRule at h
  split at h
  · rename_i hc
    simp only [Bool.and_eq_true] at hc
    obtain ⟨⟨hb1, hp⟩, hb2⟩ := hc
    injection h with h
    injection h with h1 h2
    obtain ⟨rest, hrest⟩ := List.isPrefixOf_iff_prefix.mp hp
    subst hrest
    rw [List.drop_left] at hb2
    refine ⟨h1.symm, h2.symm, ?_, rest, rfl, ?_⟩
    · cases name with
      | nil => exact absurd rfl hne
      | cons c name =>
        have hcw := hw c (List.mem_cons_self _ _)
        simp only [wordBoundary, List.cons_append, List.head?_cons, Option.any_some, hcw] at hb1
        simpa using hb1
    · have hl : name.getLast? = some (name.getLast hne) := List.getLast?_eq_getLast _ hne
      have hlw := hw _ (List.getLast_mem hne)
      simp only [wordBoundary, hl, Option.any_some, hlw] at hb2
      simpa using hb2
  · cases h

theorem wholeWordRule_none (name obfuscatedName : List Char) (hne : name ≠ [])
    (hw : ∀ c ∈ name, isWordChar c = true) (before : Option Char) (text : List Char)
    (hb : before.any isWordChar = false)
    (h : wholeWordRule name obfuscatedName before text = none) :
    text.takeWhile isWordChar ≠ name := by
  intro heq
  have hsplit := List.takeWhile_append_dropWhile isWordChar text
  rw [heq] at hsplit
  have hp : name.isPrefixOf text = true :=
    List.isPrefixOf_iff_prefix.mpr ⟨_, hsplit⟩
  have hrest : text.drop name.length = text.dropWhile isWordChar := by
    conv_lhs => rw [← hsplit]
    rw [List.drop_left]
  have hhead : (text.dropWhile isWordChar).head?.any isWordChar = false := by
    cases hd : text.dropWhile isWordChar with
    | nil => rfl
    | cons c rest =>
      have := head_dropWhile_not isWordChar text c (by rw [hd]; rfl)
      simpa using this
  have hl : name.getLast? = some (name.getLast hne) := List.getLast?_eq_getLast _ hne
  have hlw := hw _ (List.getLast_mem hne)
  have hh : text.head?.any isWordChar = true := by
    rw [← hsplit]
    cases name with
    | nil => exact absurd rfl hne
    | cons c name => simpa using hw c (List.mem_cons_self _ _)
  unfold wholeWordRule at h
  rw [if_pos] at h
  · cases h
  · simp [wordBoundary, hb, hh, hp, hrest, hhead, hl, hlw]

theorem tokens_wholeWord_aux (name obfuscatedName : List Char) (hne : name ≠ [])
    (hw : ∀ c ∈ name, isWordChar c = true) (hane : obfuscatedName ≠ [])
    (haw : ∀ c ∈ obfuscatedName, isWordChar c = true) :
    ∀ (fuel : Nat) (before : Option Char) (text : List Char) (st st2 : TokState),
      text.length ≤ fuel → RenameRel name obfuscatedName st st2 before text →
      ((replaceGlobalFuel (wholeWordRule name obfuscatedName) fuel before text).foldl
          tokStep st2).finish
        = ((text.foldl tokStep st).finish).map (renameTok name obfuscatedName) := by
  have hflush : ∀ cur : List Char, cur ≠ name →
      (flushWord cur).map (renameTok name obfuscatedName) = flushWord cur := by
    intro cur hcur
    unfold flushWord
    split
    · rfl
    · simp [renameTok, hcur]
  have hflushName : (flushWord name).map (renameTok name obfuscatedName)
      = flushWord obfuscatedName := by
    cases name with
    | nil => exact absurd rfl hne
    | cons c name =>
      cases obfuscatedName with
      | nil => exact absurd rfl hane
      | cons d obfuscatedName => simp [flushWord, renameTok]
  have hsym : ∀ c : Char, (if isJsSpace c then [] else [Tok.sym c]).map
      (renameTok name obfuscatedName) = (if isJsSpace c then [] else [Tok.sym c]) := by
    intro c
    split
    · rfl
    · simp [renameTok]
  intro fuel
  induction fuel with
  | zero =>
    intro before text st st2 hlen hrel
    have ht : text = [] := List.length_eq_zero.mp (Nat.le_zero.mp hlen)
    subst ht
    obtain ⟨hd, hmode⟩ := hrel
    simp only [replaceGlobalFuel, List.foldl_nil, TokState.finish, List.map_append, hd]
    rcases hmode with ⟨hc, _, hinv⟩ | ⟨hc, hc2, _, _⟩
    · rw [hc]
      by_cases hcur : st.cur = []
      · rw [hcur]; rfl
      · rw [hflush _ (by simpa using hinv hcur)]
    · rw [hc, hc2, hflushName]
  | succ fuel ih =>
    intro before text st st2 hlen hrel
    obtain ⟨hd, hmode⟩ := hrel
    cases text with
    | nil =>
      simp only [replaceGlobalFuel, List.foldl_nil, TokState.finish, List.map_append, hd]
      rcases hmode with ⟨hc, _, hinv⟩ | ⟨hc, hc2, _, _⟩
      · rw [hc]
        by_cases hcur : st.cur = []
        · rw [hcur]; rfl
        · rw [hflush _ (by simpa using hinv hcur)]
      · rw [hc, hc2, hflushName]
    | cons c t =>
      have hlen2 : t.length ≤ fuel := by
        simp only [List.length_cons] at hlen
        omega
      cases hrule : wholeWordRule name obfuscatedName before (c :: t) with
      | some rn =>
        obtain ⟨r, n⟩ := rn
        obtain ⟨hr, hn, hb, rest, htext, hrest⟩ :=
          wholeWordRule_some name obfuscatedName hne hw before (c :: t) r n hrule
        have hcur : st.cur = [] ∧ st2.cur = [] := by
          rcases hmode with ⟨hc, hbw, _⟩ | ⟨_, _, hbw, _⟩
          · rw [hb] at hbw
            have : st.cur = [] := by simpa using hbw.symm
            exact ⟨this, by rw [hc, this]⟩
          · rw [hb] at hbw
            cases hbw
        simp only [replaceGlobalFuel, hrule]
        subst hr hn
        rw [htext, List.take_left, List.drop_left, List.foldl_append, List.foldl_append,
          foldl_tokStep_word _ haw, foldl_tokStep_word _ hw, hcur.1, hcur.2, List.nil_append,
          List.nil_append]
        apply ih
        · have := congrArg List.length htext
          simp only [List.length_cons, List.length_append] at this
          have hpos : 0 < name.length := List.length_pos.mpr hne
          omega
        · refine ⟨hd, Or.inr ⟨rfl, rfl, ?_, hrest⟩⟩
          rw [List.getLast?_eq_getLast _ hne]
          simpa using hw _ (List.getLast_mem hne)
      | none =>
        simp only [replaceGlobalFuel, hrule, List.foldl_cons]
        apply ih _ _ _ _ hlen2
        by_cases hcw : isWordChar c = true
        · rcases hmode with ⟨hc, hbw, hinv⟩ | ⟨_, _, _, hh⟩
          · refine ⟨?_, Or.inl ⟨?_, ?_, ?_⟩⟩
            · simp [tokStep, hcw, hd]
            · simp [tokStep, hcw, hc]
            · simp [tokStep, hcw]
            · intro _
              simp only [tokStep, hcw, if_true]
              by_cases hcur : st.cur = []
              · have hbf : before.any isWordChar = false := by
                  rw [hbw, hcur]; rfl
                have := wholeWordRule_none name obfuscatedName hne hw before (c :: t) hbf hrule
                rw [List.takeWhile_cons_of_pos hcw] at this
                rw [hcur]
                simpa using this
              · have := hinv hcur
                rw [List.takeWhile_cons_of_pos hcw] at this
                simpa using this
          · simp [hcw] at hh
        · have hcf : isWordChar c = false := by simpa using hcw
          rw [tokStep_not_word _ _ hcf, tokStep_not_word _ _ hcf]
          refine ⟨?_, Or.inl ⟨rfl, by simp [hcf], fun h => absurd rfl h⟩⟩
          simp only [List.map_append, hsym, hd]
          rcases hmode with ⟨hc, _, hinv⟩ | ⟨hc, hc2, _, _⟩
          · rw [hc]
            by_cases hcur : st.cur = []
            · rw [hcur]; rfl
            · have := hinv hcur
              rw [List.takeWhile_cons_of_neg hcw, List.append_nil] at this
              rw [hflush _ this]
          · rw [hc, hc2, hflushName]

/-- The tokens of a text after the whole-word replacement of a name: the tokens of the
text, with the word `name` renamed. -/
theorem tokens_wholeWord (name obfuscatedName : List Char) (hne : name ≠ [])
    (hw : ∀ c ∈ name, isWordChar c = true) (hane : obfuscatedName ≠ [])
    (haw : ∀ c ∈ obfuscatedName, isWordChar c = true) (text : List Char) :
    tokens (replaceGlobal (wholeWordRule name obfuscatedName) text)
      = (tokens text).map (renameTok name obfuscatedName) := by
  unfold tokens replaceGlobal
  apply tokens_wholeWord_aux name obfuscatedName hne hw hane haw _ _ _ _ _ (Nat.le_refl _)
  exact ⟨rfl, Or.inl ⟨rfl, rfl, fun h => absurd rfl h⟩⟩

/-! ### The table of the generator -/

theorem lookup_append_of_some (k : String) (v : String) : ∀ (l l2 : List (String × String)),
    l.lookup k = some v → (l ++ l2).lookup k = some v := by
  intro l l2
  induction l with
  | nil => intro h; cases h
  | cons e l ih =>
    obtain ⟨k2, v2⟩ := e
    intro h
    rw [List.cons_append, List.lookup_cons]
    rw [List.lookup_cons] at h
    cases hk : k == k2
    · rw [hk] at h
      exact ih h
    · rw [hk] at h
      exact h

theorem lookup_append_of_none (k : String) : ∀ (l l2 : List (String × String)),
    l.lookup k = none → (l ++ l2).lookup k = l2.lookup k := by
  intro l l2
  induction l with
  | nil => intro _; rfl
  | cons e l ih =>
    obtain ⟨k2, v2⟩ := e
    intro h
    rw [List.cons_append, List.lookup_cons]
    rw [List.lookup_cons] at h
    cases hk : k == k2
    · rw [hk] at h
      exact ih h
    · rw [hk] at h
      cases h

theorem mem_of_lookup (k : String) (v : String) : ∀ (l : List (String × String)),
    l.lookup k = some v → ∃ entry ∈ l, entry.2 = v := by
  intro l
  induction l with
  | nil => intro h; cases h
  | cons e l ih =>
    obtain ⟨k2, v2⟩ := e
    intro h
    rw [List.lookup_cons] at h
    cases hk : k == k2
    · rw [hk] at h
      obtain ⟨entry, hm, he⟩ := ih h
      exact ⟨entry, List.mem_cons_of_mem _ hm, he⟩
    · rw [hk] at h
      injection h with h
      exact ⟨(k2, v2), List.mem_cons_self _ _, h⟩

theorem isHexChar_word (c : Char) (h : isHexChar c = true) : isWordChar c = true := by
  simp only [isHexChar, isWordChar, Bool.or_eq_true, Bool.and_eq_true, decide_eq_true_eq] at h ⊢
  omega

theorem isAlias_generateObfuscatedName (kind randomString : String)
    (hk : kind.data.all isWordChar = true) (hr : randomString.data.all isHexChar = true) :
    isAlias (generateObfuscatedName kind randomString) = true := by
  have hd : (generateObfuscatedName kind randomString).data
      = kind.data ++ '_' :: randomString.data := by
    simp [generateObfuscatedName, String.data_append]
  unfold isAlias
  rw [hd]
  simp only [List.all_append, List.all_cons, Bool.and_eq_true, hk, true_and]
  refine ⟨⟨by decide, ?_⟩, by simp⟩
  rw [List.all_eq_true] at hr ⊢
  exact fun c hc => isHexChar_word c (hr c hc)

/-- What `obfuscatedNameOf` returns in a well-formed state: a generated name, which is the
entry of the name afterwards; the entries there were are kept. -/
theorem obfuscatedNameOf_spec (kind : String) (hk : kind.data.all isWordChar = true)
    (g : Generator) (name : String) (hg : g.WellFormed) :
    isAlias (obfuscatedNameOf kind g name).1 = true ∧
    (obfuscatedNameOf kind g name).2.obfuscationMap.lookup name
      = some (obfuscatedNameOf kind g name).1 ∧
    (obfuscatedNameOf kind g name).2.WellFormed ∧
    ∀ n a, g.obfuscationMap.lookup n = some a →
      (obfuscatedNameOf kind g name).2.obfuscationMap.lookup n = some a := by
  unfold obfuscatedNameOf
  cases hl : g.obfuscationMap.lookup name with
  | some a =>
    simp only [Option.isSome_some, if_true, hl, Option.getD_some]
    obtain ⟨entry, hm, he⟩ := mem_of_lookup name a _ hl
    refine ⟨?_, trivial, hg, fun n b h => h⟩
    rw [← he]
    exact hg.2 entry hm
  | none =>
    simp only [Option.isSome_none, Bool.false_eq_true, if_false]
    have hnew := isAlias_generateObfuscatedName kind (g.randomStrings g.drawn) hk (hg.1 _)
    have hlook : (g.obfuscationMap ++
        [(name, generateObfuscatedName kind (g.randomStrings g.drawn))]).lookup name
        = some (generateObfuscatedName kind (g.randomStrings g.drawn)) := by
      rw [lookup_append_of_none name _ _ hl]
      simp [List.lookup_cons]
    rw [hlook]
    refine ⟨hnew, rfl, ⟨hg.1, ?_⟩, fun n b h => lookup_append_of_some n b _ _ h⟩
    intro entry hm
    rcases List.mem_append.mp hm with h | h
    · exact hg.2 entry h
    · simp only [List.mem_singleton] at h
      rw [h]
      exact hnew

theorem isAlias_facts (a : String) (h : isAlias a = true) :
    a.data ≠ [] ∧ (∀ c ∈ a.data, isWordChar c = true) ∧ '_' ∈ a.data := by
  unfold isAlias at h
  simp only [Bool.and_eq_true, List.all_eq_true] at h
  have hm : '_' ∈ a.data := by simpa using h.2
  exact ⟨List.ne_nil_of_mem hm, h.1, hm⟩

theorem functionNameStep_wellFormed (state : List Char × Generator) (name : String)
    (hg : state.2.WellFormed) : (functionNameStep state name).2.WellFormed :=
  (obfuscatedNameOf_spec "fn" (by decide) state.2 name hg).2.2.1

theorem foldl_functionNameStep_wellFormed : ∀ (names : List String)
    (state : List Char × Generator), state.2.WellFormed →
    (names.foldl functionNameStep state).2.WellFormed := by
  intro names
  induction names with
  | nil => intro state h; exact h
  | cons name names ih =>
    intro state h
    exact ih _ (functionNameStep_wellFormed state name h)

/-- One round of the variable loop on the tokens of the text. -/
theorem variableNameStep_spec (state : List Char × Generator) (name : String)
    (hne : name.data ≠ []) (hw : ∀ c ∈ name.data, isWordChar c = true)
    (hg : state.2.WellFormed) :
    ∃ a : String, isAlias a = true ∧
      (variableNameStep state name).1 = replaceGlobal (wholeWordRule name.data a.data) state.1 ∧
      tokens (variableNameStep state name).1
        = (tokens state.1).map (renameTok name.data a.data) ∧
      (variableNameStep state name).2.obfuscationMap.lookup name = some a ∧
      (variableNameStep state name).2.WellFormed ∧
      ∀ n b, state.2.obfuscationMap.lookup n = some b →
        (variableNameStep state name).2.obfuscationMap.lookup n = some b := by
  obtain ⟨h1, h2, h3, h4⟩ := obfuscatedNameOf_spec "var" (by decide) state.2 name hg
  obtain ⟨f1, f2, _⟩ := isAlias_facts _ h1
  exact ⟨(obfuscatedNameOf "var" state.2 name).1, h1, rfl,
    tokens_wholeWord name.data _ hne hw f1 f2 state.1, h2, h3, h4⟩

theorem mem_map_renameTok (name obfuscatedName w : List Char) (hu : '_' ∉ w)
    (ha : '_' ∈ obfuscatedName) (T : List Tok)
    (h : Tok.word w ∈ T.map (renameTok name obfuscatedName)) :
    Tok.word w ∈ T ∧ w ≠ name := by
  obtain ⟨tok, hm, he⟩ := List.mem_map.mp h
  unfold renameTok at he
  split at he
  · injection he with he
    rw [he] at ha
    exact absurd ha hu
  · rename_i hne
    rw [he] at hm hne
    exact ⟨hm, fun hw => hne (by rw [hw])⟩

/-- After the variable loop the tokens of the text have no word without underscore that
was not there before, and none of the names of the loop. -/
theorem foldl_variableNameStep_tokens : ∀ (names : List String) (state : List Char × Generator),
    (∀ n ∈ names, n.data ≠ [] ∧ ∀ c ∈ n.data, isWordChar c = true) → state.2.WellFormed →
    ∀ w, '_' ∉ w → Tok.word w ∈ tokens (names.foldl variableNameStep state).1 →
      Tok.word w ∈ tokens state.1 ∧ ∀ n ∈ names, w ≠ n.data := by
  intro names
  induction names with
  | nil =>
    intro state _ _ w _ h
    exact ⟨h, fun n hn => by cases hn⟩
  | cons name names ih =>
    intro state hn hg w hu h
    obtain ⟨hne, hw⟩ := hn name (List.mem_cons_self _ _)
    obtain ⟨a, ha, _, ht, _, hg2, _⟩ := variableNameStep_spec state name hne hw hg
    rw [List.foldl_cons] at h
    obtain ⟨h1, h2⟩ := ih _ (fun n hm => hn n (List.mem_cons_of_mem _ hm)) hg2 w hu h
    rw [ht] at h1
    obtain ⟨h3, h4⟩ := mem_map_renameTok _ _ w hu (isAlias_facts a ha).2.2 _ h1
    refine ⟨h3, ?_⟩
    intro n hm
    rcases List.mem_cons.mp hm with rfl | hm
    · exact h4
    · exact h2 n hm

theorem tokens_nil : tokens [] = [] := rfl

theorem tokens_intercalate : ∀ lines : List (List Char),
    tokens (List.intercalate ['\n'] lines) = (lines.map tokens).flatten := by
  intro lines
  induction lines with
  | nil => rfl
  | cons x l ih =>
    cases l with
    | nil => simp [List.intercalate, List.intersperse]
    | cons y l =>
      rw [intercalate_cons_cons, List.append_assoc, List.singleton_append,
        tokens_append_newline, ih]
      simp

theorem comments_getD_mem : ∀ k : Fin 5, comments.getD k.val "" ∈ comments := by
  decide

theorem tokens_commentedLine (decision : Option (Fin 5)) (line : List Char) :
    ∃ extra, tokens (commentedLine decision line) = tokens line ++ extra ∧
      ∀ tok ∈ extra, tok ∈ commentTokens := by
  unfold commentedLine
  cases decision with
  | none => exact ⟨[], by simp, by simp⟩
  | some k =>
    simp only
    split
    · refine ⟨tokens (comments.getD k.val "").data, tokens_append_newline _ _, ?_⟩
      intro tok htok
      unfold commentTokens
      rw [List.mem_flatten]
      refine ⟨_, List.mem_map.mpr ⟨comments.getD k.val "", ?_, rfl⟩, htok⟩
      exact comments_getD_mem k
    · exact ⟨[], by simp, by simp⟩

theorem tokens_commentLines : ∀ (lines : List (List Char)) (decisions : List (Option (Fin 5))),
    (∀ tok ∈ ((commentLines decisions lines).map tokens).flatten,
      tok ∈ (lines.map tokens).flatten ∨ tok ∈ commentTokens) ∧
    ∀ line ∈ lines, tokens line <:+: ((commentLines decisions lines).map tokens).flatten := by
  intro lines
  induction lines with
  | nil =>
    intro decisions
    cases decisions <;> simp [commentLines]
  | cons x l ih =>
    intro decisions
    rw [commentLines_cons]
    obtain ⟨extra, he, hx⟩ := tokens_commentedLine decisions.head?.join x
    obtain ⟨ih1, ih2⟩ := ih decisions.tail
    simp only [List.map_cons, List.flatten_cons, he]
    constructor
    · intro tok htok
      rcases List.mem_append.mp htok with h | h
      · rcases List.mem_append.mp h with h | h
        · exact Or.inl (List.mem_append_left _ h)
        · exact Or.inr (hx tok h)
      · rcases ih1 tok h with h | h
        · exact Or.inl (List.mem_append_right _ h)
        · exact Or.inr h
    · intro line hline
      rcases List.mem_cons.mp hline with rfl | hline
      · exact ⟨[], extra ++ ((commentLines decisions.tail l).map tokens).flatten, by simp⟩
      · obtain ⟨s, t, hst⟩ := ih2 line hline
        exact ⟨tokens x ++ extra ++ s, t, by rw [← hst]; simp⟩

/-- The tokens of a text after `addRandomComments`: tokens of the text and tokens of the
five comments. -/
theorem tokens_addRandomComments (decisions : List (Option (Fin 5))) (code : List Char) :
    ∀ tok ∈ tokens (addRandomComments decisions code), tok ∈ tokens code ∨ tok ∈ commentTokens := by
  intro tok htok
  unfold addRandomComments at htok
  rw [tokens_intercalate] at htok
  have := (tokens_commentLines (splitChars '\n' code) decisions).1 tok htok
  rw [← tokens_intercalate, intercalate_splitChars] at this
  exact this

theorem tokens_word (w : List Char) (hne : w ≠ []) (hw : ∀ c ∈ w, isWordChar c = true) :
    tokens w = [.word w] := by
  unfold tokens
  rw [foldl_tokStep_word w hw]
  cases w with
  | nil => exact absurd rfl hne
  | cons c w => rfl

theorem mem_tokens_append_left (a b : List Char) (tok : Tok)
    (hb : b.head?.any isWordChar = false) (h : tok ∈ tokens a) : tok ∈ tokens (a ++ b) := by
  cases b with
  | nil => simpa using h
  | cons c b =>
    rw [tokens_append_sep a b c (by simpa using hb)]
    exact List.mem_append_left _ (List.mem_append_left _ h)

theorem mem_tokens_append_right (a b : List Char) (tok : Tok)
    (ha : a.getLast?.any isWordChar = false) (h : tok ∈ tokens b) : tok ∈ tokens (a ++ b) := by
  rcases List.eq_nil_or_concat a with rfl | ⟨a2, c, rfl⟩
  · simpa using h
  · rw [List.concat_eq_append] at ha ⊢
    rw [List.append_assoc, List.singleton_append,
      tokens_append_sep a2 b c (by simpa using ha)]
    exact List.mem_append_right _ h

/-- A name that occurs in a text as a whole word is a word token of the text. -/
theorem mem_tokens_of_wholeWordIn (name text : List Char) (hne : name ≠ [])
    (hw : ∀ c ∈ name, isWordChar c = true) (h : WholeWordIn name text) :
    Tok.word name ∈ tokens text := by
  obtain ⟨pre, post, rfl, hpre, hpost⟩ := h
  apply mem_tokens_append_left _ _ _ hpost
  apply mem_tokens_append_right _ _ _ hpre
  rw [tokens_word name hne hw]
  exact List.mem_singleton.mpr rfl

/-! ### Replacement line by line -/

theorem replaceGlobalFuel_nil (rule : Option Char → List Char → Option (List Char × Nat))
    (fuel : Nat) (before : Option Char) : replaceGlobalFuel rule fuel before [] = [] := by
  cases fuel <;> rfl

/-- A last character that no match reaches is kept by the replacement. -/
theorem replaceGlobalFuel_keeps_last
    (rule : Option Char → List Char → Option (List Char × Nat)) (s : Char) (Q : Char → Prop)
    (hlen : ∀ before t r n, t.getLast? = some s → rule before t = some (r, n) →
      1 ≤ n ∧ n < t.length)
    (hin : ∀ before t r n, rule before t = some (r, n) → ∀ c ∈ r, Q c) :
    ∀ (fuel : Nat) (before : Option Char) (A : List Char), A.length + 1 ≤ fuel →
      (∀ c ∈ A, Q c) →
      ∃ A2, replaceGlobalFuel rule fuel before (A ++ [s]) = A2 ++ [s] ∧ ∀ c ∈ A2, Q c := by
  intro fuel
  induction fuel with
  | zero => intro before A h; omega
  | succ fuel ih =>
    intro before A hfuel hA
    cases A with
    | nil =>
      cases hrule : rule before [s] with
      | some rn =>
        obtain ⟨r, n⟩ := rn
        have := hlen before [s] r n rfl hrule
        simp only [List.length_singleton] at this
        omega
      | none =>
        refine ⟨[], ?_, by simp⟩
        simp only [List.nil_append, replaceGlobalFuel, hrule, replaceGlobalFuel_nil]
    | cons c A =>
      simp only [List.length_cons] at hfuel
      cases hrule : rule before (c :: A ++ [s]) with
      | some rn =>
        obtain ⟨r, n⟩ := rn
        have hl := hlen before (c :: A ++ [s]) r n
          (by rw [List.getLast?_append]; rfl) hrule
        simp only [List.length_append, List.length_cons, List.length_singleton,
          List.length_nil] at hl
        have hdrop : (c :: A ++ [s]).drop n = (c :: A).drop n ++ [s] :=
          List.drop_append_of_le_length (by simp only [List.length_cons]; omega)
        obtain ⟨A2, h2, hQ⟩ := ih ((c :: A ++ [s]).take n).getLast? ((c :: A).drop n)
          (by simp only [List.length_drop, List.length_cons]; omega)
          (fun x hx => hA x (List.mem_of_mem_drop hx))
        refine ⟨r ++ A2, ?_, ?_⟩
        · show replaceGlobalFuel rule (fuel + 1) before (c :: (A ++ [s])) = _
          have hrule2 : rule before (c :: (A ++ [s])) = some (r, n) := hrule
          simp only [replaceGlobalFuel, hrule2]
          have hdrop2 : (c :: (A ++ [s])).drop n = (c :: A).drop n ++ [s] := hdrop
          rw [hdrop2]
          have h3 : replaceGlobalFuel rule fuel ((c :: (A ++ [s])).take n).getLast?
              ((c :: A).drop n ++ [s]) = A2 ++ [s] := h2
          rw [h3, List.append_assoc]
        · intro x hx
          rcases List.mem_append.mp hx with h | h
          · exact hin before _ r n hrule x h
          · exact hQ x h
      | none =>
        obtain ⟨A2, h2, hQ⟩ := ih (some c) A (by omega)
          (fun x hx => hA x (List.mem_cons_of_mem _ hx))
        refine ⟨c :: A2, ?_, ?_⟩
        · show replaceGlobalFuel rule (fuel + 1) before (c :: (A ++ [s])) = _
          have hrule2 : rule before (c :: (A ++ [s])) = none := hrule
          simp only [replaceGlobalFuel, hrule2, h2, List.cons_append]
        · intro x hx
          rcases List.mem_cons.mp hx with rfl | h
          · exact hA _ (List.mem_cons_self _ _)
          · exact hQ x h

/-- The replacement works line by line when no match reaches over a line feed: a line
of the text becomes what the replacement makes of the line. -/
theorem replaceGlobal_line (rule : Option Char → List Char → Option (List Char × Nat))
    (Q : Char → Prop) (hp : Progress rule)
    (hloc : ∀ a, a.getLast? = some '\n' → LocalIn rule a)
    (hlen : ∀ before t r n, t.getLast? = some '\n' → rule before t = some (r, n) →
      1 ≤ n ∧ n < t.length)
    (hin : ∀ before t r n, rule before t = some (r, n) → ∀ c ∈ r, Q c)
    (text line : List Char) (h : LineIn text line) (hline : ∀ c ∈ line, Q c) :
    ∃ line2 fuel, LineIn (replaceGlobal rule text) line2 ∧ line.length + 1 ≤ fuel ∧
      replaceGlobalFuel rule fuel (some '\n') (line ++ ['\n']) = line2 ++ ['\n'] ∧
      ∀ c ∈ line2, Q c := by
  obtain ⟨A, B, rfl⟩ := h
  unfold replaceGlobal
  generalize hfuel : ((A ++ ['\n']) ++ ((line ++ ['\n']) ++ B)).length = fuel
  simp only [List.length_append, List.length_singleton] at hfuel
  rw [replaceGlobalFuel_append rule hp fuel none (A ++ ['\n']) ((line ++ ['\n']) ++ B)
    (hloc _ (by simp)) (by simp only [List.length_append, List.length_singleton]; omega)]
  have hl : (A ++ ['\n']).getLast?.or none = some '\n' := by simp
  rw [hl, replaceGlobalFuel_append rule hp fuel (some '\n') (line ++ ['\n']) B
    (hloc _ (by simp)) (by simp only [List.length_append, List.length_singleton]; omega)]
  obtain ⟨A2, hA2, _⟩ := replaceGlobalFuel_keeps_last rule '\n' (fun _ => True) hlen
    (fun _ _ _ _ _ _ _ => trivial) fuel none A (by omega) (fun _ _ => trivial)
  obtain ⟨line2, hl2, hQ⟩ := replaceGlobalFuel_keeps_last rule '\n' Q hlen hin fuel
    (some '\n') line (by omega) hline
  rw [hA2, hl2]
  exact ⟨line2, fuel, ⟨A2, _, rfl⟩, by omega, hl2, hQ⟩

theorem literalRule_length (fnName obfuscatedName : List Char) (hne : fnName ≠ [])
    (hn : '\n' ∉ fnName) (before : Option Char) (t r : List Char) (n : Nat)
    (hs : t.getLast? = some '\n') (h : literalRule fnName obfuscatedName before t = some (r, n)) :
    1 ≤ n ∧ n < t.length := by
  refine ⟨progress_literalRule fnName obfuscatedName hne before t r n h, ?_⟩
  unfold literalRule at h
  split at h
  · rename_i hp
    injection h with h
    injection h with _ h2
    rw [← h2]
    exact length_lt_of_prefix_of_last fnName t '\n' hs hn (List.isPrefixOf_iff_prefix.mp hp)
  · cases h

theorem wholeWordRule_length (varName obfuscatedName : List Char) (hne : varName ≠ [])
    (hn : '\n' ∉ varName) (before : Option Char) (t r : List Char) (n : Nat)
    (hs : t.getLast? = some '\n')
    (h : wholeWordRule varName obfuscatedName before t = some (r, n)) :
    1 ≤ n ∧ n < t.length := by
  refine ⟨progress_wholeWordRule varName obfuscatedName hne before t r n h, ?_⟩
  unfold wholeWordRule at h
  split at h
  · rename_i hc
    simp only [Bool.and_eq_true] at hc
    injection h with h
    injection h with _ h2
    rw [← h2]
    exact length_lt_of_prefix_of_last varName t '\n' hs hn
      (List.isPrefixOf_iff_prefix.mp hc.1.2)
  · cases h

/-- A line in which a function name does not occur is kept by the replacement of the
name. -/
theorem literal_keeps_line (fnName obfuscatedName : List Char) (hne : fnName ≠ [])
    (hn : '\n' ∉ fnName) (text line : List Char) (h : LineIn text line)
    (hocc : occursIn fnName (line ++ ['\n']) = false) :
    LineIn (replaceGlobal (literalRule fnName obfuscatedName) text) line := by
  obtain ⟨line2, fuel, h1, _, h3, _⟩ := replaceGlobal_line (literalRule fnName obfuscatedName)
    (fun _ => True) (progress_literalRule _ _ hne)
    (fun a ha => localIn_literalRule _ _ a '\n' ha hn)
    (fun before t r n hs hr => literalRule_length _ _ hne hn before t r n hs hr)
    (fun _ _ _ _ _ _ _ => trivial) text line h (fun _ _ => trivial)
  rw [replaceGlobalFuel_of_no_match] at h3
  · rw [← List.append_cancel_right h3] at h1
    exact h1
  · intro t ht hsuf before
    have := isPrefixOf_false_of_not_occursIn fnName _ t hocc ht hsuf
    simp [literalRule, this]

theorem tokens_append_newline_nil (text : List Char) : tokens (text ++ ['\n']) = tokens text := by
  rw [tokens_append_newline text []]
  simp [tokens_nil]

theorem isWordChar_ne_newline (c : Char) (h : isWordChar c = true) : c ≠ '\n' := by
  rintro rfl
  exact absurd h (by decide)

/-- A line of the text after the whole-word replacement of a name: a line with the
tokens of the line, the word `name` renamed. -/
theorem wholeWord_renames_line (name obfuscatedName : List Char) (hne : name ≠ [])
    (hw : ∀ c ∈ name, isWordChar c = true) (hane : obfuscatedName ≠ [])
    (haw : ∀ c ∈ obfuscatedName, isWordChar c = true) (text : List Char) (run : List Tok)
    (h : HasLineRun text run) :
    HasLineRun (replaceGlobal (wholeWordRule name obfuscatedName) text)
      (run.map (renameTok name obfuscatedName)) := by
  obtain ⟨line, hline, hnl, hrun⟩ := h
  have hn : '\n' ∉ name := fun hm => isWordChar_ne_newline _ (hw _ hm) rfl
  obtain ⟨line2, fuel, h1, h2, h3, h4⟩ := replaceGlobal_line (wholeWordRule name obfuscatedName)
    (fun c => c ≠ '\n') (progress_wholeWordRule _ _ hne)
    (fun a ha => localIn_wholeWordRule _ _ a '\n' ha hn)
    (fun before t r n hs hr => wholeWordRule_length _ _ hne hn before t r n hs hr)
    (fun before t r n hr c hc => by
      obtain ⟨e, _⟩ := wholeWordRule_some name obfuscatedName hne hw before t r n hr
      rw [e] at hc
      exact isWordChar_ne_newline c (haw c hc))
    text line hline hnl
  refine ⟨line2, h1, h4, ?_⟩
  have ht := tokens_wholeWord_aux name obfuscatedName hne hw hane haw fuel (some '\n')
    (line ++ ['\n']) { done := [], cur := [] } { done := [], cur := [] }
    (by simp only [List.length_append, List.length_singleton]; omega)
    ⟨rfl, Or.inl ⟨rfl, rfl, fun h => absurd rfl h⟩⟩
  rw [h3] at ht
  have ht2 : tokens (line2 ++ ['\n']) = (tokens (line ++ ['\n'])).map
      (renameTok name obfuscatedName) := ht
  rw [tokens_append_newline_nil, tokens_append_newline_nil] at ht2
  rw [ht2]
  exact List.IsInfix.map _ hrun

theorem splitChars_of_not_mem (separator : Char) : ∀ line : List Char,
    (∀ c ∈ line, c ≠ separator) → splitChars separator line = [line] := by
  intro line
  induction line with
  | nil => intro _; rfl
  | cons c line ih =>
    intro h
    have hc := h c (List.mem_cons_self _ _)
    simp only [splitChars, hc, if_false, ih (fun x hx => h x (List.mem_cons_of_mem _ hx))]

/-- The tokens of a line of the text follow one another in the tokens of the text after
`addRandomComments`. -/
theorem addRandomComments_keeps_run (decisions : List (Option (Fin 5))) (text : List Char)
    (run : List Tok) (h : HasLineRun text run) :
    run <:+: tokens (addRandomComments decisions text) := by
  obtain ⟨line, ⟨A, B, rfl⟩, hnl, hrun⟩ := h
  unfold addRandomComments
  rw [tokens_intercalate]
  refine hrun.trans ((tokens_commentLines _ decisions).2 line ?_)
  have e : (A ++ ['\n']) ++ ((line ++ ['\n']) ++ B) = A ++ '\n' :: (line ++ '\n' :: B) := by
    simp
  rw [e, splitChars_append, splitChars_append, splitChars_of_not_mem '\n' line hnl]
  simp

theorem map_renameTok_of_not_mem (name obfuscatedName : List Char) (run : List Tok)
    (h : Tok.word name ∉ run) : run.map (renameTok name obfuscatedName) = run := by
  conv_rhs => rw [← List.map_id run]
  apply List.map_congr_left
  intro tok htok
  unfold renameTok
  rw [if_neg]
  · rfl
  · rintro rfl
    exact h htok

/-- The variable loop keeps, on its line, a run of tokens in which no name of the loop is
a word; the table keeps its entries. -/
theorem foldl_variableNameStep_keeps : ∀ (names : List String) (state : List Char × Generator)
    (run : List Tok),
    (∀ n ∈ names, n.data ≠ [] ∧ ∀ c ∈ n.data, isWordChar c = true) → state.2.WellFormed →
    HasLineRun state.1 run → (∀ n ∈ names, Tok.word n.data ∉ run) →
    HasLineRun (names.foldl variableNameStep state).1 run ∧
    (names.foldl variableNameStep state).2.WellFormed ∧
    ∀ n b, state.2.obfuscationMap.lookup n = some b →
      (names.foldl variableNameStep state).2.obfuscationMap.lookup n = some b := by
  intro names
  induction names with
  | nil =>
    intro state run _ hg h _
    exact ⟨h, hg, fun _ _ hl => hl⟩
  | cons name names ih =>
    intro state run hn hg h hrun
    obtain ⟨hne, hw⟩ := hn name (List.mem_cons_self _ _)
    obtain ⟨a, ha, ht, _, _, hg2, hkeep⟩ := variableNameStep_spec state name hne hw hg
    obtain ⟨f1, f2, _⟩ := isAlias_facts a ha
    have hstep := wholeWord_renames_line name.data a.data hne hw f1 f2 state.1 run h
    rw [← ht, map_renameTok_of_not_mem _ _ _ (hrun name (List.mem_cons_self _ _))] at hstep
    obtain ⟨i1, i2, i3⟩ := ih (variableNameStep state name) run
      (fun n hm => hn n (List.mem_cons_of_mem _ hm)) hg2 hstep
      (fun n hm => hrun n (List.mem_cons_of_mem _ hm))
    exact ⟨i1, i2, fun n b hl => i3 n b (hkeep n b hl)⟩

/-- The variable loop renames the name `name` of the loop in a run of tokens on a line,
to the entry the name has in the table afterwards. -/
theorem foldl_variableNameStep_renames (names1 names2 : List String) (name : String)
    (state : List Char × Generator) (run1 run2 : List Tok)
    (hn : ∀ n ∈ names1 ++ name :: names2,
      n.data ≠ [] ∧ (∀ c ∈ n.data, isWordChar c = true) ∧ '_' ∉ n.data)
    (hg : state.2.WellFormed)
    (h : HasLineRun state.1 (run1 ++ Tok.word name.data :: run2))
    (h1 : ∀ n ∈ names1, n.data ≠ name.data)
    (hrun : ∀ n ∈ names1 ++ name :: names2, Tok.word n.data ∉ run1 ++ run2) :
    ∃ a : String, isAlias a = true ∧
      ((names1 ++ name :: names2).foldl variableNameStep state).2.obfuscationMap.lookup name
        = some a ∧
      HasLineRun ((names1 ++ name :: names2).foldl variableNameStep state).1
        (run1 ++ Tok.word a.data :: run2) := by
  have hmem : ∀ (n : String) (w : List Char), Tok.word n.data ∉ run1 ++ run2 →
      n.data ≠ w → Tok.word n.data ∉ run1 ++ Tok.word w :: run2 := by
    intro n w hnot hne hm
    rcases List.mem_append.mp hm with hm | hm
    · exact hnot (List.mem_append_left _ hm)
    · rcases List.mem_cons.mp hm with hm | hm
      · injection hm with hm
        exact hne hm
      · exact hnot (List.mem_append_right _ hm)
  rw [List.foldl_append, List.foldl_cons]
  obtain ⟨k1, k2, _⟩ := foldl_variableNameStep_keeps names1 state _
    (fun n hm => ⟨(hn n (List.mem_append_left _ hm)).1, (hn n (List.mem_append_left _ hm)).2.1⟩)
    hg h (fun n hm => hmem n _ (hrun n (List.mem_append_left _ hm)) (h1 n hm))
  have hname := hn name (List.mem_append_right _ (List.mem_cons_self _ _))
  obtain ⟨a, ha, ht, _, hl, hg2, _⟩ := variableNameStep_spec
    (names1.foldl variableNameStep state) name hname.1 hname.2.1 k2
  obtain ⟨f1, f2, f3⟩ := isAlias_facts a ha
  have hstep := wholeWord_renames_line name.data a.data hname.1 hname.2.1 f1 f2 _ _ k1
  rw [← ht] at hstep
  have hmap : (run1 ++ Tok.word name.data :: run2).map (renameTok name.data a.data)
      = run1 ++ Tok.word a.data :: run2 := by
    have hnot := hrun name (List.mem_append_right _ (List.mem_cons_self _ _))
    rw [List.map_append, List.map_cons,
      map_renameTok_of_not_mem _ _ run1 (fun hm => hnot (List.mem_append_left _ hm)),
      map_renameTok_of_not_mem _ _ run2 (fun hm => hnot (List.mem_append_right _ hm))]
    simp [renameTok]
  rw [hmap] at hstep
  obtain ⟨i1, _, i3⟩ := foldl_variableNameStep_keeps names2 _ _
    (fun n hm => ⟨(hn n (List.mem_append_right _ (List.mem_cons_of_mem _ hm))).1,
      (hn n (List.mem_append_right _ (List.mem_cons_of_mem _ hm))).2.1⟩)
    hg2 hstep (fun n hm => hmem n _
      (hrun n (List.mem_append_right _ (List.mem_cons_of_mem _ hm)))
      (fun he => (hn n (List.mem_append_right _ (List.mem_cons_of_mem _ hm))).2.2
        (by rw [he]; exact f3)))
  exact ⟨a, ha, i3 name a hl, i1⟩

/-- The function loop keeps a line in which no function name occurs. -/
theorem foldl_functionNameStep_keeps_line : ∀ (names : List String)
    (state : List Char × Generator) (line : List Char),
    (∀ n ∈ names, n.data ≠ [] ∧ '\n' ∉ n.data ∧ occursIn n.data (line ++ ['\n']) = false) →
    LineIn state.1 line → LineIn (names.foldl functionNameStep state).1 line := by
  intro names
  induction names with
  | nil => intro state line _ h; exact h
  | cons name names ih =>
    intro state line hn h
    obtain ⟨h1, h2, h3⟩ := hn name (List.mem_cons_self _ _)
    exact ih _ line (fun n hm => hn n (List.mem_cons_of_mem _ hm))
      (literal_keeps_line name.data _ h1 h2 state.1 line h h3)

/-! ### The pass as a whole -/

theorem variableNames_facts : ∀ n ∈ variableNames,
    n.data ≠ [] ∧ (∀ c ∈ n.data, isWordChar c = true) ∧ '_' ∉ n.data := by
  decide

theorem functionNames_facts : ∀ n ∈ functionNames, n.data ≠ [] ∧ '\n' ∉ n.data := by
  decide

theorem variableNames_not_in_comments : ∀ n ∈ variableNames, Tok.word n.data ∉ commentTokens := by
  decide

theorem obfuscateCode_data (g : Generator) (decisions : List (Option (Fin 5))) (code : String) :
    (obfuscateCode g decisions code).1.data
      = minifyWithRandomSpacing (addRandomComments decisions
          (variableNames.foldl variableNameStep
            (functionNames.foldl functionNameStep (code.data, g))).1) := rfl

theorem obfuscateCode_generator (g : Generator) (decisions : List (Option (Fin 5)))
    (code : String) :
    (obfuscateCode g decisions code).2
      = (variableNames.foldl variableNameStep
          (functionNames.foldl functionNameStep (code.data, g))).2 := by
  simp only [obfuscateCode]

/-- In a well-formed state of the generator, none of the five variable names is a word
of the text that `obfuscateCode` returns. -/
theorem obfuscateCode_no_variable_word (g : Generator) (hg : g.WellFormed)
    (decisions : List (Option (Fin 5))) (code : String) :
    ∀ name ∈ variableNames, Tok.word name.data ∉ tokens (obfuscateCode g decisions code).1.data := by
  intro name hname hmem
  rw [obfuscateCode_data, tokens_minify] at hmem
  rcases tokens_addRandomComments _ _ _ hmem with h | h
  · have hg2 := foldl_functionNameStep_wellFormed functionNames (code.data, g) hg
    have := (foldl_variableNameStep_tokens variableNames _
      (fun n hn => ⟨(variableNames_facts n hn).1, (variableNames_facts n hn).2.1⟩) hg2
      name.data (variableNames_facts name hname).2.2 h).2 name hname
    exact this rfl
  · exact variableNames_not_in_comments name hname h

theorem lineIn_intercalate (pre post : List (List Char)) (line : List Char) (hpre : pre ≠ [])
    (hpost : post ≠ []) : LineIn (List.intercalate ['\n'] (pre ++ line :: post)) line := by
  cases post with
  | nil => exact absurd rfl hpost
  | cons y l =>
    refine ⟨List.intercalate ['\n'] pre, List.intercalate ['\n'] (y :: l), ?_⟩
    rw [intercalate_append _ _ _ hpre (by simp), intercalate_cons_cons]

/-- A run of tokens with a variable name in it, on a line of the code in which no
function name occurs: in the text that `obfuscateCode` returns the run is there with the
name renamed to its entry in the table. -/
theorem obfuscateCode_renames_run (g : Generator) (hg : g.WellFormed)
    (decisions : List (Option (Fin 5))) (code : String) (line : List Char)
    (names1 names2 : List String) (name : String) (run1 run2 : List Tok)
    (hsplit : variableNames = names1 ++ name :: names2)
    (hline : LineIn code.data line) (hnl : ∀ c ∈ line, c ≠ '\n')
    (hocc : ∀ n ∈ functionNames, occursIn n.data (line ++ ['\n']) = false)
    (hrun : run1 ++ Tok.word name.data :: run2 <:+: tokens line)
    (h1 : ∀ n ∈ names1, n.data ≠ name.data)
    (hnot : ∀ n ∈ variableNames, Tok.word n.data ∉ run1 ++ run2) :
    ∃ a : String, isAlias a = true ∧
      (obfuscateCode g decisions code).2.obfuscationMap.lookup name = some a ∧
      run1 ++ Tok.word a.data :: run2 <:+: tokens (obfuscateCode g decisions code).1.data := by
  have hg2 := foldl_functionNameStep_wellFormed functionNames (code.data, g) hg
  have hl2 := foldl_functionNameStep_keeps_line functionNames (code.data, g) line
    (fun n hn => ⟨(functionNames_facts n hn).1, (functionNames_facts n hn).2, hocc n hn⟩) hline
  obtain ⟨a, ha, hlook, hinf⟩ := foldl_variableNameStep_renames names1 names2 name
    (functionNames.foldl functionNameStep (code.data, g)) run1 run2
    (fun n hn => variableNames_facts n (by rw [hsplit]; exact hn)) hg2
    ⟨line, hl2, hnl, hrun⟩ h1 (fun n hn => hnot n (by rw [hsplit]; exact hn))
  refine ⟨a, ha, ?_, ?_⟩
  · rw [obfuscateCode_generator, hsplit]
    exact hlook
  · rw [obfuscateCode_data, tokens_minify, hsplit]
    exact addRandomComments_keeps_run decisions _ _ hinf

theorem scriptTemplate_cookieWriteLine (config : TemplateConfig) :
    LineIn (scriptTemplate config).data cookieWriteLine.data := by
  have h : (templateLines config).map String.data
      = ((templateLines config).map String.data).take 26 ++ cookieWriteLine.data ::
          ((templateLines config).map String.data).drop 27 := rfl
  show LineIn (List.intercalate ['\n'] ((templateLines config).map String.data)) _
  rw [h]
  apply lineIn_intercalate
  · apply List.length_pos.mp
    simp [templateLines]
  · apply List.length_pos.mp
    simp [templateLines]

theorem scriptTemplate_referrerTestLine (config : TemplateConfig) :
    LineIn (scriptTemplate config).data referrerTestLine.data := by
  have h : (templateLines config).map String.data
      = ((templateLines config).map String.data).take 47 ++ referrerTestLine.data ::
          ((templateLines config).map String.data).drop 48 := rfl
  show LineIn (List.intercalate ['\n'] ((templateLines config).map String.data)) _
  rw [h]
  apply lineIn_intercalate
  · apply List.length_pos.mp
    simp [templateLines]
  · apply List.length_pos.mp
    simp [templateLines]

theorem scriptTemplate_cookieAValueLine (config : TemplateConfig) :
    LineIn (scriptTemplate config).data (cookieAValueLine config).data := by
  have h : (templateLines config).map String.data
      = ((templateLines config).map String.data).take 7 ++ (cookieAValueLine config).data ::
          ((templateLines config).map String.data).drop 8 := rfl
  show LineIn (List.intercalate ['\n'] ((templateLines config).map String.data)) _
  rw [h]
  apply lineIn_intercalate
  · apply List.length_pos.mp
    simp [templateLines]
  · apply List.length_pos.mp
    simp [templateLines]

set_option maxRecDepth 100000 in
theorem cookieWriteLine_facts :
    (∀ c ∈ cookieWriteLine.data, c ≠ '\n') ∧
    (∀ n ∈ functionNames, occursIn n.data (cookieWriteLine.data ++ ['\n']) = false) ∧
    [Tok.sym '\'', Tok.sym ';'] ++ Tok.word "domain".data :: [Tok.sym '=', Tok.sym '\'']
      <:+: tokens cookieWriteLine.data := by
  decide

set_option maxRecDepth 100000 in
theorem referrerTestLine_facts :
    (∀ c ∈ referrerTestLine.data, c ≠ '\n') ∧
    (∀ n ∈ functionNames, occursIn n.data (referrerTestLine.data ++ ['\n']) = false) ∧
    [Tok.word "document".data, Tok.sym '.'] ++ Tok.word "referrer".data :: []
      <:+: tokens referrerTestLine.data := by
  decide

set_option maxRecDepth 100000 in
theorem cookieAValueLine_facts : ∀ config : TemplateConfig, config.cookieA.value = "domain" →
    (∀ c ∈ (cookieAValueLine config).data, c ≠ '\n') ∧
    (∀ n ∈ functionNames, occursIn n.data ((cookieAValueLine config).data ++ ['\n']) = false) ∧
    [Tok.word "value".data, Tok.sym ':', Tok.sym '\''] ++ Tok.word "domain".data ::
      [Tok.sym '\'', Tok.sym ',']
      <:+: tokens (cookieAValueLine config).data := by
  intro config h
  unfold cookieAValueLine
  rw [h]
  decide

/-! ### The claims on the pass -/

theorem freshGenerator_wellFormed : freshGenerator.WellFormed := by
  constructor
  · intro i
    show (List.replicate 16 (Nat.digitChar (i % 10))).all isHexChar = true
    rw [List.all_eq_true]
    intro c hc
    rw [List.eq_of_mem_replicate hc]
    have h10 : i % 10 < 10 := Nat.mod_lt _ (by decide)
    generalize i % 10 = k at h10
    interval_cases k <;> decide
  · intro entry hentry
    cases hentry

theorem obfuscatedNameOf_of_isSome (kind : String) (g : Generator) (name : String)
    (h : (g.obfuscationMap.lookup name).isSome = true) : (obfuscatedNameOf kind g name).2 = g := by
  unfold obfuscatedNameOf
  simp only [h, if_true]

theorem obfuscatedNameOf_entries (kind : String) (g : Generator) (name : String) :
    ((obfuscatedNameOf kind g name).2.obfuscationMap.lookup name).isSome = true ∧
    ∀ n a, g.obfuscationMap.lookup n = some a →
      (obfuscatedNameOf kind g name).2.obfuscationMap.lookup n = some a := by
  unfold obfuscatedNameOf
  cases hl : g.obfuscationMap.lookup name with
  | some a =>
    simp only [Option.isSome_some, if_true, hl]
    exact ⟨trivial, fun n b h => h⟩
  | none =>
    simp only [Option.isSome_none, Bool.false_eq_true, if_false]
    refine ⟨?_, fun n b h => lookup_append_of_some n b _ _ h⟩
    rw [lookup_append_of_none name _ _ hl]
    simp [List.lookup_cons]

/-- A loop of `obfuscateCode` on the table: afterwards every name of the loop has an
entry, the entries there were are kept, and when every name had an entry the generator
is as it was. -/
theorem foldl_step_entries (kind : String)
    (step : List Char × Generator → String → List Char × Generator)
    (hstep : ∀ state name, (step state name).2 = (obfuscatedNameOf kind state.2 name).2) :
    ∀ (names : List String) (state : List Char × Generator),
    (∀ n ∈ names, ((names.foldl step state).2.obfuscationMap.lookup n).isSome = true) ∧
    (∀ n a, state.2.obfuscationMap.lookup n = some a →
      (names.foldl step state).2.obfuscationMap.lookup n = some a) ∧
    ((∀ n ∈ names, (state.2.obfuscationMap.lookup n).isSome = true) →
      (names.foldl step state).2 = state.2) := by
  intro names
  induction names with
  | nil =>
    intro state
    exact ⟨fun n hn => absurd hn (List.not_mem_nil n), fun _ _ h => h, fun _ => rfl⟩
  | cons name names ih =>
    intro state
    obtain ⟨i1, i2, i3⟩ := ih (step state name)
    obtain ⟨e1, e2⟩ := obfuscatedNameOf_entries kind state.2 name
    rw [← hstep] at e1 e2
    rw [List.foldl_cons]
    refine ⟨?_, fun n a h => i2 n a (e2 n a h), ?_⟩
    · intro n hn
      rcases List.mem_cons.mp hn with rfl | hn
      · obtain ⟨a, ha⟩ := Option.isSome_iff_exists.mp e1
        rw [i2 n a ha]
        rfl
      · exact i1 n hn
    · intro hall
      have hs : (step state name).2 = state.2 := by
        rw [hstep]
        exact obfuscatedNameOf_of_isSome kind state.2 name (hall name (List.mem_cons_self _ _))
      rw [i3 (fun n hn => by rw [hs]; exact hall n (List.mem_cons_of_mem _ hn)), hs]

theorem functionNameStep_generator (state : List Char × Generator) (name : String) :
    (functionNameStep state name).2 = (obfuscatedNameOf "fn" state.2 name).2 := rfl

theorem variableNameStep_generator (state : List Char × Generator) (name : String) :
    (variableNameStep state name).2 = (obfuscatedNameOf "var" state.2 name).2 := rfl

/-- C25: for every state of the generator, every run of the random decisions and every
campaign configuration, the script that `obfuscateCode` returns for the rendered template
is the opening of the function expression, `'use strict';` and the marker
`// Configuration` of a line comment (with or without one of the five comments behind the
first two lines), and behind the marker a text without line terminator.  A line comment
ends at the next line terminator, so the cookie configuration, the five functions and the
closing of the function expression are all part of that comment: the text is not a script
that runs as the rendered template does. -/
theorem obfuscated_script_is_commented_out_after_marker (g : Generator)
    (decisions : List (Option (Fin 5))) (config : TemplateConfig) :
    ∃ post, (obfuscateCode g decisions (scriptTemplate config)).1.data
        = minifiedHead decisions.tail.head?.join decisions.tail.tail.head?.join ++ post ∧
      ∀ c ∈ post, isLineTerminator c = false := by
  obtain ⟨post, hpost⟩ := generated_script_head g decisions config
  refine ⟨post, hpost, ?_⟩
  intro c hc
  have hmem : c ∈ (generateMyaffiliatesScript g decisions config).1.data := by
    rw [hpost]
    exact List.mem_append_right _ hc
  exact minify_no_line_terminator _ c hmem

/-- C26: the function loop replaces the name `setCookie` inside the longer identifier
`resetCookies`, while the variable loop leaves `cookieA` inside `cookieASet` as it is:
from a fresh generator `obfuscateCode` turns `resetCookies(cookieASet);` into
`refn_0000000000000000s(cookieASet);`. -/
theorem function_name_replaced_inside_longer_identifier :
    (obfuscateCode freshGenerator [] "resetCookies(cookieASet);").1
      = "refn_0000000000000000s(cookieASet);" := by
  decide

/-- C27: with the text `domain` as the value of cookie A, the string literal `'domain'`
of the rendered template is not in the script that `generateMyaffiliatesScript` returns:
the script has `value: 'var_8888888888888888',` in its place, and the word `domain`
nowhere. -/
theorem cookie_value_equal_to_reserved_name_is_renamed (decisions : List (Option (Fin 5))) :
    [Tok.word "value".data, Tok.sym ':', Tok.sym '\'', Tok.word "var_8888888888888888".data,
      Tok.sym '\'', Tok.sym ','] <:+:
      tokens (generateMyaffiliatesScript freshGenerator decisions domainValueConfig).1.data ∧
    ¬ WholeWordIn "domain".data
      (generateMyaffiliatesScript freshGenerator decisions domainValueConfig).1.data := by
  constructor
  · obtain ⟨h1, h2, h3⟩ := cookieAValueLine_facts domainValueConfig rfl
    obtain ⟨a, _, hlook, hrun⟩ := obfuscateCode_renames_run freshGenerator
      freshGenerator_wellFormed decisions (scriptTemplate domainValueConfig)
      (cookieAValueLine domainValueConfig).data ["cookieA", "cookieB", "referrer"] ["expiry"]
      "domain" [Tok.word "value".data, Tok.sym ':', Tok.sym '\''] [Tok.sym '\'', Tok.sym ',']
      rfl (scriptTemplate_cookieAValueLine domainValueConfig) h1 h2 h3 (by decide) (by decide)
    have hmap : (obfuscateCode freshGenerator decisions
        (scriptTemplate domainValueConfig)).2.obfuscationMap.lookup "domain"
        = some "var_8888888888888888" := by
      rw [obfuscateCode_generator]
      decide
    rw [hmap] at hlook
    injection hlook with hlook
    rw [← hlook] at hrun
    exact hrun
  · intro h
    exact obfuscateCode_no_variable_word freshGenerator freshGenerator_wellFormed decisions
      (scriptTemplate domainValueConfig) "domain" (by decide)
      (mem_tokens_of_wholeWordIn _ _ (by decide) (by decide) h)

/-- C28, as stated, fails: a second call of `obfuscateCode` on the same generator object
uses the alias of the first call.  The first call, from a fresh generator, turns `domain`
into `var_8888888888888888` with ten draws; in the second call every draw would give
`ffffffffffffffff`, and a call with a table of its own returns `var_ffffffffffffffff`,
but the second call returns `var_8888888888888888` again and draws nothing. -/
theorem second_call_reuses_aliases_of_first_call :
    (obfuscateCode freshGenerator [] "domain").1 = "var_8888888888888888" ∧
    (obfuscateCode (withConstantSupply freshGenerator) [] "domain").1 = "var_ffffffffffffffff" ∧
    (obfuscateCode (withConstantSupply (obfuscateCode freshGenerator [] "domain").2) []
      "domain").1 = "var_8888888888888888" ∧
    (obfuscateCode (withConstantSupply (obfuscateCode freshGenerator [] "domain").2) []
      "domain").2.drawn = (obfuscateCode freshGenerator [] "domain").2.drawn := by
  decide

/-- C28, amended: the table is shared by the calls of `obfuscateCode` on the generator
object.  A call keeps every entry the table has, after a call each of the ten identifiers
has an entry, and a later call leaves the generator as it was: it draws no random string
and adds no entry. -/
theorem obfuscationMap_is_shared_between_calls (g : Generator)
    (decisions1 decisions2 : List (Option (Fin 5))) (code1 code2 : String) :
    (∀ n a, g.obfuscationMap.lookup n = some a →
      (obfuscateCode g decisions1 code1).2.obfuscationMap.lookup n = some a) ∧
    (∀ n ∈ functionNames ++ variableNames,
      ((obfuscateCode g decisions1 code1).2.obfuscationMap.lookup n).isSome = true) ∧
    (obfuscateCode (obfuscateCode g decisions1 code1).2 decisions2 code2).2
      = (obfuscateCode g decisions1 code1).2 := by
  have key : ∀ (g : Generator) (code : String),
      (∀ n a, g.obfuscationMap.lookup n = some a →
        (variableNames.foldl variableNameStep (functionNames.foldl functionNameStep
          (code.data, g))).2.obfuscationMap.lookup n = some a) ∧
      (∀ n ∈ functionNames ++ variableNames,
        ((variableNames.foldl variableNameStep (functionNames.foldl functionNameStep
          (code.data, g))).2.obfuscationMap.lookup n).isSome = true) ∧
      ((∀ n ∈ functionNames ++ variableNames, (g.obfuscationMap.lookup n).isSome = true) →
        (variableNames.foldl variableNameStep (functionNames.foldl functionNameStep
          (code.data, g))).2 = g) := by
    intro g code
    obtain ⟨f1, f2, f3⟩ := foldl_step_entries "fn" functionNameStep functionNameStep_generator
      functionNames (code.data, g)
    obtain ⟨v1, v2, v3⟩ := foldl_step_entries "var" variableNameStep variableNameStep_generator
      variableNames (functionNames.foldl functionNameStep (code.data, g))
    refine ⟨fun n a h => v2 n a (f2 n a h), ?_, ?_⟩
    · intro n hn
      rcases List.mem_append.mp hn with hn | hn
      · obtain ⟨a, ha⟩ := Option.isSome_iff_exists.mp (f1 n hn)
        rw [v2 n a ha]
        rfl
      · exact v1 n hn
    · intro hall
      have hf := f3 (fun n hn => hall n (List.mem_append_left _ hn))
      rw [v3 (fun n hn => by rw [hf]; exact hall n (List.mem_append_right _ hn)), hf]
  obtain ⟨k1, k2, _⟩ := key g code1
  rw [obfuscateCode_generator, obfuscateCode_generator]
  exact ⟨k1, k2, (key _ code2).2.2 k2⟩

/-- C29: in a state of the generator the process can be in, whatever the random strings,
the text that `obfuscateCode` returns has no whole-word occurrence of `cookieA`,
`cookieB`, `referrer`, `domain` or `expiry`, for every input code; and in the script that
`generateMyaffiliatesScript` returns for a configuration, the property read
`document.referrer` of `checkReferrer` is `document.` with the entry of `referrer` in the
table, and the attribute text `';domain='` of `setCookie` is `';`, the entry of `domain`
in the table and `='`, both entries being generated names. -/
theorem no_whole_word_variable_name_in_obfuscated_code (g : Generator) (hg : g.WellFormed) :
    (∀ (decisions : List (Option (Fin 5))) (code : String), ∀ name ∈ variableNames,
      ¬ WholeWordIn name.data (obfuscateCode g decisions code).1.data) ∧
    ∀ (decisions : List (Option (Fin 5))) (config : TemplateConfig),
      ∃ a b : String, isAlias a = true ∧ isAlias b = true ∧
        (generateMyaffiliatesScript g decisions config).2.obfuscationMap.lookup "referrer"
          = some a ∧
        (generateMyaffiliatesScript g decisions config).2.obfuscationMap.lookup "domain"
          = some b ∧
        [Tok.word "document".data, Tok.sym '.', Tok.word a.data] <:+:
          tokens (generateMyaffiliatesScript g decisions config).1.data ∧
        [Tok.sym '\'', Tok.sym ';', Tok.word b.data, Tok.sym '=', Tok.sym '\''] <:+:
          tokens (generateMyaffiliatesScript g decisions config).1.data := by
  constructor
  · intro decisions code name hname h
    exact obfuscateCode_no_variable_word g hg decisions code name hname
      (mem_tokens_of_wholeWordIn _ _ (variableNames_facts name hname).1
        (variableNames_facts name hname).2.1 h)
  · intro decisions config
    obtain ⟨r1, r2, r3⟩ := referrerTestLine_facts
    obtain ⟨a, ha, hla, hra⟩ := obfuscateCode_renames_run g hg decisions (scriptTemplate config)
      referrerTestLine.data ["cookieA", "cookieB"] ["domain", "expiry"] "referrer"
      [Tok.word "document".data, Tok.sym '.'] [] rfl (scriptTemplate_referrerTestLine config)
      r1 r2 r3 (by decide) (by decide)
    obtain ⟨w1, w2, w3⟩ := cookieWriteLine_facts
    obtain ⟨b, hb, hlb, hrb⟩ := obfuscateCode_renames_run g hg decisions (scriptTemplate config)
      cookieWriteLine.data ["cookieA", "cookieB", "referrer"] ["expiry"] "domain"
      [Tok.sym '\'', Tok.sym ';'] [Tok.sym '=', Tok.sym '\''] rfl
      (scriptTemplate_cookieWriteLine config) w1 w2 w3 (by decide) (by decide)
    exact ⟨a, b, ha, hb, hla, hlb, hra, hrb⟩

/-- C29, witness: a fresh generator, and the code `document.referrer`. -/
theorem no_whole_word_variable_name_in_obfuscated_code_witness :
    freshGenerator.WellFormed ∧ ∀ name ∈ variableNames,
      ¬ WholeWordIn name.data (obfuscateCode freshGenerator [] "document.referrer").1.data :=
  ⟨freshGenerator_wellFormed,
    (no_whole_word_variable_name_in_obfuscated_code freshGenerator freshGenerator_wellFormed).1
      [] "document.referrer"⟩

/-- C30: for every input code the text that `minifyWithRandomSpacing` returns has no line
terminator and no white space next to one of the characters `{ } ( ) ; , =`; and for
every state of the generator, every run of the random decisions and every campaign
configuration the script that `generateMyaffiliatesScript` returns has no line terminator
and starts with the opening of the function expression, `'use strict';` and the marker
`// Configuration`, so that the cookie configuration and every function definition stand
behind the marker on the same line. -/
theorem minified_script_is_one_line_behind_comment_marker :
    (∀ code : List Char, (∀ c ∈ minifyWithRandomSpacing code, isLineTerminator c = false) ∧
      Tight (minifyWithRandomSpacing code)) ∧
    ∀ (g : Generator) (decisions : List (Option (Fin 5))) (config : TemplateConfig),
      (∀ c ∈ (generateMyaffiliatesScript g decisions config).1.data,
        isLineTerminator c = false) ∧
      ∃ post, (generateMyaffiliatesScript g decisions config).1.data
        = minifiedHead decisions.tail.head?.join decisions.tail.tail.head?.join ++ post :=
  ⟨fun code => ⟨minify_no_line_terminator code, minify_tight code⟩,
    fun g decisions config =>
      ⟨fun c hc => minify_no_line_terminator _ c hc, generated_script_head g decisions config⟩⟩

/-- C28, witness: two calls from a fresh generator, on the codes `domain` and
`referrer`. -/
theorem obfuscationMap_is_shared_between_calls_witness :
    (obfuscateCode (obfuscateCode freshGenerator [] "domain").2 [] "referrer").2
      = (obfuscateCode freshGenerator [] "domain").2 :=
  (obfuscationMap_is_shared_between_calls freshGenerator [] [] "domain" "referrer").2.2

/-- C30, witness: a fresh generator, no comment inserted, and the sample configuration. -/
theorem minified_script_is_one_line_behind_comment_marker_witness :
    ∃ post, (generateMyaffiliatesScript freshGenerator [] sampleTemplateConfig).1.data
      = "(function()\x7b'use strict';// Configuration".data ++ post :=
  (minified_script_is_one_line_behind_comment_marker.2 freshGenerator []
    sampleTemplateConfig).2

end CampaignManager
